import Mathlib

/-!
# Initial conversion from control-flow graph to forms (`decompiler/IR2/cfg_builder.cpp`)

A shallow embedding of the structural cleaners, of the short-circuit
classifier, of the idiom recognizers, of the translator `cfg_to_ir` and of the
driver `build_initial_forms` of `cfg_builder.cpp`, followed by theorems about
them.

Conventions of the embedding.

* A `Form*` is the list of its elements (`Form = List FormElement`); the
  pool only allocates, so `pool.alloc_*` are the constructors.  Parent
  back-pointers are implied by the tree and are not stored.
* C++ code mutates objects in place; the embedding passes the object in and
  returns the updated one.
* A failed `assert`, undefined behaviour (`back()` of an empty vector), an
  out-of-range `.at()` and a thrown `std::runtime_error` are the four ways an
  operation of the program can stop; all are errors of `Res`.  Logging
  (`lg::error`) has no effect on the result and is left out.
* The mutual recursion of `clean_up_sc` and `try_splitting_nested_sc` is run
  with a recursion budget; `clean_up_sc_of_fuel` shows that the budget chosen
  by `clean_up_sc` gives every result the recursion can give,
  `clean_up_sc_fuel_stable` that every larger budget gives the same result,
  errors included, and `clean_up_sc_eq` that `clean_up_sc` satisfies the
  recursive equation of the source.
* The recursion of `cfg_to_ir` through the idiom recognizers and
  `merge_cond_else_with_sc_cond` is run with a budget of one unit per vertex;
  `cfg_to_ir_fuel_stable` shows that every larger budget gives the same
  result and `cfg_to_ir_eq` that `cfg_to_ir` satisfies the recursive equation
  of the source, so the function is total.
* Where `cfg_to_ir` passes two recursive calls as arguments of one
  constructor call, C++ does not fix which is evaluated first; the choice of
  the compiler is the parameter `args_right_to_left` of the translator, and
  the theorems hold for every choice.
-/

namespace CfgBuilder

/-! ## Results -/

/-- The ways an operation of the pass stops without a result. -/
inductive Err where
  /-- An `assert(...)` did not hold. -/
  | assertion
  /-- Undefined behaviour of the C++ library: `back()`, `front()` or
  `pop_back()` on an empty vector. -/
  | undefined
  /-- The exception of `std::vector::at` on an index that is out of range. -/
  | out_of_range
  /-- A thrown `std::runtime_error` with its message. -/
  | runtime_error (msg : String)
  /-- The recursion budget of the embedding ran out (never happens in the
  C++ program; see `clean_up_sc`). -/
  | out_of_fuel
deriving DecidableEq, Repr

/-- The result of an operation of the pass: a value, or the way it stopped. -/
abbrev Res (α : Type) := Except Err α

/-- The statement `assert(c);`. -/
def assert_that (c : Bool) : Res Unit :=
  if c then Except.ok () else Except.error Err.assertion

/-- The pattern `assert(p);` on a pointer (or optional) `p` that is then
dereferenced. -/
def assert_some {α : Type} : Option α → Res α
  | some a => Except.ok a
  | none => Except.error Err.assertion

/-! ## Atomic operations (consumed from upstream analysis)

The types of this section and of the next are declared in headers that are
not among the sources; they follow section 3 (data model) and section 6
(external interfaces) of the specification.  An accessor that reads a part
which is absent (`var(i)` of a delay slot without an `i`-th variable,
`var()` of an atom that is not a variable) is a failed assertion. -/

/-- Modelled from the spec: a register, identified by its number. -/
abbrev Register := Nat

/-- Modelled from the spec: a variable, a register together with the rest of
its access record. -/
structure Variable where
  reg : Register
  atomic_idx : Nat
deriving DecidableEq, Repr

/-- Modelled from the spec: the default-constructed `Variable`
(`Variable ir_dest;`). -/
instance : Inhabited Variable := ⟨⟨0, 0⟩⟩

/-- Modelled from the spec: an atom is a variable, an integer or a symbol
pointer. -/
inductive SimpleAtom where
  | var (v : Variable)
  | int (i : Int)
  | sym_ptr (s : String)
deriving DecidableEq, Repr

/-- Modelled from the spec: the accessor `SimpleAtom::var()`, the variable of
an atom that is one. -/
def SimpleAtom.get_var : SimpleAtom → Res Variable
  | SimpleAtom.var v => Except.ok v
  | _ => Except.error Err.assertion

/-- Modelled from the spec: the test `SimpleAtom::is_sym_ptr()`. -/
def SimpleAtom.is_sym_ptr : SimpleAtom → Bool
  | SimpleAtom.sym_ptr _ => true
  | _ => false

/-- Modelled from the spec: the accessor `SimpleAtom::get_str()`, the name of
a symbol pointer. -/
def SimpleAtom.get_str : SimpleAtom → Res String
  | SimpleAtom.sym_ptr s => Except.ok s
  | _ => Except.error Err.assertion

/-- Modelled from the spec: `IR2_Condition::Kind`, the kinds named by the
specification and `OTHER n` for the rest. -/
inductive ConditionKind where
  | ALWAYS
  | FALSE
  | TRUTHY
  | ZERO
  | LESS_THAN_ZERO_SIGNED
  | GEQ_ZERO_SIGNED
  | GREATER_THAN_ZERO_SIGNED
  /-- Any further condition kind. -/
  | OTHER (n : Nat)
deriving DecidableEq, Repr

/-- Modelled from the spec: the condition of a branch, a kind and 0 to 2
source atoms. -/
structure IR2_Condition where
  kind : ConditionKind
  srcs : List SimpleAtom
deriving DecidableEq, Repr

/-- Modelled from the spec: the accessor `IR2_Condition::src(i)`. -/
def IR2_Condition.src (c : IR2_Condition) (i : Nat) : Res SimpleAtom :=
  assert_some (c.srcs.get? i)

/-- Modelled from the spec: `IR2_BranchDelay::Kind`, the kinds named by the
specification and `OTHER n` for the rest. -/
inductive BranchDelayKind where
  | NOP
  | SET_REG_FALSE
  | SET_REG_TRUE
  | SET_REG_REG
  | SET_BINTEGER
  | SET_PAIR
  | NEGATE
  | DSLLV
  /-- Any further delay-slot kind. -/
  | OTHER (n : Nat)
deriving DecidableEq, Repr

/-- Modelled from the spec: the delay slot of a branch, a kind and its
variables (destination first). -/
structure IR2_BranchDelay where
  kind : BranchDelayKind
  vars : List Variable
deriving DecidableEq, Repr

/-- Modelled from the spec: the accessor `IR2_BranchDelay::var(i)`. -/
def IR2_BranchDelay.var (d : IR2_BranchDelay) (i : Nat) : Res Variable :=
  assert_some (d.vars.get? i)

/-- Modelled from the spec: a branch atomic op (`branch->op()`) with its
accessors `condition()`, `branch_delay()`, `likely()` and `op_id()`. -/
structure BranchOp where
  condition : IR2_Condition
  branch_delay : IR2_BranchDelay
  likely : Bool
  op_id : Nat
deriving DecidableEq, Repr

/-- Modelled from the spec: `SimpleExpression::Kind`, the kinds used by the
pass and `OTHER n` for the rest. -/
inductive SimpleExpressionKind where
  | IDENTITY
  | NEG
  | ADD
  | LEFT_SHIFT
  | RIGHT_SHIFT_ARITH
  | RIGHT_SHIFT_LOGIC
  | OTHER (n : Nat)
deriving DecidableEq, Repr

/-- Modelled from the spec: a simple expression, a kind and its argument
atoms. -/
structure SimpleExpression where
  kind : SimpleExpressionKind
  args : List SimpleAtom
deriving DecidableEq, Repr

/-- Modelled from the spec: the test `SimpleExpression::is_identity()`. -/
def SimpleExpression.is_identity (e : SimpleExpression) : Bool :=
  e.kind == SimpleExpressionKind.IDENTITY

/-- Modelled from the spec: the accessor `SimpleExpression::get_arg(i)`. -/
def SimpleExpression.get_arg (e : SimpleExpression) (i : Nat) : Res SimpleAtom :=
  assert_some (e.args.get? i)

/-- Modelled from the spec: `LoadVarOp::Kind`. -/
inductive LoadKind where
  | UNSIGNED
  | SIGNED
  | FLOAT
deriving DecidableEq, Repr

/-- Modelled from the spec: the liveness of one op, the registers written by
it and not read later. -/
structure RegUseInfo where
  written_and_unused : List Register
deriving DecidableEq, Repr

/-- Modelled from the spec: the part of `Function` (`func.ir2`) read by the
cleaners, the liveness report `has_reg_use` and `reg_use.op`. -/
structure Function where
  has_reg_use : Bool
  reg_use_op : List RegUseInfo
deriving DecidableEq, Repr

/-- Modelled from the spec: the lookup `func.ir2.reg_use.op.at(op_id)`. -/
def Function.reg_use_at (func : Function) (op_id : Nat) : Res RegUseInfo :=
  match func.reg_use_op.get? op_id with
  | some i => Except.ok i
  | none => Except.error Err.out_of_range

/-! ## The form tree -/

/-- Modelled from the spec: `ShortCircuitElement::Kind`. -/
inductive ShortCircuitKind where
  | UNDETERMINED
  | AND
  | OR
deriving DecidableEq, Repr

/-- Modelled from the spec: `CondWithElseElement::Entry` over elements `E`. -/
structure CondWithElseEntry (E : Type) where
  condition : List E
  body : List E
  cleaned : Bool

/-- Modelled from the spec: `CondNoElseElement::Entry` over elements `E`. -/
structure CondNoElseEntry (E : Type) where
  condition : List E
  body : List E
  cleaned : Bool
  false_destination : Option Variable
  original_condition_branch : Option E

/-- Modelled from the spec: `ShortCircuitElement::Entry` over elements `E`. -/
structure ShortCircuitEntry (E : Type) where
  condition : List E

/-- Modelled from the spec: the fields of a `CondNoElseElement` over elements
`E`. -/
structure CondNoElseData (E : Type) where
  entries : List (CondNoElseEntry E)
  final_destination : Register
  used_as_value : Bool

/-- Modelled from the spec: the fields of a `ShortCircuitElement` over
elements `E`. -/
structure ShortCircuitData (E : Type) where
  kind : ShortCircuitKind
  entries : List (ShortCircuitEntry E)
  final_result : Variable
  used_as_value : Bool

/-- Modelled from the spec: the variants of `FormElement` used by the pass.
A child `Form*` is the list of its elements. -/
inductive FormElement where
  | Empty
  /-- Any atomic op that is none of the ones below (a store, a call, ...). -/
  | AtomicOp (id : Nat)
  | SimpleAtomElement (atom : SimpleAtom)
  | SimpleExpressionElement (expr : SimpleExpression)
  | LoadSource (location : List FormElement) (size : Nat) (kind : LoadKind)
  | SetVar (dst : Variable) (src : List FormElement) (is_sequence_point : Bool)
  | Branch (op : BranchOp)
  | Condition (cond : IR2_Condition)
  | While (condition body : List FormElement) (cleaned : Bool)
  | Until (condition body : List FormElement)
  | CondWithElse (entries : List (CondWithElseEntry FormElement))
      (else_ir : List FormElement)
  | CondNoElse (cne : CondNoElseData FormElement)
  | ShortCircuit (sc : ShortCircuitData FormElement)
  | Return (return_code dead_code : List FormElement)
  | Break (return_code dead_code : List FormElement)
  | Abs (source : List FormElement)
  | Ash (shift_amount value : List FormElement) (clobber : Option Variable)
      (is_signed : Bool)
  | TypeOf (value : List FormElement) (clobber : Option Variable)

/-- Modelled from the spec: a `Form`, the ordered sequence of its elements. -/
abbrev Form := List FormElement

/-- Modelled from the spec: `ShortCircuitElement`. -/
abbrev ShortCircuitElement := ShortCircuitData FormElement

/-- Modelled from the spec: `CondNoElseElement`. -/
abbrev CondNoElseElement := CondNoElseData FormElement

/-- Modelled from the spec: the constructor `ShortCircuitElement(entries)`,
kind undetermined, the other fields default. -/
def ShortCircuitElement_new (entries : List (ShortCircuitEntry FormElement)) :
    ShortCircuitElement :=
  { kind := ShortCircuitKind.UNDETERMINED, entries := entries,
    final_result := default, used_as_value := false }

/-- Modelled from the spec: the constructor `CondNoElseElement(entries)`. -/
def CondNoElseElement_new (entries : List (CondNoElseEntry FormElement)) :
    CondNoElseElement :=
  { entries := entries, final_destination := 0, used_as_value := false }

/-- Modelled from the spec: the call `form->try_as_single_element()`, the
element iff the form has exactly one. -/
def try_as_single_element : Form → Option FormElement
  | [e] => some e
  | _ => none

/-- Modelled from the spec: the call `form->pop_back()`. -/
def pop_back (f : Form) : Res Form :=
  if f.isEmpty then Except.error Err.undefined else Except.ok f.dropLast

/-- The result of `dynamic_cast<BranchElement*>(e)`. -/
def as_branch : FormElement → Option BranchOp
  | FormElement.Branch op => some op
  | _ => none

/-- Modelled from the spec: `IR2_Condition::get_as_form(pool)`, which is not
in the listed sources, produces the `Condition` element of the branch
condition ("a lifted boolean, no branch target"). -/
def IR2_Condition.get_as_form (c : IR2_Condition) : FormElement :=
  FormElement.Condition c

/-- Modelled from the spec: `ConditionElement::invert()`, which is not in the
listed sources, replaces the condition kind by its opposite; the table of
opposites is the parameter `invert`. -/
def IR2_Condition.get_as_inverted_form (invert : ConditionKind → ConditionKind)
    (c : IR2_Condition) : FormElement :=
  FormElement.Condition { c with kind := invert c.kind }

/-! ## Branch inspector -/

/-- A `FormElement**` obtained from `get_condition_branch(in)`: the
`back_ref()` of the form reached from `in` by going `depth` times from the
last element (a `Return` or `Break`) into its `dead_code`. -/
structure Slot where
  depth : Nat
deriving DecidableEq, Repr

mutual
/-- `get_condition_branch(in)` (lines 38-56): the branch at the end of `in`,
or `none` for the null pointer, and the slot that was inspected.  The three
equations compute `in->back()`. -/
def get_condition_branch : Form → Res (Option BranchOp × Slot)
  | [] => Except.error Err.undefined
  | [e] => get_condition_branch_of_back e
  | _ :: e :: rest => get_condition_branch (e :: rest)
/-- The body of `get_condition_branch` once `in->back()` is known. -/
def get_condition_branch_of_back : FormElement → Res (Option BranchOp × Slot)
  | FormElement.Branch op => Except.ok (some op, ⟨0⟩)
  | FormElement.Return _ dead_code =>
      (get_condition_branch dead_code).map (fun r => (r.1, ⟨r.2.depth + 1⟩))
  | FormElement.Break _ dead_code =>
      (get_condition_branch dead_code).map (fun r => (r.1, ⟨r.2.depth + 1⟩))
  | _ => Except.ok (none, ⟨0⟩)
end

/-- The assignment `*(in->back_ref()) = e`. -/
def set_back (f : Form) (e : FormElement) : Form :=
  f.dropLast ++ [e]

/-- The assignment `*slot = e` for the slot of `in` at the given depth; the
result is `in` after the assignment. -/
def slot_write_depth : Nat → Form → FormElement → Form
  | 0, f, e => set_back f e
  | d + 1, f, e =>
      match f.getLast? with
      | some (FormElement.Return rc dc) =>
          set_back f (FormElement.Return rc (slot_write_depth d dc e))
      | some (FormElement.Break rc dc) =>
          set_back f (FormElement.Break rc (slot_write_depth d dc e))
      | _ => f

/-- The assignment `*slot = e` for the slot `s` of `in`. -/
def slot_write (s : Slot) (f : Form) (e : FormElement) : Form :=
  slot_write_depth s.depth f e

/-- The read `*slot` for the slot of `in` at the given depth. -/
def slot_read_depth : Nat → Form → Option FormElement
  | 0, f => f.getLast?
  | d + 1, f =>
      match f.getLast? with
      | some (FormElement.Return _ dc) => slot_read_depth d dc
      | some (FormElement.Break _ dc) => slot_read_depth d dc
      | _ => none

/-- The read `*slot` for the slot `s` of `in`. -/
def slot_read (s : Slot) (f : Form) : Option FormElement :=
  slot_read_depth s.depth f

/-- `get_condition_branch_as_vector(in)` (lines 20-30); only the first
component of the pair is returned, the second being `in` itself exactly when
the first is non-null. -/
def get_condition_branch_as_vector (f : Form) : Res (Option BranchOp) :=
  if f.length > 1 then
    match f.getLast? with
    | some (FormElement.Branch op) => Except.ok (some op)
    | _ => Except.error Err.assertion
  else Except.ok none

/-! ## Delay-slot classifier -/

/-- `delay_slot_sets_false(branch)` (lines 173-188). -/
def delay_slot_sets_false (branch : BranchOp) : Res Bool :=
  if branch.branch_delay.kind = BranchDelayKind.SET_REG_FALSE then
    Except.ok true
  else if branch.condition.kind = ConditionKind.FALSE ∧
      branch.branch_delay.kind = BranchDelayKind.SET_REG_REG then
    (branch.condition.src 0).bind fun a =>
    a.get_var.bind fun cond_var =>
    (branch.branch_delay.var 1).bind fun src_var =>
    Except.ok (cond_var.reg == src_var.reg)
  else Except.ok false

/-- `delay_slot_sets_truthy(branch)` (lines 195-210). -/
def delay_slot_sets_truthy (branch : BranchOp) : Res Bool :=
  if branch.branch_delay.kind = BranchDelayKind.SET_REG_TRUE then
    Except.ok true
  else if branch.condition.kind = ConditionKind.TRUTHY ∧
      branch.branch_delay.kind = BranchDelayKind.SET_REG_REG then
    (branch.condition.src 0).bind fun a =>
    a.get_var.bind fun cond_var =>
    (branch.branch_delay.var 1).bind fun src_var =>
    Except.ok (cond_var.reg == src_var.reg)
  else Except.ok false

/-! ## Short-circuit classifier -/

/-- The first loop of `try_clean_up_sc_as_and` (lines 218-235) and of
`try_clean_up_sc_as_or` (lines 280-296), which differ only in the delay-slot
test `sets`.  The list holds the entries `i, i+1, ..` up to and excluding the
last one; `none` is `return false`, `some` the values of `destination` and
`ir_dest` after the loop. -/
def sc_scan (sets : BranchOp → Res Bool) :
    Nat → Register → Variable → List (ShortCircuitEntry FormElement) →
      Res (Option (Register × Variable))
  | _, destination, ir_dest, [] => Except.ok (some (destination, ir_dest))
  | i, destination, ir_dest, e :: rest =>
      (get_condition_branch e.condition).bind fun branch =>
      (assert_some branch.1).bind fun b =>
      (sets b).bind fun ok =>
      if !ok then Except.ok none
      else if i = 0 then
        (b.branch_delay.var 0).bind fun v =>
        sc_scan sets (i + 1) v.reg v rest
      else
        (b.branch_delay.var 0).bind fun v =>
        if destination ≠ v.reg then Except.ok none
        else sc_scan sets (i + 1) destination ir_dest rest

/-- The liveness step of the second loop (lines 247-262 and 307-318): the new
value of `live_out_result`. -/
def sc_live_out (func : Function) (ir_dest : Variable) (i : Nat)
    (live_out_result : Bool) (b : BranchOp) : Res Bool :=
  if func.has_reg_use then
    (func.reg_use_at b.op_id).bind fun branch_info =>
    let this_live_out := !(branch_info.written_and_unused.contains ir_dest.reg)
    if i = 0 then Except.ok this_live_out
    else (assert_that (live_out_result == this_live_out)).bind fun _ =>
      Except.ok live_out_result
  else Except.ok live_out_result

/-- The second loop of `try_clean_up_sc_as_and` (lines 243-267, with
`replace := get_as_inverted_form`) and of `try_clean_up_sc_as_or` (lines
303-322, with `replace := get_as_form`): the entries with their branch
replaced, and the final `live_out_result`. -/
def sc_replace (func : Function) (replace : IR2_Condition → FormElement)
    (ir_dest : Variable) :
    Nat → Bool → List (ShortCircuitEntry FormElement) →
      Res (List (ShortCircuitEntry FormElement) × Bool)
  | _, live_out_result, [] => Except.ok ([], live_out_result)
  | i, live_out_result, e :: rest =>
      (get_condition_branch e.condition).bind fun branch =>
      (assert_some branch.1).bind fun b =>
      (sc_live_out func ir_dest i live_out_result b).bind fun live =>
      let replacement := replace b.condition
      let e1 : ShortCircuitEntry FormElement :=
        { condition := slot_write branch.2 e.condition replacement }
      (sc_replace func replace ir_dest (i + 1) live rest).bind fun r =>
      Except.ok (e1 :: r.1, r.2)

/-- The common shape of `try_clean_up_sc_as_and` and `try_clean_up_sc_as_or`:
scan the entries but the last, and when the scan accepts set the kind and the
result and replace the branches.  The returned pair is the `bool` result and
the element after the call. -/
def try_clean_up_sc_as (func : Function) (sets : BranchOp → Res Bool)
    (kind : ShortCircuitKind) (replace : IR2_Condition → FormElement)
    (ir : ShortCircuitElement) : Res (Bool × ShortCircuitElement) :=
  let n1 := ir.entries.length - 1
  (sc_scan sets 0 default default (ir.entries.take n1)).bind fun scan =>
  match scan with
  | none => Except.ok (false, ir)
  | some (_, ir_dest) =>
      (sc_replace func replace ir_dest 0 false (ir.entries.take n1)).bind fun r =>
      Except.ok (true,
        { kind := kind, entries := r.1 ++ ir.entries.drop n1,
          final_result := ir_dest, used_as_value := r.2 })

/-- `try_clean_up_sc_as_and(pool, func, ir)` (lines 215-271). -/
def try_clean_up_sc_as_and (invert : ConditionKind → ConditionKind)
    (func : Function) (ir : ShortCircuitElement) : Res (Bool × ShortCircuitElement) :=
  try_clean_up_sc_as func delay_slot_sets_false ShortCircuitKind.AND
    (IR2_Condition.get_as_inverted_form invert) ir

/-- `try_clean_up_sc_as_or(pool, func, ir)` (lines 277-326). -/
def try_clean_up_sc_as_or (func : Function) (ir : ShortCircuitElement) :
    Res (Bool × ShortCircuitElement) :=
  try_clean_up_sc_as func delay_slot_sets_truthy ShortCircuitKind.OR
    IR2_Condition.get_as_form ir

/-- The loop of `try_splitting_nested_sc` (lines 348-363) over the entries
`i, i+1, ..` up to and excluding the last one: the value of `first_different`
after the loop, `none` for `-1`. -/
def split_scan (first_is_and : Bool) :
    Nat → List (ShortCircuitEntry FormElement) → Res (Option Nat)
  | _, [] => Except.ok none
  | i, e :: rest =>
      (get_condition_branch e.condition).bind fun branch =>
      (assert_some branch.1).bind fun b =>
      (delay_slot_sets_false b).bind fun is_and =>
      (delay_slot_sets_truthy b).bind fun is_or =>
      (assert_that (is_and != is_or)).bind fun _ =>
      if first_is_and != is_and then Except.ok (some i)
      else split_scan first_is_and (i + 1) rest

/-- `try_splitting_nested_sc(pool, func, ir)` (lines 339-390); `rec_clean_up`
stands for the two recursive calls of `clean_up_sc`. -/
def try_splitting_nested_sc
    (rec_clean_up : ShortCircuitElement → Res ShortCircuitElement)
    (ir : ShortCircuitElement) : Res (Bool × ShortCircuitElement) :=
  (match ir.entries.head? with
   | some e => Except.ok e
   | none => Except.error Err.undefined).bind fun front =>
  (get_condition_branch front.condition).bind fun first_branch =>
  (assert_some first_branch.1).bind fun fb =>
  (delay_slot_sets_false fb).bind fun first_is_and =>
  (delay_slot_sets_truthy fb).bind fun first_is_or =>
  (assert_that (first_is_and != first_is_or)).bind fun _ =>
  (split_scan first_is_and 1
    ((ir.entries.take (ir.entries.length - 1)).drop 1)).bind fun found =>
  (assert_some found).bind fun first_different =>
  let nested_ir := ir.entries.drop first_different
  let entries := ir.entries.take first_different
  (rec_clean_up (ShortCircuitElement_new nested_ir)).bind fun nested_sc =>
  let nested_entry : ShortCircuitEntry FormElement :=
    { condition := [FormElement.ShortCircuit nested_sc] }
  (rec_clean_up { ir with entries := entries ++ [nested_entry] }).bind fun ir2 =>
  Except.ok (true, ir2)

/-- `clean_up_sc(pool, func, ir)` (lines 396-405) with a recursion budget:
each level of the mutual recursion with `try_splitting_nested_sc` uses one
unit. -/
def clean_up_sc_fuel (invert : ConditionKind → ConditionKind) (func : Function) :
    Nat → ShortCircuitElement → Res ShortCircuitElement
  | 0, _ => Except.error Err.out_of_fuel
  | fuel + 1, ir =>
      (assert_that (ir.entries.length > 1)).bind fun _ =>
      (try_clean_up_sc_as_and invert func ir).bind fun r1 =>
      if r1.1 then Except.ok r1.2
      else
        (try_clean_up_sc_as_or func r1.2).bind fun r2 =>
        if r2.1 then Except.ok r2.2
        else
          (try_splitting_nested_sc (clean_up_sc_fuel invert func fuel) r2.2).bind
            fun r3 =>
          if r3.1 then Except.ok r3.2 else Except.error Err.assertion

/-- `clean_up_sc(pool, func, ir)`: the recursion is run with a budget of one
unit per entry and one more.  Each recursive call is on fewer entries, and
`clean_up_sc_of_fuel` shows that this budget gives every result that any
budget gives. -/
def clean_up_sc (invert : ConditionKind → ConditionKind) (func : Function)
    (ir : ShortCircuitElement) : Res ShortCircuitElement :=
  clean_up_sc_fuel invert func (ir.entries.length + 1) ir

/-- The body of `clean_up_sc(pool, func, ir)` (lines 396-405);
`rec_clean_up` stands for the recursive calls of `clean_up_sc`, which are made
by `try_splitting_nested_sc`. -/
def clean_up_sc_body (invert : ConditionKind → ConditionKind) (func : Function)
    (rec_clean_up : ShortCircuitElement → Res ShortCircuitElement)
    (ir : ShortCircuitElement) : Res ShortCircuitElement :=
  (assert_that (ir.entries.length > 1)).bind fun _ =>
  (try_clean_up_sc_as_and invert func ir).bind fun r1 =>
  if r1.1 then Except.ok r1.2
  else
    (try_clean_up_sc_as_or func r1.2).bind fun r2 =>
    if r2.1 then Except.ok r2.2
    else
      (try_splitting_nested_sc rec_clean_up r2.2).bind fun r3 =>
      if r3.1 then Except.ok r3.2 else Except.error Err.assertion

/-! ## Structural cleaners: cond-no-else -/

/-- The removal of the jump at the end of a body, as written in
`clean_up_cond_with_else` (lines 80-97), `clean_up_infinite_while_loop`
(lines 118-130), `clean_up_return` (lines 138-148), `clean_up_break` (lines
155-165) and `clean_up_cond_no_else` (lines 561-571): the jump must be an
ALWAYS branch with a NOP delay; it is popped from a form of more than one
element and replaced by `Empty` otherwise. -/
def clean_up_jump_to_end (body : Form) : Res Form :=
  (get_condition_branch body).bind fun jump_to_end =>
  (assert_some jump_to_end.1).bind fun b =>
  (assert_that (b.branch_delay.kind == BranchDelayKind.NOP)).bind fun _ =>
  (assert_that (b.condition.kind == ConditionKind.ALWAYS)).bind fun _ =>
  (get_condition_branch_as_vector body).bind fun as_end_of_sequence =>
  if as_end_of_sequence.isSome then
    (assert_that (body.length > 1)).bind fun _ => pop_back body
  else Except.ok (slot_write jump_to_end.2 body FormElement.Empty)

/-- `get_atom_src(form)` (lines 407-418); `none` is the null pointer. -/
def get_atom_src (form : Form) : Res (Option SimpleAtom) :=
  match try_as_single_element form with
  | some (FormElement.SimpleExpressionElement expr) =>
      if expr.is_identity then (expr.get_arg 0).map some else Except.ok none
  | _ => Except.ok none

/-- The result of `dynamic_cast<CondNoElseElement*>(e)`. -/
def as_cond_no_else : FormElement → Option CondNoElseElement
  | FormElement.CondNoElse cne => some cne
  | _ => none

/-- The result of `dynamic_cast<SetVarElement*>(e)` on a possibly null `e`:
the destination and the source of the `SetVar`. -/
def as_set_var : Option FormElement → Option (Variable × Form)
  | some (FormElement.SetVar dst src _) => some (dst, src)
  | _ => none

/-- The read `*ir_loc` of a slot of the parent form. -/
def read_loc (parent_form : Form) (ir_loc : Nat) : Res FormElement :=
  match parent_form.get? ir_loc with
  | some e => Except.ok e
  | none => Except.error Err.undefined

/-- `convert_cond_no_else_to_compare(pool, f, ir_loc, parent_form)` (lines
426-476).  The slot `ir_loc` is the index of an element of `parent_form`; the
result is the parent form after the call. -/
def convert_cond_no_else_to_compare (parent_form : Form) (ir_loc : Nat) : Res Form :=
  (read_loc parent_form ir_loc).bind fun elt =>
  (assert_some (as_cond_no_else elt)).bind fun cne =>
  (match cne.entries.head? with
   | some e => Except.ok e
   | none => Except.error Err.undefined).bind fun front =>
  (get_condition_branch front.condition).bind fun condition =>
  (assert_some condition.1).bind fun cb =>
  (assert_some (as_set_var (try_as_single_element front.body))).bind fun body =>
  let dst := body.1
  (get_atom_src body.2).bind fun src =>
  (assert_some src).bind fun src_atom =>
  (assert_that src_atom.is_sym_ptr).bind fun _ =>
  src_atom.get_str.bind fun str =>
  (assert_that (str == "#f")).bind fun _ =>
  (assert_that (cne.entries.length == 1)).bind fun _ =>
  let condition_as_single := (try_as_single_element front.condition).bind as_branch
  let condition_replacement := cb.condition.get_as_form
  let crf : Form := [condition_replacement]
  let replacement := FormElement.SetVar dst crf true
  if condition_as_single.isSome then
    Except.ok (parent_form.set ir_loc replacement)
  else
    (pop_back front.condition).bind fun popped =>
    let seq := popped ++ [replacement]
    let cne1 : CondNoElseElement :=
      { cne with entries := { front with condition := seq } :: cne.entries.tail }
    let parent1 := parent_form.set ir_loc (FormElement.CondNoElse cne1)
    (pop_back parent1).bind fun parent2 =>
    Except.ok (parent2 ++ seq)

/-- The loop of `clean_up_cond_no_else` (lines 528-574) from index `idx` on:
`done` are the entries before `idx` as they are now, `todo` the entries from
`idx` on, `n` is `cne->entries.size()`.  The result is the parent form after
the call. -/
def clean_up_cond_no_else_loop (invert : ConditionKind → ConditionKind)
    (parent_form : Form) (ir_loc : Nat) (cne : CondNoElseElement) (n : Nat) :
    Nat → List (CondNoElseEntry FormElement) → List (CondNoElseEntry FormElement) →
      Res Form
  | _, done, [] =>
      Except.ok (parent_form.set ir_loc
        (FormElement.CondNoElse { cne with entries := done }))
  | idx, done, e :: todo =>
      if e.cleaned then
        clean_up_cond_no_else_loop invert parent_form ir_loc cne n (idx + 1)
          (done ++ [e]) todo
      else
        (get_condition_branch e.condition).bind fun jump_to_next =>
        (assert_some jump_to_next.1).bind fun b =>
        if b.branch_delay.kind = BranchDelayKind.SET_REG_TRUE ∧ n = 1 then
          convert_cond_no_else_to_compare
            (parent_form.set ir_loc
              (FormElement.CondNoElse { cne with entries := done ++ e :: todo }))
            ir_loc
        else
          (assert_that (b.branch_delay.kind == BranchDelayKind.SET_REG_FALSE ||
            b.branch_delay.kind == BranchDelayKind.NOP)).bind fun _ =>
          (assert_that (b.condition.kind != ConditionKind.ALWAYS)).bind fun _ =>
          (if b.branch_delay.kind = BranchDelayKind.SET_REG_FALSE then
            (assert_that e.false_destination.isNone).bind fun _ =>
            (b.branch_delay.var 0).bind fun v => Except.ok (some v)
           else Except.ok e.false_destination).bind fun false_destination =>
          let original_condition_branch := slot_read jump_to_next.2 e.condition
          let replacement := b.condition.get_as_inverted_form invert
          let condition := slot_write jump_to_next.2 e.condition replacement
          (if idx ≠ n - 1 then clean_up_jump_to_end e.body
           else Except.ok e.body).bind fun body =>
          let e1 : CondNoElseEntry FormElement :=
            { condition := condition, body := body, cleaned := true,
              false_destination := false_destination,
              original_condition_branch := original_condition_branch }
          clean_up_cond_no_else_loop invert parent_form ir_loc cne n (idx + 1)
            (done ++ [e1]) todo

/-- `clean_up_cond_no_else(pool, f, ir_loc, parent_form)` (lines 522-575).
The slot `ir_loc` is the index of an element of `parent_form`; the result is
the parent form after the call. -/
def clean_up_cond_no_else (invert : ConditionKind → ConditionKind)
    (parent_form : Form) (ir_loc : Nat) : Res Form :=
  (read_loc parent_form ir_loc).bind fun elt =>
  (assert_some (as_cond_no_else elt)).bind fun cne =>
  clean_up_cond_no_else_loop invert parent_form ir_loc cne cne.entries.length 0 []
    cne.entries

/-! ## Structural cleaners: cond-with-else and infinite loops -/

/-- One iteration of the loop of `clean_up_cond_with_else` (lines 66-99): the
entry `e` after the iteration. -/
def clean_up_cond_with_else_entry (invert : ConditionKind → ConditionKind)
    (e : CondWithElseEntry FormElement) : Res (CondWithElseEntry FormElement) :=
  if e.cleaned then Except.ok e
  else
    (get_condition_branch e.condition).bind fun jump_to_next =>
    (assert_some jump_to_next.1).bind fun b =>
    (assert_that (b.branch_delay.kind == BranchDelayKind.NOP)).bind fun _ =>
    let replacement := b.condition.get_as_inverted_form invert
    let condition := slot_write jump_to_next.2 e.condition replacement
    (clean_up_jump_to_end e.body).bind fun body =>
    Except.ok { condition := condition, body := body, cleaned := true }

/-- The loop `for (auto& e : cwe->entries)` of `clean_up_cond_with_else`: the
entries after the loop. -/
def clean_up_cond_with_else_entries (invert : ConditionKind → ConditionKind) :
    List (CondWithElseEntry FormElement) → Res (List (CondWithElseEntry FormElement))
  | [] => Except.ok []
  | e :: rest =>
      (clean_up_cond_with_else_entry invert e).bind fun e1 =>
      (clean_up_cond_with_else_entries invert rest).bind fun r =>
      Except.ok (e1 :: r)

/-- `clean_up_cond_with_else(pool, ir)` (lines 63-100): the element after the
call. -/
def clean_up_cond_with_else (invert : ConditionKind → ConditionKind)
    (ir : FormElement) : Res FormElement :=
  match ir with
  | FormElement.CondWithElse entries else_ir =>
      (clean_up_cond_with_else_entries invert entries).bind fun es =>
      Except.ok (FormElement.CondWithElse es else_ir)
  | _ => Except.error Err.assertion

/-- `clean_up_infinite_while_loop(pool, ir)` (lines 117-132): the element
after the call.  The parameter is a `WhileElement*`; the call on anything
else dereferences a null pointer. -/
def clean_up_infinite_while_loop (ir : FormElement) : Res FormElement :=
  match ir with
  | FormElement.While condition body _ =>
      (clean_up_jump_to_end body).bind fun body1 =>
      Except.ok (FormElement.While condition body1 true)
  | _ => Except.error Err.undefined

/-! ## Final pass of cond-no-else -/

/-- The first loop of `clean_up_cond_no_else_final` (lines 479-488): the value
of `cne->final_destination` after the loop, from its value before and the
entries still to visit. -/
def cne_final_destination :
    Register → List (CondNoElseEntry FormElement) → Res Register
  | final_destination, [] => Except.ok final_destination
  | _, entry :: rest =>
      match entry.false_destination with
      | some fr => cne_final_destination fr.reg rest
      | none => Except.error Err.assertion

/-- The second loop of `clean_up_cond_no_else_final` (lines 500-510), over the
entries but the last.  The branch is dereferenced (line 503) before it is
asserted (line 506). -/
def cne_final_check (func : Function) : List (CondNoElseEntry FormElement) → Res Unit
  | [] => Except.ok ()
  | entry :: rest =>
      (if func.has_reg_use then
        (match entry.original_condition_branch.bind as_branch with
         | some b => Except.ok b
         | none => Except.error Err.undefined).bind fun branch =>
        (func.reg_use_at branch.op_id).bind fun branch_info_i =>
        (assert_some entry.false_destination).bind fun reg =>
        assert_that (branch_info_i.written_and_unused.contains reg.reg)
       else Except.ok ()).bind fun _ =>
      cne_final_check func rest

/-- `clean_up_cond_no_else_final(func, cne)` (lines 478-511): the element
after the call. -/
def clean_up_cond_no_else_final (func : Function) (cne : CondNoElseElement) :
    Res CondNoElseElement :=
  (cne_final_destination cne.final_destination cne.entries).bind fun final_destination =>
  (match cne.entries.getLast? with
   | some e => Except.ok e
   | none => Except.error Err.undefined).bind fun back =>
  (assert_some (back.original_condition_branch.bind as_branch)).bind fun last_branch =>
  (if func.has_reg_use then
    (func.reg_use_at last_branch.op_id).bind fun last_branch_info =>
    Except.ok (!(last_branch_info.written_and_unused.contains final_destination))
   else Except.ok cne.used_as_value).bind fun used_as_value =>
  (cne_final_check func (cne.entries.take (cne.entries.length - 1))).bind fun _ =>
  Except.ok { cne with final_destination := final_destination,
                       used_as_value := used_as_value }

/-! ## Post-pass: while loops -/

/-- One iteration of the first loop of `clean_up_while_loops` (lines
1165-1187) at index `i`: the sequence and `to_remove` after the iteration. -/
def clean_up_while_loops_step (sequence : Form) (i : Nat) (to_remove : List Nat) :
    Res (Form × List Nat) :=
  match sequence.get? i with
  | none => Except.error Err.out_of_range
  | some (FormElement.While condition body false) =>
      (assert_that (i != 0)).bind fun _ =>
      (match sequence.get? (i - 1) with
       | some prev => Except.ok prev
       | none => Except.error Err.out_of_range).bind fun prev =>
      (assert_some (as_branch prev)).bind fun prev_as_branch =>
      (assert_that (prev_as_branch.condition.kind == ConditionKind.ALWAYS)).bind fun _ =>
      (assert_that (prev_as_branch.branch_delay.kind == BranchDelayKind.NOP)).bind fun _ =>
      (get_condition_branch condition).bind fun condition_branch =>
      (assert_some condition_branch.1).bind fun b =>
      (assert_that (b.branch_delay.kind == BranchDelayKind.NOP)).bind fun _ =>
      let replacement := b.condition.get_as_form
      let condition1 := slot_write condition_branch.2 condition replacement
      Except.ok (sequence.set i (FormElement.While condition1 body false),
        to_remove ++ [i - 1])
  | some _ => Except.ok (sequence, to_remove)

/-- The first loop of `clean_up_while_loops` (lines 1164-1188) from index `i`
on, with `count` iterations left. -/
def clean_up_while_loops_scan :
    Nat → Nat → Form → List Nat → Res (Form × List Nat)
  | 0, _, sequence, to_remove => Except.ok (sequence, to_remove)
  | count + 1, i, sequence, to_remove =>
      (clean_up_while_loops_step sequence i to_remove).bind fun r =>
      clean_up_while_loops_scan count (i + 1) r.1 r.2

/-- The second loop of `clean_up_while_loops` (lines 1191-1195); the list
holds the indices in the order in which they are visited, the last of
`to_remove` first. -/
def clean_up_while_loops_remove : List Nat → Form → Res Form
  | [], sequence => Except.ok sequence
  | idx :: rest, sequence =>
      (match sequence.get? idx with
       | some e => Except.ok e
       | none => Except.error Err.out_of_range).bind fun e =>
      (assert_that (as_branch e).isSome).bind fun _ =>
      clean_up_while_loops_remove rest (sequence.eraseIdx idx)

/-- `clean_up_while_loops(pool, sequence)` (lines 1162-1196): the sequence
after the call. -/
def clean_up_while_loops (sequence : Form) : Res Form :=
  (clean_up_while_loops_scan sequence.length 0 sequence []).bind fun r =>
  clean_up_while_loops_remove r.2.reverse r.1

/-! ## Control-flow graph and atomic ops (consumed from upstream analysis) -/

/-- Modelled from the spec: an entry of a `CondWithElse` or `CondNoElse`
vertex over vertices `V`, the vertex of the condition and that of the body. -/
structure CfgCondEntry (V : Type) where
  condition : V
  body : V

/-- Modelled from the spec: the classes of `CfgVtx` that `cfg_to_ir`
dispatches on, each with the children that it reads, and `Other n` for any
further class. -/
inductive CfgVtx where
  | BlockVtx (block_id : Nat)
  | SequenceVtx (seq : List CfgVtx)
  | WhileLoop (condition body : CfgVtx)
  | UntilLoop (condition body : CfgVtx)
  | UntilLoop_single (block : CfgVtx)
  | InfiniteLoopBlock (block : CfgVtx)
  | CondWithElse (entries : List (CfgCondEntry CfgVtx)) (else_vtx : CfgVtx)
  | ShortCircuit (entries : List CfgVtx)
  | CondNoElse (entries : List (CfgCondEntry CfgVtx))
  | GotoEnd (body unreachable_block : CfgVtx)
  | Break (body unreachable_block : CfgVtx)
  /-- A vertex of any other class. -/
  | Other (n : Nat)

mutual
/-- The number of vertices of the graph below and including the vertex. -/
def CfgVtx.size : CfgVtx → Nat
  | CfgVtx.BlockVtx _ => 1
  | CfgVtx.SequenceVtx seq => 1 + CfgVtx.size_list seq
  | CfgVtx.WhileLoop c b => 1 + c.size + b.size
  | CfgVtx.UntilLoop c b => 1 + c.size + b.size
  | CfgVtx.UntilLoop_single b => 1 + b.size
  | CfgVtx.InfiniteLoopBlock b => 1 + b.size
  | CfgVtx.CondWithElse entries e => 1 + CfgVtx.size_entries entries + e.size
  | CfgVtx.ShortCircuit entries => 1 + CfgVtx.size_list entries
  | CfgVtx.CondNoElse entries => 1 + CfgVtx.size_entries entries
  | CfgVtx.GotoEnd b u => 1 + b.size + u.size
  | CfgVtx.Break b u => 1 + b.size + u.size
  | CfgVtx.Other _ => 1
/-- The number of vertices in a list of vertices. -/
def CfgVtx.size_list : List CfgVtx → Nat
  | [] => 0
  | x :: rest => x.size + CfgVtx.size_list rest
/-- The number of vertices in a list of cond entries. -/
def CfgVtx.size_entries : List (CfgCondEntry CfgVtx) → Nat
  | [] => 0
  | e :: rest => CfgVtx.size_entry e + CfgVtx.size_entries rest
/-- The number of vertices in a cond entry. -/
def CfgVtx.size_entry : CfgCondEntry CfgVtx → Nat
  | ⟨c, b⟩ => c.size + b.size
end

/-- Modelled from the spec: `f.ir2.atomic_ops`, the maps from block id to the
first and to the end atomic op of the block, and the flat vector `ops`, each
op given by the element that its `get_as_form(pool)` returns.  The indices of
ops, which are not negative, are natural numbers. -/
structure FunctionAtomicOps where
  block_id_to_first_atomic_op : List Nat
  block_id_to_end_atomic_op : List Nat
  ops : List FormElement

/-- The call `v.at(i)` of a `std::vector`: the element at index `i`, or the
exception `std::out_of_range`. -/
def vector_at {α : Type} (v : List α) (i : Nat) : Res α :=
  match v.get? i with
  | some a => Except.ok a
  | none => Except.error Err.out_of_range

/-- Modelled from the spec: `MatchParam<T>` of `decompiler/util/MatchParam.h`,
a value to compare with, or the wildcard `{}` that matches everything. -/
abbrev MatchParam (T : Type) := Option T

/-- Modelled from the spec: `param != value` for a `MatchParam`, false for the
wildcard. -/
def MatchParam.differs {T : Type} [DecidableEq T] (p : MatchParam T) (value : T) : Bool :=
  match p with
  | none => false
  | some v => v != value

/-- Modelled from the spec: the test `SimpleAtom::is_var()`. -/
def SimpleAtom.is_var : SimpleAtom → Bool
  | SimpleAtom.var _ => true
  | _ => false

/-- Modelled from the spec: the test `SimpleAtom::is_int()`. -/
def SimpleAtom.is_int : SimpleAtom → Bool
  | SimpleAtom.int _ => true
  | _ => false

/-- Modelled from the spec: the accessor `SimpleAtom::get_int()`. -/
def SimpleAtom.get_int : SimpleAtom → Res Int
  | SimpleAtom.int i => Except.ok i
  | _ => Except.error Err.assertion

/-- Modelled from the spec: the call `form->back()`. -/
def back (f : Form) : Res FormElement :=
  match f.getLast? with
  | some e => Except.ok e
  | none => Except.error Err.undefined

/-- The result of `dynamic_cast<ShortCircuitElement*>(e)`. -/
def as_short_circuit : FormElement → Option ShortCircuitElement
  | FormElement.ShortCircuit sc => some sc
  | _ => none

/-- The result of `dynamic_cast<SimpleExpressionElement*>(e)` on a possibly
null `e`: the expression. -/
def as_simple_expression : Option FormElement → Option SimpleExpression
  | some (FormElement.SimpleExpressionElement expr) => some expr
  | _ => none

/-- The result of `dynamic_cast<LoadSourceElement*>(e)` on a possibly null
`e`: the location, the size and the kind of the load. -/
def as_load_source : Option FormElement → Option (Form × Nat × LoadKind)
  | some (FormElement.LoadSource location size kind) => some (location, size, kind)
  | _ => none

/-! ## Structural cleaners: until, return, break -/

/-- `clean_up_until_loop(pool, ir)` (lines 105-112).  The parameter is an
`UntilElement*`; the call on anything else dereferences a null pointer. -/
def clean_up_until_loop (invert : ConditionKind → ConditionKind) (ir : FormElement) :
    Res FormElement :=
  match ir with
  | FormElement.Until condition body =>
      (get_condition_branch condition).bind fun condition_branch =>
      (assert_some condition_branch.1).bind fun b =>
      (assert_that (b.branch_delay.kind == BranchDelayKind.NOP)).bind fun _ =>
      let replacement := b.condition.get_as_inverted_form invert
      Except.ok (FormElement.Until (slot_write condition_branch.2 condition replacement) body)
  | _ => Except.error Err.undefined

/-- `clean_up_return(pool, ir)` (lines 137-149). -/
def clean_up_return (ir : FormElement) : Res FormElement :=
  match ir with
  | FormElement.Return return_code dead_code =>
      (clean_up_jump_to_end return_code).bind fun return_code1 =>
      Except.ok (FormElement.Return return_code1 dead_code)
  | _ => Except.error Err.undefined

/-- `clean_up_break(pool, ir)` (lines 154-166). -/
def clean_up_break (ir : FormElement) : Res FormElement :=
  match ir with
  | FormElement.Break return_code dead_code =>
      (clean_up_jump_to_end return_code).bind fun return_code1 =>
      Except.ok (FormElement.Break return_code1 dead_code)
  | _ => Except.error Err.undefined

/-! ## Idiom recognizers -/

/-- `is_op_3(ir, kind, dst, src0, src1, ...)` (lines 580-629): `none` is
`false`, `some` is `true` with the values of the three out parameters.
`arg_count` stands for `get_simple_expression_arg_count`, which is not among
the sources. -/
def is_op_3 (arg_count : SimpleExpressionKind → Nat) (ir : FormElement)
    (kind : MatchParam SimpleExpressionKind) (dst src0 src1 : MatchParam Register) :
    Res (Option (Register × Register × Register)) :=
  match ir with
  | FormElement.SetVar dest src _ =>
      if dst.differs dest.reg then Except.ok none
      else
        match as_simple_expression (try_as_single_element src) with
        | none => Except.ok none
        | some math =>
            if kind.differs math.kind then Except.ok none
            else if arg_count math.kind != 2 then Except.ok none
            else
              (math.get_arg 0).bind fun arg0 =>
              (math.get_arg 1).bind fun arg1 =>
              match arg0, arg1 with
              | SimpleAtom.var v0, SimpleAtom.var v1 =>
                  if src0.differs v0.reg || src1.differs v1.reg then Except.ok none
                  else Except.ok (some (dest.reg, v0.reg, v1.reg))
              | _, _ => Except.ok none
  | _ => Except.ok none

/-- `is_op_2(ir, kind, dst, src0, ...)` (lines 631-670): `none` is `false`,
`some` is `true` with the values of the two out parameters. -/
def is_op_2 (ir : FormElement) (kind : MatchParam SimpleExpressionKind)
    (dst src0 : MatchParam Register) : Res (Option (Register × Register)) :=
  match ir with
  | FormElement.SetVar dest src _ =>
      if dst.differs dest.reg then Except.ok none
      else
        match as_simple_expression (try_as_single_element src) with
        | none => Except.ok none
        | some math =>
            if kind.differs math.kind then Except.ok none
            else
              (math.get_arg 0).bind fun arg =>
              match arg with
              | SimpleAtom.var v =>
                  if src0.differs v.reg then Except.ok none
                  else Except.ok (some (dest.reg, v.reg))
              | _ => Except.ok none
  | _ => Except.ok none

/-- `try_sc_as_abs(pool, f, vtx)` (lines 676-718) on the entries of the
vertex; `none` is the null pointer and `rec_cfg_to_ir` stands for the
calls of `cfg_to_ir`. -/
def try_sc_as_abs (rec_cfg_to_ir : CfgVtx → Res Form) (entries : List CfgVtx) :
    Res (Option Form) :=
  if entries.length != 1 then Except.ok none
  else
    (vector_at entries 0).bind fun e0 =>
    match e0 with
    | CfgVtx.BlockVtx block_id =>
        (rec_cfg_to_ir (CfgVtx.BlockVtx block_id)).bind fun b0_ptr =>
        (back b0_ptr).bind fun last =>
        match as_branch last with
        | none => Except.ok none
        | some branch =>
            if !branch.likely ||
                branch.condition.kind != ConditionKind.LESS_THAN_ZERO_SIGNED ||
                branch.branch_delay.kind != BranchDelayKind.NEGATE then
              Except.ok none
            else
              (branch.condition.src 0).bind fun input =>
              (branch.branch_delay.var 0).bind fun output =>
              (assert_that input.is_var).bind fun _ =>
              input.get_var.bind fun input_var =>
              (branch.branch_delay.var 1).bind fun delay_src =>
              (assert_that (input_var.reg == delay_src.reg)).bind fun _ =>
              (pop_back b0_ptr).bind fun popped =>
              let src_var : Form := [FormElement.SimpleAtomElement input]
              let src_abs : Form := [FormElement.Abs src_var]
              let replacement := FormElement.SetVar output src_abs true
              Except.ok (some (popped ++ [replacement]))
    | _ => Except.ok none

/-- `try_sc_as_ash(pool, f, vtx)` (lines 725-811) on the entries of the
vertex. -/
def try_sc_as_ash (arg_count : SimpleExpressionKind → Nat)
    (rec_cfg_to_ir : CfgVtx → Res Form) (entries : List CfgVtx) : Res (Option Form) :=
  if entries.length != 2 then Except.ok none
  else
    (vector_at entries 0).bind fun b0 =>
    (vector_at entries 1).bind fun e1 =>
    match e1 with
    | CfgVtx.BlockVtx block_id1 =>
        (rec_cfg_to_ir b0).bind fun b0_ptr =>
        (rec_cfg_to_ir (CfgVtx.BlockVtx block_id1)).bind fun b1_ptr =>
        (back b0_ptr).bind fun last =>
        match as_branch last with
        | none => Except.ok none
        | some branch =>
            if b1_ptr.length != 2 then Except.ok none
            else if !branch.likely ||
                branch.condition.kind != ConditionKind.GEQ_ZERO_SIGNED ||
                branch.branch_delay.kind != BranchDelayKind.DSLLV then
              Except.ok none
            else
              (branch.condition.src 0).bind fun sa_in =>
              (assert_that sa_in.is_var).bind fun _ =>
              sa_in.get_var.bind fun sa_in_var =>
              (branch.branch_delay.var 0).bind fun result =>
              (branch.branch_delay.var 1).bind fun value_in =>
              (branch.branch_delay.var 2).bind fun sa_in2 =>
              (assert_that (sa_in_var.reg == sa_in2.reg)).bind fun _ =>
              (vector_at b1_ptr 0).bind fun dsubu_candidate =>
              (vector_at b1_ptr 1).bind fun dsrav_candidate =>
              (is_op_2 dsubu_candidate (some SimpleExpressionKind.NEG) none
                (some sa_in_var.reg)).bind fun dsubu_match =>
              match dsubu_match with
              | none => Except.ok none
              | some (clobber, _) =>
                  (is_op_3 arg_count dsrav_candidate
                    (some SimpleExpressionKind.RIGHT_SHIFT_ARITH) (some result.reg)
                    (some value_in.reg) (some clobber)).bind fun arith_match =>
                  (is_op_3 arg_count dsrav_candidate
                    (some SimpleExpressionKind.RIGHT_SHIFT_LOGIC) (some result.reg)
                    (some value_in.reg) (some clobber)).bind fun logical_match =>
                  let is_arith := arith_match.isSome
                  let is_logical := logical_match.isSome
                  if !is_arith && !is_logical then Except.ok none
                  else
                    (assert_some (as_set_var (some dsubu_candidate))).bind fun dsubu_set =>
                    (assert_some (as_set_var (some dsrav_candidate))).bind fun dsrav_set =>
                    let clobber_ir : Option Variable :=
                      if clobber != result.reg then some dsubu_set.1 else none
                    (match as_simple_expression (try_as_single_element dsrav_set.2) with
                     | some expr => expr.get_arg 0
                     | none => Except.error Err.undefined).bind fun value_ir =>
                    (pop_back b0_ptr).bind fun popped =>
                    let value_form : Form := [FormElement.SimpleAtomElement value_ir]
                    let shift_form : Form := [FormElement.SimpleAtomElement sa_in]
                    let ash_form : Form :=
                      [FormElement.Ash shift_form value_form clobber_ir is_arith]
                    let set_form := FormElement.SetVar result ash_form true
                    Except.ok (some (popped ++ [set_form]))
    | _ => Except.ok none

/-- `try_sc_as_type_of(pool, f, vtx)` (lines 817-940) on the entries of the
vertex.  The test `!sa.is_int() || sa.get_int() != 61` is written
`!sa.is_int || sa != SimpleAtom.int 61`: `get_int` is evaluated on an integer
atom only. -/
def try_sc_as_type_of (rec_cfg_to_ir : CfgVtx → Res Form) (entries : List CfgVtx) :
    Res (Option Form) :=
  if entries.length != 3 then Except.ok none
  else
    (vector_at entries 0).bind fun b0 =>
    (vector_at entries 1).bind fun e1 =>
    (vector_at entries 2).bind fun e2 =>
    match e1, e2 with
    | CfgVtx.BlockVtx block_id1, CfgVtx.BlockVtx block_id2 =>
        (rec_cfg_to_ir b0).bind fun b0_ptr =>
        if b0_ptr.length ≤ 1 then Except.ok none
        else
          (rec_cfg_to_ir (CfgVtx.BlockVtx block_id1)).bind fun b1_ptr =>
          let b1_ir := (try_as_single_element b1_ptr).bind as_branch
          (rec_cfg_to_ir (CfgVtx.BlockVtx block_id2)).bind fun b2_ptr =>
          let b2_ir := as_set_var (try_as_single_element b2_ptr)
          match b1_ir, b2_ir with
          | some second_branch, some else_case =>
              (vector_at b0_ptr (b0_ptr.length - 2)).bind fun shift_elt =>
              match as_set_var (some shift_elt) with
              | none => Except.ok none
              | some set_shift =>
                  let temp_reg0 := set_shift.1
                  match as_simple_expression (try_as_single_element set_shift.2) with
                  | none => Except.ok none
                  | some shift =>
                      if shift.kind != SimpleExpressionKind.LEFT_SHIFT then Except.ok none
                      else
                        (shift.get_arg 0).bind fun obj_atom =>
                        obj_atom.get_var.bind fun src_reg =>
                        (shift.get_arg 1).bind fun sa =>
                        if !sa.is_int || sa != SimpleAtom.int 61 then Except.ok none
                        else
                          (back b0_ptr).bind fun last =>
                          match as_branch last with
                          | none => Except.ok none
                          | some first_branch =>
                              if first_branch.branch_delay.kind != BranchDelayKind.SET_BINTEGER ||
                                  first_branch.condition.kind != ConditionKind.ZERO ||
                                  !first_branch.likely then
                                Except.ok none
                              else
                                (first_branch.condition.src 0).bind fun temp_atom =>
                                temp_atom.get_var.bind fun temp_reg =>
                                (assert_that (temp_reg.reg == temp_reg0.reg)).bind fun _ =>
                                (first_branch.branch_delay.var 0).bind fun dst_reg =>
                                if second_branch.branch_delay.kind != BranchDelayKind.SET_PAIR ||
                                    second_branch.condition.kind !=
                                      ConditionKind.GREATER_THAN_ZERO_SIGNED ||
                                    !second_branch.likely then
                                  Except.ok none
                                else
                                  (second_branch.branch_delay.var 0).bind fun dst_reg2 =>
                                  (assert_that (dst_reg2.reg == dst_reg.reg)).bind fun _ =>
                                  let dst_reg3 := else_case.1
                                  (assert_that (dst_reg3.reg == dst_reg.reg)).bind fun _ =>
                                  match as_load_source (try_as_single_element else_case.2) with
                                  | none => Except.ok none
                                  | some (location, size, kind) =>
                                      if kind != LoadKind.UNSIGNED || size != 4 then
                                        Except.ok none
                                      else
                                        match as_simple_expression
                                            (try_as_single_element location) with
                                        | none => Except.ok none
                                        | some load_loc =>
                                            if load_loc.kind != SimpleExpressionKind.ADD then
                                              Except.ok none
                                            else
                                              (load_loc.get_arg 0).bind fun src_reg3 =>
                                              (load_loc.get_arg 1).bind fun offset =>
                                              if !src_reg3.is_var || !offset.is_int then
                                                Except.ok none
                                              else
                                                src_reg3.get_var.bind fun src_var3 =>
                                                (assert_that (src_var3.reg == src_reg.reg)).bind
                                                  fun _ =>
                                                offset.get_int.bind fun offset_int =>
                                                (assert_that (offset_int == -4)).bind fun _ =>
                                                let clobber : Option Variable :=
                                                  if temp_reg.reg != dst_reg.reg then some temp_reg
                                                  else none
                                                (pop_back b0_ptr).bind fun popped1 =>
                                                (pop_back popped1).bind fun popped2 =>
                                                let obj : Form :=
                                                  [FormElement.SimpleAtomElement obj_atom]
                                                let type_op : Form :=
                                                  [FormElement.TypeOf obj clobber]
                                                let op :=
                                                  FormElement.SetVar else_case.1 type_op true
                                                Except.ok (some (popped2 ++ [op]))
          | _, _ => Except.ok none
    | _, _ => Except.ok none

/-! ## Translation of the control-flow graph -/

/-- The loop `for (auto i = start_op; i < end_op; i++)` of `cfg_to_ir` (lines
1013-1015) and of `insert_cfg_into_list` (lines 995-997) with `count`
iterations left: the output after the loop. -/
def push_atomic_ops (atomic_ops : FunctionAtomicOps) : Nat → Nat → Form → Res Form
  | 0, _, output => Except.ok output
  | count + 1, i, output =>
      (vector_at atomic_ops.ops i).bind fun op =>
      push_atomic_ops atomic_ops count (i + 1) (output ++ [op])

/-- The ops of a block pushed to `output` (lines 1011-1015 and 993-997). -/
def push_block_ops (atomic_ops : FunctionAtomicOps) (block_id : Nat) (output : Form) :
    Res Form :=
  (vector_at atomic_ops.block_id_to_first_atomic_op block_id).bind fun start_op =>
  (vector_at atomic_ops.block_id_to_end_atomic_op block_id).bind fun end_op =>
  push_atomic_ops atomic_ops (end_op - start_op) start_op output

mutual
/-- `insert_cfg_into_list(pool, f, vtx, output)` (lines 980-1004): the output
after the call; `rec_cfg_to_ir` stands for the call of `cfg_to_ir`. -/
def insert_cfg_into_list (atomic_ops : FunctionAtomicOps)
    (rec_cfg_to_ir : CfgVtx → Res Form) : CfgVtx → Form → Res Form
  | CfgVtx.SequenceVtx seq, output =>
      insert_cfg_into_list_seq atomic_ops rec_cfg_to_ir seq output
  | CfgVtx.BlockVtx block_id, output => push_block_ops atomic_ops block_id output
  | vtx, output =>
      (rec_cfg_to_ir vtx).bind fun ir => Except.ok (output ++ ir)
/-- The loop `for (auto& x : as_sequence->seq)` of `insert_cfg_into_list`
(lines 988-990). -/
def insert_cfg_into_list_seq (atomic_ops : FunctionAtomicOps)
    (rec_cfg_to_ir : CfgVtx → Res Form) : List CfgVtx → Form → Res Form
  | [], output => Except.ok output
  | x :: rest, output =>
      (insert_cfg_into_list atomic_ops rec_cfg_to_ir x output).bind fun output1 =>
      insert_cfg_into_list_seq atomic_ops rec_cfg_to_ir rest output1
end

/-- The loop over `cvtx->entries` of `cfg_to_ir` for a `CondWithElse` (lines
1085-1090): the entries built. -/
def cond_with_else_entries (rec_cfg_to_ir : CfgVtx → Res Form) :
    List (CfgCondEntry CfgVtx) → Res (List (CondWithElseEntry FormElement))
  | [] => Except.ok []
  | x :: rest =>
      (rec_cfg_to_ir x.condition).bind fun condition =>
      (rec_cfg_to_ir x.body).bind fun body =>
      (cond_with_else_entries rec_cfg_to_ir rest).bind fun r =>
      Except.ok ({ condition := condition, body := body, cleaned := false } :: r)

/-- The loop over the entries of a cond vertex that builds the entries of a
`CondNoElseElement` (lines 957-962 and 1130-1135). -/
def cond_no_else_entries (rec_cfg_to_ir : CfgVtx → Res Form) :
    List (CfgCondEntry CfgVtx) → Res (List (CondNoElseEntry FormElement))
  | [] => Except.ok []
  | x :: rest =>
      (rec_cfg_to_ir x.condition).bind fun condition =>
      (rec_cfg_to_ir x.body).bind fun body =>
      (cond_no_else_entries rec_cfg_to_ir rest).bind fun r =>
      Except.ok ({ condition := condition, body := body, cleaned := false,
                   false_destination := none, original_condition_branch := none } :: r)

/-- The loop over `svtx->entries` of `cfg_to_ir` for a `ShortCircuit` (lines
1119-1123). -/
def short_circuit_entries (rec_cfg_to_ir : CfgVtx → Res Form) :
    List CfgVtx → Res (List (ShortCircuitEntry FormElement))
  | [] => Except.ok []
  | x :: rest =>
      (rec_cfg_to_ir x).bind fun condition =>
      (short_circuit_entries rec_cfg_to_ir rest).bind fun r =>
      Except.ok ({ condition := condition } :: r)

/-- `merge_cond_else_with_sc_cond(pool, f, cwe, else_ir)` (lines 942-978) on
the entries of the vertex `cwe`; `none` is the null pointer. -/
def merge_cond_else_with_sc_cond (invert : ConditionKind → ConditionKind)
    (rec_cfg_to_ir : CfgVtx → Res Form) (cwe_entries : List (CfgCondEntry CfgVtx))
    (else_ir : Form) : Res (Option Form) :=
  if else_ir.length != 2 then Except.ok none
  else
    (vector_at else_ir 0).bind fun elt0 =>
    (vector_at else_ir 1).bind fun elt1 =>
    match as_short_circuit elt0, as_cond_no_else elt1 with
    | some _, some second =>
        (cond_no_else_entries rec_cfg_to_ir cwe_entries).bind fun entries =>
        (match second.entries.head? with
         | some e => Except.ok e
         | none => Except.error Err.undefined).bind fun front =>
        let first_condition : Form := [elt0] ++ front.condition
        let second_entries := { front with condition := first_condition } :: second.entries.tail
        let result : Form :=
          [FormElement.CondNoElse (CondNoElseElement_new (entries ++ second_entries))]
        (clean_up_cond_no_else invert result 0).bind fun result1 =>
        Except.ok (some result1)
    | _, _ => Except.ok none

/-- Two calls that the C++ writes as arguments of one constructor call:
`first` is the argument written first.  The language leaves the order in which
the two are evaluated open; `right_to_left` is the choice of the compiler.  The
call that is evaluated first and fails is the one whose failure is seen. -/
def eval_two_args (right_to_left : Bool) (first second : Res Form) :
    Res (Form × Form) :=
  if right_to_left then
    second.bind fun b =>
    first.bind fun a =>
    Except.ok (a, b)
  else
    first.bind fun a =>
    second.bind fun b =>
    Except.ok (a, b)

/-- The body of `cfg_to_ir(pool, f, vtx)` (lines 1006-1155);
`rec_cfg_to_ir` stands for its recursive calls, which are all on children of
`vtx`.  For WhileLoop, UntilLoop, GotoEnd and Break the C++ evaluates two
recursive calls as arguments of one constructor call (lines 1028-1033 and
1141-1148); `args_right_to_left vtx` tells whether the compiler evaluates the
second of them first at `vtx`. -/
def cfg_to_ir_body (args_right_to_left : CfgVtx → Bool)
    (invert : ConditionKind → ConditionKind)
    (arg_count : SimpleExpressionKind → Nat) (func : Function)
    (atomic_ops : FunctionAtomicOps) (rec_cfg_to_ir : CfgVtx → Res Form)
    (vtx : CfgVtx) : Res Form :=
  match vtx with
  | CfgVtx.BlockVtx block_id => push_block_ops atomic_ops block_id []
  | CfgVtx.SequenceVtx seq =>
      insert_cfg_into_list atomic_ops rec_cfg_to_ir (CfgVtx.SequenceVtx seq) []
  | CfgVtx.WhileLoop condition body =>
      (eval_two_args (args_right_to_left (CfgVtx.WhileLoop condition body))
        (rec_cfg_to_ir condition) (rec_cfg_to_ir body)).bind fun cb =>
      Except.ok [FormElement.While cb.1 cb.2 false]
  | CfgVtx.UntilLoop condition body =>
      (eval_two_args (args_right_to_left (CfgVtx.UntilLoop condition body))
        (rec_cfg_to_ir condition) (rec_cfg_to_ir body)).bind fun cb =>
      (clean_up_until_loop invert (FormElement.Until cb.1 cb.2)).bind fun r =>
      Except.ok [r]
  | CfgVtx.UntilLoop_single block =>
      let empty : Form := [FormElement.Empty]
      (rec_cfg_to_ir block).bind fun c =>
      (clean_up_until_loop invert (FormElement.Until c empty)).bind fun r =>
      Except.ok [r]
  | CfgVtx.InfiniteLoopBlock block =>
      let condition : Form :=
        [FormElement.Condition { kind := ConditionKind.ALWAYS, srcs := [] }]
      (rec_cfg_to_ir block).bind fun b =>
      (clean_up_infinite_while_loop (FormElement.While condition b false)).bind fun r =>
      Except.ok [r]
  | CfgVtx.CondWithElse cwe_entries else_vtx =>
      (rec_cfg_to_ir else_vtx).bind fun else_ir =>
      (merge_cond_else_with_sc_cond invert rec_cfg_to_ir cwe_entries else_ir).bind
        fun fancy_compact_result =>
      match fancy_compact_result with
      | some r => Except.ok r
      | none =>
          (cond_with_else_entries rec_cfg_to_ir cwe_entries).bind fun entries =>
          (clean_up_cond_with_else invert
            (FormElement.CondWithElse entries else_ir)).bind fun r =>
          Except.ok [r]
  | CfgVtx.ShortCircuit sc_entries =>
      (try_sc_as_type_of rec_cfg_to_ir sc_entries).bind fun as_type_of =>
      match as_type_of with
      | some r => Except.ok r
      | none =>
          (try_sc_as_ash arg_count rec_cfg_to_ir sc_entries).bind fun as_ash =>
          match as_ash with
          | some r => Except.ok r
          | none =>
              (try_sc_as_abs rec_cfg_to_ir sc_entries).bind fun as_abs =>
              match as_abs with
              | some r => Except.ok r
              | none =>
                  if sc_entries.length == 1 then
                    Except.error (Err.runtime_error "Weird short circuit form.")
                  else
                    (short_circuit_entries rec_cfg_to_ir sc_entries).bind fun entries =>
                    (clean_up_sc invert func (ShortCircuitElement_new entries)).bind
                      fun r =>
                    Except.ok [FormElement.ShortCircuit r]
  | CfgVtx.CondNoElse cne_entries =>
      (cond_no_else_entries rec_cfg_to_ir cne_entries).bind fun entries =>
      clean_up_cond_no_else invert
        [FormElement.CondNoElse (CondNoElseElement_new entries)] 0
  | CfgVtx.GotoEnd body unreachable_block =>
      (eval_two_args (args_right_to_left (CfgVtx.GotoEnd body unreachable_block))
        (rec_cfg_to_ir body) (rec_cfg_to_ir unreachable_block)).bind fun bu =>
      (clean_up_return (FormElement.Return bu.1 bu.2)).bind fun r =>
      Except.ok [r]
  | CfgVtx.Break body unreachable_block =>
      (eval_two_args (args_right_to_left (CfgVtx.Break body unreachable_block))
        (rec_cfg_to_ir body) (rec_cfg_to_ir unreachable_block)).bind fun bu =>
      (clean_up_break (FormElement.Break bu.1 bu.2)).bind fun r =>
      Except.ok [r]
  | CfgVtx.Other _ =>
      Except.error (Err.runtime_error "not yet implemented IR conversion.")

/-- `cfg_to_ir(pool, f, vtx)` with a recursion budget: each level of calls of
`cfg_to_ir` on children uses one unit. -/
def cfg_to_ir_fuel (args_right_to_left : CfgVtx → Bool)
    (invert : ConditionKind → ConditionKind)
    (arg_count : SimpleExpressionKind → Nat) (func : Function)
    (atomic_ops : FunctionAtomicOps) : Nat → CfgVtx → Res Form
  | 0, _ => Except.error Err.out_of_fuel
  | fuel + 1, vtx =>
      cfg_to_ir_body args_right_to_left invert arg_count func atomic_ops
        (cfg_to_ir_fuel args_right_to_left invert arg_count func atomic_ops fuel) vtx

/-- `cfg_to_ir(pool, f, vtx)`: the recursion is run with a budget of one unit
per vertex of the graph under `vtx`.  Each recursive call is on a child;
`cfg_to_ir_fuel_stable` shows that every larger budget gives the same result
and `cfg_to_ir_eq` that the function is its body applied to itself. -/
def cfg_to_ir (args_right_to_left : CfgVtx → Bool)
    (invert : ConditionKind → ConditionKind)
    (arg_count : SimpleExpressionKind → Nat) (func : Function)
    (atomic_ops : FunctionAtomicOps) (vtx : CfgVtx) : Res Form :=
  cfg_to_ir_fuel args_right_to_left invert arg_count func atomic_ops vtx.size vtx

/-- Modelled from the spec: the parts of `Function` that `build_initial_forms`
reads and writes: the gate `cfg->is_fully_resolved()`, the root vertex
`cfg->get_single_top_level()`, liveness, the atomic ops and `ir2.top_form`
(`none` when unset). -/
structure FunctionState where
  cfg_is_fully_resolved : Bool
  cfg_single_top_level : CfgVtx
  ir2 : Function
  atomic_ops : FunctionAtomicOps
  top_form : Option Form

/-- The function that `build_initial_forms` gives to `result->apply` (lines
1213-1218): an element that is a `CondNoElseElement` goes through
`clean_up_cond_no_else_final`; every other element is left as it is. -/
def apply_clean_up_cond_no_else_final (func : Function) (form : FormElement) :
    Res FormElement :=
  match as_cond_no_else form with
  | some as_cne =>
      (clean_up_cond_no_else_final func as_cne).bind fun cne1 =>
      Except.ok (FormElement.CondNoElse cne1)
  | none => Except.ok form

/-- The body of the `try` block of `build_initial_forms` (lines 1206-1219)
up to the assignment of `top_form`: the form `result` after the two passes.
The visitors `Form::apply_form` and `Form::apply`, which are not among the
sources, are the parameters `apply_form` and `apply`: they are given what is
run on every form, respectively on every element, of the tree. -/
def build_initial_forms_try (args_right_to_left : CfgVtx → Bool)
    (invert : ConditionKind → ConditionKind)
    (arg_count : SimpleExpressionKind → Nat)
    (apply_form : (Form → Res Form) → Form → Res Form)
    (apply : (FormElement → Res FormElement) → Form → Res Form)
    (function : FunctionState) : Res Form :=
  (insert_cfg_into_list function.atomic_ops
    (cfg_to_ir args_right_to_left invert arg_count function.ir2 function.atomic_ops)
    function.cfg_single_top_level []).bind fun top_level_elts =>
  let result : Form := top_level_elts
  (apply_form clean_up_while_loops result).bind fun result1 =>
  (apply (apply_clean_up_cond_no_else_final function.ir2) result1).bind fun result2 =>
  Except.ok result2

/-- `build_initial_forms(function)` (lines 1199-1226): the function after the
call.  A thrown `std::runtime_error` is caught; a failed assertion or another
exception is not. -/
def build_initial_forms (args_right_to_left : CfgVtx → Bool)
    (invert : ConditionKind → ConditionKind)
    (arg_count : SimpleExpressionKind → Nat)
    (apply_form : (Form → Res Form) → Form → Res Form)
    (apply : (FormElement → Res FormElement) → Form → Res Form)
    (function : FunctionState) : Res FunctionState :=
  if !function.cfg_is_fully_resolved then Except.ok function
  else
    match build_initial_forms_try args_right_to_left invert arg_count apply_form apply function with
    | Except.ok result => Except.ok { function with top_form := some result }
    | Except.error (Err.runtime_error _) => Except.ok function
    | Except.error err => Except.error err

/-! ## Predicates of the specification -/

/-- The entry `e1` is the entry `e` with the branch at the end of its
condition replaced by `replace` of the branch condition: `e` ends in a branch
`b` found in slot `s`, which held `b`; `e1` is `e` after the assignment to
that slot, which now holds the replacement. -/
def BranchReplaced (replace : IR2_Condition → FormElement)
    (e e1 : ShortCircuitEntry FormElement) : Prop :=
  ∃ b s, get_condition_branch e.condition = Except.ok (some b, s) ∧
    slot_read s e.condition = some (FormElement.Branch b) ∧
    e1.condition = slot_write s e.condition (replace b.condition) ∧
    slot_read s e1.condition = some (replace b.condition)

/-- The short circuits that `clean_up_sc` created by splitting, read off its
result `out` for an input of `n` entries: a result of fewer than `n` entries
was split, its last entry holds the created short circuit, and that one is
the result for the `n + 1 - out.entries.length` entries moved into it.  At
most `depth` levels are followed. -/
def created_by_splitting : Nat → Nat → ShortCircuitElement → List ShortCircuitElement
  | 0, _, _ => []
  | depth + 1, n, out =>
      if out.entries.length < n then
        match out.entries.getLast? with
        | some ⟨[FormElement.ShortCircuit nested]⟩ =>
            nested :: created_by_splitting depth (n + 1 - out.entries.length) nested
        | _ => []
      else []

/-- The branch found at the end of the condition of an entry, if any. -/
def branch_of (e : ShortCircuitEntry FormElement) : Option BranchOp :=
  match get_condition_branch e.condition with
  | Except.ok (some b, _) => some b
  | _ => none

/-- The register of the delay slot's variable 0, if it has one. -/
def dest_reg (b : BranchOp) : Option Register :=
  match b.branch_delay.var 0 with
  | Except.ok w => some w.reg
  | _ => none

/-- The delay-slot test `sets` returns true on the branch. -/
def sets_holds (sets : BranchOp → Res Bool) (b : BranchOp) : Bool :=
  match sets b with
  | Except.ok true => true
  | _ => false

/-- The entry ends in a branch on which `sets` holds and whose delay
destination register is `r`. -/
def entry_sets (sets : BranchOp → Res Bool) (r : Register)
    (e : ShortCircuitEntry FormElement) : Bool :=
  match branch_of e with
  | some b => sets_holds sets b && dest_reg b == some r
  | none => false

/-- The liveness verdict for register `r` at the op of branch `b`: `some true`
when `r` is not in the op's `written_and_unused` set, `none` when the op has
no liveness record. -/
def live_out (func : Function) (r : Register) (b : BranchOp) : Option Bool :=
  (func.reg_use_op.get? b.op_id).map fun info => !(info.written_and_unused.contains r)

/-- The entry ends in a branch whose liveness verdict for `r`, when liveness
is available, is `verdict`. -/
def entry_live (func : Function) (r : Register) (verdict : Bool)
    (e : ShortCircuitEntry FormElement) : Bool :=
  match branch_of e with
  | some b => !func.has_reg_use || live_out func r b == some verdict
  | none => false

/-- In the words of the specification: the branch of every entry but the last
satisfies `sets`, and the delay destination register of each of them is that
of entry 0. -/
def all_non_last_set (sets : BranchOp → Res Bool) (ir : ShortCircuitElement) : Bool :=
  match ir.entries.take (ir.entries.length - 1) with
  | [] => true
  | e0 :: rest =>
      match branch_of e0 with
      | some b0 =>
          match dest_reg b0 with
          | some r => sets_holds sets b0 && rest.all (entry_sets sets r)
          | none => false
      | none => false

/-- Liveness, when it is available, has a record for the op of the branch of
every entry but the last, and gives for all of them the same verdict on the
delay destination register of entry 0. -/
def liveness_agrees (func : Function) (ir : ShortCircuitElement) : Bool :=
  !func.has_reg_use ||
  match ir.entries.take (ir.entries.length - 1) with
  | [] => true
  | e0 :: rest =>
      match branch_of e0 with
      | some b0 =>
          match dest_reg b0 with
          | some r =>
              match live_out func r b0 with
              | some verdict => rest.all (entry_live func r verdict)
              | none => false
          | none => false
      | none => false

/-- The element was classified as it stands, as an AND or else as an OR. -/
def Classified (invert : ConditionKind → ConditionKind) (func : Function)
    (ir out : ShortCircuitElement) : Prop :=
  try_clean_up_sc_as_and invert func ir = Except.ok (true, out) ∨
  (try_clean_up_sc_as_and invert func ir = Except.ok (false, ir) ∧
    try_clean_up_sc_as_or func ir = Except.ok (true, out))

/-- The polarity of an entry: whether the delay slot of its trailing branch
sets a register to false (`some true`) or not (`some false`); `none` when the
entry has no trailing branch or the test stops. -/
def polarity (e : ShortCircuitEntry FormElement) : Option Bool :=
  match branch_of e with
  | some b =>
      match delay_slot_sets_false b with
      | Except.ok r => some r
      | Except.error _ => none
  | none => none

/-- The polarity of entry `i`. -/
def polarity_at (ir : ShortCircuitElement) (i : Nat) : Option Bool :=
  (ir.entries.get? i).bind polarity

/-- In the words of the specification: `k` is the smallest index in
`[1, n-2]` whose branch polarity differs from that of entry 0. -/
def is_first_different (ir : ShortCircuitElement) (k : Nat) : Prop :=
  1 ≤ k ∧ k + 2 ≤ ir.entries.length ∧ polarity_at ir k ≠ polarity_at ir 0 ∧
  ∀ i, 1 ≤ i → i < k → polarity_at ir i = polarity_at ir 0

/-- The entries at the leaves of the tree that `clean_up_sc` built from an
input of `n` entries, from left to right: a result of fewer than `n` entries
was split, and its last entry stands for the leaves of the short circuit
nested in it.  At most `depth` levels are followed. -/
def leaf_entries : Nat → Nat → ShortCircuitElement → List (ShortCircuitEntry FormElement)
  | 0, _, out => out.entries
  | depth + 1, n, out =>
      if out.entries.length < n then
        match out.entries.getLast? with
        | some ⟨[FormElement.ShortCircuit nested]⟩ =>
            out.entries.dropLast ++ leaf_entries depth (n + 1 - out.entries.length) nested
        | _ => out.entries
      else out.entries

/-- The entry `e1` is the original entry `e`, as it was or with its trailing
branch replaced by the condition of the branch (inverted or not). -/
def EntryCleaned (invert : ConditionKind → ConditionKind)
    (e e1 : ShortCircuitEntry FormElement) : Prop :=
  e1 = e ∨ BranchReplaced (IR2_Condition.get_as_inverted_form invert) e e1 ∨
    BranchReplaced IR2_Condition.get_as_form e e1

/-- What `clean_up_jump_to_end` does to a body on which it completes. -/
def JumpRemoved (body body1 : Form) : Prop :=
  ∃ jb js, get_condition_branch body = Except.ok (some jb, js) ∧
    jb.condition.kind = ConditionKind.ALWAYS ∧
    jb.branch_delay.kind = BranchDelayKind.NOP ∧
    ((1 < body.length ∧ body = body1 ++ [FormElement.Branch jb]) ∨
     (body.length = 1 ∧ body1 = slot_write js body FormElement.Empty))

/-- The body `(set! dst #f)`: a single `SetVar` whose source is the identity
expression of the symbol `#f`. -/
def set_false_body (dst : Variable) (is_sequence_point : Bool) : Form :=
  [FormElement.SetVar dst
    [FormElement.SimpleExpressionElement
      { kind := SimpleExpressionKind.IDENTITY, args := [SimpleAtom.sym_ptr "#f"] }]
    is_sequence_point]

/-- What `clean_up_cond_no_else` does to an uncleaned entry at index `idx` of
`n` entries outside the compare case. -/
def CneEntryCleaned (invert : ConditionKind → ConditionKind) (n idx : Nat)
    (e e1 : CondNoElseEntry FormElement) : Prop :=
  ∃ b s, get_condition_branch e.condition = Except.ok (some b, s) ∧
    b.condition.kind ≠ ConditionKind.ALWAYS ∧
    e1.cleaned = true ∧
    e1.original_condition_branch = some (FormElement.Branch b) ∧
    e1.condition = slot_write s e.condition (b.condition.get_as_inverted_form invert) ∧
    slot_read s e1.condition = some (b.condition.get_as_inverted_form invert) ∧
    ((b.branch_delay.kind = BranchDelayKind.SET_REG_FALSE ∧ e.false_destination = none ∧
        ∃ v, b.branch_delay.var 0 = Except.ok v ∧ e1.false_destination = some v) ∨
     (b.branch_delay.kind = BranchDelayKind.NOP ∧
        e1.false_destination = e.false_destination)) ∧
    (if idx + 1 = n then e1.body = e.body else JumpRemoved e.body e1.body)

/-- What `clean_up_cond_no_else` does to the entry at index `idx` of `n`
entries outside the compare case: a cleaned entry is skipped. -/
def CneEntryResult (invert : ConditionKind → ConditionKind) (n idx : Nat)
    (e e1 : CondNoElseEntry FormElement) : Prop :=
  if e.cleaned = true then e1 = e else CneEntryCleaned invert n idx e e1

/-- The single-entry case that `clean_up_cond_no_else` hands over to
`convert_cond_no_else_to_compare`: exactly one entry, not cleaned, whose
condition ends in a branch with delay `SET_REG_TRUE`. -/
def is_compare_case (cne : CondNoElseElement) : Bool :=
  match cne.entries with
  | [e] =>
      !e.cleaned &&
      match get_condition_branch e.condition with
      | Except.ok (some b, _) => b.branch_delay.kind == BranchDelayKind.SET_REG_TRUE
      | _ => false
  | _ => false

/-- The branch is one that `clean_up_cond_no_else` rejects outside the compare
case: its condition is ALWAYS, or its delay is neither SET_REG_FALSE nor NOP. -/
def rejected_branch (b : BranchOp) : Prop :=
  b.condition.kind = ConditionKind.ALWAYS ∨
  (b.branch_delay.kind ≠ BranchDelayKind.SET_REG_FALSE ∧
    b.branch_delay.kind ≠ BranchDelayKind.NOP)

/-- The entry is one that `clean_up_cond_with_else` can clean: its condition
ends in a branch with a NOP delay (the branch that `get_condition_branch`
finds) and the last element of its body is an ALWAYS branch with a NOP
delay. -/
def cwe_entry_ready (e : CondWithElseEntry FormElement) : Prop :=
  ∃ b s jb, get_condition_branch e.condition = Except.ok (some b, s) ∧
    b.branch_delay.kind = BranchDelayKind.NOP ∧
    e.body.getLast? = some (FormElement.Branch jb) ∧
    jb.condition.kind = ConditionKind.ALWAYS ∧
    jb.branch_delay.kind = BranchDelayKind.NOP

/-- In the words of the specification: the body without its trailing jump, the
first `n - 1` elements of a body of `n > 1` elements and a single `Empty` for
a body that was the lone jump. -/
def body_without_jump (body : Form) : Form :=
  if 1 < body.length then body.take (body.length - 1) else [FormElement.Empty]

/-- What `clean_up_cond_with_else` does to an uncleaned entry. -/
def CweEntryCleaned (invert : ConditionKind → ConditionKind)
    (e e1 : CondWithElseEntry FormElement) : Prop :=
  ∃ b s, get_condition_branch e.condition = Except.ok (some b, s) ∧
    slot_read s e.condition = some (FormElement.Branch b) ∧
    e1.cleaned = true ∧
    e1.condition = slot_write s e.condition (b.condition.get_as_inverted_form invert) ∧
    slot_read s e1.condition = some (b.condition.get_as_inverted_form invert) ∧
    e1.body = body_without_jump e.body ∧ e1.body ≠ []

/-- What `clean_up_cond_with_else` does to an entry: a cleaned entry is
skipped. -/
def CweEntryResult (invert : ConditionKind → ConditionKind)
    (e e1 : CondWithElseEntry FormElement) : Prop :=
  if e.cleaned = true then e1 = e else CweEntryCleaned invert e e1

/-- The register of the first source of the branch condition is the register
of variable 1 of the delay slot. -/
def cond_src_is_delay_src (b : BranchOp) : Prop :=
  ∃ v w, b.condition.srcs.get? 0 = some (SimpleAtom.var v) ∧
    b.branch_delay.vars.get? 1 = some w ∧ v.reg = w.reg

/-- The first source of the branch condition and variable 1 of the delay slot
are both present and their registers differ. -/
def cond_src_differs_from_delay_src (b : BranchOp) : Prop :=
  ∃ v w, b.condition.srcs.get? 0 = some (SimpleAtom.var v) ∧
    b.branch_delay.vars.get? 1 = some w ∧ v.reg ≠ w.reg

/-- The write of the entry's false destination by its original condition
branch is dead: liveness has a record for the op of the branch, and the
register of the false destination is in its `written_and_unused` set. -/
def cne_entry_dead_write (func : Function) (e : CondNoElseEntry FormElement) : Prop :=
  ∃ b info fd, e.original_condition_branch = some (FormElement.Branch b) ∧
    func.reg_use_op.get? b.op_id = some info ∧
    e.false_destination = some fd ∧ fd.reg ∈ info.written_and_unused

/-- The conditions under which `clean_up_cond_no_else_final` completes: there
is an entry, every entry, the last included, carries a false destination, the
last entry has recorded its original condition branch and, when liveness is
available, it has a record for the op of that branch and the writes of all
entries but the last are dead. -/
def cne_final_ready (func : Function) (cne : CondNoElseElement) : Prop :=
  (∀ e ∈ cne.entries, ∃ fd, e.false_destination = some fd) ∧
  ∃ last b, cne.entries.getLast? = some last ∧
    last.original_condition_branch = some (FormElement.Branch b) ∧
    (func.has_reg_use = true →
      (∃ info, func.reg_use_op.get? b.op_id = some info) ∧
      ∀ e ∈ cne.entries.dropLast, cne_entry_dead_write func e)

/-- The element is a `While` with `cleaned = false`. -/
def is_uncleaned_while : FormElement → Bool
  | FormElement.While _ _ false => true
  | _ => false

/-- In the words of the specification: the sequence without the elements at
the indices `i - 1` for the uncleaned Whiles at `i`, that is without every
element that stands immediately before an uncleaned While; the other
elements stay in their order. -/
def without_intro_branches : Form → Form
  | [] => []
  | [e] => [e]
  | e :: w :: rest =>
      if is_uncleaned_while w then without_intro_branches (w :: rest)
      else e :: without_intro_branches (w :: rest)

/-- What `clean_up_while_loops` does to an element that it keeps: in an
uncleaned While the slot that held the condition branch holds the condition
of the branch as a form, any other element is as it was. -/
def WhileCondReplaced (e e1 : FormElement) : Prop :=
  match e with
  | FormElement.While condition body false =>
      ∃ b s, get_condition_branch condition = Except.ok (some b, s) ∧
        slot_read s condition = some (FormElement.Branch b) ∧
        e1 = FormElement.While (slot_write s condition b.condition.get_as_form) body false ∧
        slot_read s (slot_write s condition b.condition.get_as_form) =
          some b.condition.get_as_form
  | _ => e1 = e

/-- The element at index `i` of the sequence sits at an index `i >= 1`
immediately after an ALWAYS branch with a NOP delay. -/
def while_intro_ok (sequence : Form) (i : Nat) : Prop :=
  1 ≤ i ∧ ∃ pb, sequence.get? (i - 1) = some (FormElement.Branch pb) ∧
    pb.condition.kind = ConditionKind.ALWAYS ∧
    pb.branch_delay.kind = BranchDelayKind.NOP

/-- The condition form ends in a branch with a NOP delay. -/
def while_cond_ok (condition : Form) : Prop :=
  ∃ b s, get_condition_branch condition = Except.ok (some b, s) ∧
    b.branch_delay.kind = BranchDelayKind.NOP

/-- The element after `clean_up_while_loops` has visited it: an uncleaned
While whose condition ends in a branch has the slot of that branch assigned
the condition of the branch as a form, any other element is as it was. -/
def while_with_condition : FormElement → FormElement
  | FormElement.While condition body false =>
      match get_condition_branch condition with
      | Except.ok (some b, s) =>
          FormElement.While (slot_write s condition b.condition.get_as_form) body false
      | _ => FormElement.While condition body false
  | e => e

/-- The indices that `clean_up_while_loops` collects in `to_remove` for a
sequence whose first element has index `i`: the index of every element that
stands immediately before an uncleaned While. -/
def intro_indices : Nat → Form → List Nat
  | _, [] => []
  | _, [_] => []
  | i, _ :: w :: rest =>
      if is_uncleaned_while w then i :: intro_indices (i + 1) (w :: rest)
      else intro_indices (i + 1) (w :: rest)

/-- Every uncleaned While of the sequence `suf`, which follows the element
`q`, stands immediately after an ALWAYS branch with a NOP delay and has a
condition that ends in a branch with a NOP delay. -/
def intro_branches_ok : FormElement → Form → Prop
  | _, [] => True
  | q, w :: rest =>
      (is_uncleaned_while w = true →
        (∃ pb, q = FormElement.Branch pb ∧ pb.condition.kind = ConditionKind.ALWAYS ∧
          pb.branch_delay.kind = BranchDelayKind.NOP) ∧
        ∃ c body, w = FormElement.While c body false ∧ while_cond_ok c) ∧
      intro_branches_ok w rest

/-- In the words of the specification: the branch is the branch of the `abs`
idiom, a likely branch with condition LESS_THAN_ZERO_SIGNED on the variable
`s` whose delay NEGATE has the variable 0 `d` and a variable 1 in the
register of `s`. -/
def is_abs_branch (branch : BranchOp) (d s : Variable) : Prop :=
  branch.likely = true ∧
  branch.condition.kind = ConditionKind.LESS_THAN_ZERO_SIGNED ∧
  branch.branch_delay.kind = BranchDelayKind.NEGATE ∧
  branch.condition.srcs.get? 0 = some (SimpleAtom.var s) ∧
  branch.branch_delay.vars.get? 0 = some d ∧
  ∃ w, branch.branch_delay.vars.get? 1 = some w ∧ s.reg = w.reg

/-- One of the three checks of `try_sc_as_abs` on the branch fails. -/
def abs_checks_fail (branch : BranchOp) : Prop :=
  branch.likely = false ∨
  branch.condition.kind ≠ ConditionKind.LESS_THAN_ZERO_SIGNED ∨
  branch.branch_delay.kind ≠ BranchDelayKind.NEGATE

/-- In the words of the specification: the element is the negation of the
shift amount, a `SetVar` of `dst` whose source is the single expression NEG of
a variable in the register `amount_reg`. -/
def is_neg_set (e : FormElement) (dst : Variable) (amount_reg : Register) : Prop :=
  ∃ expr sp v, e = FormElement.SetVar dst [FormElement.SimpleExpressionElement expr] sp ∧
    expr.kind = SimpleExpressionKind.NEG ∧
    expr.args.get? 0 = some (SimpleAtom.var v) ∧ v.reg = amount_reg

/-- In the words of the specification: the element is the right shift of the
value by the negated amount into the result register, a `SetVar` of a
variable in `result_reg` whose source is the single expression
RIGHT_SHIFT_ARITH (when `is_arith`) or RIGHT_SHIFT_LOGIC (otherwise) of the
atom `value`, a variable in `value_reg`, and of a variable in `amount_reg`. -/
def is_right_shift_set (arg_count : SimpleExpressionKind → Nat) (e : FormElement)
    (is_arith : Bool) (result_reg value_reg amount_reg : Register) (value : SimpleAtom) :
    Prop :=
  ∃ dst expr sp v0 v1,
    e = FormElement.SetVar dst [FormElement.SimpleExpressionElement expr] sp ∧
    dst.reg = result_reg ∧
    expr.kind = (if is_arith then SimpleExpressionKind.RIGHT_SHIFT_ARITH
      else SimpleExpressionKind.RIGHT_SHIFT_LOGIC) ∧
    arg_count expr.kind = 2 ∧
    expr.args.get? 0 = some (SimpleAtom.var v0) ∧ value = SimpleAtom.var v0 ∧
    v0.reg = value_reg ∧
    expr.args.get? 1 = some (SimpleAtom.var v1) ∧ v1.reg = amount_reg

/-- In the words of the specification: the branch is the branch of the `ash`
idiom, a likely branch with condition GEQ_ZERO_SIGNED on the variable `sa`
whose delay DSLLV has the variables `result`, `value_in` and a variable 2 in
the register of `sa`. -/
def is_ash_branch (branch : BranchOp) (sa result value_in : Variable) : Prop :=
  branch.likely = true ∧
  branch.condition.kind = ConditionKind.GEQ_ZERO_SIGNED ∧
  branch.branch_delay.kind = BranchDelayKind.DSLLV ∧
  branch.condition.srcs.get? 0 = some (SimpleAtom.var sa) ∧
  branch.branch_delay.vars.get? 0 = some result ∧
  branch.branch_delay.vars.get? 1 = some value_in ∧
  ∃ sa2, branch.branch_delay.vars.get? 2 = some sa2 ∧ sa.reg = sa2.reg

/-- In the words of the specification: `r` is the first entry's form with its
trailing branch replaced by `SetVar(result, Ash(shift, value, clobber,
is_arith))`: the vertex has two entries, the second a block of exactly two
elements (the NEG of the shift-amount register, then the right shift of the
value register by the negated amount into the result register), the branch is
that of the `ash` idiom, and the clobber variable, the destination of the
negation, is present exactly when its register differs from the result
register. -/
def AshRecognised (arg_count : SimpleExpressionKind → Nat)
    (rec_cfg_to_ir : CfgVtx → Res Form) (entries : List CfgVtx) (r : Form) : Prop :=
  ∃ b0 block_id1 pre branch sa result value_in dsubu dsrav clobber value is_arith,
    entries = [b0, CfgVtx.BlockVtx block_id1] ∧
    rec_cfg_to_ir b0 = Except.ok (pre ++ [FormElement.Branch branch]) ∧
    rec_cfg_to_ir (CfgVtx.BlockVtx block_id1) = Except.ok [dsubu, dsrav] ∧
    is_ash_branch branch sa result value_in ∧
    is_neg_set dsubu clobber sa.reg ∧
    is_right_shift_set arg_count dsrav is_arith result.reg value_in.reg clobber.reg
      value ∧
    r = pre ++ [FormElement.SetVar result
      [FormElement.Ash [FormElement.SimpleAtomElement (SimpleAtom.var sa)]
        [FormElement.SimpleAtomElement value]
        (if clobber.reg ≠ result.reg then some clobber else none) is_arith] true]

/-- In the words of the specification: the element is `(set! temp (shl src
61))`, a `SetVar` of `temp` whose source is the single expression LEFT_SHIFT
of the variable `src` and the integer 61. -/
def is_type_of_shift (e : FormElement) (temp src : Variable) : Prop :=
  ∃ shift sp, e = FormElement.SetVar temp [FormElement.SimpleExpressionElement shift] sp ∧
    shift.kind = SimpleExpressionKind.LEFT_SHIFT ∧
    shift.args.get? 0 = some (SimpleAtom.var src) ∧
    shift.args.get? 1 = some (SimpleAtom.int 61)

/-- In the words of the specification: the element is the else case of the
`type-of` idiom, a `SetVar` of `dst` whose source is the single unsigned
4-byte load at the location ADD of a variable in `src_reg` and the integer
-4. -/
def is_type_of_load (e : FormElement) (dst : Variable) (src_reg : Register) : Prop :=
  ∃ load_loc sp v,
    e = FormElement.SetVar dst
      [FormElement.LoadSource [FormElement.SimpleExpressionElement load_loc] 4
        LoadKind.UNSIGNED] sp ∧
    load_loc.kind = SimpleExpressionKind.ADD ∧
    load_loc.args.get? 0 = some (SimpleAtom.var v) ∧ v.reg = src_reg ∧
    load_loc.args.get? 1 = some (SimpleAtom.int (-4))

/-- In the words of the specification: the two branches of the `type-of`
idiom: the first is likely, with condition ZERO on the variable `t` and
delay SET_BINTEGER, the second is likely, with condition
GREATER_THAN_ZERO_SIGNED and delay SET_PAIR, and variable 0 of both delays is
in the register `dst_reg`. -/
def is_type_of_branches (first_branch second_branch : BranchOp) (t : Variable)
    (dst_reg : Register) : Prop :=
  first_branch.likely = true ∧
  first_branch.condition.kind = ConditionKind.ZERO ∧
  first_branch.branch_delay.kind = BranchDelayKind.SET_BINTEGER ∧
  first_branch.condition.srcs.get? 0 = some (SimpleAtom.var t) ∧
  (∃ d, first_branch.branch_delay.vars.get? 0 = some d ∧ d.reg = dst_reg) ∧
  second_branch.likely = true ∧
  second_branch.condition.kind = ConditionKind.GREATER_THAN_ZERO_SIGNED ∧
  second_branch.branch_delay.kind = BranchDelayKind.SET_PAIR ∧
  ∃ d2, second_branch.branch_delay.vars.get? 0 = some d2 ∧ d2.reg = dst_reg

/-- In the words of the specification: `r` is the leading form `lead` with
its last two elements (the `SetVar` of a left shift by 61 and the branch)
removed and one `SetVar(dst, TypeOf(src, clobber))` with
`is_sequence_point = true` appended; `src` is the first argument of the shift,
`dst` the destination of the load of the else case, and the clobber variable,
the variable `t` of the first branch (in the register of the temporary `temp`
of the shift), is present exactly when that register differs from the register
of `dst`. -/
def TypeOfRecognised (rec_cfg_to_ir : CfgVtx → Res Form) (entries : List CfgVtx)
    (lead r : Form) : Prop :=
  ∃ b0 block_id1 block_id2 pre shift_elt first_branch second_branch else_elt temp src
      dst t,
    entries = [b0, CfgVtx.BlockVtx block_id1, CfgVtx.BlockVtx block_id2] ∧
    rec_cfg_to_ir b0 = Except.ok lead ∧
    lead = pre ++ [shift_elt, FormElement.Branch first_branch] ∧
    rec_cfg_to_ir (CfgVtx.BlockVtx block_id1) =
      Except.ok [FormElement.Branch second_branch] ∧
    rec_cfg_to_ir (CfgVtx.BlockVtx block_id2) = Except.ok [else_elt] ∧
    is_type_of_shift shift_elt temp src ∧
    is_type_of_branches first_branch second_branch t dst.reg ∧
    t.reg = temp.reg ∧
    is_type_of_load else_elt dst src.reg ∧
    r = pre ++ [FormElement.SetVar dst
      [FormElement.TypeOf [FormElement.SimpleAtomElement (SimpleAtom.var src)]
        (if temp.reg ≠ dst.reg then some t else none)] true]

/-- In the words of the specification: the nested entries after the merge:
the condition of the first one is the leading element `elt0` followed by the
elements of its former condition, the entries after it are those of the nested
cond. -/
def merged_nested_entries (elt0 : FormElement) (front : CondNoElseEntry FormElement)
    (second : CondNoElseElement) : List (CondNoElseEntry FormElement) :=
  { front with condition := elt0 :: front.condition } :: second.entries.tail

/-- In the words of the specification: `out` is the merged cond of `c`
translated entries and the nested cond: it has `c` entries and those of the
nested cond; every entry is what `clean_up_cond_no_else` makes of the entry of
`translated` or of `merged_nested_entries` at its index, and when the nested
entries are cleaned, as the translator leaves them, the entries from `c` on
are `merged_nested_entries` unchanged. -/
def MergedCond (invert : ConditionKind → ConditionKind) (c : Nat)
    (translated : List (CondNoElseEntry FormElement)) (elt0 : FormElement)
    (front : CondNoElseEntry FormElement) (second out : CondNoElseElement) : Prop :=
  out.entries.length = c + second.entries.length ∧
  (∀ j e, (translated ++ merged_nested_entries elt0 front second).get? j = some e →
    ∃ e1, out.entries.get? j = some e1 ∧
      CneEntryResult invert (c + second.entries.length) j e e1) ∧
  ((∀ e ∈ second.entries, e.cleaned = true) →
    out.entries.drop c = merged_nested_entries elt0 front second)

/-- In the words of the specification: the forms of the atomic ops with
indices `first_op .. end_op - 1` of the block, in order. -/
def block_op_forms (atomic_ops : FunctionAtomicOps) (block_id : Nat) : Form :=
  match atomic_ops.block_id_to_first_atomic_op.get? block_id,
      atomic_ops.block_id_to_end_atomic_op.get? block_id with
  | some first_op, some end_op => (atomic_ops.ops.take end_op).drop first_op
  | _, _ => []

/-- The block has its two entries in the tables of the function and its ops
exist: `end_op` is at most the number of ops. -/
def block_in_range (atomic_ops : FunctionAtomicOps) (block_id : Nat) : Bool :=
  match atomic_ops.block_id_to_first_atomic_op.get? block_id,
      atomic_ops.block_id_to_end_atomic_op.get? block_id with
  | some _, some end_op => decide (end_op ≤ atomic_ops.ops.length)
  | _, _ => false

mutual
/-- In the words of the specification: the vertex is a block of the function,
or a sequence whose descendants are blocks and sequences. -/
def only_blocks (atomic_ops : FunctionAtomicOps) : CfgVtx → Bool
  | CfgVtx.BlockVtx block_id => block_in_range atomic_ops block_id
  | CfgVtx.SequenceVtx seq => only_blocks_list atomic_ops seq
  | _ => false
/-- Every vertex of the list is made of blocks and sequences. -/
def only_blocks_list (atomic_ops : FunctionAtomicOps) : List CfgVtx → Bool
  | [] => true
  | x :: rest => only_blocks atomic_ops x && only_blocks_list atomic_ops rest
end

mutual
/-- In the words of the specification: the left-to-right concatenation of the
op forms of the blocks under a vertex made of blocks and sequences. -/
def flat_op_forms (atomic_ops : FunctionAtomicOps) : CfgVtx → Form
  | CfgVtx.BlockVtx block_id => block_op_forms atomic_ops block_id
  | CfgVtx.SequenceVtx seq => flat_op_forms_list atomic_ops seq
  | _ => []
/-- The concatenation of `flat_op_forms` over a list of vertices. -/
def flat_op_forms_list (atomic_ops : FunctionAtomicOps) : List CfgVtx → Form
  | [] => []
  | x :: rest => flat_op_forms atomic_ops x ++ flat_op_forms_list atomic_ops rest
end

/-- In the words of the specification: the result is not the failure with the
recoverable error `msg`, a thrown `std::runtime_error` with that message. -/
def never_raises {α : Type} (msg : String) (x : Res α) : Prop :=
  x ≠ Except.error (Err.runtime_error msg)

/-- In the words of the specification: liveness is available and a non-last
entry after the first gives a liveness verdict for the result register `r`
that differs from the verdict of the first entry; `e` is the first such entry,
the entries `mid` between the two share the verdict of the first. -/
def liveness_disagrees (func : Function) (ir : ShortCircuitElement) : Prop :=
  func.has_reg_use = true ∧
  ∃ e0 mid e tail b0 r verdict b,
    ir.entries.take (ir.entries.length - 1) = e0 :: (mid ++ e :: tail) ∧
    branch_of e0 = some b0 ∧ dest_reg b0 = some r ∧
    live_out func r b0 = some verdict ∧
    mid.all (entry_live func r verdict) = true ∧
    branch_of e = some b ∧ live_out func r b = some (!verdict)

/-- In the words of the specification: the body of `clean_up_sc` with the two
recognisers in the other order, OR before AND. -/
def clean_up_sc_body_or_first (invert : ConditionKind → ConditionKind) (func : Function)
    (rec_clean_up : ShortCircuitElement → Res ShortCircuitElement)
    (ir : ShortCircuitElement) : Res ShortCircuitElement :=
  (assert_that (ir.entries.length > 1)).bind fun _ =>
  (try_clean_up_sc_as_or func ir).bind fun r1 =>
  if r1.1 then Except.ok r1.2
  else
    (try_clean_up_sc_as_and invert func r1.2).bind fun r2 =>
    if r2.1 then Except.ok r2.2
    else
      (try_splitting_nested_sc rec_clean_up r2.2).bind fun r3 =>
      if r3.1 then Except.ok r3.2 else Except.error Err.assertion

/-- In the words of the specification: `clean_up_sc` with OR tried before AND,
at every level of the recursion, with a recursion budget. -/
def clean_up_sc_or_first_fuel (invert : ConditionKind → ConditionKind) (func : Function) :
    Nat → ShortCircuitElement → Res ShortCircuitElement
  | 0, _ => Except.error Err.out_of_fuel
  | fuel + 1, ir =>
      clean_up_sc_body_or_first invert func
        (clean_up_sc_or_first_fuel invert func fuel) ir

/-- In the words of the specification: `clean_up_sc` with OR tried before
AND, with the budget of `clean_up_sc`. -/
def clean_up_sc_or_first (invert : ConditionKind → ConditionKind) (func : Function)
    (ir : ShortCircuitElement) : Res ShortCircuitElement :=
  clean_up_sc_or_first_fuel invert func (ir.entries.length + 1) ir

/-- In the words of the specification: the call terminates: its result is not
the exhaustion of the recursion budget. -/
def in_budget {α : Type} (x : Res α) : Prop :=
  x ≠ Except.error Err.out_of_fuel

/-! ## Examples -/

/-- The register `v0` as a variable. -/
def ex_v0 : Variable := ⟨2, 0⟩

/-- The register `a0` as a variable. -/
def ex_a0 : Variable := ⟨4, 0⟩

/-- A likely branch on `a0` whose delay slot has kind `d` and destination
`v0`. -/
def ex_branch (k : ConditionKind) (d : BranchDelayKind) (op_id : Nat) : BranchOp :=
  { condition := { kind := k, srcs := [SimpleAtom.var ex_a0] },
    branch_delay := { kind := d, vars := [ex_v0] }, likely := true, op_id := op_id }

/-- A table of opposite condition kinds for the examples. -/
def ex_invert : ConditionKind → ConditionKind
  | ConditionKind.ZERO => ConditionKind.OTHER 0
  | ConditionKind.OTHER 0 => ConditionKind.ZERO
  | ConditionKind.LESS_THAN_ZERO_SIGNED => ConditionKind.GEQ_ZERO_SIGNED
  | ConditionKind.GEQ_ZERO_SIGNED => ConditionKind.LESS_THAN_ZERO_SIGNED
  | ConditionKind.FALSE => ConditionKind.TRUTHY
  | ConditionKind.TRUTHY => ConditionKind.FALSE
  | k => k

/-- The short-circuit entry whose condition is the single branch
`ex_branch k d op_id`. -/
def ex_entry (k : ConditionKind) (d : BranchDelayKind) (op_id : Nat) :
    ShortCircuitEntry FormElement :=
  { condition := [FormElement.Branch (ex_branch k d op_id)] }

/-- A function without liveness. -/
def ex_func : Function := { has_reg_use := false, reg_use_op := [] }

/-- A function with liveness in which the value written to `v0` is used after
op 0 and unused after op 1. -/
def ex_func_live : Function :=
  { has_reg_use := true, reg_use_op := [⟨[]⟩, ⟨[2]⟩, ⟨[]⟩] }

/-- Three entries that all, the last included, end in a branch whose delay
sets `v0` to false. -/
def ex_sc_and3 : ShortCircuitElement :=
  ShortCircuitElement_new
    [ex_entry ConditionKind.ZERO BranchDelayKind.SET_REG_FALSE 0,
     ex_entry ConditionKind.ZERO BranchDelayKind.SET_REG_FALSE 1,
     ex_entry ConditionKind.ZERO BranchDelayKind.SET_REG_FALSE 2]

/-- The result of `clean_up_sc` on `ex_sc_and3` without liveness. -/
def ex_sc_and3_out : ShortCircuitElement :=
  { kind := ShortCircuitKind.AND,
    entries :=
      [{ condition := [FormElement.Condition
          { kind := ConditionKind.OTHER 0, srcs := [SimpleAtom.var ex_a0] }] },
       { condition := [FormElement.Condition
          { kind := ConditionKind.OTHER 0, srcs := [SimpleAtom.var ex_a0] }] },
       ex_entry ConditionKind.ZERO BranchDelayKind.SET_REG_FALSE 2],
    final_result := ex_v0, used_as_value := false }

/-- Three entries that all end in a branch whose delay sets `v0` to true. -/
def ex_sc_or3 : ShortCircuitElement :=
  ShortCircuitElement_new
    [ex_entry ConditionKind.ZERO BranchDelayKind.SET_REG_TRUE 0,
     ex_entry ConditionKind.ZERO BranchDelayKind.SET_REG_TRUE 1,
     ex_entry ConditionKind.ZERO BranchDelayKind.SET_REG_TRUE 2]

/-- The entries of `(and x (or y z))`: `x` sets `v0` to false, `y` sets it to
true, `z` is the final value. -/
def ex_sc_and_or : ShortCircuitElement :=
  ShortCircuitElement_new
    [ex_entry ConditionKind.ZERO BranchDelayKind.SET_REG_FALSE 0,
     ex_entry ConditionKind.ZERO BranchDelayKind.SET_REG_TRUE 1,
     { condition := [FormElement.AtomicOp 9] }]

/-- The result of `clean_up_sc` on `ex_sc_and_or` without liveness. -/
def ex_sc_and_or_out : ShortCircuitElement :=
  { kind := ShortCircuitKind.AND,
    entries :=
      [{ condition := [FormElement.Condition
          { kind := ConditionKind.OTHER 0, srcs := [SimpleAtom.var ex_a0] }] },
       { condition := [FormElement.ShortCircuit
          { kind := ShortCircuitKind.OR,
            entries :=
              [{ condition := [FormElement.Condition
                  { kind := ConditionKind.ZERO, srcs := [SimpleAtom.var ex_a0] }] },
               { condition := [FormElement.AtomicOp 9] }],
            final_result := ex_v0, used_as_value := false }] }],
    final_result := ex_v0, used_as_value := false }

/-- The cond `(if (< a0 0) #t #f)`: one entry whose condition is the branch
`bltz a0` with delay SET_REG_TRUE `v0` and whose body sets `v0` to `#f`. -/
def ex_cne_compare : CondNoElseElement :=
  CondNoElseElement_new
    [{ condition := [FormElement.Branch
        (ex_branch ConditionKind.LESS_THAN_ZERO_SIGNED BranchDelayKind.SET_REG_TRUE 0)],
       body := set_false_body ex_v0 false, cleaned := false,
       false_destination := none, original_condition_branch := none }]

/-- As `ex_cne_compare`, with an op before the branch in the condition. -/
def ex_cne_compare_seq : CondNoElseElement :=
  CondNoElseElement_new
    [{ condition := [FormElement.AtomicOp 7, FormElement.Branch
        (ex_branch ConditionKind.LESS_THAN_ZERO_SIGNED BranchDelayKind.SET_REG_TRUE 0)],
       body := set_false_body ex_v0 false, cleaned := false,
       false_destination := none, original_condition_branch := none }]

/-- A cond of two entries: the first tests with delay SET_REG_FALSE `v0` and
its body ends in the jump to the end, the second tests with delay NOP. -/
def ex_cne_two : CondNoElseElement :=
  CondNoElseElement_new
    [{ condition := [FormElement.Branch
        (ex_branch ConditionKind.ZERO BranchDelayKind.SET_REG_FALSE 0)],
       body := [FormElement.AtomicOp 5, FormElement.Branch
        (ex_branch ConditionKind.ALWAYS BranchDelayKind.NOP 1)],
       cleaned := false, false_destination := none, original_condition_branch := none },
     { condition := [FormElement.Branch
        (ex_branch ConditionKind.ZERO BranchDelayKind.NOP 2)],
       body := [FormElement.AtomicOp 6],
       cleaned := false, false_destination := none, original_condition_branch := none }]

/-- The result of `clean_up_cond_no_else` on `ex_cne_two`. -/
def ex_cne_two_out : CondNoElseElement :=
  { entries :=
      [{ condition := [FormElement.Condition
          { kind := ConditionKind.OTHER 0, srcs := [SimpleAtom.var ex_a0] }],
         body := [FormElement.AtomicOp 5],
         cleaned := true, false_destination := some ex_v0,
         original_condition_branch := some (FormElement.Branch
          (ex_branch ConditionKind.ZERO BranchDelayKind.SET_REG_FALSE 0)) },
       { condition := [FormElement.Condition
          { kind := ConditionKind.OTHER 0, srcs := [SimpleAtom.var ex_a0] }],
         body := [FormElement.AtomicOp 6],
         cleaned := true, false_destination := none,
         original_condition_branch := some (FormElement.Branch
          (ex_branch ConditionKind.ZERO BranchDelayKind.NOP 2)) }],
    final_destination := 0, used_as_value := false }

/-- A cond of two entries whose first condition branch has delay
SET_REG_TRUE. -/
def ex_cne_true_two : CondNoElseElement :=
  CondNoElseElement_new
    [{ condition := [FormElement.Branch
        (ex_branch ConditionKind.ZERO BranchDelayKind.SET_REG_TRUE 0)],
       body := [FormElement.Branch (ex_branch ConditionKind.ALWAYS BranchDelayKind.NOP 1)],
       cleaned := false, false_destination := none, original_condition_branch := none },
     { condition := [FormElement.Branch
        (ex_branch ConditionKind.ZERO BranchDelayKind.NOP 2)],
       body := [FormElement.AtomicOp 6],
       cleaned := false, false_destination := none, original_condition_branch := none }]

/-- The unconditional jump with a NOP delay. -/
def ex_jump : FormElement :=
  FormElement.Branch (ex_branch ConditionKind.ALWAYS BranchDelayKind.NOP 7)

/-- Two uncleaned entries of a cond with else: the body of the first is an op
and the jump to the end, the body of the second is the lone jump. -/
def ex_cwe_entries : List (CondWithElseEntry FormElement) :=
  [{ condition := [FormElement.Branch (ex_branch ConditionKind.ZERO BranchDelayKind.NOP 0)],
     body := [FormElement.AtomicOp 5, ex_jump], cleaned := false },
   { condition := [FormElement.AtomicOp 4,
      FormElement.Branch (ex_branch ConditionKind.ZERO BranchDelayKind.NOP 1)],
     body := [ex_jump], cleaned := false }]

/-- A cond with else over `ex_cwe_entries`. -/
def ex_cwe : FormElement :=
  FormElement.CondWithElse ex_cwe_entries [FormElement.AtomicOp 8]

/-- The result of `clean_up_cond_with_else` on `ex_cwe`. -/
def ex_cwe_out : FormElement :=
  FormElement.CondWithElse
    [{ condition := [FormElement.Condition
        { kind := ConditionKind.OTHER 0, srcs := [SimpleAtom.var ex_a0] }],
       body := [FormElement.AtomicOp 5], cleaned := true },
     { condition := [FormElement.AtomicOp 4, FormElement.Condition
        { kind := ConditionKind.OTHER 0, srcs := [SimpleAtom.var ex_a0] }],
       body := [FormElement.Empty], cleaned := true }]
    [FormElement.AtomicOp 8]

/-- A cleaned cond of two entries that both record the false destination
`v0`; the original branches are the ops 1 and 0. -/
def ex_cne_cleaned : CondNoElseElement :=
  { entries :=
      [{ condition := [FormElement.Condition
          { kind := ConditionKind.OTHER 0, srcs := [SimpleAtom.var ex_a0] }],
         body := [FormElement.AtomicOp 5],
         cleaned := true, false_destination := some ex_v0,
         original_condition_branch := some (FormElement.Branch
          (ex_branch ConditionKind.ZERO BranchDelayKind.SET_REG_FALSE 1)) },
       { condition := [FormElement.Condition
          { kind := ConditionKind.OTHER 0, srcs := [SimpleAtom.var ex_a0] }],
         body := [FormElement.AtomicOp 6],
         cleaned := true, false_destination := some ex_v0,
         original_condition_branch := some (FormElement.Branch
          (ex_branch ConditionKind.ZERO BranchDelayKind.SET_REG_FALSE 0)) }],
    final_destination := 0, used_as_value := false }

/-- The element `ex_cne_cleaned` after `clean_up_cond_no_else_final` with the
liveness of `ex_func_live`. -/
def ex_cne_final_out : CondNoElseElement :=
  { ex_cne_cleaned with final_destination := 2, used_as_value := true }

/-- The form that `clean_up_cond_no_else` makes of the single element
`ex_cne_compare`: the comparison assigned to `v0`. -/
def ex_compare_out : Form :=
  [FormElement.SetVar ex_v0
    [FormElement.Condition
      { kind := ConditionKind.LESS_THAN_ZERO_SIGNED, srcs := [SimpleAtom.var ex_a0] }]
    true]

/-- An ordinary While as `cfg_to_ir` builds it from a WhileLoop vertex: the
condition ends in the branch of the test, `cleaned` is false. -/
def ex_while : FormElement :=
  FormElement.While
    [FormElement.AtomicOp 1,
     FormElement.Branch (ex_branch ConditionKind.ZERO BranchDelayKind.NOP 3)]
    [FormElement.AtomicOp 2] false

/-- The While `ex_while` after `clean_up_while_loops`. -/
def ex_while_out : FormElement :=
  FormElement.While
    [FormElement.AtomicOp 1,
     FormElement.Condition { kind := ConditionKind.ZERO, srcs := [SimpleAtom.var ex_a0] }]
    [FormElement.AtomicOp 2] false

/-- A sequence with two ordinary Whiles, each after its jump to the test. -/
def ex_while_seq : Form :=
  [FormElement.AtomicOp 0, ex_jump, ex_while, ex_jump, ex_while]

/-- The register `v1` as a variable. -/
def ex_v1 : Variable := ⟨3, 0⟩

/-- The register `a1` as a variable. -/
def ex_a1 : Variable := ⟨5, 0⟩

/-- The register `s5` as a variable. -/
def ex_s5 : Variable := ⟨21, 0⟩

/-- The argument counts of the expression kinds used by the examples. -/
def ex_arg_count : SimpleExpressionKind → Nat
  | SimpleExpressionKind.IDENTITY => 1
  | SimpleExpressionKind.NEG => 1
  | _ => 2

/-- The branch `bltzl v1` whose delay slot negates `v1` into `v0`. -/
def ex_abs_branch : BranchOp :=
  { condition := { kind := ConditionKind.LESS_THAN_ZERO_SIGNED, srcs := [SimpleAtom.var ex_v1] },
    branch_delay := { kind := BranchDelayKind.NEGATE, vars := [ex_v0, ex_v1] },
    likely := true, op_id := 1 }

/-- The branch `bgezl s5` whose delay slot is `dsllv a0, a0, s5`. -/
def ex_ash_branch : BranchOp :=
  { condition := { kind := ConditionKind.GEQ_ZERO_SIGNED, srcs := [SimpleAtom.var ex_s5] },
    branch_delay := { kind := BranchDelayKind.DSLLV, vars := [ex_a0, ex_a0, ex_s5] },
    likely := true, op_id := 2 }

/-- The op `dsubu a1, r0, s5`. -/
def ex_dsubu : FormElement :=
  FormElement.SetVar ex_a1
    [FormElement.SimpleExpressionElement
      { kind := SimpleExpressionKind.NEG, args := [SimpleAtom.var ex_s5] }] false

/-- The op `dsrav a0, a0, a1`. -/
def ex_dsrav : FormElement :=
  FormElement.SetVar ex_a0
    [FormElement.SimpleExpressionElement
      { kind := SimpleExpressionKind.RIGHT_SHIFT_ARITH,
        args := [SimpleAtom.var ex_a0, SimpleAtom.var ex_a1] }] false

/-- The op `dsll32 v1, a0, 29`, that is `(set! v1 (shl a0 61))`. -/
def ex_shl : FormElement :=
  FormElement.SetVar ex_v1
    [FormElement.SimpleExpressionElement
      { kind := SimpleExpressionKind.LEFT_SHIFT,
        args := [SimpleAtom.var ex_a0, SimpleAtom.int 61] }] false

/-- The branch `beql v1, r0` whose delay slot loads `binteger` into `v1`. -/
def ex_type_branch1 : BranchOp :=
  { condition := { kind := ConditionKind.ZERO, srcs := [SimpleAtom.var ex_v1] },
    branch_delay := { kind := BranchDelayKind.SET_BINTEGER, vars := [ex_v1] },
    likely := true, op_id := 7 }

/-- The branch `bgtzl v1` whose delay slot loads `pair` into `v1`. -/
def ex_type_branch2 : BranchOp :=
  { condition := { kind := ConditionKind.GREATER_THAN_ZERO_SIGNED,
                   srcs := [SimpleAtom.var ex_v1] },
    branch_delay := { kind := BranchDelayKind.SET_PAIR, vars := [ex_v1] },
    likely := true, op_id := 8 }

/-- The op `lwu v1, -4(a0)`. -/
def ex_lwu : FormElement :=
  FormElement.SetVar ex_v1
    [FormElement.LoadSource
      [FormElement.SimpleExpressionElement
        { kind := SimpleExpressionKind.ADD,
          args := [SimpleAtom.var ex_a0, SimpleAtom.int (-4)] }] 4 LoadKind.UNSIGNED] false

/-- Atomic ops of a function with twelve ops in nine blocks: block 0 is an op
and the `abs` branch, blocks 1 and 2 are the `ash` idiom, blocks 3, 4 and 5
the `type-of` idiom, block 6 is a single op, block 7 a conditional branch
with a NOP delay and block 8 the jump `ex_jump`. -/
def ex_atomic_ops : FunctionAtomicOps :=
  { block_id_to_first_atomic_op := [0, 2, 3, 5, 7, 8, 9, 10, 11],
    block_id_to_end_atomic_op := [2, 3, 5, 7, 8, 9, 10, 11, 12],
    ops := [FormElement.AtomicOp 0, FormElement.Branch ex_abs_branch,
            FormElement.Branch ex_ash_branch, ex_dsubu, ex_dsrav,
            ex_shl, FormElement.Branch ex_type_branch1,
            FormElement.Branch ex_type_branch2, ex_lwu, FormElement.AtomicOp 9,
            FormElement.Branch (ex_branch ConditionKind.ZERO BranchDelayKind.NOP 10),
            ex_jump] }

/-- The order in which the examples evaluate two calls that are arguments of
one constructor call: the second argument first, at every vertex. -/
def ex_right_to_left : CfgVtx → Bool :=
  fun _ => true

/-- The translator of the examples. -/
def ex_cfg_to_ir : CfgVtx → Res Form :=
  cfg_to_ir ex_right_to_left ex_invert ex_arg_count ex_func ex_atomic_ops

/-- The form that the `abs` idiom of block 0 becomes. -/
def ex_abs_out : Form :=
  [FormElement.AtomicOp 0,
   FormElement.SetVar ex_v0
     [FormElement.Abs [FormElement.SimpleAtomElement (SimpleAtom.var ex_v1)]] true]

/-- The form that the `ash` idiom of blocks 1 and 2 becomes. -/
def ex_ash_out : Form :=
  [FormElement.SetVar ex_a0
    [FormElement.Ash [FormElement.SimpleAtomElement (SimpleAtom.var ex_s5)]
      [FormElement.SimpleAtomElement (SimpleAtom.var ex_a0)] (some ex_a1) true] true]

/-- The form that the `type-of` idiom of blocks 3, 4 and 5 becomes. -/
def ex_type_of_out : Form :=
  [FormElement.SetVar ex_v1
    [FormElement.TypeOf [FormElement.SimpleAtomElement (SimpleAtom.var ex_a0)] none] true]

/-- The entries of a `CondWithElse` vertex with one entry: the condition is
block 7, the body block 8. -/
def ex_cwe_vtx_entries : List (CfgCondEntry CfgVtx) :=
  [{ condition := CfgVtx.BlockVtx 7, body := CfgVtx.BlockVtx 8 }]

/-- The translation of `ex_cwe_vtx_entries` into entries of a cond without
else. -/
def ex_translated : List (CondNoElseEntry FormElement) :=
  [{ condition := [FormElement.Branch (ex_branch ConditionKind.ZERO BranchDelayKind.NOP 10)],
     body := [ex_jump], cleaned := false, false_destination := none,
     original_condition_branch := none }]

/-- An else form of two elements: a short circuit, then a cleaned cond without
else. -/
def ex_else_ir : Form :=
  [FormElement.ShortCircuit ex_sc_and3_out, FormElement.CondNoElse ex_cne_cleaned]

/-- The form that `merge_cond_else_with_sc_cond` makes of
`ex_cwe_vtx_entries` and `ex_else_ir`. -/
def ex_merged : Form :=
  [FormElement.CondNoElse
    { entries :=
        [{ condition := [FormElement.Condition
            { kind := ConditionKind.OTHER 0, srcs := [SimpleAtom.var ex_a0] }],
           body := [FormElement.Empty], cleaned := true, false_destination := none,
           original_condition_branch := some (FormElement.Branch
            (ex_branch ConditionKind.ZERO BranchDelayKind.NOP 10)) },
         { condition := [FormElement.ShortCircuit ex_sc_and3_out,
            FormElement.Condition
              { kind := ConditionKind.OTHER 0, srcs := [SimpleAtom.var ex_a0] }],
           body := [FormElement.AtomicOp 5],
           cleaned := true, false_destination := some ex_v0,
           original_condition_branch := some (FormElement.Branch
            (ex_branch ConditionKind.ZERO BranchDelayKind.SET_REG_FALSE 1)) },
         { condition := [FormElement.Condition
            { kind := ConditionKind.OTHER 0, srcs := [SimpleAtom.var ex_a0] }],
           body := [FormElement.AtomicOp 6],
           cleaned := true, false_destination := some ex_v0,
           original_condition_branch := some (FormElement.Branch
            (ex_branch ConditionKind.ZERO BranchDelayKind.SET_REG_FALSE 0)) }],
      final_destination := 0, used_as_value := false }]

/-- A visitor for the examples that runs `f` on the form itself. -/
def ex_apply_form (f : Form → Res Form) (form : Form) : Res Form :=
  f form

/-- A visitor for the examples that runs `f` on the elements of the form, in
order. -/
def ex_apply (f : FormElement → Res FormElement) : Form → Res Form
  | [] => Except.ok []
  | e :: rest =>
      (f e).bind fun e1 =>
      (ex_apply f rest).bind fun r =>
      Except.ok (e1 :: r)

/-- A function whose graph is resolved to a vertex of a class that the
translator does not know. -/
def ex_function_unknown : FunctionState :=
  { cfg_is_fully_resolved := true, cfg_single_top_level := CfgVtx.Other 3,
    ir2 := ex_func, atomic_ops := ex_atomic_ops, top_form := none }

/-- A function whose graph is resolved to a sequence of block 6 and the `abs`
idiom of block 0. -/
def ex_function_abs : FunctionState :=
  { cfg_is_fully_resolved := true,
    cfg_single_top_level :=
      CfgVtx.SequenceVtx [CfgVtx.BlockVtx 6, CfgVtx.ShortCircuit [CfgVtx.BlockVtx 0]],
    ir2 := ex_func, atomic_ops := ex_atomic_ops, top_form := none }

/-- A function with liveness in which the value written to `v0` is used after
the ops 0 and 1. -/
def ex_func_used : Function :=
  { has_reg_use := true, reg_use_op := [⟨[]⟩, ⟨[]⟩, ⟨[2]⟩] }

/-- A `Return` wrapper whose dead code is the lone jump `ex_jump`. -/
def ex_return_wrapper : FormElement :=
  FormElement.Return [FormElement.AtomicOp 2] [ex_jump]

/-- A `Break` wrapper whose dead code is an op and the jump `ex_jump`. -/
def ex_break_wrapper : FormElement :=
  FormElement.Break [FormElement.AtomicOp 2] [FormElement.AtomicOp 3, ex_jump]

/-- The condition of an infinite loop. -/
def ex_always : Form :=
  [FormElement.Condition { kind := ConditionKind.ALWAYS, srcs := [] }]

/-- Atomic ops of a function with five ops in five blocks: block 0 is the jump
to the test of a loop, block 1 the body of the loop, block 2 its test, block 3
a branch whose delay sets `v0` to false and block 4 a single op. -/
def ex_atomic_ops_loop : FunctionAtomicOps :=
  { block_id_to_first_atomic_op := [0, 1, 2, 3, 4],
    block_id_to_end_atomic_op := [1, 2, 3, 4, 5],
    ops := [FormElement.Branch (ex_branch ConditionKind.ALWAYS BranchDelayKind.NOP 0),
            FormElement.AtomicOp 1,
            FormElement.Branch (ex_branch ConditionKind.ZERO BranchDelayKind.NOP 2),
            FormElement.Branch
              (ex_branch ConditionKind.ZERO BranchDelayKind.SET_REG_FALSE 3),
            FormElement.AtomicOp 4] }

/-- A function with liveness in which no op writes a value that is unused. -/
def ex_func_loop : Function :=
  { has_reg_use := true, reg_use_op := [⟨[]⟩, ⟨[]⟩, ⟨[]⟩, ⟨[]⟩, ⟨[]⟩] }

/-- A function over `ex_atomic_ops_loop` whose graph is resolved to the
sequence of the jump, of a while loop and of a cond without else. -/
def ex_function_loop : FunctionState :=
  { cfg_is_fully_resolved := true,
    cfg_single_top_level :=
      CfgVtx.SequenceVtx
        [CfgVtx.BlockVtx 0,
         CfgVtx.WhileLoop (CfgVtx.BlockVtx 2) (CfgVtx.BlockVtx 1),
         CfgVtx.CondNoElse [⟨CfgVtx.BlockVtx 3, CfgVtx.BlockVtx 4⟩]],
    ir2 := ex_func_loop, atomic_ops := ex_atomic_ops_loop, top_form := none }

/-- The cond without else of `ex_function_loop` as `cfg_to_ir` returns it. -/
def ex_loop_cne : CondNoElseElement :=
  { entries :=
      [{ condition := [FormElement.Condition
          { kind := ConditionKind.OTHER 0, srcs := [SimpleAtom.var ex_a0] }],
         body := [FormElement.AtomicOp 4],
         cleaned := true, false_destination := some ex_v0,
         original_condition_branch := some (FormElement.Branch
          (ex_branch ConditionKind.ZERO BranchDelayKind.SET_REG_FALSE 3)) }],
    final_destination := 0, used_as_value := false }

/-- The elements that the translation of `ex_function_loop` gives: the jump,
the ordinary While whose condition still is the branch of the test, and the
cond without else whose final destination is not set yet. -/
def ex_loop_elts : Form :=
  [FormElement.Branch (ex_branch ConditionKind.ALWAYS BranchDelayKind.NOP 0),
   FormElement.While
     [FormElement.Branch (ex_branch ConditionKind.ZERO BranchDelayKind.NOP 2)]
     [FormElement.AtomicOp 1] false,
   FormElement.CondNoElse ex_loop_cne]

/-- The form `ex_loop_elts` after `clean_up_while_loops`: the jump is removed
and the condition of the While is the test of the branch. -/
def ex_loop_result1 : Form :=
  [FormElement.While
     [FormElement.Condition
       { kind := ConditionKind.ZERO, srcs := [SimpleAtom.var ex_a0] }]
     [FormElement.AtomicOp 1] false,
   FormElement.CondNoElse ex_loop_cne]

/-- The form `ex_loop_result1` after `clean_up_cond_no_else_final` on its cond
without else: the final destination is the register of `v0` and the value is
used. -/
def ex_loop_result2 : Form :=
  [FormElement.While
     [FormElement.Condition
       { kind := ConditionKind.ZERO, srcs := [SimpleAtom.var ex_a0] }]
     [FormElement.AtomicOp 1] false,
   FormElement.CondNoElse
     { ex_loop_cne with final_destination := 2, used_as_value := true }]

/-- A function over `ex_atomic_ops_loop` whose graph is resolved to a while
loop that no jump precedes. -/
def ex_function_loop_first : FunctionState :=
  { cfg_is_fully_resolved := true,
    cfg_single_top_level := CfgVtx.WhileLoop (CfgVtx.BlockVtx 2) (CfgVtx.BlockVtx 1),
    ir2 := ex_func_loop, atomic_ops := ex_atomic_ops_loop, top_form := none }

/-- A function over `ex_atomic_ops_loop` whose graph is resolved to a cond
without else whose condition is block 2: the delay of its branch is a NOP, so
that no false destination is recorded. -/
def ex_function_loop_cond : FunctionState :=
  { cfg_is_fully_resolved := true,
    cfg_single_top_level := CfgVtx.CondNoElse [⟨CfgVtx.BlockVtx 2, CfgVtx.BlockVtx 4⟩],
    ir2 := ex_func_loop, atomic_ops := ex_atomic_ops_loop, top_form := none }

/-! ## Lemmas -/

theorem map_eq_ok {α β : Type} (x : Res α) (f : α → β) (b : β) :
    x.map f = Except.ok b ↔ ∃ a, x = Except.ok a ∧ f a = b := by
  cases x with
  | error e => simp [Except.map]
  | ok a => simp [Except.map]

theorem get_condition_branch_concat (pre : Form) (e : FormElement) :
    get_condition_branch (pre ++ [e]) = get_condition_branch_of_back e := by
  induction pre with
  | nil => simp [get_condition_branch]
  | cons x rest ih =>
    cases rest with
    | nil => simp [get_condition_branch]
    | cons y rest2 =>
      rw [← ih]
      simp [get_condition_branch]

theorem form_eq_concat_of_get_condition_branch {f : Form} {r : Option BranchOp × Slot}
    (h : get_condition_branch f = Except.ok r) :
    ∃ pre e, f = pre ++ [e] ∧ get_condition_branch_of_back e = Except.ok r := by
  rcases List.eq_nil_or_concat f with rfl | ⟨pre, e, hf⟩
  · simp [get_condition_branch] at h
  · rw [List.concat_eq_append] at hf
    subst hf
    exact ⟨pre, e, rfl, by rw [← get_condition_branch_concat pre e]; exact h⟩

theorem slot_read_depth_of_branch :
    ∀ (d : Nat) (f : Form) (b : BranchOp),
      get_condition_branch f = Except.ok (some b, ⟨d⟩) →
      slot_read_depth d f = some (FormElement.Branch b) := by
  intro d
  induction d with
  | zero =>
    intro f b h
    obtain ⟨pre, e, rfl, he⟩ := form_eq_concat_of_get_condition_branch h
    cases e <;> simp [get_condition_branch_of_back, map_eq_ok] at he
    case Branch op => simp [slot_read_depth, he]
  | succ d ih =>
    intro f b h
    obtain ⟨pre, e, rfl, he⟩ := form_eq_concat_of_get_condition_branch h
    cases e <;> simp [get_condition_branch_of_back, map_eq_ok] at he
    case Return rc dc =>
      obtain ⟨o, s, hdc, ho, hs⟩ := he
      subst ho
      have : s = ⟨d⟩ := by cases s; simp at hs; simp [hs]
      subst this
      simp [slot_read_depth, ih dc b hdc]
    case Break rc dc =>
      obtain ⟨o, s, hdc, ho, hs⟩ := he
      subst ho
      have : s = ⟨d⟩ := by cases s; simp at hs; simp [hs]
      subst this
      simp [slot_read_depth, ih dc b hdc]

theorem slot_read_of_branch {f : Form} {b : BranchOp} {s : Slot}
    (h : get_condition_branch f = Except.ok (some b, s)) :
    slot_read s f = some (FormElement.Branch b) :=
  slot_read_depth_of_branch s.depth f b h

theorem slot_read_depth_write :
    ∀ (d : Nat) (f : Form) (o : Option BranchOp) (x : FormElement),
      get_condition_branch f = Except.ok (o, ⟨d⟩) →
      slot_read_depth d (slot_write_depth d f x) = some x := by
  intro d
  induction d with
  | zero =>
    intro f o x _
    simp [slot_read_depth, slot_write_depth, set_back]
  | succ d ih =>
    intro f o x h
    obtain ⟨pre, e, rfl, he⟩ := form_eq_concat_of_get_condition_branch h
    cases e <;> simp [get_condition_branch_of_back, map_eq_ok] at he
    case Return rc dc =>
      obtain ⟨o1, s, hdc, ho, hs⟩ := he
      have : s = ⟨d⟩ := by cases s; simp at hs; simp [hs]
      subst this
      simp [slot_read_depth, slot_write_depth, set_back, ih dc o1 x hdc]
    case Break rc dc =>
      obtain ⟨o1, s, hdc, ho, hs⟩ := he
      have : s = ⟨d⟩ := by cases s; simp at hs; simp [hs]
      subst this
      simp [slot_read_depth, slot_write_depth, set_back, ih dc o1 x hdc]

theorem slot_read_write {f : Form} {o : Option BranchOp} {s : Slot} (x : FormElement)
    (h : get_condition_branch f = Except.ok (o, s)) :
    slot_read s (slot_write s f x) = some x :=
  slot_read_depth_write s.depth f o x h

theorem bind_eq_ok {α β : Type} (x : Res α) (f : α → Res β) (b : β) :
    x.bind f = Except.ok b ↔ ∃ a, x = Except.ok a ∧ f a = Except.ok b := by
  cases x with
  | error e => simp [Except.bind]
  | ok a => simp [Except.bind]

theorem assert_some_eq_ok {α : Type} (o : Option α) (a : α) :
    assert_some o = Except.ok a ↔ o = some a := by
  cases o <;> simp [assert_some]

theorem assert_that_eq_ok (c : Bool) (u : Unit) :
    assert_that c = Except.ok u ↔ c = true := by
  cases c <;> simp [assert_that]

theorem sc_replace_forall₂ (func : Function) (replace : IR2_Condition → FormElement)
    (ir_dest : Variable) (L : List (ShortCircuitEntry FormElement)) :
    ∀ (i : Nat) (live : Bool) (r : List (ShortCircuitEntry FormElement) × Bool),
      sc_replace func replace ir_dest i live L = Except.ok r →
      List.Forall₂ (BranchReplaced replace) L r.1 := by
  induction L with
  | nil =>
    intro i live r h
    simp [sc_replace] at h
    subst h
    exact List.Forall₂.nil
  | cons e rest ih =>
    intro i live r h
    simp only [sc_replace, bind_eq_ok, assert_some_eq_ok] at h
    obtain ⟨branch, hb, b, hb1, live1, _, r1, hr1, hr⟩ := h
    injection hr with hr
    subst hr
    refine List.Forall₂.cons ?_ (ih _ _ _ hr1)
    have hbs : get_condition_branch e.condition = Except.ok (some b, branch.2) := by
      rw [hb, ← hb1]
    exact ⟨b, branch.2, hbs, slot_read_of_branch hbs, rfl, slot_read_write _ hbs⟩

theorem try_as_false {func : Function} {sets : BranchOp → Res Bool}
    {kind : ShortCircuitKind} {replace : IR2_Condition → FormElement}
    {ir out : ShortCircuitElement}
    (h : try_clean_up_sc_as func sets kind replace ir = Except.ok (false, out)) :
    out = ir := by
  simp only [try_clean_up_sc_as, bind_eq_ok] at h
  obtain ⟨scan, _, h⟩ := h
  cases scan with
  | none => simp at h; exact h.symm
  | some p =>
    obtain ⟨d, v⟩ := p
    simp only [bind_eq_ok] at h
    obtain ⟨r, _, h⟩ := h
    simp at h

theorem try_as_true {func : Function} {sets : BranchOp → Res Bool}
    {kind : ShortCircuitKind} {replace : IR2_Condition → FormElement}
    {ir out : ShortCircuitElement}
    (h : try_clean_up_sc_as func sets kind replace ir = Except.ok (true, out)) :
    ∃ d v r,
      sc_scan sets 0 default default (ir.entries.take (ir.entries.length - 1))
        = Except.ok (some (d, v)) ∧
      sc_replace func replace v 0 false (ir.entries.take (ir.entries.length - 1))
        = Except.ok r ∧
      out = { kind := kind,
              entries := r.1 ++ ir.entries.drop (ir.entries.length - 1),
              final_result := v, used_as_value := r.2 } := by
  simp only [try_clean_up_sc_as, bind_eq_ok] at h
  obtain ⟨scan, hscan, h⟩ := h
  cases scan with
  | none => simp at h
  | some p =>
    obtain ⟨d, v⟩ := p
    simp only [bind_eq_ok] at h
    obtain ⟨r, hr, h⟩ := h
    refine ⟨d, v, r, hscan, hr, ?_⟩
    simp at h
    exact h.symm

theorem try_as_true_length {func : Function} {sets : BranchOp → Res Bool}
    {kind : ShortCircuitKind} {replace : IR2_Condition → FormElement}
    {ir out : ShortCircuitElement}
    (h : try_clean_up_sc_as func sets kind replace ir = Except.ok (true, out)) :
    out.kind = kind ∧ out.entries.length = ir.entries.length ∧
    out.entries.drop (ir.entries.length - 1) = ir.entries.drop (ir.entries.length - 1) := by
  obtain ⟨d, v, r, _, hr, rfl⟩ := try_as_true h
  have hl := (sc_replace_forall₂ _ _ _ _ _ _ _ hr).length_eq
  simp only [List.length_take] at hl
  refine ⟨rfl, ?_, ?_⟩
  · simp only [List.length_append, List.length_drop]
    omega
  · have : r.1.length = ir.entries.length - 1 := by omega
    rw [← this, List.drop_left]

theorem split_scan_some (fia : Bool) (L : List (ShortCircuitEntry FormElement)) :
    ∀ (i k : Nat), split_scan fia i L = Except.ok (some k) →
      i ≤ k ∧ k < i + L.length ∧
      split_scan fia i (L.take (k - i)) = Except.ok none := by
  induction L with
  | nil => intro i k h; simp [split_scan] at h
  | cons e rest ih =>
    intro i k h
    simp only [split_scan, bind_eq_ok, assert_some_eq_ok, assert_that_eq_ok] at h
    obtain ⟨branch, hb, b, hb1, is_and, hand, is_or, hor, _, hne, h⟩ := h
    by_cases hc : (fia != is_and) = true
    · rw [if_pos hc] at h
      injection h with h
      injection h with h
      subst h
      simp [split_scan]
    · rw [if_neg hc] at h
      obtain ⟨h1, h2, h3⟩ := ih _ _ h
      refine ⟨by omega, by simp only [List.length_cons]; omega, ?_⟩
      have hk : k - i = (k - (i + 1)) + 1 := by omega
      rw [hk, List.take_succ_cons]
      simp only [split_scan, hb, Except.bind, hb1, assert_some, hand, hor, hne, assert_that]
      simp only [if_true, if_neg hc]
      exact h3

theorem split_ok {rec_clean_up : ShortCircuitElement → Res ShortCircuitElement}
    {ir : ShortCircuitElement} {r : Bool × ShortCircuitElement}
    (h : try_splitting_nested_sc rec_clean_up ir = Except.ok r) :
    ∃ front fb s fia k nested_sc,
      ir.entries.head? = some front ∧
      get_condition_branch front.condition = Except.ok (some fb, s) ∧
      delay_slot_sets_false fb = Except.ok fia ∧
      delay_slot_sets_truthy fb = Except.ok (!fia) ∧
      split_scan fia 1 ((ir.entries.take (ir.entries.length - 1)).drop 1)
        = Except.ok (some k) ∧
      rec_clean_up (ShortCircuitElement_new (ir.entries.drop k)) = Except.ok nested_sc ∧
      rec_clean_up { ir with entries := ir.entries.take k ++
          [{ condition := [FormElement.ShortCircuit nested_sc] }] } = Except.ok r.2 ∧
      r.1 = true := by
  simp only [try_splitting_nested_sc, bind_eq_ok, assert_some_eq_ok, assert_that_eq_ok] at h
  obtain ⟨front, hfront, fbr, hfb, fb, hfb1, fia, hand, fio, hor, _, hne, found, hscan,
    k, hk, nested_sc, hnested, ir2, hir2, h⟩ := h
  subst hk
  injection h with h
  subst h
  refine ⟨front, fb, fbr.2, fia, k, nested_sc, ?_, ?_, hand, ?_, hscan, hnested, hir2, rfl⟩
  · cases hh : ir.entries.head? with
    | none => rw [hh] at hfront; simp at hfront
    | some e => rw [hh] at hfront; simp at hfront; rw [hfront]
  · rw [hfb, ← hfb1]
  · rw [hor]
    congr 1
    revert hne
    cases fia <;> cases fio <;> simp

theorem clean_up_sc_fuel_ok {invert : ConditionKind → ConditionKind} {func : Function}
    {fuel : Nat} {ir out : ShortCircuitElement}
    (h : clean_up_sc_fuel invert func (fuel + 1) ir = Except.ok out) :
    1 < ir.entries.length ∧
    (try_clean_up_sc_as_and invert func ir = Except.ok (true, out) ∨
     (try_clean_up_sc_as_and invert func ir = Except.ok (false, ir) ∧
      try_clean_up_sc_as_or func ir = Except.ok (true, out)) ∨
     (try_clean_up_sc_as_and invert func ir = Except.ok (false, ir) ∧
      try_clean_up_sc_as_or func ir = Except.ok (false, ir) ∧
      try_splitting_nested_sc (clean_up_sc_fuel invert func fuel) ir
        = Except.ok (true, out))) := by
  simp only [clean_up_sc_fuel, bind_eq_ok, assert_that_eq_ok] at h
  obtain ⟨_, hlen, r1, h1, h⟩ := h
  refine ⟨by simpa using hlen, ?_⟩
  obtain ⟨b1, o1⟩ := r1
  cases b1 with
  | true =>
    simp at h
    subst h
    exact Or.inl h1
  | false =>
    have e1 : o1 = ir := try_as_false h1
    subst e1
    simp only [Bool.false_eq_true, if_false, bind_eq_ok] at h
    obtain ⟨r2, h2, h⟩ := h
    obtain ⟨b2, o2⟩ := r2
    cases b2 with
    | true =>
      simp at h
      subst h
      exact Or.inr (Or.inl ⟨h1, h2⟩)
    | false =>
      have e2 : o2 = o1 := try_as_false h2
      subst e2
      simp only [Bool.false_eq_true, if_false, bind_eq_ok] at h
      obtain ⟨r3, h3, h⟩ := h
      obtain ⟨b3, o3⟩ := r3
      cases b3 with
      | true =>
        simp at h
        subst h
        exact Or.inr (Or.inr ⟨h1, h2, h3⟩)
      | false => simp at h

theorem split_no_second_split
    {rec2 : ShortCircuitElement → Res ShortCircuitElement}
    {ir : ShortCircuitElement} {r2 : Bool × ShortCircuitElement}
    {fia : Bool} {k : Nat} (ne : ShortCircuitEntry FormElement)
    {front : ShortCircuitEntry FormElement} {fb : BranchOp} {s : Slot}
    (hfront : ir.entries.head? = some front)
    (hfb : get_condition_branch front.condition = Except.ok (some fb, s))
    (hand : delay_slot_sets_false fb = Except.ok fia)
    (hscan : split_scan fia 1 ((ir.entries.take (ir.entries.length - 1)).drop 1)
        = Except.ok (some k)) :
    try_splitting_nested_sc rec2 { ir with entries := ir.entries.take k ++ [ne] }
      ≠ Except.ok r2 := by
  intro h2
  obtain ⟨hk1, hk2, hnone⟩ := split_scan_some _ _ _ _ hscan
  simp only [List.length_drop, List.length_take] at hk2
  obtain ⟨front2, fb2, s2, fia2, k2, _, hfront2, hfb2, hand2, _, hscan2, _⟩ := split_ok h2
  have hlen : (ir.entries.take k).length = k := List.length_take_of_le (by omega)
  have hne : ir.entries.take k ≠ [] := by
    intro hnil
    rw [hnil] at hlen
    simp at hlen
    omega
  simp only at hfront2 hscan2
  rw [List.head?_append_of_ne_nil _ hne, List.head?_take, if_neg (by omega), hfront] at hfront2
  injection hfront2 with hfront2
  subst hfront2
  rw [hfb] at hfb2
  injection hfb2 with hfb2
  injection hfb2 with hfb2 _
  injection hfb2 with hfb2
  subst hfb2
  rw [hand] at hand2
  injection hand2 with hand2
  subst hand2
  have hlist : ((ir.entries.take k ++ [ne]).take ((ir.entries.take k ++ [ne]).length - 1)).drop 1
      = (((ir.entries.take (ir.entries.length - 1)).drop 1).take (k - 1)) := by
    have h1 : (ir.entries.take k ++ [ne]).length - 1 = k := by
      simp only [List.length_append, hlen, List.length_singleton]; omega
    rw [h1, List.take_left' hlen, List.take_drop, List.take_take]
    have h2 : (1 + (k - 1)) ⊓ (ir.entries.length - 1) = k := by
      rw [Nat.min_def]; split <;> omega
    rw [h2]
  rw [hlist, hnone] at hscan2
  injection hscan2 with hscan2
  simp at hscan2

/-- What a completed `clean_up_sc` did: either it classified the element as it
stood, or it split at `k` and classified the outer element of `k + 1`
entries. -/
theorem clean_up_sc_fuel_cases {invert : ConditionKind → ConditionKind} {func : Function}
    {fuel : Nat} {ir out : ShortCircuitElement}
    (h : clean_up_sc_fuel invert func fuel ir = Except.ok out) :
    1 < ir.entries.length ∧
    ((try_clean_up_sc_as_and invert func ir = Except.ok (true, out) ∨
      (try_clean_up_sc_as_and invert func ir = Except.ok (false, ir) ∧
       try_clean_up_sc_as_or func ir = Except.ok (true, out))) ∨
     ∃ fuel1 front fb s fia k nested_sc,
      fuel = fuel1 + 2 ∧
      try_clean_up_sc_as_and invert func ir = Except.ok (false, ir) ∧
      try_clean_up_sc_as_or func ir = Except.ok (false, ir) ∧
      ir.entries.head? = some front ∧
      get_condition_branch front.condition = Except.ok (some fb, s) ∧
      delay_slot_sets_false fb = Except.ok fia ∧
      delay_slot_sets_truthy fb = Except.ok (!fia) ∧
      split_scan fia 1 ((ir.entries.take (ir.entries.length - 1)).drop 1)
        = Except.ok (some k) ∧
      1 ≤ k ∧ k + 2 ≤ ir.entries.length ∧
      clean_up_sc_fuel invert func (fuel1 + 1) (ShortCircuitElement_new (ir.entries.drop k))
        = Except.ok nested_sc ∧
      (try_clean_up_sc_as_and invert func { ir with entries := ir.entries.take k ++
          [{ condition := [FormElement.ShortCircuit nested_sc] }] } = Except.ok (true, out) ∨
       (try_clean_up_sc_as_and invert func { ir with entries := ir.entries.take k ++
          [{ condition := [FormElement.ShortCircuit nested_sc] }] } =
            Except.ok (false, { ir with entries := ir.entries.take k ++
          [{ condition := [FormElement.ShortCircuit nested_sc] }] }) ∧
        try_clean_up_sc_as_or func { ir with entries := ir.entries.take k ++
          [{ condition := [FormElement.ShortCircuit nested_sc] }] } = Except.ok (true, out)))) := by
  cases fuel with
  | zero => simp [clean_up_sc_fuel] at h
  | succ fuel0 =>
    obtain ⟨hlen, hc⟩ := clean_up_sc_fuel_ok h
    refine ⟨hlen, ?_⟩
    rcases hc with h1 | h2 | ⟨h1, h2, h3⟩
    · exact Or.inl (Or.inl h1)
    · exact Or.inl (Or.inr h2)
    · right
      obtain ⟨front, fb, s, fia, k, nested_sc, hfront, hfb, hand, hor, hscan, hnested, houter, _⟩ :=
        split_ok h3
      obtain ⟨hk1, hk2, _⟩ := split_scan_some _ _ _ _ hscan
      simp only [List.length_drop, List.length_take] at hk2
      cases fuel0 with
      | zero => simp [clean_up_sc_fuel] at hnested
      | succ fuel1 =>
        refine ⟨fuel1, front, fb, s, fia, k, nested_sc, rfl, h1, h2, hfront, hfb, hand, hor,
          hscan, hk1, by omega, hnested, ?_⟩
        obtain ⟨_, hc2⟩ := clean_up_sc_fuel_ok houter
        rcases hc2 with g1 | g2 | ⟨_, _, g3⟩
        · exact Or.inl g1
        · exact Or.inr g2
        · exact absurd g3 (split_no_second_split _ hfront hfb hand hscan)

theorem created_by_splitting_of_length_eq (depth n : Nat) (out : ShortCircuitElement)
    (h : out.entries.length = n) : created_by_splitting depth n out = [] := by
  cases depth with
  | zero => rfl
  | succ d => simp [created_by_splitting, h]

theorem try_as_true_last {func : Function} {sets : BranchOp → Res Bool}
    {kind : ShortCircuitKind} {replace : IR2_Condition → FormElement}
    {ir out : ShortCircuitElement} (hpos : 0 < ir.entries.length)
    (h : try_clean_up_sc_as func sets kind replace ir = Except.ok (true, out)) :
    out.entries.getLast? = ir.entries.getLast? := by
  obtain ⟨_, hl, hd⟩ := try_as_true_length h
  have h1 := @List.getLast?_drop _ (ir.entries.length - 1) out.entries
  have h2 := @List.getLast?_drop _ (ir.entries.length - 1) ir.entries
  rw [if_neg (by omega)] at h1 h2
  rw [← h1, ← h2, hd]

theorem clean_up_sc_fuel_kind (invert : ConditionKind → ConditionKind) (func : Function) :
    ∀ (fuel : Nat) (ir out : ShortCircuitElement),
      clean_up_sc_fuel invert func fuel ir = Except.ok out →
      (out.kind = ShortCircuitKind.AND ∨ out.kind = ShortCircuitKind.OR) ∧
      ∀ depth, ∀ s ∈ created_by_splitting depth ir.entries.length out,
        s.kind = ShortCircuitKind.AND ∨ s.kind = ShortCircuitKind.OR := by
  intro fuel
  induction fuel using Nat.strong_induction_on with
  | _ fuel ih =>
    intro ir out h
    obtain ⟨hlen, hc⟩ := clean_up_sc_fuel_cases h
    rcases hc with hc | ⟨fuel1, front, fb, s, fia, k, nested_sc, hfuel, _, _, _, _, _, _, _,
        hk1, hk2, hnested, houter⟩
    · have hk : out.kind = ShortCircuitKind.AND ∨ out.kind = ShortCircuitKind.OR := by
        rcases hc with h1 | ⟨_, h2⟩
        · exact Or.inl (try_as_true_length h1).1
        · exact Or.inr (try_as_true_length h2).1
      have hl : out.entries.length = ir.entries.length := by
        rcases hc with h1 | ⟨_, h2⟩
        · exact (try_as_true_length h1).2.1
        · exact (try_as_true_length h2).2.1
      refine ⟨hk, ?_⟩
      intro depth s hs
      rw [created_by_splitting_of_length_eq _ _ _ hl] at hs
      simp at hs
    · have hlt : (ir.entries.take k).length = k := List.length_take_of_le (by omega)
      have hk : out.kind = ShortCircuitKind.AND ∨ out.kind = ShortCircuitKind.OR := by
        rcases houter with h1 | ⟨_, h2⟩
        · exact Or.inl (try_as_true_length h1).1
        · exact Or.inr (try_as_true_length h2).1
      have hl : out.entries.length = k + 1 := by
        rcases houter with h1 | ⟨_, h2⟩
        · rw [(try_as_true_length h1).2.1]; simp [hlt]
        · rw [(try_as_true_length h2).2.1]; simp [hlt]
      have hlast : out.entries.getLast? =
          some { condition := [FormElement.ShortCircuit nested_sc] } := by
        rcases houter with h1 | ⟨_, h2⟩
        · rw [try_as_true_last (by simp) h1]; simp
        · rw [try_as_true_last (by simp) h2]; simp
      have hn := ih (fuel1 + 1) (by omega) _ _ hnested
      have hnl : (ShortCircuitElement_new (ir.entries.drop k)).entries.length
          = ir.entries.length + 1 - out.entries.length := by
        simp only [ShortCircuitElement_new, List.length_drop, hl]; omega
      refine ⟨hk, ?_⟩
      intro depth s hs
      cases depth with
      | zero => simp [created_by_splitting] at hs
      | succ d =>
        simp only [created_by_splitting, hlast] at hs
        rw [if_pos (by omega)] at hs
        rcases List.mem_cons.mp hs with rfl | hs
        · exact hn.1
        · rw [← hnl] at hs
          exact hn.2 d s hs

theorem branch_of_eq_some {e : ShortCircuitEntry FormElement} {b : BranchOp} :
    branch_of e = some b ↔ ∃ s, get_condition_branch e.condition = Except.ok (some b, s) := by
  unfold branch_of
  constructor
  · intro h
    split at h
    · rename_i b1 s heq
      injection h with h
      subst h
      exact ⟨s, heq⟩
    · simp at h
  · rintro ⟨s, hs⟩
    rw [hs]

theorem entry_sets_iff {sets : BranchOp → Res Bool} {r : Register}
    {e : ShortCircuitEntry FormElement} :
    entry_sets sets r e = true ↔
      ∃ b s w, get_condition_branch e.condition = Except.ok (some b, s) ∧
        sets b = Except.ok true ∧ b.branch_delay.var 0 = Except.ok w ∧ w.reg = r := by
  unfold entry_sets
  constructor
  · intro h
    cases hb : branch_of e with
    | none => rw [hb] at h; simp at h
    | some b =>
      rw [hb] at h
      obtain ⟨s, hs⟩ := branch_of_eq_some.mp hb
      simp only [Bool.and_eq_true, beq_iff_eq] at h
      obtain ⟨h1, h2⟩ := h
      have hsets : sets b = Except.ok true := by
        unfold sets_holds at h1
        split at h1
        · assumption
        · simp at h1
      unfold dest_reg at h2
      split at h2
      · rename_i w hw
        injection h2 with h2
        exact ⟨b, s, w, hs, hsets, hw, h2⟩
      · simp at h2
  · rintro ⟨b, s, w, hs, hsets, hw, hr⟩
    rw [branch_of_eq_some.mpr ⟨s, hs⟩]
    simp [sets_holds, hsets, dest_reg, hw, hr]

theorem sc_scan_tail (sets : BranchOp → Res Bool) (L : List (ShortCircuitEntry FormElement)) :
    ∀ (i : Nat) (d : Register) (v : Variable) (r : Register × Variable),
      sc_scan sets (i + 1) d v L = Except.ok (some r) ↔
        r = (d, v) ∧ L.all (entry_sets sets d) = true := by
  induction L with
  | nil =>
    intro i d v r
    simp [sc_scan, eq_comm]
  | cons e rest ih =>
    intro i d v r
    simp only [sc_scan, bind_eq_ok, assert_some_eq_ok, List.all_cons, Bool.and_eq_true,
      entry_sets_iff]
    constructor
    · rintro ⟨branch, hb, b, hb1, ok, hok, h⟩
      cases ok with
      | false => simp at h
      | true =>
        simp only [Bool.not_true, Bool.false_eq_true, if_false, Nat.add_one_ne_zero,
          bind_eq_ok] at h
        obtain ⟨w, hw, h⟩ := h
        by_cases hd : d ≠ w.reg
        · rw [if_pos hd] at h; simp at h
        · rw [if_neg hd] at h
          obtain ⟨h1, h2⟩ := (ih _ _ _ _).mp h
          refine ⟨h1, ⟨b, branch.2, w, ?_, hok, hw, ?_⟩, h2⟩
          · rw [hb, ← hb1]
          · exact (not_not.mp hd).symm
    · rintro ⟨h1, ⟨b, s, w, hs, hsets, hw, hr⟩, h2⟩
      refine ⟨(some b, s), hs, b, rfl, true, hsets, ?_⟩
      simp only [Bool.not_true, Bool.false_eq_true, if_false, Nat.add_one_ne_zero,
          bind_eq_ok]
      refine ⟨w, hw, ?_⟩
      rw [if_neg (by simp [hr])]
      exact (ih _ _ _ _).mpr ⟨h1, h2⟩

theorem sc_scan_head (sets : BranchOp → Res Bool) (e : ShortCircuitEntry FormElement)
    (rest : List (ShortCircuitEntry FormElement)) (d : Register) (v : Variable)
    (r : Register × Variable) :
    sc_scan sets 0 d v (e :: rest) = Except.ok (some r) ↔
      ∃ b s, get_condition_branch e.condition = Except.ok (some b, s) ∧
        sets b = Except.ok true ∧ b.branch_delay.var 0 = Except.ok r.2 ∧
        r.1 = r.2.reg ∧ rest.all (entry_sets sets r.2.reg) = true := by
  simp only [sc_scan, bind_eq_ok, assert_some_eq_ok]
  constructor
  · rintro ⟨branch, hb, b, hb1, ok, hok, h⟩
    cases ok with
    | false => simp at h
    | true =>
      simp only [Bool.not_true, Bool.false_eq_true, if_false, if_true, bind_eq_ok] at h
      obtain ⟨w, hw, h⟩ := h
      obtain ⟨h1, h2⟩ := (sc_scan_tail _ _ _ _ _ _).mp h
      subst h1
      exact ⟨b, branch.2, by rw [hb, ← hb1], hok, hw, rfl, h2⟩
  · rintro ⟨b, s, hs, hsets, hw, hr, hall⟩
    refine ⟨(some b, s), hs, b, rfl, true, hsets, ?_⟩
    simp only [Bool.not_true, Bool.false_eq_true, if_false, if_true, bind_eq_ok]
    refine ⟨r.2, hw, ?_⟩
    exact (sc_scan_tail _ _ _ _ _ _).mpr ⟨by rw [← hr], hall⟩

theorem reg_use_at_eq_ok {func : Function} {op_id : Nat} {info : RegUseInfo} :
    func.reg_use_at op_id = Except.ok info ↔ func.reg_use_op.get? op_id = some info := by
  unfold Function.reg_use_at
  cases func.reg_use_op.get? op_id <;> simp

theorem sc_live_out_succ {func : Function} {v : Variable} {i : Nat} {live live1 : Bool}
    {b : BranchOp} :
    sc_live_out func v (i + 1) live b = Except.ok live1 ↔
      live1 = live ∧ (func.has_reg_use = true → live_out func v.reg b = some live) := by
  unfold sc_live_out live_out
  cases hu : func.has_reg_use with
  | false => simp [eq_comm]
  | true =>
    simp only [if_true, bind_eq_ok, reg_use_at_eq_ok, Nat.add_one_ne_zero, if_false,
      assert_that_eq_ok, forall_const]
    constructor
    · rintro ⟨info, hinfo, _, hl, h⟩
      injection h with h
      simp only [beq_iff_eq] at hl
      refine ⟨h.symm, ?_⟩
      rw [hinfo]
      simp [hl]
    · rintro ⟨h1, h2⟩
      cases hg : func.reg_use_op.get? b.op_id with
      | none => rw [hg] at h2; simp at h2
      | some info =>
        rw [hg] at h2
        simp only [Option.map_some', Option.some.injEq] at h2
        exact ⟨info, rfl, (), by rw [← h2]; simp, by rw [h1]⟩

theorem sc_live_out_zero {func : Function} {v : Variable} {live live1 : Bool}
    {b : BranchOp} :
    sc_live_out func v 0 live b = Except.ok live1 ↔
      if func.has_reg_use = true then live_out func v.reg b = some live1
      else live1 = live := by
  unfold sc_live_out live_out
  cases hu : func.has_reg_use with
  | false => simp [eq_comm]
  | true =>
    simp only [if_true, bind_eq_ok, reg_use_at_eq_ok]
    constructor
    · rintro ⟨info, hinfo, h⟩
      injection h with h
      rw [hinfo]
      simp [← h]
    · intro h2
      cases hg : func.reg_use_op.get? b.op_id with
      | none => rw [hg] at h2; simp at h2
      | some info =>
        rw [hg] at h2
        simp only [Option.map_some', Option.some.injEq] at h2
        exact ⟨info, rfl, by rw [h2]⟩

theorem entry_live_iff {func : Function} {r : Register} {verdict : Bool}
    {e : ShortCircuitEntry FormElement} :
    entry_live func r verdict e = true ↔
      ∃ b s, get_condition_branch e.condition = Except.ok (some b, s) ∧
        (func.has_reg_use = true → live_out func r b = some verdict) := by
  unfold entry_live
  cases hb : branch_of e with
  | none =>
    simp only [Bool.false_eq_true, false_iff]
    rintro ⟨b, s, hs, _⟩
    rw [branch_of_eq_some.mpr ⟨s, hs⟩] at hb
    simp at hb
  | some b =>
    obtain ⟨s, hs⟩ := branch_of_eq_some.mp hb
    constructor
    · intro h
      refine ⟨b, s, hs, ?_⟩
      intro hu
      simpa [hu] using h
    · rintro ⟨b1, s1, hs1, h⟩
      rw [hs] at hs1
      injection hs1 with hs1
      injection hs1 with hs1 _
      injection hs1 with hs1
      subst hs1
      cases hu : func.has_reg_use with
      | false => simp
      | true => simp [h hu]

theorem sc_replace_tail (func : Function) (replace : IR2_Condition → FormElement)
    (v : Variable) (L : List (ShortCircuitEntry FormElement)) :
    ∀ (i : Nat) (live : Bool),
      (∀ r, sc_replace func replace v (i + 1) live L = Except.ok r → r.2 = live) ∧
      ((∃ r, sc_replace func replace v (i + 1) live L = Except.ok r) ↔
        L.all (entry_live func v.reg live) = true) := by
  induction L with
  | nil =>
    intro i live
    simp [sc_replace, eq_comm]
  | cons e rest ih =>
    intro i live
    simp only [sc_replace, bind_eq_ok, assert_some_eq_ok, List.all_cons, Bool.and_eq_true,
      entry_live_iff, sc_live_out_succ]
    constructor
    · rintro r ⟨branch, hb, b, hb1, live1, ⟨hl, _⟩, r1, hr1, h⟩
      injection h with h
      subst h
      subst hl
      exact (ih _ _).1 r1 hr1
    · constructor
      · rintro ⟨r, branch, hb, b, hb1, live1, ⟨hl, hlive⟩, r1, hr1, h⟩
        subst hl
        exact ⟨⟨b, branch.2, by rw [hb, ← hb1], hlive⟩, ((ih _ _).2).mp ⟨r1, hr1⟩⟩
      · rintro ⟨⟨b, s, hs, hlive⟩, hall⟩
        obtain ⟨r1, hr1⟩ := ((ih (i + 1) live).2).mpr hall
        exact ⟨_, (some b, s), hs, b, rfl, live, ⟨rfl, hlive⟩, r1, hr1, rfl⟩

theorem sc_replace_head (func : Function) (replace : IR2_Condition → FormElement)
    (v : Variable) (e : ShortCircuitEntry FormElement)
    (rest : List (ShortCircuitEntry FormElement)) (live verdict : Bool) :
    (∃ r, sc_replace func replace v 0 live (e :: rest) = Except.ok (r, verdict)) ↔
      ∃ b s, get_condition_branch e.condition = Except.ok (some b, s) ∧
        (if func.has_reg_use = true then live_out func v.reg b = some verdict
         else verdict = live) ∧
        rest.all (entry_live func v.reg verdict) = true := by
  simp only [sc_replace, bind_eq_ok, assert_some_eq_ok, sc_live_out_zero]
  constructor
  · rintro ⟨r, branch, hb, b, hb1, live1, hlive, r1, hr1, h⟩
    injection h with h
    injection h with h1 h2
    have h3 := (sc_replace_tail func replace v rest 0 live1).1 _ hr1
    rw [h2] at h3
    subst h3
    exact ⟨b, branch.2, by rw [hb, ← hb1], hlive,
      ((sc_replace_tail func replace v rest 0 _).2).mp ⟨r1, hr1⟩⟩
  · rintro ⟨b, s, hs, hlive, hall⟩
    obtain ⟨r1, hr1⟩ := ((sc_replace_tail func replace v rest 0 verdict).2).mpr hall
    have h3 := (sc_replace_tail func replace v rest 0 verdict).1 _ hr1
    refine ⟨{ condition := slot_write s e.condition (replace b.condition) } :: r1.1,
      (some b, s), hs, b, rfl, verdict, hlive, r1, hr1, ?_⟩
    rw [h3]

theorem dest_reg_eq_some {b : BranchOp} {r : Register} :
    dest_reg b = some r ↔ ∃ w, b.branch_delay.var 0 = Except.ok w ∧ w.reg = r := by
  unfold dest_reg
  cases b.branch_delay.var 0 <;> simp

theorem sets_holds_iff {sets : BranchOp → Res Bool} {b : BranchOp} :
    sets_holds sets b = true ↔ sets b = Except.ok true := by
  unfold sets_holds
  constructor
  · intro h
    split at h
    · assumption
    · simp at h
  · intro h
    rw [h]

theorem entry_live_of_entry_sets {func : Function} {sets : BranchOp → Res Bool}
    {r r1 : Register} {verdict : Bool} (hu : func.has_reg_use = false)
    (L : List (ShortCircuitEntry FormElement))
    (h : L.all (entry_sets sets r) = true) :
    L.all (entry_live func r1 verdict) = true := by
  rw [List.all_eq_true] at h ⊢
  intro e he
  obtain ⟨b, s, _, hs, _⟩ := entry_sets_iff.mp (h e he)
  exact entry_live_iff.mpr ⟨b, s, hs, by simp [hu]⟩

theorem try_as_iff (func : Function) (sets : BranchOp → Res Bool)
    (kind : ShortCircuitKind) (replace : IR2_Condition → FormElement)
    (ir : ShortCircuitElement) :
    (∃ out, try_clean_up_sc_as func sets kind replace ir = Except.ok (true, out)) ↔
      (all_non_last_set sets ir = true ∧ liveness_agrees func ir = true) := by
  constructor
  · rintro ⟨out, h⟩
    obtain ⟨d, v, r, hscan, hrep, _⟩ := try_as_true h
    unfold all_non_last_set liveness_agrees
    cases hL : ir.entries.take (ir.entries.length - 1) with
    | nil => simp
    | cons e0 rest =>
      rw [hL] at hscan hrep
      obtain ⟨b, s, hs, hsets, hw, _, hall⟩ := (sc_scan_head _ _ _ _ _ _).mp hscan
      simp only at hw hall
      have hb : branch_of e0 = some b := branch_of_eq_some.mpr ⟨s, hs⟩
      have hd : dest_reg b = some v.reg := dest_reg_eq_some.mpr ⟨v, hw, rfl⟩
      obtain ⟨b1, s1, hs1, hlive, hall2⟩ :=
        (sc_replace_head func replace v e0 rest false r.2).mp ⟨r.1, hrep⟩
      rw [hs] at hs1
      injection hs1 with hs1
      injection hs1 with hs1 _
      injection hs1 with hs1
      subst hs1
      simp only [hb, hd, Bool.and_eq_true, sets_holds_iff.mpr hsets, hall, and_self, true_and]
      cases hu : func.has_reg_use with
      | false => simp
      | true =>
        rw [hu] at hlive
        simp only [if_true] at hlive
        simp [hlive, hall2]
  · rintro ⟨h1, h2⟩
    unfold all_non_last_set at h1
    unfold liveness_agrees at h2
    unfold try_clean_up_sc_as
    simp only
    cases hL : ir.entries.take (ir.entries.length - 1) with
    | nil => exact ⟨_, rfl⟩
    | cons e0 rest =>
      rw [hL] at h1 h2
      simp only at h1 h2
      cases hb : branch_of e0 with
      | none => rw [hb] at h1; simp at h1
      | some b =>
        rw [hb] at h1 h2
        simp only at h1 h2
        obtain ⟨s, hs⟩ := branch_of_eq_some.mp hb
        cases hd : dest_reg b with
        | none => rw [hd] at h1; simp at h1
        | some r0 =>
          rw [hd] at h1 h2
          simp only at h1 h2
          obtain ⟨w, hw, hr0⟩ := dest_reg_eq_some.mp hd
          subst hr0
          simp only [Bool.and_eq_true, sets_holds_iff] at h1
          have hscan : sc_scan sets 0 default default (e0 :: rest)
              = Except.ok (some (w.reg, w)) :=
            (sc_scan_head _ _ _ _ _ _).mpr ⟨b, s, hs, h1.1, hw, rfl, h1.2⟩
          have hrep : ∃ verdict r1, sc_replace func replace w 0 false (e0 :: rest)
              = Except.ok (r1, verdict) := by
            cases hu : func.has_reg_use with
            | false =>
              obtain ⟨r1, hr1⟩ := (sc_replace_head func replace w e0 rest false false).mpr
                ⟨b, s, hs, by simp [hu], entry_live_of_entry_sets hu rest h1.2⟩
              exact ⟨false, r1, hr1⟩
            | true =>
              rw [hu] at h2
              simp only [Bool.not_true, Bool.false_or] at h2
              cases hl : live_out func w.reg b with
              | none => rw [hl] at h2; simp at h2
              | some verdict =>
                rw [hl] at h2
                obtain ⟨r1, hr1⟩ := (sc_replace_head func replace w e0 rest false verdict).mpr
                  ⟨b, s, hs, by simp [hu, hl], h2⟩
                exact ⟨verdict, r1, hr1⟩
          obtain ⟨verdict, r1, hr1⟩ := hrep
          rw [hscan]
          simp only [Except.bind, hr1]
          exact ⟨_, rfl⟩

theorem sets_false_true_iff {b : BranchOp} :
    delay_slot_sets_false b = Except.ok true ↔
      (b.branch_delay.kind = BranchDelayKind.SET_REG_FALSE ∨
       (b.condition.kind = ConditionKind.FALSE ∧
        b.branch_delay.kind = BranchDelayKind.SET_REG_REG ∧
        ∃ a v w, b.condition.src 0 = Except.ok a ∧ a.get_var = Except.ok v ∧
          b.branch_delay.var 1 = Except.ok w ∧ v.reg = w.reg)) := by
  unfold delay_slot_sets_false
  by_cases h1 : b.branch_delay.kind = BranchDelayKind.SET_REG_FALSE
  · simp [h1]
  · rw [if_neg h1]
    by_cases h2 : b.condition.kind = ConditionKind.FALSE ∧
        b.branch_delay.kind = BranchDelayKind.SET_REG_REG
    · rw [if_pos h2]
      simp only [bind_eq_ok]
      constructor
      · rintro ⟨a, ha, v, hv, w, hw, h⟩
        injection h with h
        exact Or.inr ⟨h2.1, h2.2, a, v, w, ha, hv, hw, by simpa using h⟩
      · rintro (hk | ⟨_, _, a, v, w, ha, hv, hw, h⟩)
        · exact absurd hk h1
        · exact ⟨a, ha, v, hv, w, hw, by simp [h]⟩
    · rw [if_neg h2]
      simp only [h1, false_or]
      constructor
      · intro h; injection h with h; simp at h
      · rintro ⟨h3, h4, _⟩
        exact absurd ⟨h3, h4⟩ h2

theorem sets_truthy_true_iff {b : BranchOp} :
    delay_slot_sets_truthy b = Except.ok true ↔
      (b.branch_delay.kind = BranchDelayKind.SET_REG_TRUE ∨
       (b.condition.kind = ConditionKind.TRUTHY ∧
        b.branch_delay.kind = BranchDelayKind.SET_REG_REG ∧
        ∃ a v w, b.condition.src 0 = Except.ok a ∧ a.get_var = Except.ok v ∧
          b.branch_delay.var 1 = Except.ok w ∧ v.reg = w.reg)) := by
  unfold delay_slot_sets_truthy
  by_cases h1 : b.branch_delay.kind = BranchDelayKind.SET_REG_TRUE
  · simp [h1]
  · rw [if_neg h1]
    by_cases h2 : b.condition.kind = ConditionKind.TRUTHY ∧
        b.branch_delay.kind = BranchDelayKind.SET_REG_REG
    · rw [if_pos h2]
      simp only [bind_eq_ok]
      constructor
      · rintro ⟨a, ha, v, hv, w, hw, h⟩
        injection h with h
        exact Or.inr ⟨h2.1, h2.2, a, v, w, ha, hv, hw, by simpa using h⟩
      · rintro (hk | ⟨_, _, a, v, w, ha, hv, hw, h⟩)
        · exact absurd hk h1
        · exact ⟨a, ha, v, hv, w, hw, by simp [h]⟩
    · rw [if_neg h2]
      simp only [h1, false_or]
      constructor
      · intro h; injection h with h; simp at h
      · rintro ⟨h3, h4, _⟩
        exact absurd ⟨h3, h4⟩ h2

theorem sets_false_truthy_disjoint {b : BranchOp}
    (h1 : delay_slot_sets_false b = Except.ok true)
    (h2 : delay_slot_sets_truthy b = Except.ok true) : False := by
  rw [sets_false_true_iff] at h1
  rw [sets_truthy_true_iff] at h2
  rcases h1 with h1 | ⟨c1, k1, _⟩ <;> rcases h2 with h2 | ⟨c2, k2, _⟩
  · rw [h1] at h2; cases h2
  · rw [h1] at k2; cases k2
  · rw [k1] at h2; cases h2
  · rw [c1] at c2; cases c2

theorem try_as_false_scan {func : Function} {sets : BranchOp → Res Bool}
    {kind : ShortCircuitKind} {replace : IR2_Condition → FormElement}
    {ir out : ShortCircuitElement}
    (h : try_clean_up_sc_as func sets kind replace ir = Except.ok (false, out)) :
    sc_scan sets 0 default default (ir.entries.take (ir.entries.length - 1))
      = Except.ok none := by
  simp only [try_clean_up_sc_as, bind_eq_ok] at h
  obtain ⟨scan, hscan, h⟩ := h
  cases scan with
  | none => exact hscan
  | some p =>
    obtain ⟨d, v⟩ := p
    simp only [bind_eq_ok] at h
    obtain ⟨r, _, h⟩ := h
    simp at h

theorem take_pred_eq_cons {α : Type} {l : List α} {e0 : α} (hn : 2 ≤ l.length)
    (h0 : l.head? = some e0) :
    ∃ rest, l.take (l.length - 1) = e0 :: rest := by
  cases l with
  | nil => simp at hn
  | cons a t =>
    simp only [List.head?_cons, Option.some.injEq] at h0
    subst h0
    simp only [List.length_cons, Nat.add_sub_cancel] at hn ⊢
    cases t with
    | nil => simp at hn
    | cons b t2 => exact ⟨_, List.take_succ_cons⟩

theorem try_as_success {func : Function} {sets : BranchOp → Res Bool}
    {kind : ShortCircuitKind} {replace : IR2_Condition → FormElement}
    {ir out : ShortCircuitElement}
    (h : try_clean_up_sc_as func sets kind replace ir = Except.ok (true, out)) :
    out.kind = kind ∧
    out.entries.length = ir.entries.length ∧
    out.entries.drop (ir.entries.length - 1) = ir.entries.drop (ir.entries.length - 1) ∧
    List.Forall₂ (BranchReplaced replace) (ir.entries.take (ir.entries.length - 1))
      (out.entries.take (ir.entries.length - 1)) ∧
    (∀ e0, 2 ≤ ir.entries.length → ir.entries.head? = some e0 →
      ∃ b0 s0, get_condition_branch e0.condition = Except.ok (some b0, s0) ∧
        sets b0 = Except.ok true ∧
        b0.branch_delay.var 0 = Except.ok out.final_result) := by
  obtain ⟨hk, hl, hd⟩ := try_as_true_length h
  obtain ⟨d, v, r, hscan, hr, hout⟩ := try_as_true h
  have hf := sc_replace_forall₂ _ _ _ _ _ _ _ hr
  have hrl : r.1.length = ir.entries.length - 1 := by
    have := hf.length_eq
    simp only [List.length_take] at this
    omega
  refine ⟨hk, hl, hd, ?_, ?_⟩
  · rw [hout]
    simp only
    rw [List.take_left' hrl]
    exact hf
  · intro e0 hn h0
    obtain ⟨rest, hrest⟩ := take_pred_eq_cons hn h0
    rw [hrest] at hscan
    obtain ⟨b, s, hs, hsets, hw, _, _⟩ := (sc_scan_head _ _ _ _ _ _).mp hscan
    rw [hout]
    exact ⟨b, s, hs, hsets, hw⟩

theorem scan_some_of_all_set {sets : BranchOp → Res Bool} {ir : ShortCircuitElement}
    (h1 : all_non_last_set sets ir = true) :
    ∃ p, sc_scan sets 0 default default (ir.entries.take (ir.entries.length - 1))
      = Except.ok (some p) := by
  unfold all_non_last_set at h1
  cases hL : ir.entries.take (ir.entries.length - 1) with
  | nil => exact ⟨_, rfl⟩
  | cons e0 rest =>
    rw [hL] at h1
    simp only at h1
    cases hb : branch_of e0 with
    | none => rw [hb] at h1; simp at h1
    | some b =>
      rw [hb] at h1
      simp only at h1
      obtain ⟨s, hs⟩ := branch_of_eq_some.mp hb
      cases hd : dest_reg b with
      | none => rw [hd] at h1; simp at h1
      | some r0 =>
        rw [hd] at h1
        simp only at h1
        obtain ⟨w, hw, hr0⟩ := dest_reg_eq_some.mp hd
        subst hr0
        simp only [Bool.and_eq_true, sets_holds_iff] at h1
        exact ⟨(w.reg, w), (sc_scan_head _ _ _ _ _ _).mpr ⟨b, s, hs, h1.1, hw, rfl, h1.2⟩⟩

theorem try_as_not_false_of_all_set {func : Function} {sets : BranchOp → Res Bool}
    {kind : ShortCircuitKind} {replace : IR2_Condition → FormElement}
    {ir out : ShortCircuitElement}
    (h1 : all_non_last_set sets ir = true) :
    try_clean_up_sc_as func sets kind replace ir ≠ Except.ok (false, out) := by
  intro h
  obtain ⟨p, hp⟩ := scan_some_of_all_set h1
  rw [try_as_false_scan h] at hp
  cases hp

theorem entry_eq_of_condition {e : ShortCircuitEntry FormElement} {f : Form}
    (h : e.condition = f) : e = { condition := f } := by
  cases e
  simp at h
  simp [h]

theorem get_condition_branch_inj {f : Form} {b b1 : BranchOp} {s s1 : Slot}
    (h : get_condition_branch f = Except.ok (some b, s))
    (h1 : get_condition_branch f = Except.ok (some b1, s1)) : b1 = b ∧ s1 = s := by
  rw [h] at h1
  injection h1 with h1
  injection h1 with h2 h3
  injection h2 with h2
  exact ⟨h2.symm, h3.symm⟩

theorem branch_replaced_eq {replace : IR2_Condition → FormElement}
    {e e1 : ShortCircuitEntry FormElement} {b : BranchOp} {s : Slot}
    (h : get_condition_branch e.condition = Except.ok (some b, s))
    (hr : BranchReplaced replace e e1) :
    e1 = { condition := slot_write s e.condition (replace b.condition) } := by
  obtain ⟨b1, s1, hs1, _, hc, _⟩ := hr
  obtain ⟨rfl, rfl⟩ := get_condition_branch_inj h hs1
  exact entry_eq_of_condition hc

theorem three_entry_and_shape (invert : ConditionKind → ConditionKind) (func : Function)
    (ir : ShortCircuitElement) (e0 e1 e2 : ShortCircuitEntry FormElement)
    (b0 b1 b2 : BranchOp) (s0 s1 s2 : Slot) (w0 w1 : Variable)
    (hir : ir.entries = [e0, e1, e2])
    (h0 : get_condition_branch e0.condition = Except.ok (some b0, s0))
    (h1 : get_condition_branch e1.condition = Except.ok (some b1, s1))
    (h2 : get_condition_branch e2.condition = Except.ok (some b2, s2))
    (hf0 : delay_slot_sets_false b0 = Except.ok true)
    (hf1 : delay_slot_sets_false b1 = Except.ok true)
    (hw0 : b0.branch_delay.var 0 = Except.ok w0)
    (hw1 : b1.branch_delay.var 0 = Except.ok w1)
    (hreg : w1.reg = w0.reg) :
    (∀ out, clean_up_sc invert func ir = Except.ok out →
      out.kind = ShortCircuitKind.AND ∧ out.final_result = w0 ∧
      out.entries =
        [{ condition := slot_write s0 e0.condition (b0.condition.get_as_inverted_form invert) },
         { condition := slot_write s1 e1.condition (b1.condition.get_as_inverted_form invert) },
         e2] ∧
      slot_read s2 e2.condition = some (FormElement.Branch b2)) ∧
    (liveness_agrees func ir = true → ∃ out, clean_up_sc invert func ir = Except.ok out) := by
  have hall : all_non_last_set delay_slot_sets_false ir = true := by
    unfold all_non_last_set
    rw [hir]
    simp only [List.length_cons, List.length_nil, List.take_succ_cons, List.take_zero,
      Nat.add_sub_cancel, Nat.zero_add]
    rw [branch_of_eq_some.mpr ⟨s0, h0⟩]
    simp only
    rw [dest_reg_eq_some.mpr ⟨w0, hw0, rfl⟩]
    simp only [sets_holds_iff.mpr hf0, Bool.true_and, List.all_cons, List.all_nil,
      Bool.and_true]
    exact entry_sets_iff.mpr ⟨b1, s1, w1, h1, hf1, hw1, hreg⟩
  constructor
  · intro out h
    obtain ⟨_, hc⟩ := clean_up_sc_fuel_ok h
    have hand : try_clean_up_sc_as_and invert func ir = Except.ok (true, out) := by
      rcases hc with hc | ⟨hc, _⟩ | ⟨hc, _⟩
      · exact hc
      · exact absurd hc (try_as_not_false_of_all_set hall)
      · exact absurd hc (try_as_not_false_of_all_set hall)
    obtain ⟨hk, hl, hd, hf, hfin⟩ := try_as_success hand
    obtain ⟨b0', s0', hs0', _, hw0'⟩ := hfin e0 (by simp [hir]) (by simp [hir])
    obtain ⟨rfl, rfl⟩ := get_condition_branch_inj h0 hs0'
    rw [hw0] at hw0'
    injection hw0' with hw0'
    refine ⟨hk, hw0'.symm, ?_, slot_read_of_branch h2⟩
    rw [hir] at hd hf hl
    simp only [List.length_cons, List.length_nil, Nat.add_sub_cancel, Nat.zero_add,
      List.take_succ_cons, List.take_zero, List.drop_succ_cons, List.drop_zero] at hd hf hl
    rw [← List.take_append_drop 2 out.entries, hd]
    cases ht : out.entries.take 2 with
    | nil => rw [ht] at hf; cases hf
    | cons x0 t =>
      rw [ht] at hf
      cases hf with
      | cons hx0 hf1 =>
        cases hf1 with
        | cons hx1 hf2 =>
          cases hf2
          rw [branch_replaced_eq h0 hx0, branch_replaced_eq h1 hx1]
          rfl
  · intro hlive
    obtain ⟨out, hout⟩ := (try_as_iff func delay_slot_sets_false ShortCircuitKind.AND
      (IR2_Condition.get_as_inverted_form invert) ir).mpr ⟨hall, hlive⟩
    refine ⟨out, ?_⟩
    have hand : try_clean_up_sc_as_and invert func ir = Except.ok (true, out) := hout
    simp [clean_up_sc, clean_up_sc_fuel, hir, assert_that, Except.bind, hand]

theorem bool_ne_eq_not {a b : Bool} (h : (a != b) = true) : b = !a := by
  revert h; cases a <;> cases b <;> simp

theorem split_scan_details (fia : Bool) (L : List (ShortCircuitEntry FormElement)) :
    ∀ (i k : Nat), split_scan fia i L = Except.ok (some k) →
      (∃ e b s, L.get? (k - i) = some e ∧
        get_condition_branch e.condition = Except.ok (some b, s) ∧
        delay_slot_sets_false b = Except.ok (!fia) ∧
        delay_slot_sets_truthy b = Except.ok fia) ∧
      ∀ e ∈ L.take (k - i), ∃ b s,
        get_condition_branch e.condition = Except.ok (some b, s) ∧
        delay_slot_sets_false b = Except.ok fia ∧
        delay_slot_sets_truthy b = Except.ok (!fia) := by
  induction L with
  | nil => intro i k h; simp [split_scan] at h
  | cons e rest ih =>
    intro i k h
    have hk := (split_scan_some _ _ _ _ h).1
    simp only [split_scan, bind_eq_ok, assert_some_eq_ok, assert_that_eq_ok] at h
    obtain ⟨branch, hb, b, hb1, is_and, hand, is_or, hor, _, hne, h⟩ := h
    have hbs : get_condition_branch e.condition = Except.ok (some b, branch.2) := by
      rw [hb, ← hb1]
    have hio : is_or = !is_and := bool_ne_eq_not hne
    by_cases hc : (fia != is_and) = true
    · rw [if_pos hc] at h
      injection h with h
      injection h with h
      subst h
      have hia : is_and = !fia := bool_ne_eq_not hc
      refine ⟨⟨e, b, branch.2, by simp, hbs, by rw [hand, hia], ?_⟩, by simp⟩
      rw [hor, hio, hia]
      simp
    · rw [if_neg hc] at h
      have hia : is_and = fia := by
        revert hc; cases fia <;> cases is_and <;> simp
      obtain ⟨h1, h2⟩ := ih _ _ h
      have hki := (split_scan_some _ _ _ _ h).1
      have hk2 : k - i = (k - (i + 1)) + 1 := by omega
      rw [hk2]
      refine ⟨?_, ?_⟩
      · simpa using h1
      · intro e' he'
        rw [List.take_succ_cons] at he'
        rcases List.mem_cons.mp he' with rfl | he'
        · exact ⟨b, branch.2, hbs, by rw [hand, hia], by rw [hor, hio, hia]⟩
        · exact h2 e' he'

theorem classified_kind {invert : ConditionKind → ConditionKind} {func : Function}
    {ir out : ShortCircuitElement} {e0 : ShortCircuitEntry FormElement}
    (hc : Classified invert func ir out) (hn : 2 ≤ ir.entries.length)
    (h0 : ir.entries.head? = some e0) :
    ∃ b0 s0, get_condition_branch e0.condition = Except.ok (some b0, s0) ∧
      (out.kind = ShortCircuitKind.AND ↔ delay_slot_sets_false b0 = Except.ok true) ∧
      (out.kind = ShortCircuitKind.OR ↔ delay_slot_sets_truthy b0 = Except.ok true) := by
  rcases hc with h1 | ⟨_, h2⟩
  · obtain ⟨hk, _, _, _, hfin⟩ := try_as_success h1
    obtain ⟨b0, s0, hs, hsets, _⟩ := hfin e0 hn h0
    refine ⟨b0, s0, hs, by simp [hk, hsets], ?_⟩
    rw [hk]
    constructor
    · intro h; cases h
    · intro h; exact (sets_false_truthy_disjoint hsets h).elim
  · obtain ⟨hk, _, _, _, hfin⟩ := try_as_success h2
    obtain ⟨b0, s0, hs, hsets, _⟩ := hfin e0 hn h0
    refine ⟨b0, s0, hs, ?_, by simp [hk, hsets]⟩
    rw [hk]
    constructor
    · intro h; cases h
    · intro h; exact (sets_false_truthy_disjoint h hsets).elim

theorem classified_shape {invert : ConditionKind → ConditionKind} {func : Function}
    {ir out : ShortCircuitElement}
    (hc : Classified invert func ir out) :
    out.entries.length = ir.entries.length ∧
    out.entries.drop (ir.entries.length - 1) = ir.entries.drop (ir.entries.length - 1) ∧
    ((out.kind = ShortCircuitKind.AND ∧
      List.Forall₂ (BranchReplaced (IR2_Condition.get_as_inverted_form invert))
        (ir.entries.take (ir.entries.length - 1))
        (out.entries.take (ir.entries.length - 1))) ∨
     (out.kind = ShortCircuitKind.OR ∧
      List.Forall₂ (BranchReplaced IR2_Condition.get_as_form)
        (ir.entries.take (ir.entries.length - 1))
        (out.entries.take (ir.entries.length - 1)))) := by
  rcases hc with h1 | ⟨_, h2⟩
  · obtain ⟨hk, hl, hd, hf, _⟩ := try_as_success h1
    exact ⟨hl, hd, Or.inl ⟨hk, hf⟩⟩
  · obtain ⟨hk, hl, hd, hf, _⟩ := try_as_success h2
    exact ⟨hl, hd, Or.inr ⟨hk, hf⟩⟩

/-- What a completed `clean_up_sc` did, in terms of `Classified`. -/
theorem clean_up_sc_fuel_split_or_not {invert : ConditionKind → ConditionKind}
    {func : Function} {fuel : Nat} {ir out : ShortCircuitElement}
    (h : clean_up_sc_fuel invert func fuel ir = Except.ok out) :
    2 ≤ ir.entries.length ∧
    (Classified invert func ir out ∨
     ∃ fuel1 front fb s fia k nested_sc,
      fuel = fuel1 + 2 ∧
      ir.entries.head? = some front ∧
      get_condition_branch front.condition = Except.ok (some fb, s) ∧
      delay_slot_sets_false fb = Except.ok fia ∧
      delay_slot_sets_truthy fb = Except.ok (!fia) ∧
      split_scan fia 1 ((ir.entries.take (ir.entries.length - 1)).drop 1)
        = Except.ok (some k) ∧
      1 ≤ k ∧ k + 2 ≤ ir.entries.length ∧
      clean_up_sc_fuel invert func (fuel1 + 1) (ShortCircuitElement_new (ir.entries.drop k))
        = Except.ok nested_sc ∧
      Classified invert func { ir with entries := ir.entries.take k ++
          [{ condition := [FormElement.ShortCircuit nested_sc] }] } out) := by
  obtain ⟨hlen, hc⟩ := clean_up_sc_fuel_cases h
  refine ⟨hlen, ?_⟩
  rcases hc with hc | ⟨fuel1, front, fb, s, fia, k, nested_sc, hfuel, _, _, h1, h2, h3, h4, h5,
    h6, h7, h8, h9⟩
  · exact Or.inl hc
  · exact Or.inr ⟨fuel1, front, fb, s, fia, k, nested_sc, hfuel, h1, h2, h3, h4, h5, h6, h7,
      h8, h9⟩

theorem head?_take_append {α : Type} {l : List α} {k : Nat} {x e0 : α} (hk : 1 ≤ k)
    (h0 : l.head? = some e0) : (l.take k ++ [x]).head? = some e0 := by
  cases l with
  | nil => simp at h0
  | cons a t =>
    cases k with
    | zero => omega
    | succ k1 => simpa using h0

theorem clean_up_sc_fuel_kind_iff {invert : ConditionKind → ConditionKind}
    {func : Function} {fuel : Nat} {ir out : ShortCircuitElement}
    (h : clean_up_sc_fuel invert func fuel ir = Except.ok out) :
    ∃ e0 b0 s0, ir.entries.head? = some e0 ∧
      get_condition_branch e0.condition = Except.ok (some b0, s0) ∧
      (out.kind = ShortCircuitKind.AND ↔ delay_slot_sets_false b0 = Except.ok true) ∧
      (out.kind = ShortCircuitKind.OR ↔ delay_slot_sets_truthy b0 = Except.ok true) := by
  obtain ⟨hlen, hc⟩ := clean_up_sc_fuel_split_or_not h
  rcases hc with hc | ⟨fuel1, front, fb, s, fia, k, nested_sc, _, h1, h2, _, _, _, hk1, hk2,
    _, hc⟩
  · cases he : ir.entries.head? with
    | none =>
      cases hl : ir.entries with
      | nil => rw [hl] at hlen; simp at hlen
      | cons a t => rw [hl] at he; simp at he
    | some e0 =>
      obtain ⟨b0, s0, hs, ha, ho⟩ := classified_kind hc hlen he
      exact ⟨e0, b0, s0, rfl, hs, ha, ho⟩
  · have hlt : (ir.entries.take k).length = k := List.length_take_of_le (by omega)
    have hh : ({ ir with entries := ir.entries.take k ++
          [{ condition := [FormElement.ShortCircuit nested_sc] }] } :
          ShortCircuitElement).entries.head? = some front := head?_take_append hk1 h1
    obtain ⟨b0, s0, hs, ha, ho⟩ := classified_kind hc (by simp [hlt]; omega) hh
    exact ⟨front, b0, s0, h1, hs, ha, ho⟩

theorem sets_false_of_truthy {b : BranchOp}
    (h : delay_slot_sets_truthy b = Except.ok true) :
    delay_slot_sets_false b = Except.ok false := by
  have h2 := sets_truthy_true_iff.mp h
  unfold delay_slot_sets_false
  by_cases h1 : b.branch_delay.kind = BranchDelayKind.SET_REG_FALSE
  · rcases h2 with h2 | ⟨_, h2, _⟩ <;> rw [h1] at h2 <;> cases h2
  · rw [if_neg h1]
    by_cases h3 : b.condition.kind = ConditionKind.FALSE ∧
        b.branch_delay.kind = BranchDelayKind.SET_REG_REG
    · rcases h2 with h2 | ⟨h2, _, _⟩
      · rw [h3.2] at h2; cases h2
      · rw [h3.1] at h2; cases h2
    · rw [if_neg h3]

theorem sets_truthy_of_false {b : BranchOp}
    (h : delay_slot_sets_false b = Except.ok true) :
    delay_slot_sets_truthy b = Except.ok false := by
  have h2 := sets_false_true_iff.mp h
  unfold delay_slot_sets_truthy
  by_cases h1 : b.branch_delay.kind = BranchDelayKind.SET_REG_TRUE
  · rcases h2 with h2 | ⟨_, h2, _⟩ <;> rw [h1] at h2 <;> cases h2
  · rw [if_neg h1]
    by_cases h3 : b.condition.kind = ConditionKind.TRUTHY ∧
        b.branch_delay.kind = BranchDelayKind.SET_REG_REG
    · rcases h2 with h2 | ⟨h2, _, _⟩
      · rw [h3.2] at h2; cases h2
      · rw [h3.1] at h2; cases h2
    · rw [if_neg h3]

theorem split_scan_entry_k {ir : ShortCircuitElement} {fia : Bool} {k : Nat}
    (hscan : split_scan fia 1 ((ir.entries.take (ir.entries.length - 1)).drop 1)
        = Except.ok (some k)) :
    ∃ e b s, (ir.entries.drop k).head? = some e ∧ ir.entries.get? k = some e ∧
      get_condition_branch e.condition = Except.ok (some b, s) ∧
      delay_slot_sets_false b = Except.ok (!fia) ∧
      delay_slot_sets_truthy b = Except.ok fia := by
  obtain ⟨hk1, hk2, _⟩ := split_scan_some _ _ _ _ hscan
  simp only [List.length_drop, List.length_take] at hk2
  obtain ⟨⟨e, b, s, he, hs, hf, ht⟩, _⟩ := split_scan_details _ _ _ _ hscan
  have hget : ir.entries.get? k = some e := by
    rw [← he]
    simp only [List.get?_eq_getElem?, List.getElem?_drop, List.getElem?_take]
    have : 1 + (k - 1) = k := by omega
    rw [this, if_pos (by omega)]
  refine ⟨e, b, s, ?_, hget, hs, hf, ht⟩
  rw [List.head?_drop, ← List.get?_eq_getElem?, hget]

/-- A two-entry element that was classified: the branch of its first entry
decides the kind and is replaced; the second entry is kept. -/
theorem classified_two {invert : ConditionKind → ConditionKind}
    {func : Function} {ir out : ShortCircuitElement}
    {a z : ShortCircuitEntry FormElement} {ba : BranchOp} {sa : Slot}
    (hc : Classified invert func ir out)
    (hir : ir.entries = [a, z])
    (ha : get_condition_branch a.condition = Except.ok (some ba, sa)) :
    (out.kind = ShortCircuitKind.AND ∧ delay_slot_sets_false ba = Except.ok true ∧
      out.entries =
        [{ condition := slot_write sa a.condition (ba.condition.get_as_inverted_form invert) },
          z]) ∨
    (out.kind = ShortCircuitKind.OR ∧ delay_slot_sets_truthy ba = Except.ok true ∧
      out.entries =
        [{ condition := slot_write sa a.condition ba.condition.get_as_form }, z]) := by
  obtain ⟨b0, s0, hs0, hka, hko⟩ := @classified_kind _ _ _ _ a hc (by simp [hir]) (by simp [hir])
  obtain ⟨hb, hs⟩ := get_condition_branch_inj ha hs0
  rw [hb] at hka hko
  clear hb hs hs0
  obtain ⟨hl, hd, hshape⟩ := classified_shape hc
  rw [hir] at hd hl hshape
  simp only [List.length_cons, List.length_nil, Nat.add_sub_cancel, Nat.zero_add,
    List.take_succ_cons, List.take_zero, List.drop_succ_cons, List.drop_zero] at hd hl hshape
  have hent : ∀ replace, List.Forall₂ (BranchReplaced replace) [a] (out.entries.take 1) →
      out.entries = [{ condition := slot_write sa a.condition (replace ba.condition) }, z] := by
    intro replace hf
    rw [← List.take_append_drop 1 out.entries, hd]
    cases ht : out.entries.take 1 with
    | nil => rw [ht] at hf; cases hf
    | cons x0 t =>
      rw [ht] at hf
      cases hf with
      | cons hx0 hf1 =>
        cases hf1
        rw [branch_replaced_eq ha hx0]
        rfl
  rcases hshape with ⟨hk, hf⟩ | ⟨hk, hf⟩
  · exact Or.inl ⟨hk, hka.mp hk, hent _ hf⟩
  · exact Or.inr ⟨hk, hko.mp hk, hent _ hf⟩

theorem clean_up_sc_fuel_two {invert : ConditionKind → ConditionKind}
    {func : Function} {fuel : Nat} {ir out : ShortCircuitElement}
    {a z : ShortCircuitEntry FormElement} {ba : BranchOp} {sa : Slot}
    (h : clean_up_sc_fuel invert func fuel ir = Except.ok out)
    (hir : ir.entries = [a, z])
    (ha : get_condition_branch a.condition = Except.ok (some ba, sa)) :
    (out.kind = ShortCircuitKind.AND ∧ delay_slot_sets_false ba = Except.ok true ∧
      out.entries =
        [{ condition := slot_write sa a.condition (ba.condition.get_as_inverted_form invert) },
          z]) ∨
    (out.kind = ShortCircuitKind.OR ∧ delay_slot_sets_truthy ba = Except.ok true ∧
      out.entries =
        [{ condition := slot_write sa a.condition ba.condition.get_as_form }, z]) := by
  obtain ⟨hlen, hc⟩ := clean_up_sc_fuel_split_or_not h
  rcases hc with hc | ⟨_, _, _, _, _, k, _, _, _, _, _, _, _, hk1, hk2, _, _⟩
  · exact classified_two hc hir ha
  · rw [hir] at hk2
    simp at hk2
    omega

theorem classified_last {invert : ConditionKind → ConditionKind}
    {func : Function} {ir out : ShortCircuitElement}
    (hc : Classified invert func ir out) (hpos : 0 < ir.entries.length) :
    out.entries.getLast? = ir.entries.getLast? := by
  rcases hc with h1 | ⟨_, h2⟩
  · exact try_as_true_last hpos h1
  · exact try_as_true_last hpos h2

theorem clean_up_sc_fuel_nested_opposite {invert : ConditionKind → ConditionKind}
    {func : Function} {fuel : Nat} {ir out : ShortCircuitElement}
    (h : clean_up_sc_fuel invert func fuel ir = Except.ok out)
    (hlt : out.entries.length < ir.entries.length) :
    ∃ nested, out.entries.getLast? = some { condition := [FormElement.ShortCircuit nested] } ∧
      ((out.kind = ShortCircuitKind.AND ∧ nested.kind = ShortCircuitKind.OR) ∨
       (out.kind = ShortCircuitKind.OR ∧ nested.kind = ShortCircuitKind.AND)) := by
  obtain ⟨hlen, hc⟩ := clean_up_sc_fuel_split_or_not h
  rcases hc with hc | ⟨fuel1, front, fb, s, fia, k, nested_sc, _, h1, h2, h3, h4, hscan, hk1,
    hk2, hnested, hc⟩
  · have := (classified_shape hc).1
    omega
  · have hlk : (ir.entries.take k).length = k := List.length_take_of_le (by omega)
    refine ⟨nested_sc, ?_, ?_⟩
    · rw [classified_last hc (by simp)]
      simp
    · obtain ⟨b0, s0, hs0, hka, hko⟩ := classified_kind hc (by simp [hlk]; omega)
        (head?_take_append hk1 h1)
      obtain ⟨hb, _⟩ := get_condition_branch_inj h2 hs0
      rw [hb, h3] at hka
      rw [hb, h4] at hko
      obtain ⟨e, b, sk, hhead, _, hsk, hfk, htk⟩ := split_scan_entry_k hscan
      obtain ⟨e0', b0', s0', hh', hs', hna, hno⟩ := clean_up_sc_fuel_kind_iff hnested
      simp only [ShortCircuitElement_new] at hh'
      rw [hhead] at hh'
      injection hh' with hh'
      subst hh'
      obtain ⟨hb', _⟩ := get_condition_branch_inj hsk hs'
      rw [hb', hfk] at hna
      rw [hb', htk] at hno
      cases fia with
      | true =>
        left
        exact ⟨hka.mpr rfl, hno.mpr rfl⟩
      | false =>
        right
        exact ⟨hko.mpr rfl, hna.mpr rfl⟩

theorem clean_up_sc_fuel_and_or_shape {invert : ConditionKind → ConditionKind}
    {func : Function} {fuel : Nat} {ir out : ShortCircuitElement}
    {ex ey ez : ShortCircuitEntry FormElement} {bx bY : BranchOp} {sx sy : Slot}
    (h : clean_up_sc_fuel invert func fuel ir = Except.ok out)
    (hir : ir.entries = [ex, ey, ez])
    (hx : get_condition_branch ex.condition = Except.ok (some bx, sx))
    (hfx : delay_slot_sets_false bx = Except.ok true)
    (hy : get_condition_branch ey.condition = Except.ok (some bY, sy))
    (hty : delay_slot_sets_truthy bY = Except.ok true) :
    out.kind = ShortCircuitKind.AND ∧
    ∃ nested : ShortCircuitElement,
      out.entries =
        [{ condition := slot_write sx ex.condition (bx.condition.get_as_inverted_form invert) },
         { condition := [FormElement.ShortCircuit nested] }] ∧
      nested.kind = ShortCircuitKind.OR ∧
      nested.entries =
        [{ condition := slot_write sy ey.condition bY.condition.get_as_form }, ez] := by
  obtain ⟨hlen, hc⟩ := clean_up_sc_fuel_split_or_not h
  rcases hc with hc | ⟨fuel1, front, fb, s, fia, k, nested_sc, _, h1, h2, h3, h4, hscan, hk1,
    hk2, hnested, hc⟩
  · exfalso
    rcases hc with hand | ⟨_, hor⟩
    · obtain ⟨d, v, r, hscan, _, _⟩ := try_as_true hand
      rw [hir] at hscan
      simp only [List.length_cons, List.length_nil, Nat.add_sub_cancel, Nat.zero_add,
        List.take_succ_cons, List.take_zero] at hscan
      obtain ⟨_, _, _, _, _, _, hall⟩ := (sc_scan_head _ _ _ _ _ _).mp hscan
      simp only [List.all_cons, List.all_nil, Bool.and_true] at hall
      obtain ⟨b, s, w, hs, hsets, _⟩ := entry_sets_iff.mp hall
      obtain ⟨hb, _⟩ := get_condition_branch_inj hy hs
      rw [hb] at hsets
      exact sets_false_truthy_disjoint hsets hty
    · obtain ⟨_, _, _, _, hfin⟩ := try_as_success hor
      obtain ⟨b, s, hs, hsets, _⟩ := hfin ex (by simp [hir]) (by simp [hir])
      obtain ⟨hb, _⟩ := get_condition_branch_inj hx hs
      rw [hb] at hsets
      exact sets_false_truthy_disjoint hfx hsets
  · have hk : k = 1 := by rw [hir] at hk2; simp at hk2; omega
    subst hk
    rw [hir] at hnested hc
    simp only [List.drop_succ_cons, List.drop_zero, List.take_succ_cons, List.take_zero,
      List.cons_append, List.nil_append] at hnested hc
    have hn2 := clean_up_sc_fuel_two hnested (a := ey) (z := ez) rfl hy
    rcases hn2 with ⟨_, hbad, _⟩ | ⟨hnk, _, hne⟩
    · exact (sets_false_truthy_disjoint hbad hty).elim
    · have ho2 := classified_two hc (a := ex)
        (z := { condition := [FormElement.ShortCircuit nested_sc] }) rfl hx
      rcases ho2 with ⟨hok, _, hoe⟩ | ⟨_, hbad, _⟩
      · exact ⟨hok, nested_sc, hoe, hnk, hne⟩
      · exact (sets_false_truthy_disjoint hfx hbad).elim

theorem clean_up_sc_and_or_completes {invert : ConditionKind → ConditionKind}
    {func : Function} {ir : ShortCircuitElement}
    {ex ey ez : ShortCircuitEntry FormElement} {bx bY : BranchOp} {sx sy : Slot}
    {wx wy : Variable}
    (hir : ir.entries = [ex, ey, ez])
    (hx : get_condition_branch ex.condition = Except.ok (some bx, sx))
    (hfx : delay_slot_sets_false bx = Except.ok true)
    (hy : get_condition_branch ey.condition = Except.ok (some bY, sy))
    (hty : delay_slot_sets_truthy bY = Except.ok true)
    (hu : func.has_reg_use = false)
    (hwx : bx.branch_delay.var 0 = Except.ok wx)
    (hwy : bY.branch_delay.var 0 = Except.ok wy) :
    clean_up_sc invert func ir = Except.ok
      { kind := ShortCircuitKind.AND,
        entries :=
          [{ condition := slot_write sx ex.condition
              (bx.condition.get_as_inverted_form invert) },
           { condition := [FormElement.ShortCircuit
              { kind := ShortCircuitKind.OR,
                entries :=
                  [{ condition := slot_write sy ey.condition bY.condition.get_as_form }, ez],
                final_result := wy, used_as_value := false }] }],
        final_result := wx, used_as_value := false } := by
  have hfy := sets_false_of_truthy hty
  have htx := sets_truthy_of_false hfx
  simp [clean_up_sc, clean_up_sc_fuel, hir, assert_that, Except.bind,
    try_clean_up_sc_as_and, try_clean_up_sc_as_or, try_clean_up_sc_as, sc_scan, sc_replace,
    sc_live_out, hu, hx, hy, hfx, hty, hfy, htx, hwx, hwy, assert_some,
    try_splitting_nested_sc, split_scan, ShortCircuitElement_new]

theorem forall₂_append {α β : Type} {R : α → β → Prop} {a c : List α} {b d : List β}
    (h1 : List.Forall₂ R a b) (h2 : List.Forall₂ R c d) :
    List.Forall₂ R (a ++ c) (b ++ d) := List.rel_append h1 h2

theorem polarity_eq_of_branch {e : ShortCircuitEntry FormElement} {b : BranchOp} {s : Slot}
    {r : Bool} (hs : get_condition_branch e.condition = Except.ok (some b, s))
    (hf : delay_slot_sets_false b = Except.ok r) : polarity e = some r := by
  unfold polarity
  rw [branch_of_eq_some.mpr ⟨s, hs⟩]
  simp only [hf]

theorem leaf_entries_of_length_eq (depth n : Nat) (out : ShortCircuitElement)
    (h : out.entries.length = n) : leaf_entries depth n out = out.entries := by
  cases depth with
  | zero => rfl
  | succ d => simp [leaf_entries, h]

theorem classified_entries_cleaned {invert : ConditionKind → ConditionKind}
    {func : Function} {ir out : ShortCircuitElement}
    (hc : Classified invert func ir out) :
    List.Forall₂ (EntryCleaned invert) (ir.entries.take (ir.entries.length - 1))
      (out.entries.take (ir.entries.length - 1)) ∧
    List.Forall₂ (EntryCleaned invert) ir.entries out.entries := by
  obtain ⟨_, hd, hshape⟩ := classified_shape hc
  have ht : List.Forall₂ (EntryCleaned invert) (ir.entries.take (ir.entries.length - 1))
      (out.entries.take (ir.entries.length - 1)) := by
    rcases hshape with ⟨_, hf⟩ | ⟨_, hf⟩
    · exact hf.imp (fun _ _ h => Or.inr (Or.inl h))
    · exact hf.imp (fun _ _ h => Or.inr (Or.inr h))
  refine ⟨ht, ?_⟩
  rw [← List.take_append_drop (ir.entries.length - 1) ir.entries,
    ← List.take_append_drop (ir.entries.length - 1) out.entries, hd]
  exact forall₂_append ht (List.forall₂_same.mpr (fun _ _ => Or.inl rfl))

theorem clean_up_sc_fuel_leaf_entries (invert : ConditionKind → ConditionKind)
    (func : Function) :
    ∀ (fuel : Nat) (ir out : ShortCircuitElement),
      clean_up_sc_fuel invert func fuel ir = Except.ok out →
      ∀ depth, ir.entries.length ≤ depth + 1 →
        List.Forall₂ (EntryCleaned invert) ir.entries
          (leaf_entries depth ir.entries.length out) := by
  intro fuel
  induction fuel using Nat.strong_induction_on with
  | _ fuel ih =>
    intro ir out h depth hdepth
    obtain ⟨hlen, hc⟩ := clean_up_sc_fuel_split_or_not h
    rcases hc with hc | ⟨fuel1, front, fb, s, fia, k, nested_sc, hfuel, _, _, _, _, _, hk1,
      hk2, hnested, hc⟩
    · rw [leaf_entries_of_length_eq _ _ _ (classified_shape hc).1]
      exact (classified_entries_cleaned hc).2
    · have hlk : (ir.entries.take k).length = k := List.length_take_of_le (by omega)
      have hol : out.entries.length = k + 1 := by
        rw [(classified_shape hc).1]; simp [hlk]
      have hlast : out.entries.getLast? =
          some { condition := [FormElement.ShortCircuit nested_sc] } := by
        rw [classified_last hc (by simp)]; simp
      have htake := (classified_entries_cleaned hc).1
      simp only [List.length_append, hlk, List.length_singleton, Nat.add_sub_cancel,
        List.take_left' hlk] at htake
      cases depth with
      | zero => omega
      | succ d =>
        have hn := ih (fuel1 + 1) (by omega) _ _ hnested d
          (by simp only [ShortCircuitElement_new, List.length_drop]; omega)
        simp only [ShortCircuitElement_new, List.length_drop] at hn
        simp only [leaf_entries, hlast]
        rw [if_pos (by omega), List.dropLast_eq_take, hol, Nat.add_sub_cancel]
        have hnk : ir.entries.length + 1 - (k + 1) = ir.entries.length - k := by omega
        rw [hnk]
        have := forall₂_append htake hn
        rw [List.take_append_drop] at this
        exact this

theorem split_first_different_unique {ir : ShortCircuitElement} {fia : Bool} {k k0 : Nat}
    {front : ShortCircuitEntry FormElement} {fb : BranchOp} {s : Slot}
    (hfront : ir.entries.head? = some front)
    (hfb : get_condition_branch front.condition = Except.ok (some fb, s))
    (hand : delay_slot_sets_false fb = Except.ok fia)
    (hscan : split_scan fia 1 ((ir.entries.take (ir.entries.length - 1)).drop 1)
        = Except.ok (some k))
    (hk0 : is_first_different ir k0) : k = k0 := by
  obtain ⟨hk1, hk2, _⟩ := split_scan_some _ _ _ _ hscan
  simp only [List.length_drop, List.length_take] at hk2
  obtain ⟨e, b, sk, _, hget, hsk, hfk, _⟩ := split_scan_entry_k hscan
  obtain ⟨_, hbefore⟩ := split_scan_details _ _ _ _ hscan
  obtain ⟨h01, h02, hne, hmin⟩ := hk0
  have hp0 : polarity_at ir 0 = some fia := by
    unfold polarity_at
    cases hl : ir.entries with
    | nil => rw [hl] at hfront; simp at hfront
    | cons a t =>
      rw [hl] at hfront
      simp only [List.head?_cons, Option.some.injEq] at hfront
      subst hfront
      simp [polarity_eq_of_branch hfb hand]
  have hpk : polarity_at ir k = some (!fia) := by
    unfold polarity_at
    rw [hget]
    simp [polarity_eq_of_branch hsk hfk]
  have hpi : ∀ i, 1 ≤ i → i < k → polarity_at ir i = some fia := by
    intro i hi1 hik
    have hlt : i < ir.entries.length := by omega
    have hmem : ir.entries[i] ∈
        ((ir.entries.take (ir.entries.length - 1)).drop 1).take (k - 1) := by
      apply List.getElem?_mem (n := i - 1)
      simp only [List.getElem?_take, List.getElem?_drop]
      have : 1 + (i - 1) = i := by omega
      rw [this, if_pos (by omega), if_pos (by omega)]
      exact List.getElem?_eq_getElem hlt
    obtain ⟨b', s', hs', hf', _⟩ := hbefore _ hmem
    unfold polarity_at
    rw [List.get?_eq_getElem?, List.getElem?_eq_getElem hlt]
    simp [polarity_eq_of_branch hs' hf']
  rcases Nat.lt_trichotomy k k0 with hlt | heq | hgt
  · have := hmin k hk1 hlt
    rw [hpk, hp0] at this
    cases fia <;> simp at this
  · exact heq
  · have := hpi k0 h01 hgt
    rw [← hp0] at this
    exact absurd this hne

theorem get_condition_branch_as_vector_eq_ok {f : Form} {o : Option BranchOp}
    (h : get_condition_branch_as_vector f = Except.ok o) :
    (1 < f.length ∧ ∃ op, o = some op ∧ f = f.dropLast ++ [FormElement.Branch op]) ∨
    (f.length ≤ 1 ∧ o = none) := by
  unfold get_condition_branch_as_vector at h
  by_cases hl : f.length > 1
  · rw [if_pos hl] at h
    left
    refine ⟨hl, ?_⟩
    cases hg : f.getLast? with
    | none => rw [hg] at h; simp at h
    | some x =>
      rw [hg] at h
      cases x with
      | Branch op =>
        simp only [Except.ok.injEq] at h
        refine ⟨op, h.symm, ?_⟩
        exact (List.dropLast_append_getLast? _ hg).symm
      | _ => simp at h
  · rw [if_neg hl] at h
    right
    injection h with h
    exact ⟨by omega, h.symm⟩

theorem clean_up_jump_to_end_eq_ok {body body1 : Form}
    (h : clean_up_jump_to_end body = Except.ok body1) : JumpRemoved body body1 := by
  simp only [clean_up_jump_to_end, bind_eq_ok, assert_some_eq_ok, assert_that_eq_ok] at h
  obtain ⟨jump, hj, jb, hjb, _, hnop, _, halways, ov, hv, h⟩ := h
  have hjs : get_condition_branch body = Except.ok (some jb, jump.2) := by rw [hj, ← hjb]
  simp only [beq_iff_eq] at hnop halways
  refine ⟨jb, jump.2, hjs, halways, hnop, ?_⟩
  rcases get_condition_branch_as_vector_eq_ok hv with ⟨hl, op, rfl, hbody⟩ | ⟨hl, rfl⟩
  · left
    simp only [Option.isSome_some, if_true, bind_eq_ok, assert_that_eq_ok, pop_back] at h
    obtain ⟨_, _, h⟩ := h
    have hne : body.isEmpty = false := by
      cases body with
      | nil => simp at hl
      | cons a t => rfl
    rw [hne] at h
    simp only [Bool.false_eq_true, if_false] at h
    injection h with h
    refine ⟨hl, ?_⟩
    rw [← h]
    have h2 := hjs
    rw [hbody, get_condition_branch_concat] at h2
    simp only [get_condition_branch_of_back] at h2
    injection h2 with h2
    injection h2 with h2 _
    injection h2 with h2
    rw [← h2]
    exact hbody
  · right
    simp only [Option.isSome_none, Bool.false_eq_true, if_false] at h
    injection h with h
    obtain ⟨pre, e, hpre, _⟩ := form_eq_concat_of_get_condition_branch hjs
    refine ⟨?_, h.symm⟩
    rw [hpre] at hl ⊢
    simp at hl ⊢
    exact hl

theorem read_loc_eq_ok {parent_form : Form} {ir_loc : Nat} {e : FormElement} :
    read_loc parent_form ir_loc = Except.ok e ↔ parent_form.get? ir_loc = some e := by
  unfold read_loc
  cases parent_form.get? ir_loc <;> simp

theorem get?_set_self {parent_form : Form} {ir_loc : Nat} {e x : FormElement}
    (h : parent_form.get? ir_loc = some e) :
    (parent_form.set ir_loc x).get? ir_loc = some x := by
  rw [List.get?_eq_getElem?] at h ⊢
  obtain ⟨hlt, _⟩ := List.getElem?_eq_some.mp h
  rw [List.getElem?_set_self hlt]

theorem cond_no_else_compare_shape (invert : ConditionKind → ConditionKind)
    (parent_form : Form) (ir_loc : Nat) (cne : CondNoElseElement)
    (e : CondNoElseEntry FormElement) (b : BranchOp) (dst : Variable) (sp : Bool)
    (hloc : parent_form.get? ir_loc = some (FormElement.CondNoElse cne))
    (hentries : cne.entries = [e])
    (hcleaned : e.cleaned = false)
    (hcond : e.condition = [FormElement.Branch b])
    (hdelay : b.branch_delay.kind = BranchDelayKind.SET_REG_TRUE)
    (hbody : e.body = set_false_body dst sp) :
    clean_up_cond_no_else invert parent_form ir_loc =
      Except.ok (parent_form.set ir_loc
        (FormElement.SetVar dst [b.condition.get_as_form] true)) ∧
    (∀ x ∈ parent_form.set ir_loc (FormElement.SetVar dst [b.condition.get_as_form] true),
      as_cond_no_else x ≠ none →
      ∃ j, j ≠ ir_loc ∧ parent_form.get? j = some x) ∧
    (parent_form = [FormElement.CondNoElse cne] →
      clean_up_cond_no_else invert parent_form ir_loc =
        Except.ok [FormElement.SetVar dst [b.condition.get_as_form] true]) := by
  have hmain : clean_up_cond_no_else invert parent_form ir_loc =
      Except.ok (parent_form.set ir_loc
        (FormElement.SetVar dst [b.condition.get_as_form] true)) := by
    have hset := read_loc_eq_ok.mpr (get?_set_self (x := FormElement.CondNoElse
      { entries := [e], final_destination := cne.final_destination,
        used_as_value := cne.used_as_value }) hloc)
    unfold clean_up_cond_no_else
    rw [read_loc_eq_ok.mpr hloc]
    simp only [Except.bind, as_cond_no_else, assert_some, hentries]
    simp only [clean_up_cond_no_else_loop, hcleaned, Bool.false_eq_true, if_false, hcond,
      get_condition_branch, get_condition_branch_of_back, Except.bind, assert_some, hdelay,
      List.length_singleton, and_self, if_true, List.nil_append]
    unfold convert_cond_no_else_to_compare
    rw [hset]
    simp [Except.bind, assert_some, as_cond_no_else, hcond, get_condition_branch,
      get_condition_branch_of_back, hbody, set_false_body, try_as_single_element,
      as_set_var, get_atom_src, SimpleExpression.is_identity, SimpleExpression.get_arg,
      Except.map, SimpleAtom.is_sym_ptr, SimpleAtom.get_str, assert_that, as_branch]
  refine ⟨hmain, ?_, ?_⟩
  · intro x hx hcne
    obtain ⟨j, hj⟩ := List.getElem?_of_mem hx
    by_cases hji : j = ir_loc
    · subst hji
      rw [← List.get?_eq_getElem?, get?_set_self hloc] at hj
      injection hj with hj
      subst hj
      simp [as_cond_no_else] at hcne
    · refine ⟨j, hji, ?_⟩
      rw [List.getElem?_set_ne (Ne.symm hji)] at hj
      rw [List.get?_eq_getElem?, hj]
  · intro hp
    rw [hmain]
    subst hp
    have : ir_loc = 0 := by
      cases ir_loc with
      | zero => rfl
      | succ n => simp at hloc
    subst this
    rfl

theorem pop_back_concat (pre : Form) (x : FormElement) :
    pop_back (pre ++ [x]) = Except.ok pre := by
  simp [pop_back]

theorem try_as_single_element_concat {pre : Form} (x : FormElement) (h : pre ≠ []) :
    try_as_single_element (pre ++ [x]) = none := by
  cases pre with
  | nil => exact absurd rfl h
  | cons a t =>
    cases t with
    | nil => rfl
    | cons a2 t2 => rfl

theorem set_concat_length (pre : Form) (x y : FormElement) :
    (pre ++ [x]).set pre.length y = pre ++ [y] := by
  induction pre with
  | nil => rfl
  | cons a t ih => simp [List.set, ih]

theorem convert_splice_shape (pre cpre : Form)
    (cne : CondNoElseElement) (e : CondNoElseEntry FormElement) (b : BranchOp)
    (dst : Variable) (sp : Bool)
    (hentries : cne.entries = [e])
    (hcond : e.condition = cpre ++ [FormElement.Branch b])
    (hm : cpre ≠ [])
    (hbody : e.body = set_false_body dst sp) :
    convert_cond_no_else_to_compare (pre ++ [FormElement.CondNoElse cne]) pre.length =
      Except.ok (pre ++ cpre ++ [FormElement.SetVar dst [b.condition.get_as_form] true]) ∧
    (pre ++ cpre ++ [FormElement.SetVar dst [b.condition.get_as_form] true]).length =
      (pre ++ [FormElement.CondNoElse cne]).length - 1 + e.condition.length := by
  constructor
  · unfold convert_cond_no_else_to_compare
    have hread : read_loc (pre ++ [FormElement.CondNoElse cne]) pre.length
        = Except.ok (FormElement.CondNoElse cne) := by
      rw [read_loc_eq_ok]
      simp
    rw [hread]
    simp only [Except.bind, as_cond_no_else, assert_some, hentries, List.head?_cons, hcond,
      get_condition_branch_concat, get_condition_branch_of_back,
      try_as_single_element_concat _ hm, pop_back_concat, set_concat_length]
    simp [hbody, set_false_body, try_as_single_element,
      as_set_var, get_atom_src, SimpleExpression.is_identity, SimpleExpression.get_arg,
      Except.map, SimpleAtom.is_sym_ptr, SimpleAtom.get_str, assert_that, assert_some]
  · rw [hcond]
    simp only [List.length_append, List.length_singleton]
    omega

theorem cne_loop_ok (invert : ConditionKind → ConditionKind) (parent_form : Form)
    (ir_loc : Nat) (cne : CondNoElseElement) (n : Nat) :
    ∀ (todo : List (CondNoElseEntry FormElement)) (idx : Nat)
      (done : List (CondNoElseEntry FormElement)) (result : Form),
      idx + todo.length = n →
      (∀ e ∈ todo, e.cleaned = false → ∀ b s,
        get_condition_branch e.condition = Except.ok (some b, s) →
        ¬ (b.branch_delay.kind = BranchDelayKind.SET_REG_TRUE ∧ n = 1)) →
      clean_up_cond_no_else_loop invert parent_form ir_loc cne n idx done todo
        = Except.ok result →
      ∃ todo1, result = parent_form.set ir_loc
          (FormElement.CondNoElse { cne with entries := done ++ todo1 }) ∧
        todo1.length = todo.length ∧
        ∀ j e, todo.get? j = some e →
          ∃ e1, todo1.get? j = some e1 ∧ CneEntryResult invert n (idx + j) e e1 := by
  intro todo
  induction todo with
  | nil =>
    intro idx done result _ _ h
    simp only [clean_up_cond_no_else_loop] at h
    injection h with h
    exact ⟨[], by simp [h], rfl, by simp⟩
  | cons e todo ih =>
    intro idx done result hn hcase h
    have hn1 : idx + 1 + todo.length = n := by simp only [List.length_cons] at hn; omega
    have hcase1 : ∀ e ∈ todo, e.cleaned = false → ∀ b s,
        get_condition_branch e.condition = Except.ok (some b, s) →
        ¬ (b.branch_delay.kind = BranchDelayKind.SET_REG_TRUE ∧ n = 1) :=
      fun e1 he1 => hcase e1 (List.mem_cons_of_mem _ he1)
    unfold clean_up_cond_no_else_loop at h
    by_cases hcl : e.cleaned = true
    · rw [if_pos hcl] at h
      obtain ⟨todo1, hres, hlen, hall⟩ := ih _ _ _ hn1 hcase1 h
      refine ⟨e :: todo1, by simpa using hres, by simp [hlen], ?_⟩
      intro j x hj
      cases j with
      | zero =>
        simp only [List.get?_cons_zero, Option.some.injEq] at hj
        subst hj
        exact ⟨e, rfl, by simp [CneEntryResult, hcl]⟩
      | succ j1 =>
        simp only [List.get?_cons_succ] at hj
        obtain ⟨e1, he1, hr⟩ := hall j1 x hj
        refine ⟨e1, by simpa using he1, ?_⟩
        have : idx + (j1 + 1) = idx + 1 + j1 := by omega
        rw [this]
        exact hr
    · rw [if_neg hcl] at h
      simp only [bind_eq_ok, assert_some_eq_ok] at h
      obtain ⟨jump, hj, b, hb, h⟩ := h
      have hbs : get_condition_branch e.condition = Except.ok (some b, jump.2) := by
        rw [hj, ← hb]
      have hnc := hcase e (List.mem_cons_self _ _) (by simpa using hcl) b jump.2 hbs
      rw [if_neg hnc] at h
      simp only [bind_eq_ok, assert_that_eq_ok] at h
      obtain ⟨_, hkind, _, halways, fd, hfd, body, hbody, h⟩ := h
      obtain ⟨todo1, hres, hlen, hall⟩ := ih _ _ _ hn1 hcase1 h
      refine ⟨_ :: todo1, by simpa using hres, by simp [hlen], ?_⟩
      intro j x hjx
      cases j with
      | zero =>
        simp only [List.get?_cons_zero, Option.some.injEq] at hjx
        subst hjx
        refine ⟨_, rfl, ?_⟩
        simp only [CneEntryResult, if_neg hcl]
        refine ⟨b, jump.2, hbs, by simpa using halways, rfl, slot_read_of_branch hbs, rfl,
          slot_read_write _ hbs, ?_, ?_⟩
        · simp only [Bool.or_eq_true, beq_iff_eq] at hkind
          by_cases hsrf : b.branch_delay.kind = BranchDelayKind.SET_REG_FALSE
          · left
            rw [if_pos hsrf] at hfd
            simp only [bind_eq_ok, assert_that_eq_ok] at hfd
            obtain ⟨_, hnone, v, hv, hfd⟩ := hfd
            injection hfd with hfd
            exact ⟨hsrf, by simpa using hnone, v, hv, hfd.symm⟩
          · right
            rw [if_neg hsrf] at hfd
            injection hfd with hfd
            rcases hkind with hk | hk
            · exact absurd hk hsrf
            · exact ⟨hk, hfd.symm⟩
        · by_cases hlast : idx + 1 = n
          · have : ¬ (idx ≠ n - 1) := by omega
            rw [if_neg this] at hbody
            injection hbody with hbody
            simp only [Nat.add_zero, if_pos hlast]
            exact hbody.symm
          · have : idx ≠ n - 1 := by omega
            rw [if_pos this] at hbody
            simp only [Nat.add_zero, if_neg hlast]
            exact clean_up_jump_to_end_eq_ok hbody
      | succ j1 =>
        simp only [List.get?_cons_succ] at hjx
        obtain ⟨e1, he1, hr⟩ := hall j1 x hjx
        refine ⟨e1, by simpa using he1, ?_⟩
        have : idx + (j1 + 1) = idx + 1 + j1 := by omega
        rw [this]
        exact hr

theorem not_compare_case {cne : CondNoElseElement} (hcase : is_compare_case cne = false) :
    ∀ e ∈ cne.entries, e.cleaned = false → ∀ b s,
      get_condition_branch e.condition = Except.ok (some b, s) →
      ¬ (b.branch_delay.kind = BranchDelayKind.SET_REG_TRUE ∧ cne.entries.length = 1) := by
  intro e he hcl b s hb ⟨hk, hn⟩
  unfold is_compare_case at hcase
  cases hl : cne.entries with
  | nil => rw [hl] at hn; simp at hn
  | cons a t =>
    cases t with
    | nil =>
      rw [hl] at he hcase
      simp only [List.mem_singleton] at he
      subst he
      simp [hcl, hb, hk] at hcase
    | cons a2 t2 => rw [hl] at hn; simp at hn

theorem clean_up_cond_no_else_unfold (invert : ConditionKind → ConditionKind)
    (parent_form : Form) (ir_loc : Nat) (cne : CondNoElseElement)
    (hloc : parent_form.get? ir_loc = some (FormElement.CondNoElse cne)) :
    clean_up_cond_no_else invert parent_form ir_loc =
      clean_up_cond_no_else_loop invert parent_form ir_loc cne cne.entries.length 0 []
        cne.entries := by
  unfold clean_up_cond_no_else
  rw [read_loc_eq_ok.mpr hloc]
  rfl

theorem set_get?_self {α : Type} : ∀ (l : List α) (i : Nat) (x : α),
    l.get? i = some x → l.set i x = l := by
  intro l
  induction l with
  | nil => intro i x h; rfl
  | cons a t ih =>
    intro i x h
    cases i with
    | zero =>
      simp only [List.get?_cons_zero, Option.some.injEq] at h
      simp [h]
    | succ j =>
      simp only [List.get?_cons_succ] at h
      simp [ih j x h]

theorem bind_error_of_forall {α β : Type} {x : Res α} {f : α → Res β}
    (h : ∀ a, x = Except.ok a → ∃ err, f a = Except.error err) :
    ∃ err, x.bind f = Except.error err := by
  cases x with
  | error e => exact ⟨e, rfl⟩
  | ok a => exact h a rfl

theorem cne_entry_rejected {invert : ConditionKind → ConditionKind} {parent_form : Form}
    {ir_loc : Nat} {cne : CondNoElseElement} {n idx : Nat}
    {done todo : List (CondNoElseEntry FormElement)} {e : CondNoElseEntry FormElement}
    {b : BranchOp} {s : Slot}
    (hcl : e.cleaned = false)
    (hb : get_condition_branch e.condition = Except.ok (some b, s))
    (hbad : rejected_branch b)
    (hnc : ¬ (b.branch_delay.kind = BranchDelayKind.SET_REG_TRUE ∧ n = 1)) :
    clean_up_cond_no_else_loop invert parent_form ir_loc cne n idx done (e :: todo)
      = Except.error Err.assertion := by
  unfold clean_up_cond_no_else_loop
  rw [if_neg (by simp [hcl]), hb]
  simp only [Except.bind, assert_some]
  rw [if_neg hnc]
  rcases hbad with hal | ⟨h1, h2⟩
  · by_cases hk : (b.branch_delay.kind == BranchDelayKind.SET_REG_FALSE ||
        b.branch_delay.kind == BranchDelayKind.NOP) = true
    · simp [assert_that, hk, hal]
    · simp [assert_that, hk]
  · have hk : (b.branch_delay.kind == BranchDelayKind.SET_REG_FALSE ||
        b.branch_delay.kind == BranchDelayKind.NOP) = false := by
      simp [h1, h2]
    simp [assert_that, hk]

theorem cne_loop_rejects (invert : ConditionKind → ConditionKind) (parent_form : Form)
    (ir_loc : Nat) (cne : CondNoElseElement) (n : Nat) :
    ∀ (todo : List (CondNoElseEntry FormElement)) (idx : Nat)
      (done : List (CondNoElseEntry FormElement)) (j : Nat)
      (e : CondNoElseEntry FormElement) (b : BranchOp) (s : Slot),
      idx + todo.length = n →
      todo.get? j = some e → e.cleaned = false →
      get_condition_branch e.condition = Except.ok (some b, s) →
      rejected_branch b →
      ¬ (b.branch_delay.kind = BranchDelayKind.SET_REG_TRUE ∧ n = 1) →
      (∃ err, clean_up_cond_no_else_loop invert parent_form ir_loc cne n idx done todo
        = Except.error err) ∧
      ((∀ x ∈ todo.take j, x.cleaned = true) →
        clean_up_cond_no_else_loop invert parent_form ir_loc cne n idx done todo
          = Except.error Err.assertion) := by
  intro todo
  induction todo with
  | nil => intro idx done j e b s _ hj; simp at hj
  | cons e0 todo ih =>
    intro idx done j e b s hn hj hcl hb hbad hnc
    have hn1 : idx + 1 + todo.length = n := by simp only [List.length_cons] at hn; omega
    cases j with
    | zero =>
      simp only [List.get?_cons_zero, Option.some.injEq] at hj
      subst hj
      have := @cne_entry_rejected invert parent_form ir_loc cne n idx done todo _ _ _
        hcl hb hbad hnc
      exact ⟨⟨_, this⟩, fun _ => this⟩
    | succ j1 =>
      simp only [List.get?_cons_succ] at hj
      have hlen : 1 ≤ todo.length := by
        rw [List.get?_eq_getElem?] at hj
        obtain ⟨hlt, _⟩ := List.getElem?_eq_some.mp hj
        omega
      by_cases hcl0 : e0.cleaned = true
      · have hstep : clean_up_cond_no_else_loop invert parent_form ir_loc cne n idx done
            (e0 :: todo) = clean_up_cond_no_else_loop invert parent_form ir_loc cne n
              (idx + 1) (done ++ [e0]) todo := by
          rw [clean_up_cond_no_else_loop, if_pos hcl0]
        rw [hstep]
        obtain ⟨h1, h2⟩ := ih (idx + 1) (done ++ [e0]) j1 e b s hn1 hj hcl hb hbad hnc
        refine ⟨h1, ?_⟩
        intro hall
        apply h2
        intro x hx
        exact hall x (by rw [List.take_succ_cons]; exact List.mem_cons_of_mem _ hx)
      · constructor
        · unfold clean_up_cond_no_else_loop
          rw [if_neg hcl0]
          apply bind_error_of_forall
          intro jump _
          apply bind_error_of_forall
          intro b0 _
          have hnc0 : ¬ (b0.branch_delay.kind = BranchDelayKind.SET_REG_TRUE ∧ n = 1) := by
            intro ⟨_, h1⟩
            omega
          rw [if_neg hnc0]
          apply bind_error_of_forall
          intro _ _
          apply bind_error_of_forall
          intro _ _
          apply bind_error_of_forall
          intro _ _
          apply bind_error_of_forall
          intro _ _
          exact (ih (idx + 1) _ j1 e b s hn1 hj hcl hb hbad hnc).1
        · intro hall
          have := hall e0 (by rw [List.take_succ_cons]; exact List.mem_cons_self _ _)
          exact absurd this hcl0

theorem cond_no_else_rejects_shape (invert : ConditionKind → ConditionKind)
    (parent_form : Form) (ir_loc : Nat) (cne : CondNoElseElement) (idx : Nat)
    (e : CondNoElseEntry FormElement) (b : BranchOp) (s : Slot)
    (hloc : parent_form.get? ir_loc = some (FormElement.CondNoElse cne))
    (he : cne.entries.get? idx = some e)
    (hcl : e.cleaned = false)
    (hb : get_condition_branch e.condition = Except.ok (some b, s)) :
    (rejected_branch b →
      ¬ (b.branch_delay.kind = BranchDelayKind.SET_REG_TRUE ∧ cne.entries.length = 1) →
      (∃ err, clean_up_cond_no_else invert parent_form ir_loc = Except.error err) ∧
      ((∀ x ∈ cne.entries.take idx, x.cleaned = true) →
        clean_up_cond_no_else invert parent_form ir_loc = Except.error Err.assertion)) ∧
    (b.branch_delay.kind = BranchDelayKind.SET_REG_TRUE → 1 < cne.entries.length →
      ∃ err, clean_up_cond_no_else invert parent_form ir_loc = Except.error err) ∧
    (b.branch_delay.kind = BranchDelayKind.SET_REG_TRUE → cne.entries.length = 1 →
      clean_up_cond_no_else invert parent_form ir_loc =
        convert_cond_no_else_to_compare parent_form ir_loc) := by
  rw [clean_up_cond_no_else_unfold invert parent_form ir_loc cne hloc]
  refine ⟨?_, ?_, ?_⟩
  · intro hbad hnc
    exact cne_loop_rejects invert parent_form ir_loc cne cne.entries.length cne.entries 0 []
      idx e b s (by simp) he hcl hb hbad hnc
  · intro hk hn
    refine (cne_loop_rejects invert parent_form ir_loc cne cne.entries.length cne.entries 0 []
      idx e b s (by simp) he hcl hb (Or.inr ?_) (by omega)).1
    rw [hk]
    exact ⟨by decide, by decide⟩
  · intro hk hn
    cases hl : cne.entries with
    | nil => rw [hl] at hn; simp at hn
    | cons a t =>
      cases t with
      | cons a2 t2 => rw [hl] at hn; simp at hn
      | nil =>
        rw [hl] at he
        cases idx with
        | succ i => simp at he
        | zero =>
          simp only [List.get?_cons_zero, Option.some.injEq] at he
          subst he
          simp only [List.length_singleton]
          unfold clean_up_cond_no_else_loop
          rw [if_neg (by simp [hcl]), hb]
          simp only [Except.bind, assert_some, hk, and_self, if_true, List.nil_append]
          congr 1
          have : ∀ c : CondNoElseElement, c.entries = [a] →
              FormElement.CondNoElse { c with entries := [a] } = FormElement.CondNoElse c := by
            intro c hc
            cases c
            simp at hc
            simp [hc]
          rw [this cne hl]
          exact set_get?_self _ _ _ hloc

theorem clean_up_sc_fuel_of_classified {invert : ConditionKind → ConditionKind}
    {func : Function} {ir out : ShortCircuitElement} (fuel : Nat)
    (hlen : 2 ≤ ir.entries.length) (hc : Classified invert func ir out) :
    clean_up_sc_fuel invert func (fuel + 1) ir = Except.ok out := by
  have hl : decide (ir.entries.length > 1) = true := by simp; omega
  rcases hc with h1 | ⟨h1, h2⟩
  · simp [clean_up_sc_fuel, assert_that, hl, Except.bind, h1]
  · simp [clean_up_sc_fuel, assert_that, hl, Except.bind, h1, h2]

theorem clean_up_sc_fuel_of_split {invert : ConditionKind → ConditionKind}
    {func : Function} {ir out : ShortCircuitElement} (fuel : Nat)
    (hlen : 2 ≤ ir.entries.length)
    (h1 : try_clean_up_sc_as_and invert func ir = Except.ok (false, ir))
    (h2 : try_clean_up_sc_as_or func ir = Except.ok (false, ir))
    (h3 : try_splitting_nested_sc (clean_up_sc_fuel invert func fuel) ir
      = Except.ok (true, out)) :
    clean_up_sc_fuel invert func (fuel + 1) ir = Except.ok out := by
  have hl : decide (ir.entries.length > 1) = true := by simp; omega
  simp [clean_up_sc_fuel, assert_that, hl, Except.bind, h1, h2, h3]

theorem split_of_parts {rec_clean_up : ShortCircuitElement → Res ShortCircuitElement}
    {ir out nested_sc : ShortCircuitElement} {front : ShortCircuitEntry FormElement}
    {fb : BranchOp} {s : Slot} {fia : Bool} {k : Nat}
    (hfront : ir.entries.head? = some front)
    (hfb : get_condition_branch front.condition = Except.ok (some fb, s))
    (hand : delay_slot_sets_false fb = Except.ok fia)
    (hor : delay_slot_sets_truthy fb = Except.ok (!fia))
    (hscan : split_scan fia 1 ((ir.entries.take (ir.entries.length - 1)).drop 1)
        = Except.ok (some k))
    (hnested : rec_clean_up (ShortCircuitElement_new (ir.entries.drop k))
        = Except.ok nested_sc)
    (houter : rec_clean_up { ir with entries := ir.entries.take k ++
          [{ condition := [FormElement.ShortCircuit nested_sc] }] } = Except.ok out) :
    try_splitting_nested_sc rec_clean_up ir = Except.ok (true, out) := by
  unfold try_splitting_nested_sc
  rw [hfront]
  simp only [Except.bind, hfb, assert_some, hand, hor, hscan, hnested, houter]
  cases fia <;> simp [assert_that]

/-- A result of `clean_up_sc` with some recursion budget is its result with
every larger budget. -/
theorem clean_up_sc_fuel_succ (invert : ConditionKind → ConditionKind) (func : Function) :
    ∀ (fuel : Nat) (ir out : ShortCircuitElement),
      clean_up_sc_fuel invert func fuel ir = Except.ok out →
      clean_up_sc_fuel invert func (fuel + 1) ir = Except.ok out := by
  intro fuel
  induction fuel with
  | zero => intro ir out h; simp [clean_up_sc_fuel] at h
  | succ f ih =>
    intro ir out h
    obtain ⟨hlen, hc⟩ := clean_up_sc_fuel_ok h
    rcases hc with h1 | h2 | ⟨h1, h2, h3⟩
    · exact clean_up_sc_fuel_of_classified _ hlen (Or.inl h1)
    · exact clean_up_sc_fuel_of_classified _ hlen (Or.inr h2)
    · obtain ⟨front, fb, s, fia, k, nested_sc, hfront, hfb, hand, hor, hscan, hnested,
        houter, _⟩ := split_ok h3
      exact clean_up_sc_fuel_of_split _ hlen h1 h2
        (split_of_parts hfront hfb hand hor hscan (ih _ _ hnested) (ih _ _ houter))

theorem clean_up_sc_fuel_le (invert : ConditionKind → ConditionKind) (func : Function)
    (ir out : ShortCircuitElement) (fuel fuel1 : Nat) (hle : fuel ≤ fuel1)
    (h : clean_up_sc_fuel invert func fuel ir = Except.ok out) :
    clean_up_sc_fuel invert func fuel1 ir = Except.ok out := by
  induction hle with
  | refl => exact h
  | step _ ih => exact clean_up_sc_fuel_succ invert func _ _ _ ih

/-- One unit of budget per entry is enough: a result of `clean_up_sc` with
any recursion budget is its result with the budget of `n` for `n` entries. -/
theorem clean_up_sc_fuel_enough (invert : ConditionKind → ConditionKind) (func : Function) :
    ∀ (fuel : Nat) (ir out : ShortCircuitElement),
      clean_up_sc_fuel invert func fuel ir = Except.ok out →
      clean_up_sc_fuel invert func ir.entries.length ir = Except.ok out := by
  intro fuel
  induction fuel using Nat.strong_induction_on with
  | _ fuel ih =>
    intro ir out h
    obtain ⟨hlen, hc⟩ := clean_up_sc_fuel_split_or_not h
    obtain ⟨n1, hn1⟩ : ∃ n1, ir.entries.length = n1 + 1 := ⟨ir.entries.length - 1, by omega⟩
    rw [hn1]
    rcases hc with hc | ⟨fuel1, front, fb, s, fia, k, nested_sc, hfuel, hfront, hfb, hand, hor,
      hscan, hk1, hk2, hnested, hc⟩
    · exact clean_up_sc_fuel_of_classified _ hlen hc
    · have hlk : (ir.entries.take k).length = k := List.length_take_of_le (by omega)
      have h1 : try_clean_up_sc_as_and invert func ir = Except.ok (false, ir) ∧
          try_clean_up_sc_as_or func ir = Except.ok (false, ir) := by
        subst hfuel
        obtain ⟨_, hc0⟩ := clean_up_sc_fuel_ok h
        rcases hc0 with g1 | g2 | ⟨g1, g2, _⟩
        · have := (try_as_true_length g1).2.1
          have := (classified_shape hc).1
          simp [hlk] at this
          omega
        · have := (try_as_true_length g2.2).2.1
          have := (classified_shape hc).1
          simp [hlk] at this
          omega
        · exact ⟨g1, g2⟩
      have hn := ih (fuel1 + 1) (by omega) _ _ hnested
      simp only [ShortCircuitElement_new, List.length_drop] at hn
      have hn' := clean_up_sc_fuel_le invert func _ _ _ n1 (by omega) hn
      have ho : clean_up_sc_fuel invert func n1
          { ir with entries := ir.entries.take k ++
            [{ condition := [FormElement.ShortCircuit nested_sc] }] } = Except.ok out := by
        obtain ⟨n2, hn2⟩ : ∃ n2, n1 = n2 + 1 := ⟨n1 - 1, by omega⟩
        rw [hn2]
        exact clean_up_sc_fuel_of_classified _ (by simp [hlk]; omega) hc
      exact clean_up_sc_fuel_of_split _ hlen h1.1 h1.2
        (split_of_parts hfront hfb hand hor hscan hn' ho)

/-- The function `clean_up_sc` gives every result that the recursion gives
with any budget: its budget is never the reason for stopping. -/
theorem clean_up_sc_of_fuel (invert : ConditionKind → ConditionKind) (func : Function)
    (fuel : Nat) (ir out : ShortCircuitElement)
    (h : clean_up_sc_fuel invert func fuel ir = Except.ok out) :
    clean_up_sc invert func ir = Except.ok out :=
  clean_up_sc_fuel_succ invert func _ _ _ (clean_up_sc_fuel_enough invert func fuel ir out h)

theorem ex_sc_and_or_first_different : is_first_different ex_sc_and_or 1 :=
  ⟨by decide, by decide, by decide, fun _ h1 h2 => absurd h2 (by omega)⟩

theorem get_var_eq_ok {a : SimpleAtom} {v : Variable} :
    a.get_var = Except.ok v ↔ a = SimpleAtom.var v := by
  cases a <;> simp [SimpleAtom.get_var]

theorem delay_reg_compare_eq_ok (b : BranchOp) (r : Bool) :
    ((b.condition.src 0).bind fun a =>
      a.get_var.bind fun cond_var =>
      (b.branch_delay.var 1).bind fun src_var =>
      (Except.ok (cond_var.reg == src_var.reg) : Res Bool)) = Except.ok r ↔
    ∃ v w, b.condition.srcs.get? 0 = some (SimpleAtom.var v) ∧
      b.branch_delay.vars.get? 1 = some w ∧ (v.reg == w.reg) = r := by
  constructor
  · intro h
    obtain ⟨a, ha, h2⟩ := (bind_eq_ok _ _ _).mp h
    obtain ⟨v, hv, h3⟩ := (bind_eq_ok _ _ _).mp h2
    obtain ⟨w, hw, h4⟩ := (bind_eq_ok _ _ _).mp h3
    rw [get_var_eq_ok] at hv
    subst hv
    refine ⟨v, w, (assert_some_eq_ok _ _).mp ha, (assert_some_eq_ok _ _).mp hw, ?_⟩
    injection h4
  · rintro ⟨v, w, hv, hw, hr⟩
    have h1 : b.condition.src 0 = Except.ok (SimpleAtom.var v) :=
      (assert_some_eq_ok _ _).mpr hv
    have h2 : b.branch_delay.var 1 = Except.ok w := (assert_some_eq_ok _ _).mpr hw
    rw [h1, h2]
    simp [Except.bind, SimpleAtom.get_var, hr]

theorem sets_false_eq_ok_iff (b : BranchOp) (r : Bool) :
    delay_slot_sets_false b = Except.ok r ↔
      ((b.branch_delay.kind = BranchDelayKind.SET_REG_FALSE ∧ r = true) ∨
       (b.branch_delay.kind ≠ BranchDelayKind.SET_REG_FALSE ∧
        b.condition.kind = ConditionKind.FALSE ∧
        b.branch_delay.kind = BranchDelayKind.SET_REG_REG ∧
        ∃ v w, b.condition.srcs.get? 0 = some (SimpleAtom.var v) ∧
          b.branch_delay.vars.get? 1 = some w ∧ (v.reg == w.reg) = r) ∨
       (b.branch_delay.kind ≠ BranchDelayKind.SET_REG_FALSE ∧
        ¬ (b.condition.kind = ConditionKind.FALSE ∧
          b.branch_delay.kind = BranchDelayKind.SET_REG_REG) ∧ r = false)) := by
  unfold delay_slot_sets_false
  by_cases h1 : b.branch_delay.kind = BranchDelayKind.SET_REG_FALSE
  · rw [if_pos h1]
    constructor
    · intro h
      injection h with h
      exact Or.inl ⟨h1, h.symm⟩
    · rintro (⟨_, hr⟩ | ⟨hn, _⟩ | ⟨hn, _⟩)
      · rw [hr]
      · exact absurd h1 hn
      · exact absurd h1 hn
  · rw [if_neg h1]
    by_cases h2 : b.condition.kind = ConditionKind.FALSE ∧
        b.branch_delay.kind = BranchDelayKind.SET_REG_REG
    · rw [if_pos h2, delay_reg_compare_eq_ok]
      constructor
      · intro h
        exact Or.inr (Or.inl ⟨h1, h2.1, h2.2, h⟩)
      · rintro (⟨hk, _⟩ | ⟨_, _, _, h⟩ | ⟨_, hn, _⟩)
        · exact absurd hk h1
        · exact h
        · exact absurd h2 hn
    · rw [if_neg h2]
      constructor
      · intro h
        injection h with h
        exact Or.inr (Or.inr ⟨h1, h2, h.symm⟩)
      · rintro (⟨hk, _⟩ | ⟨_, hc, hd, _⟩ | ⟨_, _, hr⟩)
        · exact absurd hk h1
        · exact absurd ⟨hc, hd⟩ h2
        · rw [hr]

theorem sets_truthy_eq_ok_iff (b : BranchOp) (r : Bool) :
    delay_slot_sets_truthy b = Except.ok r ↔
      ((b.branch_delay.kind = BranchDelayKind.SET_REG_TRUE ∧ r = true) ∨
       (b.branch_delay.kind ≠ BranchDelayKind.SET_REG_TRUE ∧
        b.condition.kind = ConditionKind.TRUTHY ∧
        b.branch_delay.kind = BranchDelayKind.SET_REG_REG ∧
        ∃ v w, b.condition.srcs.get? 0 = some (SimpleAtom.var v) ∧
          b.branch_delay.vars.get? 1 = some w ∧ (v.reg == w.reg) = r) ∨
       (b.branch_delay.kind ≠ BranchDelayKind.SET_REG_TRUE ∧
        ¬ (b.condition.kind = ConditionKind.TRUTHY ∧
          b.branch_delay.kind = BranchDelayKind.SET_REG_REG) ∧ r = false)) := by
  unfold delay_slot_sets_truthy
  by_cases h1 : b.branch_delay.kind = BranchDelayKind.SET_REG_TRUE
  · rw [if_pos h1]
    constructor
    · intro h
      injection h with h
      exact Or.inl ⟨h1, h.symm⟩
    · rintro (⟨_, hr⟩ | ⟨hn, _⟩ | ⟨hn, _⟩)
      · rw [hr]
      · exact absurd h1 hn
      · exact absurd h1 hn
  · rw [if_neg h1]
    by_cases h2 : b.condition.kind = ConditionKind.TRUTHY ∧
        b.branch_delay.kind = BranchDelayKind.SET_REG_REG
    · rw [if_pos h2, delay_reg_compare_eq_ok]
      constructor
      · intro h
        exact Or.inr (Or.inl ⟨h1, h2.1, h2.2, h⟩)
      · rintro (⟨hk, _⟩ | ⟨_, _, _, h⟩ | ⟨_, hn, _⟩)
        · exact absurd hk h1
        · exact h
        · exact absurd h2 hn
    · rw [if_neg h2]
      constructor
      · intro h
        injection h with h
        exact Or.inr (Or.inr ⟨h1, h2, h.symm⟩)
      · rintro (⟨hk, _⟩ | ⟨_, hc, hd, _⟩ | ⟨_, _, hr⟩)
        · exact absurd hk h1
        · exact absurd ⟨hc, hd⟩ h2
        · rw [hr]

theorem eq_concat_of_getLast? {α : Type} {l : List α} {x : α} (h : l.getLast? = some x) :
    ∃ pre, l = pre ++ [x] := by
  rcases List.eq_nil_or_concat l with rfl | ⟨pre, y, rfl⟩
  · simp at h
  · rw [List.concat_eq_append] at h ⊢
    rw [List.getLast?_append] at h
    simp at h
    exact ⟨pre, by rw [h]⟩

theorem body_without_jump_single (x : FormElement) :
    body_without_jump [x] = [FormElement.Empty] := rfl

theorem body_without_jump_concat (a : FormElement) (t : Form) (x : FormElement) :
    body_without_jump (a :: t ++ [x]) = a :: t := by
  unfold body_without_jump
  simp

theorem get_condition_branch_of_last_branch (pre : Form) (op : BranchOp) :
    get_condition_branch (pre ++ [FormElement.Branch op]) = Except.ok (some op, ⟨0⟩) := by
  rw [get_condition_branch_concat]
  rfl

theorem clean_up_jump_to_end_of_branch (pre : Form) (jb : BranchOp) :
    clean_up_jump_to_end (pre ++ [FormElement.Branch jb]) =
      if jb.branch_delay.kind = BranchDelayKind.NOP ∧
          jb.condition.kind = ConditionKind.ALWAYS then
        Except.ok (body_without_jump (pre ++ [FormElement.Branch jb]))
      else Except.error Err.assertion := by
  unfold clean_up_jump_to_end
  rw [get_condition_branch_of_last_branch]
  by_cases h1 : jb.branch_delay.kind = BranchDelayKind.NOP
  · by_cases h2 : jb.condition.kind = ConditionKind.ALWAYS
    · rw [if_pos ⟨h1, h2⟩]
      cases pre with
      | nil =>
          simp [Except.bind, assert_some, assert_that, h1, h2,
            get_condition_branch_as_vector, slot_write, slot_write_depth, set_back,
            body_without_jump_single]
      | cons a t =>
          rw [body_without_jump_concat]
          have hl : (a :: (t ++ [FormElement.Branch jb])).getLast? =
              some (FormElement.Branch jb) := by
            rw [← List.cons_append, List.getLast?_append]
            simp
          simp [Except.bind, assert_some, assert_that, h1, h2,
            get_condition_branch_as_vector, pop_back, hl]
          rw [← List.cons_append, List.dropLast_concat]
    · rw [if_neg (fun h => h2 h.2)]
      simp [Except.bind, assert_some, assert_that, h1, h2]
  · rw [if_neg (fun h => h1 h.1)]
    simp [Except.bind, assert_some, assert_that, h1]

theorem slot_read_succ_return (d : Nat) (pre rc dc : Form) :
    slot_read ⟨d + 1⟩ (pre ++ [FormElement.Return rc dc]) = slot_read ⟨d⟩ dc := by
  simp [slot_read, slot_read_depth]

theorem slot_read_succ_break (d : Nat) (pre rc dc : Form) :
    slot_read ⟨d + 1⟩ (pre ++ [FormElement.Break rc dc]) = slot_read ⟨d⟩ dc := by
  simp [slot_read, slot_read_depth]

theorem slot_write_succ_return (d : Nat) (pre rc dc : Form) (x : FormElement) :
    slot_write ⟨d + 1⟩ (pre ++ [FormElement.Return rc dc]) x =
      pre ++ [FormElement.Return rc (slot_write ⟨d⟩ dc x)] := by
  simp [slot_write, slot_write_depth, set_back]

theorem slot_write_succ_break (d : Nat) (pre rc dc : Form) (x : FormElement) :
    slot_write ⟨d + 1⟩ (pre ++ [FormElement.Break rc dc]) x =
      pre ++ [FormElement.Break rc (slot_write ⟨d⟩ dc x)] := by
  simp [slot_write, slot_write_depth, set_back]

theorem slot_write_zero (f : Form) (x : FormElement) :
    slot_write ⟨0⟩ f x = f.dropLast ++ [x] := rfl

theorem cwe_entry_skipped (invert : ConditionKind → ConditionKind)
    (e : CondWithElseEntry FormElement) (h : e.cleaned = true) :
    clean_up_cond_with_else_entry invert e = Except.ok e := by
  unfold clean_up_cond_with_else_entry
  rw [if_pos h]

theorem cwe_entry_cleaned_of_ready (invert : ConditionKind → ConditionKind)
    (e : CondWithElseEntry FormElement) (hc : e.cleaned = false)
    (hr : cwe_entry_ready e) :
    ∃ e1, clean_up_cond_with_else_entry invert e = Except.ok e1 ∧
      CweEntryCleaned invert e e1 := by
  obtain ⟨b, s, jb, hb, hnop, hlast, hjc, hjd⟩ := hr
  obtain ⟨pre, hpre⟩ := eq_concat_of_getLast? hlast
  refine ⟨{ condition := slot_write s e.condition (b.condition.get_as_inverted_form invert),
            body := body_without_jump e.body, cleaned := true }, ?_, ?_⟩
  · unfold clean_up_cond_with_else_entry
    rw [if_neg (by simp [hc]), hb]
    rw [hpre, clean_up_jump_to_end_of_branch, if_pos ⟨hjd, hjc⟩]
    simp [Except.bind, assert_some, assert_that, hnop]
  · refine ⟨b, s, hb, slot_read_of_branch hb, rfl, rfl, slot_read_write _ hb, rfl, ?_⟩
    show body_without_jump e.body ≠ []
    rw [hpre]
    cases pre with
    | nil => simp [body_without_jump_single]
    | cons a t => rw [body_without_jump_concat]; simp

theorem cwe_entry_out_cleaned (invert : ConditionKind → ConditionKind)
    (e e1 : CondWithElseEntry FormElement)
    (h : clean_up_cond_with_else_entry invert e = Except.ok e1) : e1.cleaned = true := by
  unfold clean_up_cond_with_else_entry at h
  by_cases hc : e.cleaned = true
  · rw [if_pos hc] at h
    injection h with h
    rw [← h]
    exact hc
  · rw [if_neg hc] at h
    obtain ⟨_, _, h⟩ := (bind_eq_ok _ _ _).mp h
    obtain ⟨_, _, h⟩ := (bind_eq_ok _ _ _).mp h
    obtain ⟨_, _, h⟩ := (bind_eq_ok _ _ _).mp h
    obtain ⟨_, _, h⟩ := (bind_eq_ok _ _ _).mp h
    injection h with h
    rw [← h]

theorem cwe_entries_ok (invert : ConditionKind → ConditionKind) :
    ∀ entries : List (CondWithElseEntry FormElement),
      (∀ e ∈ entries, e.cleaned = false → cwe_entry_ready e) →
      ∃ out, clean_up_cond_with_else_entries invert entries = Except.ok out ∧
        List.Forall₂ (CweEntryResult invert) entries out := by
  intro entries
  induction entries with
  | nil =>
      intro _
      exact ⟨[], rfl, List.Forall₂.nil⟩
  | cons e rest ih =>
      intro h
      obtain ⟨out, hout, hall⟩ := ih (fun x hx => h x (List.mem_cons_of_mem _ hx))
      by_cases hc : e.cleaned = true
      · refine ⟨e :: out, ?_, List.Forall₂.cons ?_ hall⟩
        · simp [clean_up_cond_with_else_entries, cwe_entry_skipped invert e hc, hout,
            Except.bind]
        · unfold CweEntryResult
          rw [if_pos hc]
      · have hc2 : e.cleaned = false := by simpa using hc
        obtain ⟨e1, he1, hcl⟩ :=
          cwe_entry_cleaned_of_ready invert e hc2 (h e (List.mem_cons_self _ _) hc2)
        refine ⟨e1 :: out, ?_, List.Forall₂.cons ?_ hall⟩
        · simp [clean_up_cond_with_else_entries, he1, hout, Except.bind]
        · unfold CweEntryResult
          rw [if_neg hc]
          exact hcl

theorem cwe_entries_out_cleaned (invert : ConditionKind → ConditionKind) :
    ∀ (entries out : List (CondWithElseEntry FormElement)),
      clean_up_cond_with_else_entries invert entries = Except.ok out →
      ∀ e1 ∈ out, e1.cleaned = true := by
  intro entries
  induction entries with
  | nil =>
      intro out h
      simp only [clean_up_cond_with_else_entries] at h
      injection h with h
      subst h
      simp
  | cons e rest ih =>
      intro out h
      simp only [clean_up_cond_with_else_entries] at h
      obtain ⟨e1, he1, h⟩ := (bind_eq_ok _ _ _).mp h
      obtain ⟨r, hr, h⟩ := (bind_eq_ok _ _ _).mp h
      injection h with h
      subst h
      intro x hx
      rcases List.mem_cons.mp hx with rfl | hx
      · exact cwe_entry_out_cleaned invert e x he1
      · exact ih r hr x hx

theorem cwe_entries_all_cleaned (invert : ConditionKind → ConditionKind) :
    ∀ entries : List (CondWithElseEntry FormElement),
      (∀ e ∈ entries, e.cleaned = true) →
      clean_up_cond_with_else_entries invert entries = Except.ok entries := by
  intro entries
  induction entries with
  | nil => intro _; rfl
  | cons e rest ih =>
      intro h
      simp [clean_up_cond_with_else_entries,
        cwe_entry_skipped invert e (h e (List.mem_cons_self _ _)),
        ih (fun x hx => h x (List.mem_cons_of_mem _ hx)), Except.bind]

theorem cwe_eq_ok (invert : ConditionKind → ConditionKind) (ir out : FormElement)
    (h : clean_up_cond_with_else invert ir = Except.ok out) :
    ∃ entries else_ir es, ir = FormElement.CondWithElse entries else_ir ∧
      clean_up_cond_with_else_entries invert entries = Except.ok es ∧
      out = FormElement.CondWithElse es else_ir := by
  cases ir with
  | CondWithElse entries else_ir =>
      simp only [clean_up_cond_with_else] at h
      obtain ⟨es, hes, h⟩ := (bind_eq_ok _ _ _).mp h
      injection h with h
      exact ⟨entries, else_ir, es, rfl, hes, h.symm⟩
  | _ => simp [clean_up_cond_with_else] at h

theorem cne_loop_all_cleaned (invert : ConditionKind → ConditionKind) (parent_form : Form)
    (ir_loc : Nat) (cne : CondNoElseElement) (n : Nat) :
    ∀ (todo : List (CondNoElseEntry FormElement)) (idx : Nat)
      (done : List (CondNoElseEntry FormElement)),
      (∀ e ∈ todo, e.cleaned = true) →
      clean_up_cond_no_else_loop invert parent_form ir_loc cne n idx done todo =
        Except.ok (parent_form.set ir_loc
          (FormElement.CondNoElse { cne with entries := done ++ todo })) := by
  intro todo
  induction todo with
  | nil =>
      intro idx done _
      simp [clean_up_cond_no_else_loop]
  | cons e todo ih =>
      intro idx done h
      simp only [clean_up_cond_no_else_loop]
      rw [if_pos (h e (List.mem_cons_self _ _)),
        ih (idx + 1) (done ++ [e]) (fun x hx => h x (List.mem_cons_of_mem _ hx))]
      simp

theorem cne_skip_cleaned (invert : ConditionKind → ConditionKind) (parent_form : Form)
    (ir_loc : Nat) (cne : CondNoElseElement)
    (hloc : parent_form.get? ir_loc = some (FormElement.CondNoElse cne))
    (h : ∀ e ∈ cne.entries, e.cleaned = true) :
    clean_up_cond_no_else invert parent_form ir_loc = Except.ok parent_form := by
  rw [clean_up_cond_no_else_unfold invert parent_form ir_loc cne hloc,
    cne_loop_all_cleaned invert parent_form ir_loc cne _ cne.entries 0 [] h]
  simp only [List.nil_append]
  rw [set_get?_self parent_form ir_loc _ hloc]

theorem cne_result_cleaned {invert : ConditionKind → ConditionKind} {n idx : Nat}
    {e e1 : CondNoElseEntry FormElement} (h : CneEntryResult invert n idx e e1) :
    e1.cleaned = true := by
  unfold CneEntryResult at h
  by_cases hc : e.cleaned = true
  · rw [if_pos hc] at h
    rw [h]
    exact hc
  · rw [if_neg hc] at h
    obtain ⟨_, _, _, _, h, _⟩ := h
    exact h

theorem ok_bind {α β : Type} (a : α) (f : α → Res β) :
    (Except.ok a : Res α).bind f = f a := rfl

theorem cne_final_destination_error :
    ∀ (entries : List (CondNoElseEntry FormElement)) (fd0 : Register),
      (∃ e ∈ entries, e.false_destination = none) →
      cne_final_destination fd0 entries = Except.error Err.assertion := by
  intro entries
  induction entries with
  | nil => intro _ h; simp at h
  | cons e rest ih =>
      intro fd0 h
      cases hfd : e.false_destination with
      | none => simp [cne_final_destination, hfd]
      | some fr =>
          simp only [cne_final_destination, hfd]
          apply ih
          obtain ⟨x, hx, hxn⟩ := h
          rcases List.mem_cons.mp hx with rfl | hx
          · rw [hfd] at hxn
            exact absurd hxn (by simp)
          · exact ⟨x, hx, hxn⟩

theorem cne_final_destination_ok :
    ∀ (entries : List (CondNoElseEntry FormElement)) (fd0 : Register)
      (last : CondNoElseEntry FormElement) (fd : Variable),
      (∀ e ∈ entries, ∃ v, e.false_destination = some v) →
      entries.getLast? = some last → last.false_destination = some fd →
      cne_final_destination fd0 entries = Except.ok fd.reg := by
  intro entries
  induction entries with
  | nil => intro _ _ _ _ h; simp at h
  | cons e rest ih =>
      intro fd0 last fd hall hlast hfd
      obtain ⟨v, hv⟩ := hall e (List.mem_cons_self _ _)
      simp only [cne_final_destination, hv]
      cases rest with
      | nil =>
          simp at hlast
          subst hlast
          rw [hv] at hfd
          injection hfd with hfd
          subst hfd
          rfl
      | cons e2 rest2 =>
          apply ih v.reg last fd (fun x hx => hall x (List.mem_cons_of_mem _ hx))
          · rw [List.getLast?_cons_cons] at hlast
            exact hlast
          · exact hfd

theorem cne_final_destination_all {entries : List (CondNoElseEntry FormElement)}
    {fd0 r : Register} (h : cne_final_destination fd0 entries = Except.ok r) :
    ∀ e ∈ entries, ∃ v, e.false_destination = some v := by
  intro e he
  cases hfd : e.false_destination with
  | some v => exact ⟨v, rfl⟩
  | none =>
      rw [cne_final_destination_error entries fd0 ⟨e, he, hfd⟩] at h
      exact absurd h (by simp)

theorem as_branch_eq_some {x : FormElement} {b : BranchOp} :
    as_branch x = some b ↔ x = FormElement.Branch b := by
  cases x <;> simp [as_branch]

theorem bind_as_branch_eq_some {o : Option FormElement} {b : BranchOp} :
    o.bind as_branch = some b ↔ o = some (FormElement.Branch b) := by
  cases o with
  | none => simp
  | some x => simp [as_branch_eq_some]

theorem cne_final_check_no_liveness (func : Function) (h : func.has_reg_use = false) :
    ∀ L : List (CondNoElseEntry FormElement), cne_final_check func L = Except.ok () := by
  intro L
  induction L with
  | nil => rfl
  | cons e rest ih => simp [cne_final_check, h, ih, Except.bind]

theorem cne_final_check_entry_iff (func : Function) (e : CondNoElseEntry FormElement)
    (u : Unit) :
    ((match e.original_condition_branch.bind as_branch with
       | some b => (Except.ok b : Res BranchOp)
       | none => Except.error Err.undefined).bind fun branch =>
      (func.reg_use_at branch.op_id).bind fun branch_info_i =>
      (assert_some e.false_destination).bind fun reg =>
      assert_that (branch_info_i.written_and_unused.contains reg.reg)) = Except.ok u ↔
    cne_entry_dead_write func e := by
  constructor
  · intro h
    obtain ⟨b, hb, h2⟩ := (bind_eq_ok _ _ _).mp h
    obtain ⟨info, hinfo, h3⟩ := (bind_eq_ok _ _ _).mp h2
    obtain ⟨fd, hfd, h4⟩ := (bind_eq_ok _ _ _).mp h3
    have hb2 : e.original_condition_branch.bind as_branch = some b := by
      cases hx : e.original_condition_branch.bind as_branch with
      | none => rw [hx] at hb; simp at hb
      | some b2 =>
          rw [hx] at hb
          injection hb with hb
          rw [hb]
    refine ⟨b, info, fd, bind_as_branch_eq_some.mp hb2, reg_use_at_eq_ok.mp hinfo,
      (assert_some_eq_ok _ _).mp hfd, ?_⟩
    have := (assert_that_eq_ok _ _).mp h4
    simpa using this
  · rintro ⟨b, info, fd, hb, hinfo, hfd, hmem⟩
    rw [bind_as_branch_eq_some.mpr hb]
    simp only [Except.bind]
    rw [reg_use_at_eq_ok.mpr hinfo, hfd]
    simp [assert_some, assert_that, hmem]

theorem cne_final_check_liveness (func : Function) (h : func.has_reg_use = true) :
    ∀ L : List (CondNoElseEntry FormElement),
      cne_final_check func L = Except.ok () ↔ ∀ e ∈ L, cne_entry_dead_write func e := by
  intro L
  induction L with
  | nil => simp [cne_final_check]
  | cons e rest ih =>
      simp only [cne_final_check, if_pos h, List.mem_cons, forall_eq_or_imp]
      rw [bind_eq_ok]
      constructor
      · rintro ⟨u, hu, hrest⟩
        exact ⟨(cne_final_check_entry_iff func e u).mp hu, ih.mp hrest⟩
      · rintro ⟨he, hrest⟩
        exact ⟨(), (cne_final_check_entry_iff func e ()).mpr he, ih.mpr hrest⟩

theorem cne_final_eq_ok {func : Function} {cne out : CondNoElseElement}
    (h : clean_up_cond_no_else_final func cne = Except.ok out) :
    ∃ last fd b, cne.entries.getLast? = some last ∧
      last.false_destination = some fd ∧
      last.original_condition_branch = some (FormElement.Branch b) ∧
      (∀ e ∈ cne.entries, ∃ v, e.false_destination = some v) ∧
      out.entries = cne.entries ∧ out.final_destination = fd.reg ∧
      (func.has_reg_use = true →
        ∃ info, func.reg_use_op.get? b.op_id = some info ∧
          out.used_as_value = !(info.written_and_unused.contains fd.reg) ∧
          ∀ e ∈ cne.entries.dropLast, cne_entry_dead_write func e) ∧
      (func.has_reg_use = false → out.used_as_value = cne.used_as_value) := by
  unfold clean_up_cond_no_else_final at h
  obtain ⟨r, hr, h2⟩ := (bind_eq_ok _ _ _).mp h
  obtain ⟨last, hlast, h3⟩ := (bind_eq_ok _ _ _).mp h2
  obtain ⟨b, hb, h4⟩ := (bind_eq_ok _ _ _).mp h3
  obtain ⟨used, hused, h5⟩ := (bind_eq_ok _ _ _).mp h4
  obtain ⟨u, hcheck, h6⟩ := (bind_eq_ok _ _ _).mp h5
  have hlast2 : cne.entries.getLast? = some last := by
    cases hx : cne.entries.getLast? with
    | none => rw [hx] at hlast; simp at hlast
    | some l2 =>
        rw [hx] at hlast
        injection hlast with hlast
        rw [hlast]
  have hall := cne_final_destination_all hr
  obtain ⟨fd, hfd⟩ := hall last (List.mem_of_getLast?_eq_some hlast2)
  have hr2 := cne_final_destination_ok cne.entries cne.final_destination last fd hall
    hlast2 hfd
  rw [hr2] at hr
  injection hr with hr
  injection h6 with h6
  subst h6
  subst hr
  refine ⟨last, fd, b, hlast2, hfd,
    bind_as_branch_eq_some.mp ((assert_some_eq_ok _ _).mp hb), hall, rfl, rfl, ?_, ?_⟩
  · intro hlive
    rw [if_pos hlive] at hused
    obtain ⟨info, hinfo, h7⟩ := (bind_eq_ok _ _ _).mp hused
    injection h7 with h7
    refine ⟨info, reg_use_at_eq_ok.mp hinfo, h7.symm, ?_⟩
    rw [List.dropLast_eq_take]
    exact (cne_final_check_liveness func hlive _).mp hcheck
  · intro hlive
    rw [if_neg (by simp [hlive])] at hused
    injection hused with hused
    exact hused.symm

theorem cne_final_completes {func : Function} {cne : CondNoElseElement}
    (h : cne_final_ready func cne) :
    ∃ out, clean_up_cond_no_else_final func cne = Except.ok out := by
  obtain ⟨hall, last, b, hlast, hb, hlive⟩ := h
  obtain ⟨fd, hfd⟩ := hall last (List.mem_of_getLast?_eq_some hlast)
  unfold clean_up_cond_no_else_final
  have h1 : assert_some (last.original_condition_branch.bind as_branch) = Except.ok b :=
    (assert_some_eq_ok _ _).mpr (bind_as_branch_eq_some.mpr hb)
  rw [cne_final_destination_ok cne.entries cne.final_destination last fd hall hlast hfd,
    hlast]
  simp only [ok_bind, h1]
  by_cases hl : func.has_reg_use = true
  · obtain ⟨⟨info, hinfo⟩, hdead⟩ := hlive hl
    rw [if_pos hl, reg_use_at_eq_ok.mpr hinfo]
    simp only [ok_bind]
    rw [← List.dropLast_eq_take, (cne_final_check_liveness func hl _).mpr hdead]
    exact ⟨_, rfl⟩
  · rw [if_neg hl]
    simp only [ok_bind]
    rw [cne_final_check_no_liveness func (by simpa using hl)]
    exact ⟨_, rfl⟩

theorem is_uncleaned_while_iff {w : FormElement} :
    is_uncleaned_while w = true ↔ ∃ c body, w = FormElement.While c body false := by
  cases w with
  | While c body cleaned =>
      cases cleaned <;> simp [is_uncleaned_while]
  | _ => simp [is_uncleaned_while]

theorem while_loops_step_skip {sequence : Form} {i : Nat} {w : FormElement}
    (to_remove : List Nat) (hw : is_uncleaned_while w = false)
    (hget : sequence.get? i = some w) :
    clean_up_while_loops_step sequence i to_remove = Except.ok (sequence, to_remove) := by
  unfold clean_up_while_loops_step
  rw [hget]
  cases w with
  | While c body cleaned =>
      cases cleaned with
      | false => simp [is_uncleaned_while] at hw
      | true => rfl
  | _ => rfl

theorem get?_append_cons_succ {α : Type} (done : List α) (q w : α) (rest : List α) :
    (done ++ q :: w :: rest).get? (done.length + 1) = some w := by
  rw [List.get?_eq_getElem?, List.getElem?_append_right (by omega)]
  simp

theorem get?_append_cons_self {α : Type} (done : List α) (q : α) (rest : List α) :
    (done ++ q :: rest).get? done.length = some q := by
  rw [List.get?_eq_getElem?, List.getElem?_append_right (by omega)]
  simp

theorem set_append_cons_succ {α : Type} (done : List α) (q w x : α) (rest : List α) :
    (done ++ q :: w :: rest).set (done.length + 1) x = done ++ q :: x :: rest := by
  rw [List.set_append_right _ _ (by omega)]
  simp

theorem while_loops_step_while (done : Form) (pb : BranchOp) (c body rest : Form)
    (b : BranchOp) (s : Slot) (to_remove : List Nat)
    (hk : pb.condition.kind = ConditionKind.ALWAYS)
    (hd : pb.branch_delay.kind = BranchDelayKind.NOP)
    (hb : get_condition_branch c = Except.ok (some b, s))
    (hnop : b.branch_delay.kind = BranchDelayKind.NOP) :
    clean_up_while_loops_step
        (done ++ FormElement.Branch pb :: FormElement.While c body false :: rest)
        (done.length + 1) to_remove =
      Except.ok (done ++ FormElement.Branch pb ::
          FormElement.While (slot_write s c b.condition.get_as_form) body false :: rest,
        to_remove ++ [done.length]) := by
  unfold clean_up_while_loops_step
  rw [get?_append_cons_succ]
  simp only [Nat.add_sub_cancel]
  rw [get?_append_cons_self, hb]
  simp [Except.bind, assert_that, assert_some, as_branch, hk, hd, hnop,
    set_append_cons_succ]

theorem while_with_condition_of_not {w : FormElement} (h : is_uncleaned_while w = false) :
    while_with_condition w = w := by
  cases w with
  | While c body cleaned =>
      cases cleaned with
      | false => simp [is_uncleaned_while] at h
      | true => rfl
  | _ => rfl

theorem while_with_condition_of_branch {c body : Form} {b : BranchOp} {s : Slot}
    (hb : get_condition_branch c = Except.ok (some b, s)) :
    while_with_condition (FormElement.While c body false) =
      FormElement.While (slot_write s c b.condition.get_as_form) body false := by
  simp only [while_with_condition, hb]

theorem is_uncleaned_while_with_condition (w : FormElement) :
    is_uncleaned_while (while_with_condition w) = is_uncleaned_while w := by
  by_cases h : is_uncleaned_while w = true
  · obtain ⟨c, body, rfl⟩ := is_uncleaned_while_iff.mp h
    simp only [while_with_condition]
    split <;> rfl
  · rw [while_with_condition_of_not (by simpa using h)]

theorem intro_indices_head (i : Nat) (x y : FormElement) (rest : Form) :
    intro_indices i (x :: rest) = intro_indices i (y :: rest) := by
  cases rest with
  | nil => rfl
  | cons w rest => simp only [intro_indices]

theorem intro_branches_ok_head {w : FormElement} {rest : Form}
    (h : intro_branches_ok w rest) : intro_branches_ok (while_with_condition w) rest := by
  cases rest with
  | nil => trivial
  | cons w2 rest2 =>
      refine ⟨?_, h.2⟩
      intro hw2
      obtain ⟨⟨pb, hq, hk, hd⟩, hc⟩ := h.1 hw2
      refine ⟨⟨pb, ?_, hk, hd⟩, hc⟩
      rw [hq]
      rfl

theorem while_loops_scan_suffix :
    ∀ (suf done : Form) (q : FormElement) (to_remove : List Nat),
      intro_branches_ok q suf →
      clean_up_while_loops_scan suf.length (done.length + 1) (done ++ q :: suf) to_remove =
        Except.ok (done ++ q :: suf.map while_with_condition,
          to_remove ++ intro_indices done.length (q :: suf)) := by
  intro suf
  induction suf with
  | nil =>
      intro done q to_remove _
      simp [clean_up_while_loops_scan, intro_indices]
  | cons w rest ih =>
      intro done q to_remove hok
      simp only [clean_up_while_loops_scan, List.length_cons]
      by_cases hw : is_uncleaned_while w = true
      · obtain ⟨⟨pb, rfl, hk, hd⟩, c, body, rfl, b, s, hb, hnop⟩ := hok.1 hw
        rw [while_loops_step_while done pb c body rest b s to_remove hk hd hb hnop, ok_bind]
        have hih := ih (done ++ [FormElement.Branch pb])
          (FormElement.While (slot_write s c b.condition.get_as_form) body false)
          (to_remove ++ [done.length])
          (by
            have := intro_branches_ok_head hok.2
            rw [while_with_condition_of_branch hb] at this
            exact this)
        simp only [List.length_append, List.length_singleton, List.append_assoc,
          List.singleton_append] at hih
        rw [hih]
        simp only [List.map_cons, while_with_condition_of_branch hb, intro_indices, hw,
          if_true]
        rw [intro_indices_head (done.length + 1) _ (FormElement.While c body false)]
      · have hw2 : is_uncleaned_while w = false := by simpa using hw
        rw [while_loops_step_skip to_remove hw2 (get?_append_cons_succ done q w rest),
          ok_bind]
        have hih := ih (done ++ [q]) w to_remove hok.2
        simp only [List.length_append, List.length_singleton, List.append_assoc,
          List.singleton_append] at hih
        rw [hih]
        simp only [List.map_cons, while_with_condition_of_not hw2, intro_indices, hw2]
        rfl

theorem eraseIdx_append_cons {α : Type} (done : List α) (x : α) (rest : List α) :
    (done ++ x :: rest).eraseIdx done.length = done ++ rest := by
  induction done with
  | nil => rfl
  | cons a t ih => simp [List.eraseIdx, ih]

theorem without_intro_cons_cons (e w : FormElement) (rest : Form) :
    without_intro_branches (e :: w :: rest) =
      if is_uncleaned_while w then without_intro_branches (w :: rest)
      else e :: without_intro_branches (w :: rest) := rfl

theorem while_loops_remove_reverse :
    ∀ (suf done : Form) (q : FormElement) (R : List Nat),
      intro_branches_ok q suf →
      clean_up_while_loops_remove ((intro_indices done.length (q :: suf)).reverse ++ R)
          (done ++ (q :: suf).map while_with_condition) =
        clean_up_while_loops_remove R
          (done ++ without_intro_branches ((q :: suf).map while_with_condition)) := by
  intro suf
  induction suf with
  | nil =>
      intro done q R _
      rfl
  | cons w rest ih =>
      intro done q R hok
      have hih := fun R1 => ih (done ++ [while_with_condition q]) w R1 hok.2
      simp only [List.length_append, List.length_singleton, List.append_assoc,
        List.singleton_append] at hih
      simp only [List.map_cons] at hih ⊢
      rw [without_intro_cons_cons, is_uncleaned_while_with_condition]
      by_cases hw : is_uncleaned_while w = true
      · obtain ⟨⟨pb, rfl, _, _⟩, _⟩ := hok.1 hw
        simp only [intro_indices, hw, if_true, List.reverse_cons, List.append_assoc,
          List.singleton_append]
        rw [hih (done.length :: R)]
        simp only [clean_up_while_loops_remove]
        rw [get?_append_cons_self, eraseIdx_append_cons]
        rfl
      · have hw2 : is_uncleaned_while w = false := by simpa using hw
        simp only [intro_indices, hw2]
        exact hih R

theorem without_intro_map :
    ∀ L : Form, without_intro_branches (L.map while_with_condition) =
      (without_intro_branches L).map while_with_condition := by
  intro L
  induction L with
  | nil => rfl
  | cons e T ih =>
      cases T with
      | nil => rfl
      | cons w rest =>
          simp only [List.map_cons] at ih ⊢
          rw [without_intro_cons_cons, without_intro_cons_cons,
            is_uncleaned_while_with_condition, ih]
          by_cases hw : is_uncleaned_while w = true
          · simp [hw]
          · simp [hw]

theorem mem_without_intro :
    ∀ (L : Form) (x : FormElement), x ∈ without_intro_branches L → x ∈ L := by
  intro L
  induction L with
  | nil => intro x h; exact h
  | cons e T ih =>
      cases T with
      | nil => intro x h; exact h
      | cons w rest =>
          intro x h
          rw [without_intro_cons_cons] at h
          by_cases hw : is_uncleaned_while w = true
          · rw [if_pos hw] at h
            exact List.mem_cons_of_mem _ (ih x h)
          · rw [if_neg hw] at h
            rcases List.mem_cons.mp h with rfl | h
            · exact List.mem_cons_self _ _
            · exact List.mem_cons_of_mem _ (ih x h)

theorem without_intro_length :
    ∀ (T : Form) (e : FormElement),
      (without_intro_branches (e :: T)).length + T.countP is_uncleaned_while =
        T.length + 1 := by
  intro T
  induction T with
  | nil => intro e; rfl
  | cons w rest ih =>
      intro e
      rw [without_intro_cons_cons]
      have := ih w
      by_cases hw : is_uncleaned_while w = true
      · rw [if_pos hw, List.countP_cons_of_pos _ _ hw]
        simp only [List.length_cons]
        omega
      · rw [if_neg hw, List.countP_cons_of_neg _ _ hw]
        simp only [List.length_cons]
        omega

theorem while_cond_replaced_of_not {x y : FormElement}
    (h : is_uncleaned_while x = false) : WhileCondReplaced x y ↔ y = x := by
  cases x with
  | While c body cleaned =>
      cases cleaned with
      | false => simp [is_uncleaned_while] at h
      | true => simp [WhileCondReplaced]
  | _ => simp [WhileCondReplaced]

theorem while_cond_replaced_self {x : FormElement}
    (h : ∀ c body, x = FormElement.While c body false → while_cond_ok c) :
    WhileCondReplaced x (while_with_condition x) := by
  by_cases hx : is_uncleaned_while x = true
  · obtain ⟨c, body, rfl⟩ := is_uncleaned_while_iff.mp hx
    obtain ⟨b, s, hb, _⟩ := h c body rfl
    rw [while_with_condition_of_branch hb]
    exact ⟨b, s, hb, slot_read_of_branch hb, rfl, slot_read_write _ hb⟩
  · have hx2 : is_uncleaned_while x = false := by simpa using hx
    rw [while_cond_replaced_of_not hx2, while_with_condition_of_not hx2]

theorem intro_branches_ok_of_index :
    ∀ (suf : Form) (q : FormElement),
      (∀ j c body, suf.get? j = some (FormElement.While c body false) →
        (∃ pb, (q :: suf).get? j = some (FormElement.Branch pb) ∧
          pb.condition.kind = ConditionKind.ALWAYS ∧
          pb.branch_delay.kind = BranchDelayKind.NOP) ∧ while_cond_ok c) →
      intro_branches_ok q suf := by
  intro suf
  induction suf with
  | nil => intro _ _; trivial
  | cons w rest ih =>
      intro q h
      refine ⟨?_, ih w (fun j c body hj => ?_)⟩
      · intro hw
        obtain ⟨c, body, rfl⟩ := is_uncleaned_while_iff.mp hw
        obtain ⟨⟨pb, hpb, hk, hd⟩, hc⟩ := h 0 c body rfl
        simp only [List.get?_cons_zero, Option.some.injEq] at hpb
        exact ⟨⟨pb, hpb, hk, hd⟩, c, body, rfl, hc⟩
      · have := h (j + 1) c body (by simpa using hj)
        simpa using this

theorem while_loops_step_eq_ok {st : Form} {i : Nat} {tr : List Nat}
    {r : Form × List Nat} (h : clean_up_while_loops_step st i tr = Except.ok r) :
    r.1 = st ∨ ∃ c body c1, st.get? i = some (FormElement.While c body false) ∧
      r.1 = st.set i (FormElement.While c1 body false) := by
  cases hget : st.get? i with
  | none =>
      unfold clean_up_while_loops_step at h
      rw [hget] at h
      exact absurd h (by simp)
  | some w =>
      by_cases hw : is_uncleaned_while w = true
      · obtain ⟨c, body, rfl⟩ := is_uncleaned_while_iff.mp hw
        unfold clean_up_while_loops_step at h
        rw [hget] at h
        simp only at h
        obtain ⟨_, _, h2⟩ := (bind_eq_ok _ _ _).mp h
        obtain ⟨_, _, h3⟩ := (bind_eq_ok _ _ _).mp h2
        obtain ⟨_, _, h4⟩ := (bind_eq_ok _ _ _).mp h3
        obtain ⟨_, _, h5⟩ := (bind_eq_ok _ _ _).mp h4
        obtain ⟨_, _, h6⟩ := (bind_eq_ok _ _ _).mp h5
        obtain ⟨cb, _, h7⟩ := (bind_eq_ok _ _ _).mp h6
        obtain ⟨b, _, h8⟩ := (bind_eq_ok _ _ _).mp h7
        obtain ⟨_, _, h9⟩ := (bind_eq_ok _ _ _).mp h8
        injection h9 with h9
        exact Or.inr ⟨c, body, _, rfl, by rw [← h9]⟩
      · rw [while_loops_step_skip tr (by simpa using hw) hget] at h
        injection h with h
        exact Or.inl (by rw [← h])

theorem while_loops_step_get? {st : Form} {i j : Nat} {tr : List Nat}
    {r : Form × List Nat} (h : clean_up_while_loops_step st i tr = Except.ok r)
    (hj : j ≠ i) : r.1.get? j = st.get? j := by
  rcases while_loops_step_eq_ok h with h1 | ⟨c, body, c1, _, h1⟩
  · rw [h1]
  · rw [h1, List.get?_eq_getElem?, List.get?_eq_getElem?, List.getElem?_set_ne (Ne.symm hj)]

theorem while_loops_step_branch {st : Form} {i j : Nat} {tr : List Nat}
    {r : Form × List Nat} {pb : BranchOp}
    (h : clean_up_while_loops_step st i tr = Except.ok r)
    (hb : r.1.get? j = some (FormElement.Branch pb)) :
    st.get? j = some (FormElement.Branch pb) := by
  by_cases hj : j = i
  · rcases while_loops_step_eq_ok h with h1 | ⟨c, body, c1, hget, h1⟩
    · rw [h1] at hb
      exact hb
    · subst hj
      rw [h1, List.get?_eq_getElem?, List.getElem?_set_self'] at hb
      rw [List.get?_eq_getElem?] at hget
      rw [hget] at hb
      simp at hb
  · rw [while_loops_step_get? h hj] at hb
    exact hb

theorem while_loops_step_fails {st : Form} {i0 : Nat} {c body : Form} (tr : List Nat)
    (hget : st.get? i0 = some (FormElement.While c body false))
    (hbad : i0 = 0 ∨ ∀ pb, st.get? (i0 - 1) = some (FormElement.Branch pb) →
      ¬ (pb.condition.kind = ConditionKind.ALWAYS ∧
        pb.branch_delay.kind = BranchDelayKind.NOP)) :
    ∃ err, clean_up_while_loops_step st i0 tr = Except.error err := by
  unfold clean_up_while_loops_step
  rw [hget]
  simp only
  by_cases h0 : i0 = 0
  · subst h0
    exact ⟨Err.assertion, rfl⟩
  · have hbad2 := hbad.resolve_left h0
    have hne : assert_that (i0 != 0) = Except.ok () := by
      simp [assert_that, h0]
    rw [hne, ok_bind]
    cases hprev : st.get? (i0 - 1) with
    | none => exact ⟨Err.out_of_range, rfl⟩
    | some prev =>
        simp only [ok_bind]
        cases hpb : as_branch prev with
        | none => exact ⟨Err.assertion, rfl⟩
        | some pb =>
            rw [as_branch_eq_some] at hpb
            subst hpb
            have hno := hbad2 pb hprev
            simp only [assert_some, ok_bind]
            by_cases hk : pb.condition.kind = ConditionKind.ALWAYS
            · have hd : pb.branch_delay.kind ≠ BranchDelayKind.NOP := fun hd => hno ⟨hk, hd⟩
              refine ⟨Err.assertion, ?_⟩
              simp [assert_that, hk, hd, Except.bind]
            · refine ⟨Err.assertion, ?_⟩
              simp [assert_that, hk, Except.bind]

theorem while_loops_scan_fails {i0 : Nat} {c body : Form} :
    ∀ (count i : Nat) (st : Form) (tr : List Nat),
      i ≤ i0 → i0 < i + count →
      st.get? i0 = some (FormElement.While c body false) →
      (i0 = 0 ∨ ∀ pb, st.get? (i0 - 1) = some (FormElement.Branch pb) →
        ¬ (pb.condition.kind = ConditionKind.ALWAYS ∧
          pb.branch_delay.kind = BranchDelayKind.NOP)) →
      ∃ err, clean_up_while_loops_scan count i st tr = Except.error err := by
  intro count
  induction count with
  | zero => intro i st tr h1 h2; omega
  | succ count ih =>
      intro i st tr h1 h2 hget hbad
      simp only [clean_up_while_loops_scan]
      by_cases hi : i = i0
      · subst hi
        obtain ⟨err, herr⟩ := while_loops_step_fails tr hget hbad
        exact ⟨err, by rw [herr]; rfl⟩
      · cases hstep : clean_up_while_loops_step st i tr with
        | error err => exact ⟨err, rfl⟩
        | ok r =>
            rw [ok_bind]
            apply ih (i + 1) r.1 r.2 (by omega) (by omega)
            · rw [while_loops_step_get? hstep (Ne.symm hi)]
              exact hget
            · rcases hbad with h0 | hbad
              · exact Or.inl h0
              · exact Or.inr (fun pb hpb => hbad pb (while_loops_step_branch hstep hpb))

theorem while_loops_ok (sequence : Form)
    (h : ∀ i c body, sequence.get? i = some (FormElement.While c body false) →
      while_intro_ok sequence i ∧ while_cond_ok c) :
    clean_up_while_loops sequence =
      Except.ok ((without_intro_branches sequence).map while_with_condition) := by
  cases sequence with
  | nil => rfl
  | cons e0 suf =>
      have he0 : is_uncleaned_while e0 = false := by
        cases hx : is_uncleaned_while e0 with
        | false => rfl
        | true =>
            obtain ⟨c, body, rfl⟩ := is_uncleaned_while_iff.mp hx
            have := (h 0 c body rfl).1.1
            omega
      have hok : intro_branches_ok e0 suf := by
        apply intro_branches_ok_of_index
        intro j c body hj
        obtain ⟨⟨_, pb, hpb, hk, hd⟩, hc⟩ := h (j + 1) c body (by simpa using hj)
        exact ⟨⟨pb, by simpa using hpb, hk, hd⟩, hc⟩
      unfold clean_up_while_loops
      simp only [List.length_cons, clean_up_while_loops_scan]
      rw [while_loops_step_skip [] he0 (by simp), ok_bind]
      have hscan := while_loops_scan_suffix suf [] e0 [] hok
      simp only [List.length_nil, List.nil_append, Nat.zero_add] at hscan
      rw [hscan, ok_bind]
      have hrem := while_loops_remove_reverse suf [] e0 [] hok
      simp only [List.length_nil, List.nil_append, List.append_nil, List.map_cons,
        while_with_condition_of_not he0] at hrem
      simp only []
      rw [hrem]
      simp only [clean_up_while_loops_remove]
      have hmap := without_intro_map (e0 :: suf)
      simp only [List.map_cons, while_with_condition_of_not he0] at hmap
      rw [hmap]

theorem ex_cwe_entries_ready :
    ∀ e ∈ ex_cwe_entries, e.cleaned = false → cwe_entry_ready e := by
  intro e he _
  simp only [ex_cwe_entries, List.mem_cons, List.mem_singleton, List.not_mem_nil,
    or_false] at he
  rcases he with rfl | rfl
  · exact ⟨_, _, _, rfl, rfl, rfl, rfl, rfl⟩
  · exact ⟨_, _, _, rfl, rfl, rfl, rfl, rfl⟩

theorem ex_while_seq_ready :
    ∀ i c body, ex_while_seq.get? i = some (FormElement.While c body false) →
      while_intro_ok ex_while_seq i ∧ while_cond_ok c := by
  intro i c body h
  match i, h with
  | 0, h => exact absurd h (by simp [ex_while_seq])
  | 1, h => exact absurd h (by simp [ex_while_seq, ex_jump])
  | 2, h =>
      simp only [ex_while_seq, ex_while, List.get?_cons_succ, List.get?_cons_zero,
        Option.some.injEq, FormElement.While.injEq, and_true] at h
      obtain ⟨rfl, rfl⟩ := h
      exact ⟨⟨by decide, _, rfl, rfl, rfl⟩, ⟨_, _, rfl, rfl⟩⟩
  | 3, h => exact absurd h (by simp [ex_while_seq, ex_jump])
  | 4, h =>
      simp only [ex_while_seq, ex_while, List.get?_cons_succ, List.get?_cons_zero,
        Option.some.injEq, FormElement.While.injEq, and_true] at h
      obtain ⟨rfl, rfl⟩ := h
      exact ⟨⟨by decide, _, rfl, rfl, rfl⟩, ⟨_, _, rfl, rfl⟩⟩
  | n + 5, h => exact absurd h (by simp [ex_while_seq])

theorem CfgVtx.size_pos : ∀ v : CfgVtx, 0 < v.size := by
  intro v
  cases v <;> simp only [CfgVtx.size] <;> omega

theorem CfgVtx.size_le_size_list {c : CfgVtx} :
    ∀ {l : List CfgVtx}, c ∈ l → c.size ≤ CfgVtx.size_list l := by
  intro l
  induction l with
  | nil => intro h; simp at h
  | cons x rest ih =>
      intro h
      simp only [CfgVtx.size_list]
      rcases List.mem_cons.mp h with rfl | h
      · omega
      · have := ih h
        omega

theorem CfgVtx.size_le_size_entries {e : CfgCondEntry CfgVtx} :
    ∀ {l : List (CfgCondEntry CfgVtx)}, e ∈ l →
      e.condition.size + e.body.size ≤ CfgVtx.size_entries l := by
  intro l
  induction l with
  | nil => intro h; simp at h
  | cons x rest ih =>
      intro h
      simp only [CfgVtx.size_entries]
      rcases List.mem_cons.mp h with rfl | h
      · cases e
        simp only [CfgVtx.size_entry]
        omega
      · have := ih h
        omega

mutual
theorem insert_cfg_into_list_congr (atomic_ops : FunctionAtomicOps)
    (r1 r2 : CfgVtx → Res Form) :
    ∀ (vtx : CfgVtx) (output : Form), (∀ c, c.size ≤ vtx.size → r1 c = r2 c) →
      insert_cfg_into_list atomic_ops r1 vtx output =
        insert_cfg_into_list atomic_ops r2 vtx output
  | CfgVtx.SequenceVtx seq, output, h => by
      simp only [insert_cfg_into_list]
      exact insert_cfg_into_list_seq_congr atomic_ops r1 r2 seq output
        (fun c hc => h c (by simp only [CfgVtx.size]; omega))
  | CfgVtx.BlockVtx _, _, _ => by simp only [insert_cfg_into_list]
  | CfgVtx.WhileLoop _ _, _, h => by simp only [insert_cfg_into_list, h _ (Nat.le_refl _)]
  | CfgVtx.UntilLoop _ _, _, h => by simp only [insert_cfg_into_list, h _ (Nat.le_refl _)]
  | CfgVtx.UntilLoop_single _, _, h => by
      simp only [insert_cfg_into_list, h _ (Nat.le_refl _)]
  | CfgVtx.InfiniteLoopBlock _, _, h => by
      simp only [insert_cfg_into_list, h _ (Nat.le_refl _)]
  | CfgVtx.CondWithElse _ _, _, h => by
      simp only [insert_cfg_into_list, h _ (Nat.le_refl _)]
  | CfgVtx.ShortCircuit _, _, h => by simp only [insert_cfg_into_list, h _ (Nat.le_refl _)]
  | CfgVtx.CondNoElse _, _, h => by simp only [insert_cfg_into_list, h _ (Nat.le_refl _)]
  | CfgVtx.GotoEnd _ _, _, h => by simp only [insert_cfg_into_list, h _ (Nat.le_refl _)]
  | CfgVtx.Break _ _, _, h => by simp only [insert_cfg_into_list, h _ (Nat.le_refl _)]
  | CfgVtx.Other _, _, h => by simp only [insert_cfg_into_list, h _ (Nat.le_refl _)]
theorem insert_cfg_into_list_seq_congr (atomic_ops : FunctionAtomicOps)
    (r1 r2 : CfgVtx → Res Form) :
    ∀ (seq : List CfgVtx) (output : Form),
      (∀ c, c.size ≤ CfgVtx.size_list seq → r1 c = r2 c) →
      insert_cfg_into_list_seq atomic_ops r1 seq output =
        insert_cfg_into_list_seq atomic_ops r2 seq output
  | [], _, _ => by simp only [insert_cfg_into_list_seq]
  | x :: rest, output, h => by
      simp only [insert_cfg_into_list_seq]
      rw [insert_cfg_into_list_congr atomic_ops r1 r2 x output
        (fun c hc => h c (by simp only [CfgVtx.size_list]; omega))]
      congr 1
      funext output1
      exact insert_cfg_into_list_seq_congr atomic_ops r1 r2 rest output1
        (fun c hc => h c (by simp only [CfgVtx.size_list]; omega))
end

theorem mem_of_vector_at {α : Type} {v : List α} {i : Nat} {a : α}
    (h : vector_at v i = Except.ok a) : a ∈ v := by
  unfold vector_at at h
  cases hg : v.get? i with
  | none => rw [hg] at h; exact absurd h (by simp)
  | some x =>
      rw [hg] at h
      injection h with h
      subst h
      exact List.get?_mem hg

theorem bind_congr_ok {α β : Type} (x : Res α) (f g : α → Res β)
    (h : ∀ a, x = Except.ok a → f a = g a) : x.bind f = x.bind g := by
  cases x with
  | error e => rfl
  | ok a => exact h a rfl

theorem try_sc_as_abs_congr (r1 r2 : CfgVtx → Res Form) (entries : List CfgVtx)
    (h : ∀ c ∈ entries, r1 c = r2 c) :
    try_sc_as_abs r1 entries = try_sc_as_abs r2 entries := by
  unfold try_sc_as_abs
  split
  · rfl
  · apply bind_congr_ok
    intro e0 he0
    have hm := mem_of_vector_at he0
    cases e0 with
    | BlockVtx block_id => simp only [h _ hm]
    | _ => rfl

theorem try_sc_as_ash_congr (arg_count : SimpleExpressionKind → Nat)
    (r1 r2 : CfgVtx → Res Form) (entries : List CfgVtx)
    (h : ∀ c ∈ entries, r1 c = r2 c) :
    try_sc_as_ash arg_count r1 entries = try_sc_as_ash arg_count r2 entries := by
  unfold try_sc_as_ash
  split
  · rfl
  · apply bind_congr_ok
    intro b0 hb0
    apply bind_congr_ok
    intro e1 he1
    have hm0 := mem_of_vector_at hb0
    have hm1 := mem_of_vector_at he1
    cases e1 with
    | BlockVtx block_id => simp only [h _ hm0, h _ hm1]
    | _ => rfl

theorem try_sc_as_type_of_congr (r1 r2 : CfgVtx → Res Form) (entries : List CfgVtx)
    (h : ∀ c ∈ entries, r1 c = r2 c) :
    try_sc_as_type_of r1 entries = try_sc_as_type_of r2 entries := by
  unfold try_sc_as_type_of
  by_cases hc : (entries.length != 3) = true
  · rw [if_pos hc, if_pos hc]
  · rw [if_neg hc, if_neg hc]
    apply bind_congr_ok
    intro b0 hb0
    apply bind_congr_ok
    intro e1 he1
    apply bind_congr_ok
    intro e2 he2
    have hm0 := mem_of_vector_at hb0
    have hm1 := mem_of_vector_at he1
    have hm2 := mem_of_vector_at he2
    cases e1 with
    | BlockVtx block_id1 =>
        cases e2 with
        | BlockVtx block_id2 =>
            show (r1 b0).bind _ = (r2 b0).bind _
            rw [h _ hm0, h _ hm1, h _ hm2]
        | _ => rfl
    | _ => rfl

theorem short_circuit_entries_congr (r1 r2 : CfgVtx → Res Form) :
    ∀ entries : List CfgVtx, (∀ c ∈ entries, r1 c = r2 c) →
      short_circuit_entries r1 entries = short_circuit_entries r2 entries := by
  intro entries
  induction entries with
  | nil => intro _; rfl
  | cons x rest ih =>
      intro h
      simp only [short_circuit_entries, h x (List.mem_cons_self _ _),
        ih (fun c hc => h c (List.mem_cons_of_mem _ hc))]

theorem cond_with_else_entries_congr (r1 r2 : CfgVtx → Res Form) :
    ∀ entries : List (CfgCondEntry CfgVtx),
      (∀ e ∈ entries, r1 e.condition = r2 e.condition ∧ r1 e.body = r2 e.body) →
      cond_with_else_entries r1 entries = cond_with_else_entries r2 entries := by
  intro entries
  induction entries with
  | nil => intro _; rfl
  | cons x rest ih =>
      intro h
      simp only [cond_with_else_entries, (h x (List.mem_cons_self _ _)).1,
        (h x (List.mem_cons_self _ _)).2,
        ih (fun c hc => h c (List.mem_cons_of_mem _ hc))]

theorem cond_no_else_entries_congr (r1 r2 : CfgVtx → Res Form) :
    ∀ entries : List (CfgCondEntry CfgVtx),
      (∀ e ∈ entries, r1 e.condition = r2 e.condition ∧ r1 e.body = r2 e.body) →
      cond_no_else_entries r1 entries = cond_no_else_entries r2 entries := by
  intro entries
  induction entries with
  | nil => intro _; rfl
  | cons x rest ih =>
      intro h
      simp only [cond_no_else_entries, (h x (List.mem_cons_self _ _)).1,
        (h x (List.mem_cons_self _ _)).2,
        ih (fun c hc => h c (List.mem_cons_of_mem _ hc))]

theorem merge_cond_else_with_sc_cond_congr (invert : ConditionKind → ConditionKind)
    (r1 r2 : CfgVtx → Res Form) (cwe_entries : List (CfgCondEntry CfgVtx))
    (else_ir : Form)
    (h : ∀ e ∈ cwe_entries, r1 e.condition = r2 e.condition ∧ r1 e.body = r2 e.body) :
    merge_cond_else_with_sc_cond invert r1 cwe_entries else_ir =
      merge_cond_else_with_sc_cond invert r2 cwe_entries else_ir := by
  unfold merge_cond_else_with_sc_cond
  rw [cond_no_else_entries_congr r1 r2 cwe_entries h]

theorem cfg_to_ir_body_congr (args_right_to_left : CfgVtx → Bool)
    (invert : ConditionKind → ConditionKind)
    (arg_count : SimpleExpressionKind → Nat) (func : Function)
    (atomic_ops : FunctionAtomicOps) (r1 r2 : CfgVtx → Res Form) (vtx : CfgVtx)
    (h : ∀ c, c.size < vtx.size → r1 c = r2 c) :
    cfg_to_ir_body args_right_to_left invert arg_count func atomic_ops r1 vtx =
      cfg_to_ir_body args_right_to_left invert arg_count func atomic_ops r2 vtx := by
  cases vtx with
  | BlockVtx block_id => rfl
  | SequenceVtx seq =>
      simp only [cfg_to_ir_body, insert_cfg_into_list]
      exact insert_cfg_into_list_seq_congr atomic_ops r1 r2 seq []
        (fun c hc => h c (by simp only [CfgVtx.size]; omega))
  | WhileLoop c b =>
      simp only [cfg_to_ir_body, h c (by simp only [CfgVtx.size]; omega),
        h b (by simp only [CfgVtx.size]; omega)]
  | UntilLoop c b =>
      simp only [cfg_to_ir_body, h c (by simp only [CfgVtx.size]; omega),
        h b (by simp only [CfgVtx.size]; omega)]
  | UntilLoop_single b =>
      simp only [cfg_to_ir_body, h b (by simp only [CfgVtx.size]; omega)]
  | InfiniteLoopBlock b =>
      simp only [cfg_to_ir_body, h b (by simp only [CfgVtx.size]; omega)]
  | CondWithElse entries e =>
      have he : ∀ x ∈ entries, r1 x.condition = r2 x.condition ∧ r1 x.body = r2 x.body := by
        intro x hx
        have := CfgVtx.size_le_size_entries hx
        exact ⟨h _ (by simp only [CfgVtx.size]; omega), h _ (by simp only [CfgVtx.size]; omega)⟩
      simp only [cfg_to_ir_body, h e (by simp only [CfgVtx.size]; omega),
        merge_cond_else_with_sc_cond_congr invert r1 r2 entries _ he,
        cond_with_else_entries_congr r1 r2 entries he]
  | ShortCircuit entries =>
      have he : ∀ c ∈ entries, r1 c = r2 c := by
        intro c hc
        have := CfgVtx.size_le_size_list hc
        exact h c (by simp only [CfgVtx.size]; omega)
      simp only [cfg_to_ir_body, try_sc_as_type_of_congr r1 r2 entries he,
        try_sc_as_ash_congr arg_count r1 r2 entries he,
        try_sc_as_abs_congr r1 r2 entries he, short_circuit_entries_congr r1 r2 entries he]
  | CondNoElse entries =>
      have he : ∀ x ∈ entries, r1 x.condition = r2 x.condition ∧ r1 x.body = r2 x.body := by
        intro x hx
        have := CfgVtx.size_le_size_entries hx
        exact ⟨h _ (by simp only [CfgVtx.size]; omega), h _ (by simp only [CfgVtx.size]; omega)⟩
      simp only [cfg_to_ir_body, cond_no_else_entries_congr r1 r2 entries he]
  | GotoEnd b u =>
      simp only [cfg_to_ir_body, h b (by simp only [CfgVtx.size]; omega),
        h u (by simp only [CfgVtx.size]; omega)]
  | Break b u =>
      simp only [cfg_to_ir_body, h b (by simp only [CfgVtx.size]; omega),
        h u (by simp only [CfgVtx.size]; omega)]
  | Other n => rfl

theorem cfg_to_ir_fuel_succ (args_right_to_left : CfgVtx → Bool)
    (invert : ConditionKind → ConditionKind)
    (arg_count : SimpleExpressionKind → Nat) (func : Function)
    (atomic_ops : FunctionAtomicOps) :
    ∀ (fuel : Nat) (vtx : CfgVtx), vtx.size ≤ fuel →
      cfg_to_ir_fuel args_right_to_left invert arg_count func atomic_ops (fuel + 1) vtx =
        cfg_to_ir_fuel args_right_to_left invert arg_count func atomic_ops fuel vtx := by
  intro fuel
  induction fuel with
  | zero =>
      intro vtx h
      have := CfgVtx.size_pos vtx
      omega
  | succ n ih =>
      intro vtx h
      show cfg_to_ir_body args_right_to_left invert arg_count func atomic_ops _ vtx =
        cfg_to_ir_body args_right_to_left invert arg_count func atomic_ops _ vtx
      apply cfg_to_ir_body_congr
      intro c hc
      exact ih c (by omega)

/-- Every budget of at least one unit per vertex gives the result of
`cfg_to_ir`. -/
theorem cfg_to_ir_fuel_stable (args_right_to_left : CfgVtx → Bool)
    (invert : ConditionKind → ConditionKind)
    (arg_count : SimpleExpressionKind → Nat) (func : Function)
    (atomic_ops : FunctionAtomicOps) (vtx : CfgVtx) :
    ∀ fuel, vtx.size ≤ fuel →
      cfg_to_ir_fuel args_right_to_left invert arg_count func atomic_ops fuel vtx =
        cfg_to_ir args_right_to_left invert arg_count func atomic_ops vtx := by
  intro fuel
  induction fuel with
  | zero =>
      intro h
      have := CfgVtx.size_pos vtx
      omega
  | succ n ih =>
      intro h
      by_cases hn : vtx.size ≤ n
      · rw [cfg_to_ir_fuel_succ args_right_to_left invert arg_count func atomic_ops n vtx hn]
        exact ih hn
      · have : vtx.size = n + 1 := by omega
        unfold cfg_to_ir
        rw [this]

/-- The function `cfg_to_ir` satisfies the recursive equation of the source:
it is its body with the recursive calls made by `cfg_to_ir` itself. -/
theorem cfg_to_ir_eq (args_right_to_left : CfgVtx → Bool)
    (invert : ConditionKind → ConditionKind)
    (arg_count : SimpleExpressionKind → Nat) (func : Function)
    (atomic_ops : FunctionAtomicOps) (vtx : CfgVtx) :
    cfg_to_ir args_right_to_left invert arg_count func atomic_ops vtx =
      cfg_to_ir_body args_right_to_left invert arg_count func atomic_ops
        (cfg_to_ir args_right_to_left invert arg_count func atomic_ops) vtx := by
  obtain ⟨n, hn⟩ : ∃ n, vtx.size = n + 1 := ⟨vtx.size - 1, by
    have := CfgVtx.size_pos vtx
    omega⟩
  have h1 : cfg_to_ir args_right_to_left invert arg_count func atomic_ops vtx =
      cfg_to_ir_body args_right_to_left invert arg_count func atomic_ops
        (cfg_to_ir_fuel args_right_to_left invert arg_count func atomic_ops n) vtx := by
    unfold cfg_to_ir
    rw [hn]
    rfl
  rw [h1]
  apply cfg_to_ir_body_congr
  intro c hc
  exact cfg_to_ir_fuel_stable args_right_to_left invert arg_count func atomic_ops c n (by omega)

theorem back_concat (pre : Form) (x : FormElement) : back (pre ++ [x]) = Except.ok x := by
  simp [back]

theorem vector_at_zero_cons {α : Type} (a : α) (l : List α) :
    vector_at (a :: l) 0 = Except.ok a := rfl

theorem differs_some_eq_false {T : Type} [DecidableEq T] {k x : T} :
    MatchParam.differs (some k) x = false ↔ k = x := by
  simp [MatchParam.differs]

theorem as_simple_expression_single {src : Form} {math : SimpleExpression}
    (h : as_simple_expression (try_as_single_element src) = some math) :
    src = [FormElement.SimpleExpressionElement math] := by
  cases src with
  | nil => simp [try_as_single_element, as_simple_expression] at h
  | cons a t =>
      cases t with
      | nil =>
          cases a <;> simp [try_as_single_element, as_simple_expression] at h
          rw [h]
      | cons b t2 => simp [try_as_single_element, as_simple_expression] at h

theorem get_arg_eq_ok {e : SimpleExpression} {i : Nat} {a : SimpleAtom} :
    e.get_arg i = Except.ok a ↔ e.args.get? i = some a :=
  assert_some_eq_ok _ _

theorem is_op_2_eq_some {ir : FormElement} {kind : SimpleExpressionKind}
    {dst src0 : MatchParam Register} {a b : Register}
    (h : is_op_2 ir (some kind) dst src0 = Except.ok (some (a, b))) :
    ∃ dest math sp v, ir = FormElement.SetVar dest
        [FormElement.SimpleExpressionElement math] sp ∧
      dst.differs dest.reg = false ∧ math.kind = kind ∧
      math.args.get? 0 = some (SimpleAtom.var v) ∧ src0.differs v.reg = false ∧
      a = dest.reg ∧ b = v.reg := by
  cases ir with
  | SetVar dest src sp =>
      simp only [is_op_2] at h
      by_cases h1 : dst.differs dest.reg = true
      · rw [if_pos h1] at h
        exact absurd h (by simp)
      · rw [if_neg h1] at h
        cases hm : as_simple_expression (try_as_single_element src) with
        | none => rw [hm] at h; exact absurd h (by simp)
        | some math =>
            rw [hm] at h
            simp only at h
            by_cases h2 : MatchParam.differs (some kind) math.kind = true
            · rw [if_pos h2] at h
              exact absurd h (by simp)
            · rw [if_neg h2] at h
              obtain ⟨arg, harg, h3⟩ := (bind_eq_ok _ _ _).mp h
              cases arg with
              | var v =>
                  simp only at h3
                  by_cases h4 : src0.differs v.reg = true
                  · rw [if_pos h4] at h3
                    exact absurd h3 (by simp)
                  · rw [if_neg h4] at h3
                    injection h3 with h3
                    injection h3 with h3
                    injection h3 with h5 h6
                    exact ⟨dest, math, sp, v, by rw [as_simple_expression_single hm],
                      by simpa using h1,
                      (differs_some_eq_false.mp (by simpa using h2)).symm,
                      get_arg_eq_ok.mp harg, by simpa using h4, h5.symm, h6.symm⟩
              | _ => exact absurd h3 (by simp)
  | _ => exact absurd h (by simp [is_op_2])

theorem is_op_3_eq_some {arg_count : SimpleExpressionKind → Nat} {ir : FormElement}
    {kind : SimpleExpressionKind} {d s0 s1 : Register} {r : Register × Register × Register}
    (h : is_op_3 arg_count ir (some kind) (some d) (some s0) (some s1) = Except.ok (some r)) :
    ∃ dest math sp v0 v1, ir = FormElement.SetVar dest
        [FormElement.SimpleExpressionElement math] sp ∧
      dest.reg = d ∧ math.kind = kind ∧ arg_count math.kind = 2 ∧
      math.args.get? 0 = some (SimpleAtom.var v0) ∧ v0.reg = s0 ∧
      math.args.get? 1 = some (SimpleAtom.var v1) ∧ v1.reg = s1 := by
  cases ir with
  | SetVar dest src sp =>
      simp only [is_op_3] at h
      by_cases h1 : MatchParam.differs (some d) dest.reg = true
      · rw [if_pos h1] at h
        exact absurd h (by simp)
      · rw [if_neg h1] at h
        cases hm : as_simple_expression (try_as_single_element src) with
        | none => rw [hm] at h; exact absurd h (by simp)
        | some math =>
            rw [hm] at h
            simp only at h
            by_cases h2 : MatchParam.differs (some kind) math.kind = true
            · rw [if_pos h2] at h
              exact absurd h (by simp)
            · rw [if_neg h2] at h
              by_cases h3 : (arg_count math.kind != 2) = true
              · rw [if_pos h3] at h
                exact absurd h (by simp)
              · rw [if_neg h3] at h
                obtain ⟨arg0, harg0, h4⟩ := (bind_eq_ok _ _ _).mp h
                obtain ⟨arg1, harg1, h5⟩ := (bind_eq_ok _ _ _).mp h4
                cases arg0 with
                | var v0 =>
                    cases arg1 with
                    | var v1 =>
                        simp only at h5
                        by_cases h6 : (MatchParam.differs (some s0) v0.reg ||
                            MatchParam.differs (some s1) v1.reg) = true
                        · rw [if_pos h6] at h5
                          exact absurd h5 (by simp)
                        · simp only [Bool.or_eq_true, not_or, Bool.not_eq_true] at h6
                          exact ⟨dest, math, sp, v0, v1,
                            by rw [as_simple_expression_single hm],
                            (differs_some_eq_false.mp (by simpa using h1)).symm,
                            (differs_some_eq_false.mp (by simpa using h2)).symm,
                            by simpa using h3, get_arg_eq_ok.mp harg0,
                            (differs_some_eq_false.mp h6.1).symm, get_arg_eq_ok.mp harg1,
                            (differs_some_eq_false.mp h6.2).symm⟩
                    | _ => exact absurd h5 (by simp)
                | _ => exact absurd h5 (by simp)
  | _ => exact absurd h (by simp [is_op_3])

theorem back_eq_ok {f : Form} {last : FormElement} (h : back f = Except.ok last) :
    ∃ pre, f = pre ++ [last] := by
  unfold back at h
  cases hg : f.getLast? with
  | none => rw [hg] at h; exact absurd h (by simp)
  | some x =>
      rw [hg] at h
      injection h with h
      subst h
      exact eq_concat_of_getLast? hg

theorem vector_at_eq_ok {α : Type} {v : List α} {i : Nat} {a : α} :
    vector_at v i = Except.ok a ↔ v.get? i = some a := by
  unfold vector_at
  cases v.get? i <;> simp

theorem list_eq_pair {α : Type} {l : List α} {a b : α} (hl : l.length = 2)
    (h0 : vector_at l 0 = Except.ok a) (h1 : vector_at l 1 = Except.ok b) : l = [a, b] := by
  rw [vector_at_eq_ok] at h0 h1
  match l, hl with
  | [x, y], _ =>
      simp at h0 h1
      rw [h0, h1]

theorem list_eq_triple {α : Type} {l : List α} {a b c : α} (hl : l.length = 3)
    (h0 : vector_at l 0 = Except.ok a) (h1 : vector_at l 1 = Except.ok b)
    (h2 : vector_at l 2 = Except.ok c) : l = [a, b, c] := by
  rw [vector_at_eq_ok] at h0 h1 h2
  match l, hl with
  | [x, y, z], _ =>
      simp at h0 h1 h2
      rw [h0, h1, h2]

theorem sc_ash_shape {arg_count : SimpleExpressionKind → Nat}
    {rec_cfg_to_ir : CfgVtx → Res Form} {entries : List CfgVtx} {r : Form}
    (h : try_sc_as_ash arg_count rec_cfg_to_ir entries = Except.ok (some r)) :
    ∃ b0 block_id1 pre branch sa result value_in dsubu dsrav clobber value is_arith,
      entries = [b0, CfgVtx.BlockVtx block_id1] ∧
      rec_cfg_to_ir b0 = Except.ok (pre ++ [FormElement.Branch branch]) ∧
      rec_cfg_to_ir (CfgVtx.BlockVtx block_id1) = Except.ok [dsubu, dsrav] ∧
      is_ash_branch branch sa result value_in ∧
      is_neg_set dsubu clobber sa.reg ∧
      is_right_shift_set arg_count dsrav is_arith result.reg value_in.reg clobber.reg
        value ∧
      r = pre ++ [FormElement.SetVar result
        [FormElement.Ash [FormElement.SimpleAtomElement (SimpleAtom.var sa)]
          [FormElement.SimpleAtomElement value]
          (if clobber.reg ≠ result.reg then some clobber else none) is_arith] true] := by
  unfold try_sc_as_ash at h
  by_cases hlen : (entries.length != 2) = true
  · rw [if_pos hlen] at h
    exact absurd h (by simp)
  rw [if_neg hlen] at h
  obtain ⟨b0, hb0, h1⟩ := (bind_eq_ok _ _ _).mp h
  obtain ⟨e1, he1, h2⟩ := (bind_eq_ok _ _ _).mp h1
  have hent : entries = [b0, e1] := list_eq_pair (by simpa using hlen) hb0 he1
  cases e1 with
  | BlockVtx block_id1 =>
    simp only at h2
    obtain ⟨b0_ptr, hr0, h3⟩ := (bind_eq_ok _ _ _).mp h2
    obtain ⟨b1_ptr, hr1, h4⟩ := (bind_eq_ok _ _ _).mp h3
    obtain ⟨last, hlast, h5⟩ := (bind_eq_ok _ _ _).mp h4
    obtain ⟨pre, hpre⟩ := back_eq_ok hlast
    cases hbr : as_branch last with
    | none => rw [hbr] at h5; exact absurd h5 (by simp)
    | some branch =>
      rw [hbr] at h5
      simp only at h5
      rw [as_branch_eq_some] at hbr
      by_cases hl2 : (b1_ptr.length != 2) = true
      · rw [if_pos hl2] at h5
        exact absurd h5 (by simp)
      rw [if_neg hl2] at h5
      by_cases hchk : (!branch.likely ||
          branch.condition.kind != ConditionKind.GEQ_ZERO_SIGNED ||
          branch.branch_delay.kind != BranchDelayKind.DSLLV) = true
      · rw [if_pos hchk] at h5
        exact absurd h5 (by simp)
      rw [if_neg hchk] at h5
      obtain ⟨sa_in, hsa, h6⟩ := (bind_eq_ok _ _ _).mp h5
      obtain ⟨_, _, h7⟩ := (bind_eq_ok _ _ _).mp h6
      obtain ⟨sa, hsav, h8⟩ := (bind_eq_ok _ _ _).mp h7
      obtain ⟨result, hres, h9⟩ := (bind_eq_ok _ _ _).mp h8
      obtain ⟨value_in, hval, h10⟩ := (bind_eq_ok _ _ _).mp h9
      obtain ⟨sa2, hsa2, h11⟩ := (bind_eq_ok _ _ _).mp h10
      obtain ⟨_, hregs, h12⟩ := (bind_eq_ok _ _ _).mp h11
      obtain ⟨dsubu, hdsubu, h13⟩ := (bind_eq_ok _ _ _).mp h12
      obtain ⟨dsrav, hdsrav, h14⟩ := (bind_eq_ok _ _ _).mp h13
      obtain ⟨dsubu_match, hm2, h15⟩ := (bind_eq_ok _ _ _).mp h14
      have hb1 : b1_ptr = [dsubu, dsrav] := list_eq_pair (by simpa using hl2) hdsubu hdsrav
      rw [get_var_eq_ok] at hsav
      subst hsav
      cases dsubu_match with
      | none => exact absurd h15 (by simp)
      | some p =>
        obtain ⟨clobber_reg, x⟩ := p
        simp only at h15
        obtain ⟨arith_match, harith, h16⟩ := (bind_eq_ok _ _ _).mp h15
        obtain ⟨logical_match, hlogic, h17⟩ := (bind_eq_ok _ _ _).mp h16
        by_cases hboth : (!arith_match.isSome && !logical_match.isSome) = true
        · rw [if_pos hboth] at h17
          exact absurd h17 (by simp)
        rw [if_neg hboth] at h17
        obtain ⟨dsubu_set, hds, h18⟩ := (bind_eq_ok _ _ _).mp h17
        obtain ⟨dsrav_set, hdr, h19⟩ := (bind_eq_ok _ _ _).mp h18
        obtain ⟨value_ir, hvir, h20⟩ := (bind_eq_ok _ _ _).mp h19
        obtain ⟨popped, hpop, h21⟩ := (bind_eq_ok _ _ _).mp h20
        injection h21 with h21
        injection h21 with h21
        obtain ⟨dest2, neg, sp2, v, hir2, _, hnk, hna, hns, hcl, _⟩ := is_op_2_eq_some hm2
        rw [hir2] at hds
        simp only [as_set_var, assert_some] at hds
        injection hds with hds
        have hpop2 : popped = pre := by
          rw [hpre, pop_back_concat] at hpop
          injection hpop with hpop
          exact hpop.symm
        have hshift : ∃ dest math sp v0 v1, dsrav = FormElement.SetVar dest
            [FormElement.SimpleExpressionElement math] sp ∧ dest.reg = result.reg ∧
            math.kind = (if arith_match.isSome then SimpleExpressionKind.RIGHT_SHIFT_ARITH
              else SimpleExpressionKind.RIGHT_SHIFT_LOGIC) ∧ arg_count math.kind = 2 ∧
            math.args.get? 0 = some (SimpleAtom.var v0) ∧ v0.reg = value_in.reg ∧
            math.args.get? 1 = some (SimpleAtom.var v1) ∧ v1.reg = clobber_reg := by
          cases ha : arith_match with
          | some t =>
              rw [ha] at harith
              obtain ⟨dest, math, sp, v0, v1, e1, e2, e3, e4, e5, e6, e7, e8⟩ :=
                is_op_3_eq_some harith
              exact ⟨dest, math, sp, v0, v1, e1, e2, by simpa using e3, e4, e5, e6, e7, e8⟩
          | none =>
              rw [ha] at hboth
              cases hlg : logical_match with
              | none => rw [hlg] at hboth; simp at hboth
              | some t =>
                  rw [hlg] at hlogic
                  obtain ⟨dest, math, sp, v0, v1, e1, e2, e3, e4, e5, e6, e7, e8⟩ :=
                    is_op_3_eq_some hlogic
                  exact ⟨dest, math, sp, v0, v1, e1, e2, by simpa using e3, e4, e5, e6, e7,
                    e8⟩
        obtain ⟨dest, math, sp, v0, v1, e1, e2, e3, e4, e5, e6, e7, e8⟩ := hshift
        rw [e1] at hdr
        simp only [as_set_var, assert_some] at hdr
        injection hdr with hdr
        rw [← hdr] at hvir
        simp only [try_as_single_element, as_simple_expression, get_arg_eq_ok] at hvir
        rw [e5] at hvir
        injection hvir with hvir
        have hk : branch.likely = true ∧
            branch.condition.kind = ConditionKind.GEQ_ZERO_SIGNED ∧
            branch.branch_delay.kind = BranchDelayKind.DSLLV := by
          simp only [Bool.or_eq_true, Bool.not_eq_true', bne_iff_ne, ne_eq, not_or,
            Bool.not_eq_false, Decidable.not_not] at hchk
          exact ⟨hchk.1.1, hchk.1.2, hchk.2⟩
        refine ⟨b0, block_id1, pre, branch, sa, result, value_in, dsubu, dsrav, dest2,
          value_ir, arith_match.isSome, hent, ?_, ?_, ?_, ?_, ?_, ?_⟩
        · rw [hr0, hpre, hbr]
        · rw [hr1, hb1]
        · exact ⟨hk.1, hk.2.1, hk.2.2, (assert_some_eq_ok _ _).mp hsa,
            (assert_some_eq_ok _ _).mp hres, (assert_some_eq_ok _ _).mp hval, sa2,
            (assert_some_eq_ok _ _).mp hsa2, by
              have := (assert_that_eq_ok _ _).mp hregs
              simpa using this⟩
        · exact ⟨neg, sp2, v, hir2, hnk, hna, (differs_some_eq_false.mp hns).symm⟩
        · exact ⟨dest, math, sp, v0, v1, e1, e2, e3, e4, e5, hvir.symm, e6, e7, by
            rw [e8, hcl]⟩
        · rw [← h21, hpop2, ← hds]
          simp only [hcl, bne_iff_ne, ne_eq]
  | _ => exact absurd h2 (by simp)

theorem try_as_single_element_eq_some {f : Form} {e : FormElement} :
    try_as_single_element f = some e ↔ f = [e] := by
  cases f with
  | nil => simp [try_as_single_element]
  | cons a t =>
      cases t with
      | nil => simp [try_as_single_element]
      | cons b t2 => simp [try_as_single_element]

theorem as_set_var_eq_some {o : Option FormElement} {p : Variable × Form} :
    as_set_var o = some p ↔ ∃ sp, o = some (FormElement.SetVar p.1 p.2 sp) := by
  cases o with
  | none => simp [as_set_var]
  | some e =>
      cases p with
      | mk p1 p2 =>
          cases e <;> simp [as_set_var]

theorem as_load_source_single {src : Form} {x : Form × Nat × LoadKind}
    (h : as_load_source (try_as_single_element src) = some x) :
    src = [FormElement.LoadSource x.1 x.2.1 x.2.2] := by
  cases hs : try_as_single_element src with
  | none => rw [hs] at h; simp [as_load_source] at h
  | some e =>
      rw [hs] at h
      rw [try_as_single_element_eq_some] at hs
      cases e <;> simp [as_load_source] at h
      rw [hs, ← h]

theorem get_int_eq_ok {a : SimpleAtom} {i : Int} :
    a.get_int = Except.ok i ↔ a = SimpleAtom.int i := by
  cases a <;> simp [SimpleAtom.get_int]

theorem pop_back_two (pre : Form) (x y : FormElement) (p1 p2 : Form)
    (h1 : pop_back (pre ++ [x, y]) = Except.ok p1) (h2 : pop_back p1 = Except.ok p2) :
    p2 = pre := by
  have e : pre ++ [x, y] = (pre ++ [x]) ++ [y] := by simp
  rw [e, pop_back_concat] at h1
  injection h1 with h1
  rw [← h1, pop_back_concat] at h2
  injection h2 with h2
  exact h2.symm

theorem eq_concat_two {f pre : Form} {last x : FormElement} (hf : f = pre ++ [last])
    (hlen : ¬ f.length ≤ 1) (hx : vector_at f (f.length - 2) = Except.ok x) :
    ∃ pre2, f = pre2 ++ [x, last] := by
  subst hf
  rw [vector_at_eq_ok] at hx
  rcases List.eq_nil_or_concat pre with hp | ⟨pre2, y, hp⟩
  · subst hp
    simp at hlen
  · subst hp
    refine ⟨pre2, ?_⟩
    have e : pre2.concat y ++ [last] = pre2 ++ (y :: [last]) := by simp
    rw [e] at hx ⊢
    have hl : (pre2 ++ [y, last]).length - 2 = pre2.length := by simp
    rw [hl, List.get?_eq_getElem?, List.getElem?_append_right (le_refl _)] at hx
    simp at hx
    rw [hx]

theorem sc_type_of_shape {rec_cfg_to_ir : CfgVtx → Res Form} {entries : List CfgVtx}
    {r : Form} (h : try_sc_as_type_of rec_cfg_to_ir entries = Except.ok (some r)) :
    ∃ b0 block_id1 block_id2 pre shift_elt first_branch second_branch else_elt temp src
        dst t,
      entries = [b0, CfgVtx.BlockVtx block_id1, CfgVtx.BlockVtx block_id2] ∧
      rec_cfg_to_ir b0 =
        Except.ok (pre ++ [shift_elt, FormElement.Branch first_branch]) ∧
      rec_cfg_to_ir (CfgVtx.BlockVtx block_id1) =
        Except.ok [FormElement.Branch second_branch] ∧
      rec_cfg_to_ir (CfgVtx.BlockVtx block_id2) = Except.ok [else_elt] ∧
      is_type_of_shift shift_elt temp src ∧
      is_type_of_branches first_branch second_branch t dst.reg ∧
      t.reg = temp.reg ∧
      is_type_of_load else_elt dst src.reg ∧
      r = pre ++ [FormElement.SetVar dst
        [FormElement.TypeOf [FormElement.SimpleAtomElement (SimpleAtom.var src)]
          (if temp.reg ≠ dst.reg then some t else none)] true] := by
  unfold try_sc_as_type_of at h
  by_cases hlen : (entries.length != 3) = true
  · rw [if_pos hlen] at h
    exact absurd h (by simp)
  rw [if_neg hlen] at h
  obtain ⟨b0, hb0, h1⟩ := (bind_eq_ok _ _ _).mp h
  obtain ⟨e1, he1, h2⟩ := (bind_eq_ok _ _ _).mp h1
  obtain ⟨e2, he2, h3⟩ := (bind_eq_ok _ _ _).mp h2
  have hent : entries = [b0, e1, e2] := list_eq_triple (by simpa using hlen) hb0 he1 he2
  cases e1 with
  | BlockVtx block_id1 =>
    cases e2 with
    | BlockVtx block_id2 =>
      simp only at h3
      obtain ⟨b0_ptr, hr0, h4⟩ := (bind_eq_ok _ _ _).mp h3
      by_cases hl0 : b0_ptr.length ≤ 1
      · rw [if_pos hl0] at h4
        exact absurd h4 (by simp)
      rw [if_neg hl0] at h4
      obtain ⟨b1_ptr, hr1, h5⟩ := (bind_eq_ok _ _ _).mp h4
      obtain ⟨b2_ptr, hr2, h6⟩ := (bind_eq_ok _ _ _).mp h5
      cases hb1 : (try_as_single_element b1_ptr).bind as_branch with
      | none => rw [hb1] at h6; exact absurd h6 (by simp)
      | some second_branch =>
        cases hb2 : as_set_var (try_as_single_element b2_ptr) with
        | none => rw [hb1, hb2] at h6; exact absurd h6 (by simp)
        | some else_case =>
          rw [hb1, hb2] at h6
          simp only at h6
          obtain ⟨shift_elt, hshift, h7⟩ := (bind_eq_ok _ _ _).mp h6
          cases hss : as_set_var (some shift_elt) with
          | none => rw [hss] at h7; exact absurd h7 (by simp)
          | some set_shift =>
            rw [hss] at h7
            simp only at h7
            cases hse : as_simple_expression (try_as_single_element set_shift.2) with
            | none => rw [hse] at h7; exact absurd h7 (by simp)
            | some shift =>
              rw [hse] at h7
              simp only at h7
              by_cases hk : (shift.kind != SimpleExpressionKind.LEFT_SHIFT) = true
              · rw [if_pos hk] at h7
                exact absurd h7 (by simp)
              rw [if_neg hk] at h7
              obtain ⟨obj_atom, hobj, h8⟩ := (bind_eq_ok _ _ _).mp h7
              obtain ⟨src_reg, hsrc, h9⟩ := (bind_eq_ok _ _ _).mp h8
              obtain ⟨sa, hsa, h10⟩ := (bind_eq_ok _ _ _).mp h9
              by_cases h61 : (!sa.is_int || sa != SimpleAtom.int 61) = true
              · rw [if_pos h61] at h10
                exact absurd h10 (by simp)
              rw [if_neg h61] at h10
              obtain ⟨last, hlast, h11⟩ := (bind_eq_ok _ _ _).mp h10
              cases hfb : as_branch last with
              | none => rw [hfb] at h11; exact absurd h11 (by simp)
              | some first_branch =>
                rw [hfb] at h11
                simp only at h11
                by_cases hc1 : (first_branch.branch_delay.kind != BranchDelayKind.SET_BINTEGER ||
                    first_branch.condition.kind != ConditionKind.ZERO ||
                    !first_branch.likely) = true
                · rw [if_pos hc1] at h11
                  exact absurd h11 (by simp)
                rw [if_neg hc1] at h11
                obtain ⟨temp_atom, htemp, h12⟩ := (bind_eq_ok _ _ _).mp h11
                obtain ⟨temp_reg, htr, h13⟩ := (bind_eq_ok _ _ _).mp h12
                obtain ⟨_, hta, h14⟩ := (bind_eq_ok _ _ _).mp h13
                obtain ⟨dst_reg, hdst, h15⟩ := (bind_eq_ok _ _ _).mp h14
                by_cases hc2 : (second_branch.branch_delay.kind != BranchDelayKind.SET_PAIR ||
                    second_branch.condition.kind != ConditionKind.GREATER_THAN_ZERO_SIGNED ||
                    !second_branch.likely) = true
                · rw [if_pos hc2] at h15
                  exact absurd h15 (by simp)
                rw [if_neg hc2] at h15
                obtain ⟨dst_reg2, hdst2, h16⟩ := (bind_eq_ok _ _ _).mp h15
                obtain ⟨_, hd2, h17⟩ := (bind_eq_ok _ _ _).mp h16
                obtain ⟨_, hd3, h18⟩ := (bind_eq_ok _ _ _).mp h17
                cases hld : as_load_source (try_as_single_element else_case.2) with
                | none => rw [hld] at h18; exact absurd h18 (by simp)
                | some ld =>
                  obtain ⟨location, size, kind⟩ := ld
                  rw [hld] at h18
                  simp only at h18
                  by_cases hks : (kind != LoadKind.UNSIGNED || size != 4) = true
                  · rw [if_pos hks] at h18
                    exact absurd h18 (by simp)
                  rw [if_neg hks] at h18
                  cases hll : as_simple_expression (try_as_single_element location) with
                  | none => rw [hll] at h18; exact absurd h18 (by simp)
                  | some load_loc =>
                    rw [hll] at h18
                    simp only at h18
                    by_cases hadd : (load_loc.kind != SimpleExpressionKind.ADD) = true
                    · rw [if_pos hadd] at h18
                      exact absurd h18 (by simp)
                    rw [if_neg hadd] at h18
                    obtain ⟨src_reg3, hs3, h19⟩ := (bind_eq_ok _ _ _).mp h18
                    obtain ⟨offset, hoff, h20⟩ := (bind_eq_ok _ _ _).mp h19
                    by_cases hvi : (!src_reg3.is_var || !offset.is_int) = true
                    · rw [if_pos hvi] at h20
                      exact absurd h20 (by simp)
                    rw [if_neg hvi] at h20
                    obtain ⟨src_var3, hsv3, h21⟩ := (bind_eq_ok _ _ _).mp h20
                    obtain ⟨_, hsreg, h22⟩ := (bind_eq_ok _ _ _).mp h21
                    obtain ⟨offset_int, hoi, h23⟩ := (bind_eq_ok _ _ _).mp h22
                    obtain ⟨_, hm4, h24⟩ := (bind_eq_ok _ _ _).mp h23
                    obtain ⟨popped1, hp1, h25⟩ := (bind_eq_ok _ _ _).mp h24
                    obtain ⟨popped2, hp2, h26⟩ := (bind_eq_ok _ _ _).mp h25
                    injection h26 with h26
                    injection h26 with h26
                    rw [bind_as_branch_eq_some, try_as_single_element_eq_some] at hb1
                    obtain ⟨sp2, hb2⟩ := as_set_var_eq_some.mp hb2
                    rw [try_as_single_element_eq_some] at hb2
                    obtain ⟨sp0, hss⟩ := as_set_var_eq_some.mp hss
                    injection hss with hss
                    have hse2 := as_simple_expression_single hse
                    have hld2 := as_load_source_single hld
                    have hll2 := as_simple_expression_single hll
                    simp only at hld2
                    obtain ⟨pre0, hpre0⟩ := back_eq_ok hlast
                    obtain ⟨pre, hpre⟩ := eq_concat_two hpre0 hl0 hshift
                    rw [as_branch_eq_some] at hfb
                    rw [get_var_eq_ok] at hsrc htr hsv3
                    rw [get_int_eq_ok] at hoi
                    rw [get_arg_eq_ok] at hobj hsa hs3 hoff
                    have hta2 := (assert_that_eq_ok _ _).mp hta
                    have hd22 := (assert_that_eq_ok _ _).mp hd2
                    have hd32 := (assert_that_eq_ok _ _).mp hd3
                    have hsreg2 := (assert_that_eq_ok _ _).mp hsreg
                    have hm42 := (assert_that_eq_ok _ _).mp hm4
                    simp only [beq_iff_eq] at hta2 hd22 hd32 hsreg2 hm42
                    simp only [Bool.or_eq_true, Bool.not_eq_true', bne_iff_ne, ne_eq, not_or,
                      Bool.not_eq_false, Decidable.not_not] at hk h61 hc1 hc2 hks hadd
                    have hp : popped2 = pre := pop_back_two pre _ _ _ _ (hpre ▸ hp1) hp2
                    subst hsrc htr hsv3 hoi hm42 hfb
                    refine ⟨b0, block_id1, block_id2, pre, shift_elt,
                      first_branch, second_branch,
                      FormElement.SetVar else_case.1 else_case.2 sp2, set_shift.1, src_reg,
                      else_case.1, temp_reg, hent, ?_, ?_, ?_, ?_, ?_, hta2, ?_, ?_⟩
                    · rw [hr0, hpre]
                    · rw [hr1, hb1]
                    · rw [hr2, hb2]
                    · exact ⟨shift, sp0, by rw [hss, hse2], hk, hobj, by rw [hsa, h61.2]⟩
                    · exact ⟨hc1.2, hc1.1.2, hc1.1.1, (assert_some_eq_ok _ _).mp htemp,
                        ⟨dst_reg, (assert_some_eq_ok _ _).mp hdst, hd32.symm⟩,
                        hc2.2, hc2.1.2, hc2.1.1,
                        ⟨dst_reg2, (assert_some_eq_ok _ _).mp hdst2, by rw [hd22, hd32]⟩⟩
                    · exact ⟨load_loc, sp2, src_var3, by rw [hld2, hll2, hks.1, hks.2], hadd,
                        hs3, hsreg2, hoff⟩
                    · rw [← h26, hp]
                      simp only [hta2, hd32, bne_iff_ne, ne_eq]
    | _ => exact absurd h3 (by simp)
  | _ => exact absurd h3 (by simp)

theorem as_short_circuit_eq_some {x : FormElement} {sc : ShortCircuitElement} :
    as_short_circuit x = some sc ↔ x = FormElement.ShortCircuit sc := by
  cases x <;> simp [as_short_circuit]

theorem as_cond_no_else_eq_some {x : FormElement} {cne : CondNoElseElement} :
    as_cond_no_else x = some cne ↔ x = FormElement.CondNoElse cne := by
  cases x <;> simp [as_cond_no_else]

theorem as_short_circuit_eq_none {x : FormElement} :
    as_short_circuit x = none ↔ ∀ sc, x ≠ FormElement.ShortCircuit sc := by
  cases x <;> simp [as_short_circuit]

theorem as_cond_no_else_eq_none {x : FormElement} :
    as_cond_no_else x = none ↔ ∀ cne, x ≠ FormElement.CondNoElse cne := by
  cases x <;> simp [as_cond_no_else]

theorem cond_no_else_entries_length {rec_cfg_to_ir : CfgVtx → Res Form} :
    ∀ (l : List (CfgCondEntry CfgVtx)) (r : List (CondNoElseEntry FormElement)),
      cond_no_else_entries rec_cfg_to_ir l = Except.ok r → r.length = l.length := by
  intro l
  induction l with
  | nil =>
      intro r h
      simp only [cond_no_else_entries] at h
      injection h with h
      subst h
      rfl
  | cons x rest ih =>
      intro r h
      simp only [cond_no_else_entries, bind_eq_ok] at h
      obtain ⟨c, _, b, _, r1, hr1, h⟩ := h
      injection h with h
      rw [← h]
      simp [ih r1 hr1]

theorem merge_none_iff (invert : ConditionKind → ConditionKind)
    (rec_cfg_to_ir : CfgVtx → Res Form) (cwe_entries : List (CfgCondEntry CfgVtx))
    (else_ir : Form) :
    merge_cond_else_with_sc_cond invert rec_cfg_to_ir cwe_entries else_ir = Except.ok none ↔
      (else_ir.length ≠ 2 ∨
       (∀ sc, else_ir.get? 0 ≠ some (FormElement.ShortCircuit sc)) ∨
       (∀ cne, else_ir.get? 1 ≠ some (FormElement.CondNoElse cne))) := by
  unfold merge_cond_else_with_sc_cond
  by_cases hlen : (else_ir.length != 2) = true
  · rw [if_pos hlen]
    simp only [true_iff]
    exact Or.inl (by simpa using hlen)
  rw [if_neg hlen]
  have hl : else_ir.length = 2 := by simpa using hlen
  match else_ir, hl with
  | [a, b], _ =>
    simp only [vector_at, List.get?_cons_zero, List.get?_cons_succ, ok_bind,
      List.length_cons, List.length_nil, ne_eq, not_true_eq_false, false_or,
      Option.some.injEq]
    cases hsc : as_short_circuit a with
    | none =>
      simp only [true_iff]
      exact Or.inl (as_short_circuit_eq_none.mp hsc)
    | some sc =>
      cases hcne : as_cond_no_else b with
      | none =>
        simp only [true_iff]
        exact Or.inr (as_cond_no_else_eq_none.mp hcne)
      | some cne =>
        rw [as_short_circuit_eq_some] at hsc
        rw [as_cond_no_else_eq_some] at hcne
        subst hsc hcne
        simp only
        constructor
        · intro h
          obtain ⟨_, _, h1⟩ := (bind_eq_ok _ _ _).mp h
          obtain ⟨_, _, h2⟩ := (bind_eq_ok _ _ _).mp h1
          obtain ⟨_, _, h3⟩ := (bind_eq_ok _ _ _).mp h2
          exact absurd h3 (by simp)
        · intro h
          rcases h with h | h
          · exact absurd rfl (h sc)
          · exact absurd rfl (h cne)

theorem merge_some_shape (invert : ConditionKind → ConditionKind)
    (rec_cfg_to_ir : CfgVtx → Res Form) (cwe_entries : List (CfgCondEntry CfgVtx))
    (sc : ShortCircuitElement) (second : CondNoElseElement)
    (front : CondNoElseEntry FormElement) (translated : List (CondNoElseEntry FormElement))
    (result1 : Form)
    (hc : cwe_entries ≠ [])
    (hfront : second.entries.head? = some front)
    (htr : cond_no_else_entries rec_cfg_to_ir cwe_entries = Except.ok translated)
    (hclean : clean_up_cond_no_else invert
      [FormElement.CondNoElse (CondNoElseElement_new
        (translated ++ merged_nested_entries (FormElement.ShortCircuit sc) front second))] 0
      = Except.ok result1) :
    ∃ out, result1 = [FormElement.CondNoElse out] ∧
      merge_cond_else_with_sc_cond invert rec_cfg_to_ir cwe_entries
        [FormElement.ShortCircuit sc, FormElement.CondNoElse second] =
        Except.ok (some [FormElement.CondNoElse out]) ∧
      out.entries.length = cwe_entries.length + second.entries.length ∧
      (∀ j e,
        (translated ++ merged_nested_entries (FormElement.ShortCircuit sc) front second).get? j
          = some e →
        ∃ e1, out.entries.get? j = some e1 ∧
          CneEntryResult invert (cwe_entries.length + second.entries.length) j e e1) ∧
      ((∀ e ∈ second.entries, e.cleaned = true) →
        out.entries.drop cwe_entries.length =
          merged_nested_entries (FormElement.ShortCircuit sc) front second) := by
  have htl : translated.length = cwe_entries.length := cond_no_else_entries_length _ _ htr
  have hsl : (merged_nested_entries (FormElement.ShortCircuit sc) front second).length =
      second.entries.length := by
    cases hs : second.entries with
    | nil => rw [hs] at hfront; exact absurd hfront (by simp)
    | cons a t => simp [merged_nested_entries, hs]
  have hcpos : 0 < cwe_entries.length := List.length_pos.mpr hc
  have hspos : 0 < second.entries.length := by
    cases hs : second.entries with
    | nil => rw [hs] at hfront; exact absurd hfront (by simp)
    | cons a t => simp
  have hmerge : merge_cond_else_with_sc_cond invert rec_cfg_to_ir cwe_entries
      [FormElement.ShortCircuit sc, FormElement.CondNoElse second] =
      Except.ok (some result1) := by
    unfold merge_cond_else_with_sc_cond
    simp only [List.length_cons, List.length_nil, vector_at, List.get?_cons_zero,
      List.get?_cons_succ, ok_bind, as_short_circuit, as_cond_no_else, htr, hfront]
    rw [if_neg (by decide)]
    simp only [List.singleton_append]
    unfold merged_nested_entries at hclean
    rw [hclean]
    rfl
  rw [clean_up_cond_no_else_unfold invert
      [FormElement.CondNoElse (CondNoElseElement_new
        (translated ++ merged_nested_entries (FormElement.ShortCircuit sc) front second))]
      0 (CondNoElseElement_new
      (translated ++ merged_nested_entries (FormElement.ShortCircuit sc) front second))
      rfl] at hclean
  have hn : (CondNoElseElement_new
      (translated ++ merged_nested_entries (FormElement.ShortCircuit sc) front second)).entries.length
      = cwe_entries.length + second.entries.length := by
    simp [CondNoElseElement_new, htl, hsl]
  obtain ⟨todo1, hres, hlen, hall⟩ := cne_loop_ok invert _ 0 _ _ _ 0 [] result1
    (by simp only [Nat.zero_add]) (by
      intro e _ _ b s _ hbad
      rw [hn] at hbad
      omega) hclean
  simp only [List.nil_append, List.set_cons_zero] at hres
  rw [hn] at hall
  simp only [CondNoElseElement_new] at hall hlen
  refine ⟨_, hres, by rw [hmerge, hres], ?_, ?_, ?_⟩
  · simp only [hlen, List.length_append, htl, hsl]
  · intro j e hj
    have := hall j e hj
    simpa using this
  · intro hcl
    apply List.ext_get?
    intro j
    rw [List.get?_eq_getElem?, List.getElem?_drop, ← List.get?_eq_getElem?]
    cases hj : (merged_nested_entries (FormElement.ShortCircuit sc) front second).get? j with
    | none =>
      have h1 : second.entries.length ≤ j := by
        rw [← hsl]
        exact List.get?_eq_none.mp hj
      apply List.get?_eq_none.mpr
      rw [hlen, List.length_append, htl, hsl]
      omega
    | some e =>
      have hj2 : (translated ++
          merged_nested_entries (FormElement.ShortCircuit sc) front second).get?
          (cwe_entries.length + j) = some e := by
        rw [← htl, List.get?_eq_getElem?, List.getElem?_append_right (by omega),
          ← List.get?_eq_getElem?]
        simpa using hj
      obtain ⟨e1, he1, hr⟩ := hall _ e hj2
      have hecl : e.cleaned = true := by
        have hmem := List.get?_mem hj
        unfold merged_nested_entries at hmem
        rcases List.mem_cons.mp hmem with h0 | h0
        · rw [h0]
          exact hcl front (List.mem_of_mem_head? hfront)
        · exact hcl e (List.mem_of_mem_tail h0)
      simp only [CneEntryResult, if_pos hecl, Nat.zero_add] at hr
      rw [he1, hr]

theorem push_atomic_ops_eq (atomic_ops : FunctionAtomicOps) :
    ∀ (count i : Nat) (output : Form), count = 0 ∨ i + count ≤ atomic_ops.ops.length →
      push_atomic_ops atomic_ops count i output =
        Except.ok (output ++ (atomic_ops.ops.drop i).take count) := by
  intro count
  induction count with
  | zero =>
      intro i output _
      simp [push_atomic_ops]
  | succ n ih =>
      intro i output h
      have hi : i < atomic_ops.ops.length := by omega
      have hget : atomic_ops.ops.get? i = some (atomic_ops.ops.get ⟨i, hi⟩) :=
        List.get?_eq_get hi
      simp only [push_atomic_ops, vector_at, hget, ok_bind]
      have hd : atomic_ops.ops.drop i =
          atomic_ops.ops.get ⟨i, hi⟩ :: atomic_ops.ops.drop (i + 1) :=
        List.drop_eq_getElem_cons hi
      rw [ih (i + 1) _ (Or.inr (by omega))]
      simp only [List.append_assoc, List.singleton_append]
      rw [hd, List.take_succ_cons]

theorem push_block_ops_eq (atomic_ops : FunctionAtomicOps) (block_id : Nat) (output : Form)
    (h : block_in_range atomic_ops block_id = true) :
    push_block_ops atomic_ops block_id output =
      Except.ok (output ++ block_op_forms atomic_ops block_id) := by
  unfold block_in_range at h
  unfold push_block_ops block_op_forms
  cases hf : atomic_ops.block_id_to_first_atomic_op.get? block_id with
  | none => rw [hf] at h; simp at h
  | some first_op =>
    cases he : atomic_ops.block_id_to_end_atomic_op.get? block_id with
    | none => rw [hf, he] at h; simp at h
    | some end_op =>
      rw [hf, he] at h
      simp only [decide_eq_true_eq] at h
      simp only [vector_at, hf, he, ok_bind]
      rw [push_atomic_ops_eq atomic_ops _ _ _ (by omega), List.drop_take]

theorem push_atomic_ops_append (atomic_ops : FunctionAtomicOps) :
    ∀ (count i : Nat) (output : Form),
      push_atomic_ops atomic_ops count i output =
        (push_atomic_ops atomic_ops count i []).bind fun ir => Except.ok (output ++ ir) := by
  intro count
  induction count with
  | zero =>
      intro i output
      simp [push_atomic_ops, Except.bind]
  | succ n ih =>
      intro i output
      simp only [push_atomic_ops]
      cases hv : vector_at atomic_ops.ops i with
      | error e => rfl
      | ok op =>
          simp only [ok_bind, List.nil_append]
          rw [ih (i + 1) (output ++ [op]), ih (i + 1) [op]]
          cases push_atomic_ops atomic_ops n (i + 1) [] with
          | error e => rfl
          | ok ir => simp [Except.bind]

theorem push_block_ops_append (atomic_ops : FunctionAtomicOps) (block_id : Nat)
    (output : Form) :
    push_block_ops atomic_ops block_id output =
      (push_block_ops atomic_ops block_id []).bind fun ir => Except.ok (output ++ ir) := by
  unfold push_block_ops
  cases vector_at atomic_ops.block_id_to_first_atomic_op block_id with
  | error e => rfl
  | ok first_op =>
      cases vector_at atomic_ops.block_id_to_end_atomic_op block_id with
      | error e => rfl
      | ok end_op =>
          simp only [ok_bind]
          exact push_atomic_ops_append atomic_ops _ _ output

theorem cfg_to_ir_block (args_right_to_left : CfgVtx → Bool)
    (invert : ConditionKind → ConditionKind)
    (arg_count : SimpleExpressionKind → Nat) (func : Function)
    (atomic_ops : FunctionAtomicOps) (block_id : Nat) :
    cfg_to_ir args_right_to_left invert arg_count func atomic_ops (CfgVtx.BlockVtx block_id) =
      push_block_ops atomic_ops block_id [] := by
  rw [cfg_to_ir_eq]
  rfl

theorem cfg_to_ir_sequence_eq (args_right_to_left : CfgVtx → Bool)
    (invert : ConditionKind → ConditionKind)
    (arg_count : SimpleExpressionKind → Nat) (func : Function)
    (atomic_ops : FunctionAtomicOps) (seq : List CfgVtx) :
    cfg_to_ir args_right_to_left invert arg_count func atomic_ops (CfgVtx.SequenceVtx seq) =
      insert_cfg_into_list_seq atomic_ops (cfg_to_ir args_right_to_left invert arg_count func atomic_ops)
        seq [] := by
  rw [cfg_to_ir_eq]
  simp only [cfg_to_ir_body, insert_cfg_into_list]

mutual
theorem insert_cfg_into_list_eq_bind (args_right_to_left : CfgVtx → Bool)
    (invert : ConditionKind → ConditionKind)
    (arg_count : SimpleExpressionKind → Nat) (func : Function)
    (atomic_ops : FunctionAtomicOps) :
    ∀ (vtx : CfgVtx) (output : Form),
      insert_cfg_into_list atomic_ops (cfg_to_ir args_right_to_left invert arg_count func atomic_ops) vtx
          output =
        (cfg_to_ir args_right_to_left invert arg_count func atomic_ops vtx).bind fun ir =>
          Except.ok (output ++ ir)
  | CfgVtx.SequenceVtx seq, output => by
      rw [cfg_to_ir_sequence_eq]
      simp only [insert_cfg_into_list]
      exact insert_cfg_into_list_seq_eq_bind args_right_to_left invert arg_count func atomic_ops seq output
  | CfgVtx.BlockVtx block_id, output => by
      rw [cfg_to_ir_block]
      simp only [insert_cfg_into_list]
      exact push_block_ops_append atomic_ops block_id output
  | CfgVtx.WhileLoop _ _, _ => by simp only [insert_cfg_into_list]
  | CfgVtx.UntilLoop _ _, _ => by simp only [insert_cfg_into_list]
  | CfgVtx.UntilLoop_single _, _ => by simp only [insert_cfg_into_list]
  | CfgVtx.InfiniteLoopBlock _, _ => by simp only [insert_cfg_into_list]
  | CfgVtx.CondWithElse _ _, _ => by simp only [insert_cfg_into_list]
  | CfgVtx.ShortCircuit _, _ => by simp only [insert_cfg_into_list]
  | CfgVtx.CondNoElse _, _ => by simp only [insert_cfg_into_list]
  | CfgVtx.GotoEnd _ _, _ => by simp only [insert_cfg_into_list]
  | CfgVtx.Break _ _, _ => by simp only [insert_cfg_into_list]
  | CfgVtx.Other _, _ => by simp only [insert_cfg_into_list]
theorem insert_cfg_into_list_seq_eq_bind (args_right_to_left : CfgVtx → Bool)
    (invert : ConditionKind → ConditionKind)
    (arg_count : SimpleExpressionKind → Nat) (func : Function)
    (atomic_ops : FunctionAtomicOps) :
    ∀ (seq : List CfgVtx) (output : Form),
      insert_cfg_into_list_seq atomic_ops (cfg_to_ir args_right_to_left invert arg_count func atomic_ops) seq
          output =
        (insert_cfg_into_list_seq atomic_ops (cfg_to_ir args_right_to_left invert arg_count func atomic_ops)
          seq []).bind fun ir => Except.ok (output ++ ir)
  | [], output => by simp [insert_cfg_into_list_seq, Except.bind]
  | x :: rest, output => by
      simp only [insert_cfg_into_list_seq]
      rw [insert_cfg_into_list_eq_bind args_right_to_left invert arg_count func atomic_ops x output,
        insert_cfg_into_list_eq_bind args_right_to_left invert arg_count func atomic_ops x []]
      cases cfg_to_ir args_right_to_left invert arg_count func atomic_ops x with
      | error e => rfl
      | ok a =>
          simp only [ok_bind, List.nil_append]
          rw [insert_cfg_into_list_seq_eq_bind args_right_to_left invert arg_count func atomic_ops rest
              (output ++ a),
            insert_cfg_into_list_seq_eq_bind args_right_to_left invert arg_count func atomic_ops rest a]
          cases insert_cfg_into_list_seq atomic_ops
              (cfg_to_ir args_right_to_left invert arg_count func atomic_ops) rest [] with
          | error e => rfl
          | ok b => simp [Except.bind]
end

theorem cfg_to_ir_sequence_cons (args_right_to_left : CfgVtx → Bool)
    (invert : ConditionKind → ConditionKind)
    (arg_count : SimpleExpressionKind → Nat) (func : Function)
    (atomic_ops : FunctionAtomicOps) (x : CfgVtx) (rest : List CfgVtx) :
    cfg_to_ir args_right_to_left invert arg_count func atomic_ops (CfgVtx.SequenceVtx (x :: rest)) =
      (cfg_to_ir args_right_to_left invert arg_count func atomic_ops x).bind fun a =>
      (cfg_to_ir args_right_to_left invert arg_count func atomic_ops (CfgVtx.SequenceVtx rest)).bind fun b =>
      Except.ok (a ++ b) := by
  rw [cfg_to_ir_sequence_eq, cfg_to_ir_sequence_eq]
  simp only [insert_cfg_into_list_seq]
  rw [insert_cfg_into_list_eq_bind args_right_to_left invert arg_count func atomic_ops x []]
  cases cfg_to_ir args_right_to_left invert arg_count func atomic_ops x with
  | error e => rfl
  | ok a =>
      simp only [ok_bind, List.nil_append]
      exact insert_cfg_into_list_seq_eq_bind args_right_to_left invert arg_count func atomic_ops rest a

theorem cfg_to_ir_sequence_join (args_right_to_left : CfgVtx → Bool)
    (invert : ConditionKind → ConditionKind)
    (arg_count : SimpleExpressionKind → Nat) (func : Function)
    (atomic_ops : FunctionAtomicOps) :
    ∀ (seq : List CfgVtx) (forms : List Form),
      List.Forall₂ (fun c ir => cfg_to_ir args_right_to_left invert arg_count func atomic_ops c = Except.ok ir)
        seq forms →
      cfg_to_ir args_right_to_left invert arg_count func atomic_ops (CfgVtx.SequenceVtx seq) =
        Except.ok forms.flatten := by
  intro seq forms h
  induction h with
  | nil =>
      rw [cfg_to_ir_sequence_eq]
      rfl
  | cons hx _ ih =>
      rw [cfg_to_ir_sequence_cons, hx, ih]
      rfl

mutual
theorem cfg_to_ir_only_blocks (args_right_to_left : CfgVtx → Bool)
    (invert : ConditionKind → ConditionKind)
    (arg_count : SimpleExpressionKind → Nat) (func : Function)
    (atomic_ops : FunctionAtomicOps) :
    ∀ (vtx : CfgVtx), only_blocks atomic_ops vtx = true →
      cfg_to_ir args_right_to_left invert arg_count func atomic_ops vtx =
        Except.ok (flat_op_forms atomic_ops vtx)
  | CfgVtx.SequenceVtx seq, h => by
      simp only [only_blocks] at h
      simp only [flat_op_forms]
      exact cfg_to_ir_only_blocks_list args_right_to_left invert arg_count func atomic_ops seq h
  | CfgVtx.BlockVtx block_id, h => by
      simp only [only_blocks] at h
      rw [cfg_to_ir_block, push_block_ops_eq atomic_ops block_id [] h]
      simp only [flat_op_forms, List.nil_append]
  | CfgVtx.WhileLoop _ _, h => by simp [only_blocks] at h
  | CfgVtx.UntilLoop _ _, h => by simp [only_blocks] at h
  | CfgVtx.UntilLoop_single _, h => by simp [only_blocks] at h
  | CfgVtx.InfiniteLoopBlock _, h => by simp [only_blocks] at h
  | CfgVtx.CondWithElse _ _, h => by simp [only_blocks] at h
  | CfgVtx.ShortCircuit _, h => by simp [only_blocks] at h
  | CfgVtx.CondNoElse _, h => by simp [only_blocks] at h
  | CfgVtx.GotoEnd _ _, h => by simp [only_blocks] at h
  | CfgVtx.Break _ _, h => by simp [only_blocks] at h
  | CfgVtx.Other _, h => by simp [only_blocks] at h
theorem cfg_to_ir_only_blocks_list (args_right_to_left : CfgVtx → Bool)
    (invert : ConditionKind → ConditionKind)
    (arg_count : SimpleExpressionKind → Nat) (func : Function)
    (atomic_ops : FunctionAtomicOps) :
    ∀ (seq : List CfgVtx), only_blocks_list atomic_ops seq = true →
      cfg_to_ir args_right_to_left invert arg_count func atomic_ops (CfgVtx.SequenceVtx seq) =
        Except.ok (flat_op_forms_list atomic_ops seq)
  | [], _ => by
      rw [cfg_to_ir_sequence_eq]
      rfl
  | x :: rest, h => by
      simp only [only_blocks_list, Bool.and_eq_true] at h
      rw [cfg_to_ir_sequence_cons,
        cfg_to_ir_only_blocks args_right_to_left invert arg_count func atomic_ops x h.1,
        cfg_to_ir_only_blocks_list args_right_to_left invert arg_count func atomic_ops rest h.2]
      rfl
end

theorem nr_ok {α : Type} (msg : String) (a : α) :
    never_raises msg (Except.ok a : Res α) := by
  simp [never_raises]

theorem nr_assertion {α : Type} (msg : String) :
    never_raises msg (Except.error Err.assertion : Res α) := by
  simp [never_raises]

theorem nr_undefined {α : Type} (msg : String) :
    never_raises msg (Except.error Err.undefined : Res α) := by
  simp [never_raises]

theorem nr_out_of_range {α : Type} (msg : String) :
    never_raises msg (Except.error Err.out_of_range : Res α) := by
  simp [never_raises]

theorem nr_out_of_fuel {α : Type} (msg : String) :
    never_raises msg (Except.error Err.out_of_fuel : Res α) := by
  simp [never_raises]

theorem nr_bind {α β : Type} {msg : String} {x : Res α} {f : α → Res β}
    (hx : never_raises msg x) (hf : ∀ a, x = Except.ok a → never_raises msg (f a)) :
    never_raises msg (x.bind f) := by
  cases x with
  | error e =>
      intro h
      apply hx
      simpa [Except.bind] using h
  | ok a => exact hf a rfl

theorem nr_map {α β : Type} {msg : String} {x : Res α} (f : α → β)
    (hx : never_raises msg x) : never_raises msg (x.map f) := by
  cases x with
  | error e =>
      intro h
      apply hx
      simpa [Except.map] using h
  | ok a => simp [never_raises, Except.map]

theorem nr_assert_that (msg : String) (c : Bool) : never_raises msg (assert_that c) := by
  cases c <;> simp [never_raises, assert_that]

theorem nr_assert_some {α : Type} (msg : String) (o : Option α) :
    never_raises msg (assert_some o) := by
  cases o <;> simp [never_raises, assert_some]

theorem nr_vector_at {α : Type} (msg : String) (v : List α) (i : Nat) :
    never_raises msg (vector_at v i) := by
  unfold vector_at
  cases v.get? i <;> simp [never_raises]

theorem nr_back (msg : String) (f : Form) : never_raises msg (back f) := by
  unfold back
  cases f.getLast? <;> simp [never_raises]

theorem nr_pop_back (msg : String) (f : Form) : never_raises msg (pop_back f) := by
  unfold pop_back
  split <;> simp [never_raises]

theorem nr_get_arg (msg : String) (e : SimpleExpression) (i : Nat) :
    never_raises msg (e.get_arg i) :=
  nr_assert_some msg _

theorem nr_src (msg : String) (c : IR2_Condition) (i : Nat) :
    never_raises msg (c.src i) :=
  nr_assert_some msg _

theorem nr_var (msg : String) (d : IR2_BranchDelay) (i : Nat) :
    never_raises msg (d.var i) :=
  nr_assert_some msg _

theorem nr_get_var (msg : String) (a : SimpleAtom) : never_raises msg a.get_var := by
  cases a <;> simp [never_raises, SimpleAtom.get_var]

theorem nr_get_int (msg : String) (a : SimpleAtom) : never_raises msg a.get_int := by
  cases a <;> simp [never_raises, SimpleAtom.get_int]

theorem nr_is_op_2 (msg : String) (ir : FormElement)
    (kind : MatchParam SimpleExpressionKind) (dst src0 : MatchParam Register) :
    never_raises msg (is_op_2 ir kind dst src0) := by
  unfold is_op_2
  repeat' first
    | exact nr_ok _ _
    | exact nr_get_arg _ _ _
    | apply nr_bind
    | intro _ _
    | dsimp only
    | split

theorem nr_is_op_3 (msg : String) (arg_count : SimpleExpressionKind → Nat)
    (ir : FormElement) (kind : MatchParam SimpleExpressionKind)
    (dst src0 src1 : MatchParam Register) :
    never_raises msg (is_op_3 arg_count ir kind dst src0 src1) := by
  unfold is_op_3
  repeat' first
    | exact nr_ok _ _
    | exact nr_get_arg _ _ _
    | apply nr_bind
    | intro _ _
    | dsimp only
    | split

theorem nr_try_sc_as_abs (msg : String) (rec_cfg_to_ir : CfgVtx → Res Form)
    (entries : List CfgVtx) (hrec : ∀ e ∈ entries, never_raises msg (rec_cfg_to_ir e)) :
    never_raises msg (try_sc_as_abs rec_cfg_to_ir entries) := by
  unfold try_sc_as_abs
  repeat' first
    | exact nr_ok _ _
    | exact nr_vector_at _ _ _
    | exact nr_back _ _
    | exact nr_pop_back _ _
    | exact nr_src _ _ _
    | exact nr_var _ _ _
    | exact nr_get_var _ _
    | exact nr_assert_that _ _
    | exact hrec _ (mem_of_vector_at (by assumption))
    | apply nr_bind
    | intro _ _
    | dsimp only
    | split

theorem nr_try_sc_as_ash (msg : String) (arg_count : SimpleExpressionKind → Nat)
    (rec_cfg_to_ir : CfgVtx → Res Form)
    (entries : List CfgVtx) (hrec : ∀ e ∈ entries, never_raises msg (rec_cfg_to_ir e)) :
    never_raises msg (try_sc_as_ash arg_count rec_cfg_to_ir entries) := by
  unfold try_sc_as_ash
  repeat' first
    | exact nr_ok _ _
    | exact nr_assertion _
    | exact nr_undefined _
    | exact nr_vector_at _ _ _
    | exact nr_back _ _
    | exact nr_pop_back _ _
    | exact nr_src _ _ _
    | exact nr_var _ _ _
    | exact nr_get_arg _ _ _
    | exact nr_get_var _ _
    | exact nr_get_int _ _
    | exact nr_assert_that _ _
    | exact nr_assert_some _ _
    | exact nr_is_op_2 _ _ _ _ _
    | exact nr_is_op_3 _ _ _ _ _ _ _
    | exact hrec _ (mem_of_vector_at (by assumption))
    | apply nr_bind
    | intro _ _
    | dsimp only
    | split

set_option maxHeartbeats 4000000 in
theorem nr_try_sc_as_type_of (msg : String) (rec_cfg_to_ir : CfgVtx → Res Form)
    (entries : List CfgVtx) (hrec : ∀ e ∈ entries, never_raises msg (rec_cfg_to_ir e)) :
    never_raises msg (try_sc_as_type_of rec_cfg_to_ir entries) := by
  unfold try_sc_as_type_of
  repeat' first
    | exact nr_ok _ _
    | exact nr_assertion _
    | exact nr_undefined _
    | exact nr_vector_at _ _ _
    | exact nr_back _ _
    | exact nr_pop_back _ _
    | exact nr_src _ _ _
    | exact nr_var _ _ _
    | exact nr_get_arg _ _ _
    | exact nr_get_var _ _
    | exact nr_get_int _ _
    | exact nr_assert_that _ _
    | exact nr_assert_some _ _
    | exact nr_is_op_2 _ _ _ _ _
    | exact nr_is_op_3 _ _ _ _ _ _ _
    | exact hrec _ (mem_of_vector_at (by assumption))
    | apply nr_bind
    | intro _ _
    | dsimp only
    | split

theorem nr_short_circuit_entries (msg : String) (rec_cfg_to_ir : CfgVtx → Res Form) :
    ∀ (entries : List CfgVtx), (∀ e ∈ entries, never_raises msg (rec_cfg_to_ir e)) →
      never_raises msg (short_circuit_entries rec_cfg_to_ir entries) := by
  intro entries
  induction entries with
  | nil => intro _; exact nr_ok _ _
  | cons x rest ih =>
      intro h
      unfold short_circuit_entries
      apply nr_bind (h x (List.mem_cons_self _ _))
      intro _ _
      apply nr_bind (ih (fun e he => h e (List.mem_cons_of_mem _ he)))
      intro _ _
      exact nr_ok _ _

mutual
theorem nr_get_condition_branch (msg : String) :
    ∀ f : Form, never_raises msg (get_condition_branch f)
  | [] => by
      unfold get_condition_branch
      exact nr_undefined _
  | [e] => by
      unfold get_condition_branch
      exact nr_get_condition_branch_of_back msg e
  | _ :: e :: rest => by
      unfold get_condition_branch
      exact nr_get_condition_branch msg (e :: rest)
theorem nr_get_condition_branch_of_back (msg : String) :
    ∀ e : FormElement, never_raises msg (get_condition_branch_of_back e)
  | FormElement.Return _ dead_code => by
      unfold get_condition_branch_of_back
      exact nr_map _ (nr_get_condition_branch msg dead_code)
  | FormElement.Break _ dead_code => by
      unfold get_condition_branch_of_back
      exact nr_map _ (nr_get_condition_branch msg dead_code)
  | FormElement.Branch _ => by
      unfold get_condition_branch_of_back
      exact nr_ok _ _
  | e => by
      unfold get_condition_branch_of_back
      split <;> first | exact nr_ok _ _ | exact nr_map _ (nr_get_condition_branch msg _)
end

theorem nr_delay_slot_sets_false (msg : String) (b : BranchOp) :
    never_raises msg (delay_slot_sets_false b) := by
  unfold delay_slot_sets_false
  repeat' first
    | exact nr_ok _ _
    | exact nr_assertion _
    | exact nr_undefined _
    | exact nr_out_of_range _
    | exact nr_src _ _ _
    | exact nr_var _ _ _
    | exact nr_get_var _ _
    | exact nr_assert_that _ _
    | exact nr_assert_some _ _
    | exact nr_get_condition_branch _ _
    | assumption
    | apply nr_bind
    | intro _ _
    | dsimp only
    | split

theorem nr_delay_slot_sets_truthy (msg : String) (b : BranchOp) :
    never_raises msg (delay_slot_sets_truthy b) := by
  unfold delay_slot_sets_truthy
  repeat' first
    | exact nr_ok _ _
    | exact nr_assertion _
    | exact nr_undefined _
    | exact nr_out_of_range _
    | exact nr_src _ _ _
    | exact nr_var _ _ _
    | exact nr_get_var _ _
    | exact nr_assert_that _ _
    | exact nr_assert_some _ _
    | exact nr_get_condition_branch _ _
    | assumption
    | apply nr_bind
    | intro _ _
    | dsimp only
    | split

theorem nr_reg_use_at (msg : String) (func : Function) (op_id : Nat) :
    never_raises msg (func.reg_use_at op_id) := by
  unfold Function.reg_use_at
  cases func.reg_use_op.get? op_id <;> simp [never_raises]

theorem nr_sc_live_out (msg : String) (func : Function) (ir_dest : Variable) (i : Nat)
    (live_out_result : Bool) (b : BranchOp) :
    never_raises msg (sc_live_out func ir_dest i live_out_result b) := by
  unfold sc_live_out
  repeat' first
    | exact nr_reg_use_at _ _ _
    | exact nr_ok _ _
    | exact nr_assertion _
    | exact nr_undefined _
    | exact nr_out_of_range _
    | exact nr_src _ _ _
    | exact nr_var _ _ _
    | exact nr_get_var _ _
    | exact nr_assert_that _ _
    | exact nr_assert_some _ _
    | exact nr_get_condition_branch _ _
    | assumption
    | apply nr_bind
    | intro _ _
    | dsimp only
    | split

theorem nr_sc_scan (msg : String) (sets : BranchOp → Res Bool)
    (hsets : ∀ b, never_raises msg (sets b)) :
    ∀ (l : List (ShortCircuitEntry FormElement)) (i : Nat) (destination : Register)
      (ir_dest : Variable), never_raises msg (sc_scan sets i destination ir_dest l) := by
  intro l
  induction l with
  | nil =>
      intro i destination ir_dest
      unfold sc_scan
      exact nr_ok _ _
  | cons e rest ih =>
      intro i destination ir_dest
      unfold sc_scan
      repeat' first
        | exact hsets _
        | exact ih _ _ _
        | exact nr_ok _ _
        | exact nr_assertion _
        | exact nr_undefined _
        | exact nr_out_of_range _
        | exact nr_src _ _ _
        | exact nr_var _ _ _
        | exact nr_get_var _ _
        | exact nr_assert_that _ _
        | exact nr_assert_some _ _
        | exact nr_get_condition_branch _ _
        | assumption
        | apply nr_bind
        | intro _ _
        | dsimp only
        | split

theorem nr_sc_replace (msg : String) (func : Function)
    (replace : IR2_Condition → FormElement) (ir_dest : Variable) :
    ∀ (l : List (ShortCircuitEntry FormElement)) (i : Nat) (live_out_result : Bool),
      never_raises msg (sc_replace func replace ir_dest i live_out_result l) := by
  intro l
  induction l with
  | nil =>
      intro i live_out_result
      unfold sc_replace
      exact nr_ok _ _
  | cons e rest ih =>
      intro i live_out_result
      unfold sc_replace
      repeat' first
        | exact nr_sc_live_out _ _ _ _ _ _
        | exact ih _ _
        | exact nr_ok _ _
        | exact nr_assertion _
        | exact nr_undefined _
        | exact nr_out_of_range _
        | exact nr_src _ _ _
        | exact nr_var _ _ _
        | exact nr_get_var _ _
        | exact nr_assert_that _ _
        | exact nr_assert_some _ _
        | exact nr_get_condition_branch _ _
        | assumption
        | apply nr_bind
        | intro _ _

theorem nr_try_clean_up_sc_as (msg : String) (func : Function)
    (sets : BranchOp → Res Bool) (hsets : ∀ b, never_raises msg (sets b))
    (kind : ShortCircuitKind) (replace : IR2_Condition → FormElement)
    (ir : ShortCircuitElement) :
    never_raises msg (try_clean_up_sc_as func sets kind replace ir) := by
  unfold try_clean_up_sc_as
  repeat' first
    | exact nr_sc_scan _ _ hsets _ _ _ _
    | exact nr_sc_replace _ _ _ _ _ _ _
    | exact nr_ok _ _
    | exact nr_assertion _
    | exact nr_undefined _
    | exact nr_out_of_range _
    | exact nr_src _ _ _
    | exact nr_var _ _ _
    | exact nr_get_var _ _
    | exact nr_assert_that _ _
    | exact nr_assert_some _ _
    | exact nr_get_condition_branch _ _
    | assumption
    | apply nr_bind
    | intro _ _
    | dsimp only
    | split

theorem nr_split_scan (msg : String) (first_is_and : Bool) :
    ∀ (l : List (ShortCircuitEntry FormElement)) (i : Nat),
      never_raises msg (split_scan first_is_and i l) := by
  intro l
  induction l with
  | nil =>
      intro i
      unfold split_scan
      exact nr_ok _ _
  | cons e rest ih =>
      intro i
      unfold split_scan
      repeat' first
        | exact nr_delay_slot_sets_false _ _
        | exact nr_delay_slot_sets_truthy _ _
        | exact ih _
        | exact nr_ok _ _
        | exact nr_assertion _
        | exact nr_undefined _
        | exact nr_out_of_range _
        | exact nr_src _ _ _
        | exact nr_var _ _ _
        | exact nr_get_var _ _
        | exact nr_assert_that _ _
        | exact nr_assert_some _ _
        | exact nr_get_condition_branch _ _
        | assumption
        | apply nr_bind
        | intro _ _
        | dsimp only
        | split

theorem nr_try_splitting_nested_sc (msg : String)
    (rec_clean_up : ShortCircuitElement → Res ShortCircuitElement)
    (hrec : ∀ x, never_raises msg (rec_clean_up x)) (ir : ShortCircuitElement) :
    never_raises msg (try_splitting_nested_sc rec_clean_up ir) := by
  unfold try_splitting_nested_sc
  repeat' first
    | exact nr_delay_slot_sets_false _ _
    | exact nr_delay_slot_sets_truthy _ _
    | exact nr_split_scan _ _ _ _
    | exact hrec _
    | exact nr_ok _ _
    | exact nr_assertion _
    | exact nr_undefined _
    | exact nr_out_of_range _
    | exact nr_src _ _ _
    | exact nr_var _ _ _
    | exact nr_get_var _ _
    | exact nr_assert_that _ _
    | exact nr_assert_some _ _
    | exact nr_get_condition_branch _ _
    | assumption
    | apply nr_bind
    | intro _ _
    | dsimp only
    | split

theorem nr_clean_up_sc_fuel (msg : String) (invert : ConditionKind → ConditionKind)
    (func : Function) :
    ∀ (fuel : Nat) (ir : ShortCircuitElement),
      never_raises msg (clean_up_sc_fuel invert func fuel ir) := by
  intro fuel
  induction fuel with
  | zero =>
      intro ir
      unfold clean_up_sc_fuel
      exact nr_out_of_fuel _
  | succ n ih =>
      intro ir
      unfold clean_up_sc_fuel
      repeat' first
        | exact nr_try_clean_up_sc_as _ _ _ (nr_delay_slot_sets_false _) _ _ _
        | exact nr_try_clean_up_sc_as _ _ _ (nr_delay_slot_sets_truthy _) _ _ _
        | exact nr_try_splitting_nested_sc _ _ ih _
        | exact nr_ok _ _
        | exact nr_assertion _
        | exact nr_undefined _
        | exact nr_out_of_range _
        | exact nr_src _ _ _
        | exact nr_var _ _ _
        | exact nr_get_var _ _
        | exact nr_assert_that _ _
        | exact nr_assert_some _ _
        | exact nr_get_condition_branch _ _
        | assumption
        | apply nr_bind
        | intro _ _
        | dsimp only
        | split

theorem nr_clean_up_sc (msg : String) (invert : ConditionKind → ConditionKind)
    (func : Function) (ir : ShortCircuitElement) :
    never_raises msg (clean_up_sc invert func ir) :=
  nr_clean_up_sc_fuel msg invert func _ ir

/-- A `ShortCircuit` vertex that does not have exactly one entry fails with a
recoverable error only when the translation of one of its entries does. -/
theorem nr_cfg_to_ir_short_circuit (msg : String) (args_right_to_left : CfgVtx → Bool)
    (invert : ConditionKind → ConditionKind)
    (arg_count : SimpleExpressionKind → Nat) (func : Function)
    (atomic_ops : FunctionAtomicOps) (entries : List CfgVtx)
    (hlen : entries.length ≠ 1)
    (hrec : ∀ e ∈ entries,
      never_raises msg (cfg_to_ir args_right_to_left invert arg_count func atomic_ops e)) :
    never_raises msg
      (cfg_to_ir args_right_to_left invert arg_count func atomic_ops (CfgVtx.ShortCircuit entries)) := by
  rw [cfg_to_ir_eq]
  simp only [cfg_to_ir_body]
  apply nr_bind (nr_try_sc_as_type_of msg _ entries hrec)
  intro as_type_of _
  cases as_type_of with
  | some r => exact nr_ok _ _
  | none =>
    simp only
    apply nr_bind (nr_try_sc_as_ash msg arg_count _ entries hrec)
    intro as_ash _
    cases as_ash with
    | some r => exact nr_ok _ _
    | none =>
      simp only
      apply nr_bind (nr_try_sc_as_abs msg _ entries hrec)
      intro as_abs _
      cases as_abs with
      | some r => exact nr_ok _ _
      | none =>
        simp only
        rw [if_neg (by simpa using hlen)]
        apply nr_bind (nr_short_circuit_entries msg _ entries hrec)
        intro sc_entries _
        apply nr_bind (nr_clean_up_sc msg invert func _)
        intro _ _
        exact nr_ok _ _

theorem live_out_eq_some {func : Function} {r : Register} {b : BranchOp} {verdict : Bool} :
    live_out func r b = some verdict ↔
      ∃ info, func.reg_use_op.get? b.op_id = some info ∧
        verdict = !(info.written_and_unused.contains r) := by
  unfold live_out
  cases func.reg_use_op.get? b.op_id <;> simp [eq_comm]

theorem try_as_used_as_value {func : Function} {sets : BranchOp → Res Bool}
    {kind : ShortCircuitKind} {replace : IR2_Condition → FormElement}
    {ir out : ShortCircuitElement}
    (h : try_clean_up_sc_as func sets kind replace ir = Except.ok (true, out))
    (hn : 2 ≤ ir.entries.length) :
    (func.has_reg_use = true →
      ∀ e ∈ ir.entries.take (ir.entries.length - 1),
        ∃ b s info, get_condition_branch e.condition = Except.ok (some b, s) ∧
          func.reg_use_op.get? b.op_id = some info ∧
          out.used_as_value = !(info.written_and_unused.contains out.final_result.reg)) ∧
    (func.has_reg_use = false → out.used_as_value = false) := by
  obtain ⟨d, v, r, hscan, hrep, hout⟩ := try_as_true h
  obtain ⟨e0, he0⟩ : ∃ e0, ir.entries.head? = some e0 := by
    cases hl : ir.entries with
    | nil => rw [hl] at hn; simp at hn
    | cons a t => exact ⟨a, rfl⟩
  obtain ⟨rest, hrest⟩ := take_pred_eq_cons hn he0
  rw [hrest] at hrep
  obtain ⟨b, s, hs, hlive, hall⟩ :=
    (sc_replace_head func replace v e0 rest false r.2).mp ⟨r.1, hrep⟩
  rw [hout, hrest]
  simp only
  constructor
  · intro hu
    rw [if_pos hu] at hlive
    intro e he
    rcases List.mem_cons.mp he with rfl | he
    · obtain ⟨info, hinfo, hv⟩ := live_out_eq_some.mp hlive
      exact ⟨b, s, info, hs, hinfo, hv⟩
    · obtain ⟨b1, s1, hs1, hl1⟩ := entry_live_iff.mp (List.all_eq_true.mp hall e he)
      obtain ⟨info, hinfo, hv⟩ := live_out_eq_some.mp (hl1 hu)
      exact ⟨b1, s1, info, hs1, hinfo, hv⟩
  · intro hu
    rw [if_neg (by simp [hu])] at hlive
    exact hlive

theorem sc_live_out_succ_differs {func : Function} {v : Variable} {i : Nat} {live : Bool}
    {b : BranchOp} (hu : func.has_reg_use = true)
    (h : live_out func v.reg b = some (!live)) :
    sc_live_out func v (i + 1) live b = Except.error Err.assertion := by
  obtain ⟨info, hinfo, hv⟩ := live_out_eq_some.mp h
  unfold sc_live_out
  rw [if_pos hu, reg_use_at_eq_ok.mpr hinfo]
  simp only [ok_bind, Nat.add_one_ne_zero, if_false]
  rw [← hv]
  cases live <;> rfl

theorem sc_replace_cons (func : Function) (replace : IR2_Condition → FormElement)
    (ir_dest : Variable) (i : Nat) (live_out_result : Bool)
    (e : ShortCircuitEntry FormElement) (rest : List (ShortCircuitEntry FormElement)) :
    sc_replace func replace ir_dest i live_out_result (e :: rest) =
      (get_condition_branch e.condition).bind fun branch =>
      (assert_some branch.1).bind fun b =>
      (sc_live_out func ir_dest i live_out_result b).bind fun live =>
      (sc_replace func replace ir_dest (i + 1) live rest).bind fun r =>
      Except.ok ({ condition := slot_write branch.2 e.condition (replace b.condition) } :: r.1,
        r.2) := by
  rw [sc_replace]

theorem sc_replace_tail_assertion (func : Function) (replace : IR2_Condition → FormElement)
    (v : Variable) (e : ShortCircuitEntry FormElement)
    (tail : List (ShortCircuitEntry FormElement)) (live : Bool) (b : BranchOp)
    (hu : func.has_reg_use = true) (hb : branch_of e = some b)
    (hd : live_out func v.reg b = some (!live)) :
    ∀ (mid : List (ShortCircuitEntry FormElement)) (i : Nat),
      mid.all (entry_live func v.reg live) = true →
      sc_replace func replace v (i + 1) live (mid ++ e :: tail) =
        Except.error Err.assertion := by
  intro mid
  induction mid with
  | nil =>
      intro i _
      obtain ⟨s, hs⟩ := branch_of_eq_some.mp hb
      rw [List.nil_append, sc_replace_cons, hs]
      simp only [ok_bind, assert_some, sc_live_out_succ_differs hu hd]
      rfl
  | cons m mid ih =>
      intro i hall
      simp only [List.all_cons, Bool.and_eq_true] at hall
      obtain ⟨bm, sm, hsm, hlm⟩ := entry_live_iff.mp hall.1
      have hlo : sc_live_out func v (i + 1) live bm = Except.ok live :=
        sc_live_out_succ.mpr ⟨rfl, hlm⟩
      rw [List.cons_append, sc_replace_cons, hsm]
      simp only [ok_bind, assert_some, hlo]
      rw [ih (i + 1) hall.2]
      rfl

theorem try_as_assertion_of_disagreement {func : Function} {sets : BranchOp → Res Bool}
    {kind : ShortCircuitKind} {replace : IR2_Condition → FormElement}
    {ir : ShortCircuitElement}
    (h1 : all_non_last_set sets ir = true) (h2 : liveness_disagrees func ir) :
    try_clean_up_sc_as func sets kind replace ir = Except.error Err.assertion := by
  obtain ⟨hu, e0, mid, e, tail, b0, r, verdict, b, htake, hb0, hr, hv0, hmid, hb, hv⟩ := h2
  obtain ⟨p, hp⟩ := scan_some_of_all_set h1
  unfold try_clean_up_sc_as
  simp only [hp, ok_bind]
  rw [htake] at hp ⊢
  obtain ⟨b1, s1, hs1, _, hw, _, _⟩ := (sc_scan_head _ _ _ _ _ _).mp hp
  obtain ⟨s0, hs0⟩ := branch_of_eq_some.mp hb0
  obtain ⟨hbe, _⟩ := get_condition_branch_inj hs0 hs1
  subst hbe
  obtain ⟨w, hw2, hwr⟩ := dest_reg_eq_some.mp hr
  rw [hw] at hw2
  injection hw2 with hw2
  subst hw2
  subst hwr
  have hlo : sc_live_out func p.2 0 false b1 = Except.ok verdict :=
    sc_live_out_zero.mpr (by rw [if_pos hu]; exact hv0)
  obtain ⟨d, v⟩ := p
  rw [sc_replace_cons, hs0]
  simp only [ok_bind, assert_some, hlo]
  rw [sc_replace_tail_assertion func replace v e tail verdict b hu hb hv mid 0 hmid]
  rfl

theorem not_agrees_of_disagrees {func : Function} {ir : ShortCircuitElement}
    (h : liveness_disagrees func ir) : liveness_agrees func ir = false := by
  obtain ⟨hu, e0, mid, e, tail, b0, r, verdict, b, htake, hb0, hr, hv0, hmid, hb, hv⟩ := h
  unfold liveness_agrees
  simp only [hu, htake, hb0, hr, hv0, Bool.not_true, Bool.false_or, List.all_append,
    List.all_cons, Bool.and_eq_false_iff]
  right
  left
  unfold entry_live
  simp only [hb, hu, Bool.not_true, Bool.false_or, hv]
  cases verdict <;> rfl

theorem clean_up_sc_fuel_succ_eq (invert : ConditionKind → ConditionKind) (func : Function)
    (fuel : Nat) (ir : ShortCircuitElement) :
    clean_up_sc_fuel invert func (fuel + 1) ir =
      clean_up_sc_body invert func (clean_up_sc_fuel invert func fuel) ir := rfl

theorem split_first_different_bounds {ir : ShortCircuitElement} {fia : Bool} {k : Nat}
    (h : split_scan fia 1 ((ir.entries.take (ir.entries.length - 1)).drop 1)
      = Except.ok (some k)) :
    1 ≤ k ∧ k + 2 ≤ ir.entries.length := by
  obtain ⟨h1, h2, _⟩ := split_scan_some _ _ _ _ h
  simp only [List.length_drop, List.length_take] at h2
  omega

theorem try_splitting_nested_sc_congr
    (rec1 rec2 : ShortCircuitElement → Res ShortCircuitElement) (ir : ShortCircuitElement)
    (h : ∀ x : ShortCircuitElement, 2 ≤ x.entries.length →
      x.entries.length < ir.entries.length → rec1 x = rec2 x) :
    try_splitting_nested_sc rec1 ir = try_splitting_nested_sc rec2 ir := by
  unfold try_splitting_nested_sc
  apply bind_congr_ok
  intro front _
  apply bind_congr_ok
  intro first_branch _
  apply bind_congr_ok
  intro fb _
  apply bind_congr_ok
  intro first_is_and _
  apply bind_congr_ok
  intro first_is_or _
  apply bind_congr_ok
  intro _ _
  apply bind_congr_ok
  intro found hfound
  apply bind_congr_ok
  intro k hk
  rw [(assert_some_eq_ok _ _).mp hk] at hfound
  obtain ⟨h1, h2⟩ := split_first_different_bounds hfound
  have hn : rec1 (ShortCircuitElement_new (ir.entries.drop k)) =
      rec2 (ShortCircuitElement_new (ir.entries.drop k)) := by
    apply h
    · simp only [ShortCircuitElement_new, List.length_drop]
      omega
    · simp only [ShortCircuitElement_new, List.length_drop]
      omega
  simp only
  rw [hn]
  apply bind_congr_ok
  intro nested_sc _
  have ho : rec1 { ir with entries := ir.entries.take k ++
        [{ condition := [FormElement.ShortCircuit nested_sc] }] } =
      rec2 { ir with entries := ir.entries.take k ++
        [{ condition := [FormElement.ShortCircuit nested_sc] }] } := by
    apply h
    · simp only [List.length_append, List.length_take, List.length_singleton]
      omega
    · simp only [List.length_append, List.length_take, List.length_singleton]
      omega
  rw [ho]

theorem snd_eq_of_false {func : Function} {sets : BranchOp → Res Bool}
    {kind : ShortCircuitKind} {replace : IR2_Condition → FormElement}
    {ir : ShortCircuitElement} {r : Bool × ShortCircuitElement}
    (h : try_clean_up_sc_as func sets kind replace ir = Except.ok r)
    (hr : ¬ r.1 = true) : r.2 = ir := by
  cases r with
  | mk a b =>
    simp only [Bool.not_eq_true] at hr
    subst hr
    exact try_as_false h

theorem clean_up_sc_body_congr (invert : ConditionKind → ConditionKind) (func : Function)
    (rec1 rec2 : ShortCircuitElement → Res ShortCircuitElement) (ir : ShortCircuitElement)
    (h : ∀ x : ShortCircuitElement, 2 ≤ x.entries.length →
      x.entries.length < ir.entries.length → rec1 x = rec2 x) :
    clean_up_sc_body invert func rec1 ir = clean_up_sc_body invert func rec2 ir := by
  unfold clean_up_sc_body
  apply bind_congr_ok
  intro _ _
  apply bind_congr_ok
  intro r1 hr1
  by_cases h1 : r1.1 = true
  · rw [if_pos h1, if_pos h1]
  rw [if_neg h1, if_neg h1]
  have e1 : r1.2 = ir := by
    unfold try_clean_up_sc_as_and at hr1
    exact snd_eq_of_false hr1 h1
  rw [e1]
  apply bind_congr_ok
  intro r2 hr2
  by_cases h2 : r2.1 = true
  · rw [if_pos h2, if_pos h2]
  rw [if_neg h2, if_neg h2]
  have e2 : r2.2 = ir := by
    unfold try_clean_up_sc_as_or at hr2
    exact snd_eq_of_false hr2 h2
  rw [e2, try_splitting_nested_sc_congr rec1 rec2 ir h]

theorem clean_up_sc_fuel_stable_succ (invert : ConditionKind → ConditionKind)
    (func : Function) :
    ∀ (fuel : Nat) (ir : ShortCircuitElement), ir.entries.length < fuel →
      clean_up_sc_fuel invert func (fuel + 1) ir = clean_up_sc_fuel invert func fuel ir := by
  intro fuel
  induction fuel with
  | zero => intro ir h; omega
  | succ n ih =>
      intro ir h
      rw [clean_up_sc_fuel_succ_eq, clean_up_sc_fuel_succ_eq]
      apply clean_up_sc_body_congr
      intro x _ hx
      exact ih x (by omega)

/-- Every budget larger than the number of entries gives the result of
`clean_up_sc`. -/
theorem clean_up_sc_fuel_stable (invert : ConditionKind → ConditionKind) (func : Function)
    (ir : ShortCircuitElement) :
    ∀ fuel, ir.entries.length < fuel →
      clean_up_sc_fuel invert func fuel ir = clean_up_sc invert func ir := by
  intro fuel
  induction fuel with
  | zero => intro h; omega
  | succ n ih =>
      intro h
      by_cases hn : ir.entries.length < n
      · rw [clean_up_sc_fuel_stable_succ invert func n ir hn]
        exact ih hn
      · have : n = ir.entries.length := by omega
        subst this
        rfl

/-- The function `clean_up_sc` satisfies the recursive equation of the source:
it is its body with the recursive calls made by `clean_up_sc` itself. -/
theorem clean_up_sc_eq (invert : ConditionKind → ConditionKind) (func : Function)
    (ir : ShortCircuitElement) :
    clean_up_sc invert func ir =
      clean_up_sc_body invert func (clean_up_sc invert func) ir := by
  have h1 : clean_up_sc invert func ir =
      clean_up_sc_body invert func (clean_up_sc_fuel invert func ir.entries.length) ir := rfl
  rw [h1]
  apply clean_up_sc_body_congr
  intro x _ hx
  exact clean_up_sc_fuel_stable invert func x _ hx

theorem ib_ok {α : Type} (a : α) : in_budget (Except.ok a : Res α) := by
  simp [in_budget]

theorem ib_assertion {α : Type} : in_budget (Except.error Err.assertion : Res α) := by
  simp [in_budget]

theorem ib_undefined {α : Type} : in_budget (Except.error Err.undefined : Res α) := by
  simp [in_budget]

theorem ib_out_of_range {α : Type} : in_budget (Except.error Err.out_of_range : Res α) := by
  simp [in_budget]

theorem ib_bind {α β : Type} {x : Res α} {f : α → Res β}
    (hx : in_budget x) (hf : ∀ a, x = Except.ok a → in_budget (f a)) :
    in_budget (x.bind f) := by
  cases x with
  | error e =>
      intro h
      apply hx
      simpa [Except.bind] using h
  | ok a => exact hf a rfl

theorem ib_map {α β : Type} {x : Res α} (f : α → β) (hx : in_budget x) :
    in_budget (x.map f) := by
  cases x with
  | error e =>
      intro h
      apply hx
      simpa [Except.map] using h
  | ok a => simp [in_budget, Except.map]

theorem ib_assert_that (c : Bool) : in_budget (assert_that c) := by
  cases c <;> simp [in_budget, assert_that]

theorem ib_assert_some {α : Type} (o : Option α) : in_budget (assert_some o) := by
  cases o <;> simp [in_budget, assert_some]

theorem ib_src (c : IR2_Condition) (i : Nat) : in_budget (c.src i) :=
  ib_assert_some _

theorem ib_var (d : IR2_BranchDelay) (i : Nat) : in_budget (d.var i) :=
  ib_assert_some _

theorem ib_get_var (a : SimpleAtom) : in_budget a.get_var := by
  cases a <;> simp [in_budget, SimpleAtom.get_var]

theorem ib_reg_use_at (func : Function) (op_id : Nat) :
    in_budget (func.reg_use_at op_id) := by
  unfold Function.reg_use_at
  cases func.reg_use_op.get? op_id <;> simp [in_budget]

mutual
theorem ib_get_condition_branch : ∀ f : Form, in_budget (get_condition_branch f)
  | [] => by
      unfold get_condition_branch
      exact ib_undefined
  | [e] => by
      unfold get_condition_branch
      exact ib_get_condition_branch_of_back e
  | _ :: e :: rest => by
      unfold get_condition_branch
      exact ib_get_condition_branch (e :: rest)
theorem ib_get_condition_branch_of_back :
    ∀ e : FormElement, in_budget (get_condition_branch_of_back e)
  | FormElement.Return _ dead_code => by
      unfold get_condition_branch_of_back
      exact ib_map _ (ib_get_condition_branch dead_code)
  | FormElement.Break _ dead_code => by
      unfold get_condition_branch_of_back
      exact ib_map _ (ib_get_condition_branch dead_code)
  | FormElement.Branch _ => by
      unfold get_condition_branch_of_back
      exact ib_ok _
  | e => by
      unfold get_condition_branch_of_back
      split <;> first | exact ib_ok _ | exact ib_map _ (ib_get_condition_branch _)
end

theorem ib_delay_slot_sets_false (b : BranchOp) : in_budget (delay_slot_sets_false b) := by
  unfold delay_slot_sets_false
  repeat' first
    | exact ib_ok _
    | exact ib_assertion
    | exact ib_undefined
    | exact ib_out_of_range
    | exact ib_src _ _
    | exact ib_var _ _
    | exact ib_get_var _
    | exact ib_assert_that _
    | exact ib_assert_some _
    | exact ib_get_condition_branch _
    | assumption
    | apply ib_bind
    | intro _ _
    | dsimp only
    | split

theorem ib_delay_slot_sets_truthy (b : BranchOp) :
    in_budget (delay_slot_sets_truthy b) := by
  unfold delay_slot_sets_truthy
  repeat' first
    | exact ib_ok _
    | exact ib_assertion
    | exact ib_undefined
    | exact ib_out_of_range
    | exact ib_src _ _
    | exact ib_var _ _
    | exact ib_get_var _
    | exact ib_assert_that _
    | exact ib_assert_some _
    | exact ib_get_condition_branch _
    | assumption
    | apply ib_bind
    | intro _ _
    | dsimp only
    | split

theorem ib_sc_live_out (func : Function) (ir_dest : Variable) (i : Nat)
    (live_out_result : Bool) (b : BranchOp) :
    in_budget (sc_live_out func ir_dest i live_out_result b) := by
  unfold sc_live_out
  repeat' first
    | exact ib_reg_use_at _ _
    | exact ib_ok _
    | exact ib_assertion
    | exact ib_undefined
    | exact ib_out_of_range
    | exact ib_src _ _
    | exact ib_var _ _
    | exact ib_get_var _
    | exact ib_assert_that _
    | exact ib_assert_some _
    | exact ib_get_condition_branch _
    | assumption
    | apply ib_bind
    | intro _ _
    | dsimp only
    | split

theorem ib_sc_scan (sets : BranchOp → Res Bool) (hsets : ∀ b, in_budget (sets b)) :
    ∀ (l : List (ShortCircuitEntry FormElement)) (i : Nat) (destination : Register)
      (ir_dest : Variable), in_budget (sc_scan sets i destination ir_dest l) := by
  intro l
  induction l with
  | nil =>
      intro i destination ir_dest
      unfold sc_scan
      exact ib_ok _
  | cons e rest ih =>
      intro i destination ir_dest
      unfold sc_scan
      repeat' first
        | exact hsets _
        | exact ih _ _ _
        | exact ib_ok _
        | exact ib_assertion
        | exact ib_undefined
        | exact ib_out_of_range
        | exact ib_src _ _
        | exact ib_var _ _
        | exact ib_get_var _
        | exact ib_assert_that _
        | exact ib_assert_some _
        | exact ib_get_condition_branch _
        | assumption
        | apply ib_bind
        | intro _ _
        | dsimp only
        | split

theorem ib_sc_replace (func : Function) (replace : IR2_Condition → FormElement)
    (ir_dest : Variable) :
    ∀ (l : List (ShortCircuitEntry FormElement)) (i : Nat) (live_out_result : Bool),
      in_budget (sc_replace func replace ir_dest i live_out_result l) := by
  intro l
  induction l with
  | nil =>
      intro i live_out_result
      unfold sc_replace
      exact ib_ok _
  | cons e rest ih =>
      intro i live_out_result
      unfold sc_replace
      repeat' first
        | exact ib_sc_live_out _ _ _ _ _
        | exact ih _ _
        | exact ib_ok _
        | exact ib_assertion
        | exact ib_undefined
        | exact ib_out_of_range
        | exact ib_src _ _
        | exact ib_var _ _
        | exact ib_get_var _
        | exact ib_assert_that _
        | exact ib_assert_some _
        | exact ib_get_condition_branch _
        | assumption
        | apply ib_bind
        | intro _ _

theorem ib_try_clean_up_sc_as (func : Function) (sets : BranchOp → Res Bool)
    (hsets : ∀ b, in_budget (sets b)) (kind : ShortCircuitKind)
    (replace : IR2_Condition → FormElement) (ir : ShortCircuitElement) :
    in_budget (try_clean_up_sc_as func sets kind replace ir) := by
  unfold try_clean_up_sc_as
  repeat' first
    | exact ib_sc_scan _ hsets _ _ _ _
    | exact ib_sc_replace _ _ _ _ _ _
    | exact ib_ok _
    | exact ib_assertion
    | exact ib_undefined
    | exact ib_out_of_range
    | exact ib_src _ _
    | exact ib_var _ _
    | exact ib_get_var _
    | exact ib_assert_that _
    | exact ib_assert_some _
    | exact ib_get_condition_branch _
    | assumption
    | apply ib_bind
    | intro _ _
    | dsimp only
    | split

theorem ib_split_scan (first_is_and : Bool) :
    ∀ (l : List (ShortCircuitEntry FormElement)) (i : Nat),
      in_budget (split_scan first_is_and i l) := by
  intro l
  induction l with
  | nil =>
      intro i
      unfold split_scan
      exact ib_ok _
  | cons e rest ih =>
      intro i
      unfold split_scan
      repeat' first
        | exact ib_delay_slot_sets_false _
        | exact ib_delay_slot_sets_truthy _
        | exact ih _
        | exact ib_ok _
        | exact ib_assertion
        | exact ib_undefined
        | exact ib_out_of_range
        | exact ib_src _ _
        | exact ib_var _ _
        | exact ib_get_var _
        | exact ib_assert_that _
        | exact ib_assert_some _
        | exact ib_get_condition_branch _
        | assumption
        | apply ib_bind
        | intro _ _
        | dsimp only
        | split

theorem ib_try_splitting_nested_sc
    (rec_clean_up : ShortCircuitElement → Res ShortCircuitElement)
    (hrec : ∀ x, in_budget (rec_clean_up x)) (ir : ShortCircuitElement) :
    in_budget (try_splitting_nested_sc rec_clean_up ir) := by
  unfold try_splitting_nested_sc
  repeat' first
    | exact ib_delay_slot_sets_false _
    | exact ib_delay_slot_sets_truthy _
    | exact ib_split_scan _ _ _
    | exact hrec _
    | exact ib_ok _
    | exact ib_assertion
    | exact ib_undefined
    | exact ib_out_of_range
    | exact ib_src _ _
    | exact ib_var _ _
    | exact ib_get_var _
    | exact ib_assert_that _
    | exact ib_assert_some _
    | exact ib_get_condition_branch _
    | assumption
    | apply ib_bind
    | intro _ _
    | dsimp only
    | split

theorem ib_clean_up_sc_body (invert : ConditionKind → ConditionKind) (func : Function)
    (rec_clean_up : ShortCircuitElement → Res ShortCircuitElement)
    (ir : ShortCircuitElement)
    (hrec : ∀ x : ShortCircuitElement, 2 ≤ x.entries.length →
      x.entries.length < ir.entries.length → in_budget (rec_clean_up x)) :
    in_budget (clean_up_sc_body invert func rec_clean_up ir) := by
  have hc : clean_up_sc_body invert func rec_clean_up ir =
      clean_up_sc_body invert func
        (fun x => if 2 ≤ x.entries.length ∧ x.entries.length < ir.entries.length then
          rec_clean_up x else Except.error Err.assertion) ir := by
    apply clean_up_sc_body_congr
    intro x h1 h2
    rw [if_pos ⟨h1, h2⟩]
  have hrec2 : ∀ x : ShortCircuitElement, in_budget
      (if 2 ≤ x.entries.length ∧ x.entries.length < ir.entries.length then
        rec_clean_up x else Except.error Err.assertion) := by
    intro x
    by_cases hx : 2 ≤ x.entries.length ∧ x.entries.length < ir.entries.length
    · rw [if_pos hx]
      exact hrec x hx.1 hx.2
    · rw [if_neg hx]
      exact ib_assertion
  rw [hc]
  unfold clean_up_sc_body
  repeat' first
    | exact ib_try_clean_up_sc_as _ _ ib_delay_slot_sets_false _ _ _
    | exact ib_try_clean_up_sc_as _ _ ib_delay_slot_sets_truthy _ _ _
    | exact ib_try_splitting_nested_sc _ hrec2 _
    | exact ib_ok _
    | exact ib_assertion
    | exact ib_undefined
    | exact ib_out_of_range
    | exact ib_src _ _
    | exact ib_var _ _
    | exact ib_get_var _
    | exact ib_assert_that _
    | exact ib_assert_some _
    | exact ib_get_condition_branch _
    | assumption
    | apply ib_bind
    | intro _ _
    | dsimp only
    | split

theorem clean_up_sc_fuel_in_budget (invert : ConditionKind → ConditionKind)
    (func : Function) :
    ∀ (fuel : Nat) (ir : ShortCircuitElement), ir.entries.length < fuel →
      in_budget (clean_up_sc_fuel invert func fuel ir) := by
  intro fuel
  induction fuel with
  | zero => intro ir h; omega
  | succ n ih =>
      intro ir h
      rw [clean_up_sc_fuel_succ_eq]
      apply ib_clean_up_sc_body
      intro x _ hx
      exact ih x (by omega)

theorem try_splitting_calls {rec_clean_up : ShortCircuitElement → Res ShortCircuitElement}
    {ir : ShortCircuitElement} {front : ShortCircuitEntry FormElement} {fb : BranchOp}
    {s : Slot} {fia : Bool} {k : Nat}
    (hfront : ir.entries.head? = some front)
    (hfb : get_condition_branch front.condition = Except.ok (some fb, s))
    (hand : delay_slot_sets_false fb = Except.ok fia)
    (hor : delay_slot_sets_truthy fb = Except.ok (!fia))
    (hscan : split_scan fia 1 ((ir.entries.take (ir.entries.length - 1)).drop 1)
        = Except.ok (some k)) :
    try_splitting_nested_sc rec_clean_up ir =
      (rec_clean_up (ShortCircuitElement_new (ir.entries.drop k))).bind fun nested_sc =>
      (rec_clean_up { ir with entries := ir.entries.take k ++
          [{ condition := [FormElement.ShortCircuit nested_sc] }] }).bind fun ir2 =>
      Except.ok (true, ir2) := by
  unfold try_splitting_nested_sc
  rw [hfront]
  simp only [ok_bind, hfb, assert_some, hand, hor]
  have hne : (fia != !fia) = true := by cases fia <;> rfl
  rw [hne]
  simp only [assert_that, if_true, ok_bind, hscan]

theorem sets_one_false (b : BranchOp) :
    delay_slot_sets_false b = Except.ok false ∨
    delay_slot_sets_truthy b = Except.ok false := by
  unfold delay_slot_sets_false delay_slot_sets_truthy
  by_cases h1 : b.branch_delay.kind = BranchDelayKind.SET_REG_FALSE
  · right
    rw [if_neg (by rw [h1]; decide), if_neg (by rw [h1]; simp)]
  · by_cases h2 : b.condition.kind = ConditionKind.FALSE ∧
        b.branch_delay.kind = BranchDelayKind.SET_REG_REG
    · right
      rw [if_neg (by rw [h2.2]; decide), if_neg (by rw [h2.1]; simp)]
    · left
      rw [if_neg h1, if_neg h2]

theorem try_as_false_of_head {func : Function} {sets : BranchOp → Res Bool}
    {kind : ShortCircuitKind} {replace : IR2_Condition → FormElement}
    {ir : ShortCircuitElement} {e0 : ShortCircuitEntry FormElement}
    {rest : List (ShortCircuitEntry FormElement)} {b : BranchOp} {s : Slot}
    (htake : ir.entries.take (ir.entries.length - 1) = e0 :: rest)
    (hb : get_condition_branch e0.condition = Except.ok (some b, s))
    (hsets : sets b = Except.ok false) :
    try_clean_up_sc_as func sets kind replace ir = Except.ok (false, ir) := by
  unfold try_clean_up_sc_as
  simp only [htake, sc_scan, hb, ok_bind, assert_some, hsets]
  rfl

theorem try_as_error_of_head {func : Function} {sets : BranchOp → Res Bool}
    {kind : ShortCircuitKind} {replace : IR2_Condition → FormElement}
    {ir : ShortCircuitElement} {e0 : ShortCircuitEntry FormElement}
    {rest : List (ShortCircuitEntry FormElement)} {err : Err}
    (htake : ir.entries.take (ir.entries.length - 1) = e0 :: rest)
    (hb : (get_condition_branch e0.condition).bind (fun branch => assert_some branch.1) =
      Except.error err) :
    try_clean_up_sc_as func sets kind replace ir = Except.error err := by
  unfold try_clean_up_sc_as
  simp only [htake, sc_scan]
  cases hg : get_condition_branch e0.condition with
  | error e =>
      rw [hg] at hb
      injection hb with hb
      subst hb
      rfl
  | ok p =>
      rw [hg] at hb
      simp only [ok_bind] at hb ⊢
      rw [hb]
      rfl

/-- On two entries or more one of the two recognisers returns false and
leaves the element as it is, or both stop on the same error, that of the
inspection of the branch of entry 0. -/
theorem sc_recognisers_exclusive (invert : ConditionKind → ConditionKind)
    (func : Function) (ir : ShortCircuitElement) (hn : 2 ≤ ir.entries.length) :
    try_clean_up_sc_as_or func ir = Except.ok (false, ir) ∨
    try_clean_up_sc_as_and invert func ir = Except.ok (false, ir) ∨
    ∃ err, try_clean_up_sc_as_and invert func ir = Except.error err ∧
      try_clean_up_sc_as_or func ir = Except.error err := by
  obtain ⟨e0, he0⟩ : ∃ e0, ir.entries.head? = some e0 := by
    cases hl : ir.entries with
    | nil => rw [hl] at hn; simp at hn
    | cons a t => exact ⟨a, rfl⟩
  obtain ⟨rest, hrest⟩ := take_pred_eq_cons hn he0
  unfold try_clean_up_sc_as_and try_clean_up_sc_as_or
  cases hg : (get_condition_branch e0.condition).bind (fun branch => assert_some branch.1) with
  | error err =>
      right
      right
      exact ⟨err, try_as_error_of_head hrest hg, try_as_error_of_head hrest hg⟩
  | ok b =>
      obtain ⟨p, hp, hpb⟩ := (bind_eq_ok _ _ _).mp hg
      have hb : get_condition_branch e0.condition = Except.ok (some b, p.2) := by
        rw [hp, ← (assert_some_eq_ok _ _).mp hpb]
      rcases sets_one_false b with h | h
      · right
        left
        exact try_as_false_of_head hrest hb h
      · left
        exact try_as_false_of_head hrest hb h

theorem clean_up_sc_body_order (invert : ConditionKind → ConditionKind) (func : Function)
    (rec_clean_up : ShortCircuitElement → Res ShortCircuitElement)
    (ir : ShortCircuitElement) :
    clean_up_sc_body_or_first invert func rec_clean_up ir =
      clean_up_sc_body invert func rec_clean_up ir := by
  unfold clean_up_sc_body_or_first clean_up_sc_body
  by_cases hn : 2 ≤ ir.entries.length
  · apply bind_congr_ok
    intro _ _
    rcases sc_recognisers_exclusive invert func ir hn with h | h | ⟨err, h1, h2⟩
    · rw [h]
      simp only [ok_bind, Bool.false_eq_true, if_false]
      apply bind_congr_ok
      intro r1 hr1
      by_cases hr : r1.1 = true
      · rw [if_pos hr, if_pos hr]
      · rw [if_neg hr, if_neg hr]
        unfold try_clean_up_sc_as_and at hr1
        rw [snd_eq_of_false hr1 hr, h]
        simp only [ok_bind, Bool.false_eq_true, if_false]
    · rw [h]
      simp only [ok_bind, Bool.false_eq_true, if_false]
      apply bind_congr_ok
      intro r1 hr1
      by_cases hr : r1.1 = true
      · rw [if_pos hr, if_pos hr]
      · rw [if_neg hr, if_neg hr]
        unfold try_clean_up_sc_as_or at hr1
        rw [snd_eq_of_false hr1 hr, h]
        simp only [ok_bind, Bool.false_eq_true, if_false]
    · rw [h1, h2]
      rfl
  · have hc : decide (ir.entries.length > 1) = false := by
      simp only [decide_eq_false_iff_not]
      omega
    rw [hc]
    rfl

theorem clean_up_sc_or_first_fuel_eq (invert : ConditionKind → ConditionKind)
    (func : Function) :
    ∀ fuel, clean_up_sc_or_first_fuel invert func fuel = clean_up_sc_fuel invert func fuel := by
  intro fuel
  induction fuel with
  | zero => rfl
  | succ n ih =>
      funext ir
      show clean_up_sc_body_or_first invert func (clean_up_sc_or_first_fuel invert func n) ir =
        clean_up_sc_body invert func (clean_up_sc_fuel invert func n) ir
      rw [ih]
      exact clean_up_sc_body_order invert func _ ir

theorem try_as_of_few_entries (func : Function) (sets : BranchOp → Res Bool)
    (kind : ShortCircuitKind) (replace : IR2_Condition → FormElement)
    (ir : ShortCircuitElement) (hn : ir.entries.length < 2) :
    try_clean_up_sc_as func sets kind replace ir =
      Except.ok (true, { kind := kind, entries := ir.entries, final_result := default,
                         used_as_value := false }) := by
  unfold try_clean_up_sc_as
  have ht : ir.entries.take (ir.entries.length - 1) = [] := by
    have : ir.entries.length - 1 = 0 := by omega
    rw [this]
    rfl
  have hd : ir.entries.drop (ir.entries.length - 1) = ir.entries := by
    have : ir.entries.length - 1 = 0 := by omega
    rw [this]
    rfl
  simp only [ht, hd, sc_scan, sc_replace, ok_bind, List.nil_append]

theorem eval_two_args_ok (right_to_left : Bool) (first second : Res Form) (a b : Form)
    (ha : first = Except.ok a) (hb : second = Except.ok b) :
    eval_two_args right_to_left first second = Except.ok (a, b) := by
  subst ha hb
  cases right_to_left <;> rfl

theorem eval_two_args_eq_ok (right_to_left : Bool) (first second : Res Form)
    (r : Form × Form) (h : eval_two_args right_to_left first second = Except.ok r) :
    first = Except.ok r.1 ∧ second = Except.ok r.2 := by
  cases first with
  | error e1 =>
      cases second with
      | error e2 => cases right_to_left <;> simp [eval_two_args, Except.bind] at h
      | ok b => cases right_to_left <;> simp [eval_two_args, Except.bind] at h
  | ok a =>
      cases second with
      | error e2 => cases right_to_left <;> simp [eval_two_args, Except.bind] at h
      | ok b =>
          cases right_to_left <;> simp [eval_two_args, Except.bind] at h <;>
            subst h <;> exact ⟨rfl, rfl⟩

/-- The order in which the two children of a WhileLoop are translated is seen
when both translations fail: the failure of the child that is translated first
is the failure of the vertex.  Here the condition is of a class that the
translator does not know and the body is a block that does not exist. -/
theorem cfg_to_ir_order_of_arguments :
    cfg_to_ir (fun _ => false) ex_invert ex_arg_count ex_func ex_atomic_ops
        (CfgVtx.WhileLoop (CfgVtx.Other 0) (CfgVtx.BlockVtx 99)) =
      Except.error (Err.runtime_error "not yet implemented IR conversion.") ∧
    cfg_to_ir (fun _ => true) ex_invert ex_arg_count ex_func ex_atomic_ops
        (CfgVtx.WhileLoop (CfgVtx.Other 0) (CfgVtx.BlockVtx 99)) =
      Except.error Err.out_of_range :=
  ⟨rfl, rfl⟩

theorem build_initial_forms_try_eq (args_right_to_left : CfgVtx → Bool)
    (invert : ConditionKind → ConditionKind)
    (arg_count : SimpleExpressionKind → Nat)
    (apply_form : (Form → Res Form) → Form → Res Form)
    (apply : (FormElement → Res FormElement) → Form → Res Form)
    (function : FunctionState) :
    build_initial_forms_try args_right_to_left invert arg_count apply_form apply function =
      (insert_cfg_into_list function.atomic_ops
        (cfg_to_ir args_right_to_left invert arg_count function.ir2 function.atomic_ops)
        function.cfg_single_top_level []).bind fun elts =>
      (apply_form clean_up_while_loops elts).bind fun result1 =>
      apply (apply_clean_up_cond_no_else_final function.ir2) result1 := by
  unfold build_initial_forms_try
  cases insert_cfg_into_list function.atomic_ops
      (cfg_to_ir args_right_to_left invert arg_count function.ir2 function.atomic_ops)
      function.cfg_single_top_level [] with
  | error e => rfl
  | ok elts =>
      simp only [Except.bind]
      cases apply_form clean_up_while_loops elts with
      | error e => rfl
      | ok result1 =>
          simp only [Except.bind]
          cases apply (apply_clean_up_cond_no_else_final function.ir2) result1 <;> rfl

/-! ## Properties of the specification -/

/-- Claim C1: whenever `clean_up_sc` completes on a short circuit (it then has
at least two entries), the kind of the result is AND or OR, never
UNDETERMINED, and the same holds for every short circuit that the call created
inside it by splitting, at every nesting depth; a result of fewer entries than
the input does hold such a created short circuit in its last entry. -/
theorem sc_kind_determined_after_clean_up (invert : ConditionKind → ConditionKind)
    (func : Function) (ir out : ShortCircuitElement)
    (h : clean_up_sc invert func ir = Except.ok out) :
    2 ≤ ir.entries.length ∧
    (out.kind = ShortCircuitKind.AND ∨ out.kind = ShortCircuitKind.OR) ∧
    (∀ depth, ∀ s ∈ created_by_splitting depth ir.entries.length out,
      s.kind = ShortCircuitKind.AND ∨ s.kind = ShortCircuitKind.OR) ∧
    (out.entries.length < ir.entries.length →
      ∃ nested, out.entries.getLast? =
        some { condition := [FormElement.ShortCircuit nested] }) := by
  refine ⟨(clean_up_sc_fuel_split_or_not h).1,
    (clean_up_sc_fuel_kind invert func _ ir out h).1,
    (clean_up_sc_fuel_kind invert func _ ir out h).2, ?_⟩
  intro hlt
  obtain ⟨nested, hlast, _⟩ := clean_up_sc_fuel_nested_opposite h hlt
  exact ⟨nested, hlast⟩

theorem sc_kind_determined_after_clean_up_witness :
    clean_up_sc ex_invert ex_func ex_sc_and_or = Except.ok ex_sc_and_or_out ∧
    (created_by_splitting 3 3 ex_sc_and_or_out).map (fun s => s.kind)
      = [ShortCircuitKind.OR] ∧
    (ex_sc_and_or_out.kind = ShortCircuitKind.AND ∨
      ex_sc_and_or_out.kind = ShortCircuitKind.OR) ∧
    ∀ s ∈ created_by_splitting 3 3 ex_sc_and_or_out,
      s.kind = ShortCircuitKind.AND ∨ s.kind = ShortCircuitKind.OR :=
  ⟨rfl, rfl,
    (sc_kind_determined_after_clean_up ex_invert ex_func ex_sc_and_or ex_sc_and_or_out
      rfl).2.1,
    (sc_kind_determined_after_clean_up ex_invert ex_func ex_sc_and_or ex_sc_and_or_out
      rfl).2.2.1 3⟩

/-- Claim C2, amended: `try_clean_up_sc_as_and` returns true exactly when the
branch of every entry but the last satisfies `delay_slot_sets_false` and has
the delay destination register of entry 0, and liveness, when available, has a
record for each of these branches and gives the same verdict for all of them
(otherwise the call stops on the liveness assertion or lookup).  On success
the kind is AND, `final_result` is the delay destination variable of entry 0
(when there are two entries or more), and every entry but the last is the
original one with the slot of its branch holding the inverted condition. -/
theorem try_and_accepts_iff (invert : ConditionKind → ConditionKind)
    (func : Function) (ir : ShortCircuitElement) :
    ((∃ out, try_clean_up_sc_as_and invert func ir = Except.ok (true, out)) ↔
      (all_non_last_set delay_slot_sets_false ir = true ∧
        liveness_agrees func ir = true)) ∧
    ∀ out, try_clean_up_sc_as_and invert func ir = Except.ok (true, out) →
      out.kind = ShortCircuitKind.AND ∧
      (∀ e0, 2 ≤ ir.entries.length → ir.entries.head? = some e0 →
        ∃ b0 s0, get_condition_branch e0.condition = Except.ok (some b0, s0) ∧
          b0.branch_delay.var 0 = Except.ok out.final_result) ∧
      out.entries.length = ir.entries.length ∧
      List.Forall₂ (BranchReplaced (IR2_Condition.get_as_inverted_form invert))
        (ir.entries.take (ir.entries.length - 1))
        (out.entries.take (ir.entries.length - 1)) := by
  refine ⟨try_as_iff _ _ _ _ _, ?_⟩
  intro out h
  obtain ⟨hk, hl, _, hf, h0⟩ := try_as_success h
  refine ⟨hk, ?_, hl, hf⟩
  intro e0 hn he0
  obtain ⟨b0, s0, hs, _, hw⟩ := h0 e0 hn he0
  exact ⟨b0, s0, hs, hw⟩

theorem try_and_accepts_iff_witness :
    all_non_last_set delay_slot_sets_false ex_sc_and3 = true ∧
    liveness_agrees ex_func ex_sc_and3 = true ∧
    try_clean_up_sc_as_and ex_invert ex_func ex_sc_and3 = Except.ok (true, ex_sc_and3_out) ∧
    ∃ out, try_clean_up_sc_as_and ex_invert ex_func ex_sc_and3 = Except.ok (true, out) :=
  ⟨by decide, by decide, rfl,
    (try_and_accepts_iff ex_invert ex_func ex_sc_and3).1.mpr ⟨by decide, by decide⟩⟩

/-- Claim C2 as stated fails: in `ex_sc_and3` both entries before the last end
in a branch that sets `v0` to false, yet with the liveness of `ex_func_live`
(the verdicts of ops 0 and 1 differ) `try_clean_up_sc_as_and` stops on the
assertion `live_out_result == this_live_out` and does not return true. -/
theorem try_and_liveness_counterexample :
    (ex_sc_and3.entries.take 2).all (fun e => (branch_of e).isSome) = true ∧
    all_non_last_set delay_slot_sets_false ex_sc_and3 = true ∧
    try_clean_up_sc_as_and ex_invert ex_func_live ex_sc_and3 = Except.error Err.assertion ∧
    ¬ ((∃ out, try_clean_up_sc_as_and ex_invert ex_func_live ex_sc_and3
          = Except.ok (true, out)) ↔
        all_non_last_set delay_slot_sets_false ex_sc_and3 = true) := by
  refine ⟨by decide, by decide, rfl, ?_⟩
  intro h
  obtain ⟨out, hout⟩ := h.mpr (by decide)
  have herr : try_clean_up_sc_as_and ex_invert ex_func_live ex_sc_and3
      = Except.error Err.assertion := rfl
  rw [herr] at hout
  cases hout

/-- Claim C3, amended: `try_clean_up_sc_as_or` returns true exactly when the
branch of every entry but the last satisfies `delay_slot_sets_truthy` and has
the delay destination register of entry 0, and liveness, when available, has a
record for each of these branches and gives the same verdict for all of them
(otherwise the call stops on the liveness assertion or lookup).  On success
the kind is OR, `final_result` is the delay destination variable of entry 0
(when there are two entries or more), and every entry but the last is the
original one with the slot of its branch holding the condition, not
inverted. -/
theorem try_or_accepts_iff (func : Function) (ir : ShortCircuitElement) :
    ((∃ out, try_clean_up_sc_as_or func ir = Except.ok (true, out)) ↔
      (all_non_last_set delay_slot_sets_truthy ir = true ∧
        liveness_agrees func ir = true)) ∧
    ∀ out, try_clean_up_sc_as_or func ir = Except.ok (true, out) →
      out.kind = ShortCircuitKind.OR ∧
      (∀ e0, 2 ≤ ir.entries.length → ir.entries.head? = some e0 →
        ∃ b0 s0, get_condition_branch e0.condition = Except.ok (some b0, s0) ∧
          b0.branch_delay.var 0 = Except.ok out.final_result) ∧
      out.entries.length = ir.entries.length ∧
      List.Forall₂ (BranchReplaced IR2_Condition.get_as_form)
        (ir.entries.take (ir.entries.length - 1))
        (out.entries.take (ir.entries.length - 1)) := by
  refine ⟨try_as_iff _ _ _ _ _, ?_⟩
  intro out h
  obtain ⟨hk, hl, _, hf, h0⟩ := try_as_success h
  refine ⟨hk, ?_, hl, hf⟩
  intro e0 hn he0
  obtain ⟨b0, s0, hs, _, hw⟩ := h0 e0 hn he0
  exact ⟨b0, s0, hs, hw⟩

theorem try_or_accepts_iff_witness :
    all_non_last_set delay_slot_sets_truthy ex_sc_or3 = true ∧
    liveness_agrees ex_func ex_sc_or3 = true ∧
    ∃ out, try_clean_up_sc_as_or ex_func ex_sc_or3 = Except.ok (true, out) :=
  ⟨by decide, by decide,
    (try_or_accepts_iff ex_func ex_sc_or3).1.mpr ⟨by decide, by decide⟩⟩

/-- Claim C3 as stated fails: in `ex_sc_or3` both entries before the last end
in a branch that sets `v0` to true, yet with the liveness of `ex_func_live`
`try_clean_up_sc_as_or` stops on the assertion
`live_out_result == this_live_out` and does not return true. -/
theorem try_or_liveness_counterexample :
    (ex_sc_or3.entries.take 2).all (fun e => (branch_of e).isSome) = true ∧
    all_non_last_set delay_slot_sets_truthy ex_sc_or3 = true ∧
    try_clean_up_sc_as_or ex_func_live ex_sc_or3 = Except.error Err.assertion ∧
    ¬ ((∃ out, try_clean_up_sc_as_or ex_func_live ex_sc_or3 = Except.ok (true, out)) ↔
        all_non_last_set delay_slot_sets_truthy ex_sc_or3 = true) := by
  refine ⟨by decide, by decide, rfl, ?_⟩
  intro h
  obtain ⟨out, hout⟩ := h.mpr (by decide)
  have herr : try_clean_up_sc_as_or ex_func_live ex_sc_or3
      = Except.error Err.assertion := rfl
  rw [herr] at hout
  cases hout

/-- Claim C4: when `k` is the smallest index in `[1, n-2]` whose branch
polarity differs from that of entry 0 and `try_splitting_nested_sc` completes
(for any recursion budget), the outer element has exactly `k + 1` entries: the
original entries `0..k-1` in their order (cleaned), then one entry whose
condition is the single-element form holding a new short circuit; the original
entries `k..n-1` are the leaves of that nested short circuit, and the leaves
of the whole tree, read from left to right, are the original entries in their
order. -/
theorem split_nested_structure (invert : ConditionKind → ConditionKind)
    (func : Function) (fuel : Nat) (ir : ShortCircuitElement) (k : Nat)
    (r : Bool × ShortCircuitElement)
    (hk : is_first_different ir k)
    (h : try_splitting_nested_sc (clean_up_sc_fuel invert func fuel) ir = Except.ok r) :
    r.1 = true ∧ r.2.entries.length = k + 1 ∧
    List.Forall₂ (EntryCleaned invert) (ir.entries.take k) (r.2.entries.take k) ∧
    (∃ nested, r.2.entries.get? k = some { condition := [FormElement.ShortCircuit nested] } ∧
      List.Forall₂ (EntryCleaned invert) (ir.entries.drop k)
        (leaf_entries ir.entries.length (ir.entries.length - k) nested)) ∧
    List.Forall₂ (EntryCleaned invert) ir.entries
      (leaf_entries ir.entries.length ir.entries.length r.2) := by
  obtain ⟨front, fb, s, fia, k', nested_sc, hfront, hfb, hand, _, hscan, hnested, houter, hr1⟩ :=
    split_ok h
  have hkk : k' = k := split_first_different_unique hfront hfb hand hscan hk
  subst hkk
  obtain ⟨hk1, hk2, _, _⟩ := hk
  have hlk : (ir.entries.take k').length = k' := List.length_take_of_le (by omega)
  have hc : Classified invert func { ir with entries := ir.entries.take k' ++
      [{ condition := [FormElement.ShortCircuit nested_sc] }] } r.2 := by
    cases fuel with
    | zero => simp [clean_up_sc_fuel] at hnested
    | succ fuel0 =>
      obtain ⟨_, hc2⟩ := clean_up_sc_fuel_ok houter
      rcases hc2 with g1 | g2 | ⟨_, _, g3⟩
      · exact Or.inl g1
      · exact Or.inr g2
      · exact absurd g3 (split_no_second_split _ hfront hfb hand hscan)
  have hol : r.2.entries.length = k' + 1 := by
    rw [(classified_shape hc).1]; simp [hlk]
  have hlast : r.2.entries.getLast? =
      some { condition := [FormElement.ShortCircuit nested_sc] } := by
    rw [classified_last hc (by simp)]; simp
  have htake := (classified_entries_cleaned hc).1
  simp only [List.length_append, hlk, List.length_singleton, Nat.add_sub_cancel,
    List.take_left' hlk] at htake
  have hleaf : ∀ depth, ir.entries.length ≤ depth + 1 + k' →
      List.Forall₂ (EntryCleaned invert) (ir.entries.drop k')
        (leaf_entries depth (ir.entries.length - k') nested_sc) := by
    intro depth hd
    have := clean_up_sc_fuel_leaf_entries invert func _ _ _ hnested depth
      (by simp only [ShortCircuitElement_new, List.length_drop]; omega)
    simpa only [ShortCircuitElement_new, List.length_drop] using this
  refine ⟨hr1, hol, htake, ⟨nested_sc, ?_, hleaf _ (by omega)⟩, ?_⟩
  · rw [List.get?_eq_getElem?, ← hlast, List.getLast?_eq_getElem?, hol, Nat.add_sub_cancel]
  · obtain ⟨d, hd⟩ : ∃ d, ir.entries.length = d + 1 := ⟨ir.entries.length - 1, by omega⟩
    rw [hd]
    simp only [leaf_entries, hlast]
    rw [if_pos (by omega), List.dropLast_eq_take, hol, Nat.add_sub_cancel]
    have hnk : d + 1 + 1 - (k' + 1) = ir.entries.length - k' := by omega
    rw [hnk]
    have := forall₂_append htake (hleaf d (by omega))
    rw [List.take_append_drop] at this
    exact this

theorem split_nested_structure_witness :
    is_first_different ex_sc_and_or 1 ∧
    try_splitting_nested_sc (clean_up_sc_fuel ex_invert ex_func 3) ex_sc_and_or
      = Except.ok (true, ex_sc_and_or_out) ∧
    leaf_entries 3 3 ex_sc_and_or_out =
      [{ condition := [FormElement.Condition
          { kind := ConditionKind.OTHER 0, srcs := [SimpleAtom.var ex_a0] }] },
       { condition := [FormElement.Condition
          { kind := ConditionKind.ZERO, srcs := [SimpleAtom.var ex_a0] }] },
       { condition := [FormElement.AtomicOp 9] }] ∧
    ex_sc_and_or_out.entries.length = 1 + 1 :=
  ⟨ex_sc_and_or_first_different, rfl, rfl,
    (split_nested_structure ex_invert ex_func 3 ex_sc_and_or 1 (true, ex_sc_and_or_out)
      ex_sc_and_or_first_different rfl).2.1⟩

/-- Claim C5: whenever `clean_up_sc` completes, the resulting kind is AND iff
the trailing branch of the original entry 0 satisfies `delay_slot_sets_false`,
and OR iff it satisfies `delay_slot_sets_truthy`; after a split the short
circuit nested in the last entry has the opposite kind; and on a three-entry
input `x` (sets false), `y` (sets truthy), `z` every result is an AND of two
entries, `x` with its branch replaced by the inverted condition and a form
holding an OR over `y` (branch replaced by its condition) and `z`, and there
is a result when liveness is not available and both delay slots have a
destination. -/
theorem sc_kind_follows_first_branch (invert : ConditionKind → ConditionKind)
    (func : Function) (ir : ShortCircuitElement) :
    (∀ out, clean_up_sc invert func ir = Except.ok out →
      (∃ e0 b0 s0, ir.entries.head? = some e0 ∧
        get_condition_branch e0.condition = Except.ok (some b0, s0) ∧
        (out.kind = ShortCircuitKind.AND ↔ delay_slot_sets_false b0 = Except.ok true) ∧
        (out.kind = ShortCircuitKind.OR ↔ delay_slot_sets_truthy b0 = Except.ok true)) ∧
      (out.entries.length < ir.entries.length →
        ∃ nested,
          out.entries.getLast? = some { condition := [FormElement.ShortCircuit nested] } ∧
          ((out.kind = ShortCircuitKind.AND ∧ nested.kind = ShortCircuitKind.OR) ∨
           (out.kind = ShortCircuitKind.OR ∧ nested.kind = ShortCircuitKind.AND)))) ∧
    (∀ (ex ey ez : ShortCircuitEntry FormElement) (bx bY : BranchOp) (sx sy : Slot),
      ir.entries = [ex, ey, ez] →
      get_condition_branch ex.condition = Except.ok (some bx, sx) →
      delay_slot_sets_false bx = Except.ok true →
      get_condition_branch ey.condition = Except.ok (some bY, sy) →
      delay_slot_sets_truthy bY = Except.ok true →
      (∀ out, clean_up_sc invert func ir = Except.ok out →
        out.kind = ShortCircuitKind.AND ∧
        ∃ nested : ShortCircuitElement,
          out.entries =
            [{ condition := slot_write sx ex.condition
                (bx.condition.get_as_inverted_form invert) },
             { condition := [FormElement.ShortCircuit nested] }] ∧
          nested.kind = ShortCircuitKind.OR ∧
          nested.entries =
            [{ condition := slot_write sy ey.condition bY.condition.get_as_form }, ez]) ∧
      (∀ wx wy, func.has_reg_use = false →
        bx.branch_delay.var 0 = Except.ok wx → bY.branch_delay.var 0 = Except.ok wy →
        ∃ out, clean_up_sc invert func ir = Except.ok out)) :=
  ⟨fun _ h => ⟨clean_up_sc_fuel_kind_iff h, clean_up_sc_fuel_nested_opposite h⟩,
   fun _ _ _ _ _ _ _ hir hx hfx hy hty =>
    ⟨fun _ h => clean_up_sc_fuel_and_or_shape h hir hx hfx hy hty,
     fun _ _ hu hwx hwy => ⟨_, clean_up_sc_and_or_completes hir hx hfx hy hty hu hwx hwy⟩⟩⟩

theorem sc_kind_follows_first_branch_witness :
    clean_up_sc ex_invert ex_func ex_sc_and_or = Except.ok ex_sc_and_or_out ∧
    ex_sc_and_or_out.kind = ShortCircuitKind.AND ∧
    ∃ nested : ShortCircuitElement,
      ex_sc_and_or_out.entries =
        [{ condition := slot_write ⟨0⟩
            (ex_entry ConditionKind.ZERO BranchDelayKind.SET_REG_FALSE 0).condition
            ((ex_branch ConditionKind.ZERO BranchDelayKind.SET_REG_FALSE 0).condition
              |>.get_as_inverted_form ex_invert) },
         { condition := [FormElement.ShortCircuit nested] }] ∧
      nested.kind = ShortCircuitKind.OR ∧
      nested.entries =
        [{ condition := slot_write ⟨0⟩
            (ex_entry ConditionKind.ZERO BranchDelayKind.SET_REG_TRUE 1).condition
            (ex_branch ConditionKind.ZERO BranchDelayKind.SET_REG_TRUE 1).condition.get_as_form },
         { condition := [FormElement.AtomicOp 9] }] :=
  ⟨rfl,
    (((sc_kind_follows_first_branch ex_invert ex_func ex_sc_and_or).2 _ _ _
      (ex_branch ConditionKind.ZERO BranchDelayKind.SET_REG_FALSE 0)
      (ex_branch ConditionKind.ZERO BranchDelayKind.SET_REG_TRUE 1) ⟨0⟩ ⟨0⟩
      rfl rfl rfl rfl rfl).1 ex_sc_and_or_out rfl).1,
    (((sc_kind_follows_first_branch ex_invert ex_func ex_sc_and_or).2 _ _ _
      (ex_branch ConditionKind.ZERO BranchDelayKind.SET_REG_FALSE 0)
      (ex_branch ConditionKind.ZERO BranchDelayKind.SET_REG_TRUE 1) ⟨0⟩ ⟨0⟩
      rfl rfl rfl rfl rfl).1 ex_sc_and_or_out rfl).2⟩

/-- Claim C6, amended: for a short circuit of three entries whose condition
forms all end in a branch, the first two with a delay that sets the same
register to false, every result of `clean_up_sc` has kind AND, `final_result`
the delay destination variable of entry 0, and the first two entries with
their branch replaced by the inverted condition; the third entry is unchanged
and still ends in its branch.  There is a result whenever liveness agrees. -/
theorem three_entry_and_keeps_last_branch (invert : ConditionKind → ConditionKind)
    (func : Function) (ir : ShortCircuitElement) (e0 e1 e2 : ShortCircuitEntry FormElement)
    (b0 b1 b2 : BranchOp) (s0 s1 s2 : Slot) (w0 w1 : Variable)
    (hir : ir.entries = [e0, e1, e2])
    (h0 : get_condition_branch e0.condition = Except.ok (some b0, s0))
    (h1 : get_condition_branch e1.condition = Except.ok (some b1, s1))
    (h2 : get_condition_branch e2.condition = Except.ok (some b2, s2))
    (hf0 : delay_slot_sets_false b0 = Except.ok true)
    (hf1 : delay_slot_sets_false b1 = Except.ok true)
    (hw0 : b0.branch_delay.var 0 = Except.ok w0)
    (hw1 : b1.branch_delay.var 0 = Except.ok w1)
    (hreg : w1.reg = w0.reg) :
    (∀ out, clean_up_sc invert func ir = Except.ok out →
      out.kind = ShortCircuitKind.AND ∧ out.final_result = w0 ∧
      out.entries =
        [{ condition := slot_write s0 e0.condition (b0.condition.get_as_inverted_form invert) },
         { condition := slot_write s1 e1.condition (b1.condition.get_as_inverted_form invert) },
         e2] ∧
      slot_read s2 e2.condition = some (FormElement.Branch b2)) ∧
    (liveness_agrees func ir = true → ∃ out, clean_up_sc invert func ir = Except.ok out) :=
  three_entry_and_shape invert func ir e0 e1 e2 b0 b1 b2 s0 s1 s2 w0 w1 hir h0 h1 h2 hf0 hf1
    hw0 hw1 hreg

theorem three_entry_and_keeps_last_branch_witness :
    clean_up_sc ex_invert ex_func ex_sc_and3 = Except.ok ex_sc_and3_out ∧
    ex_sc_and3_out.kind = ShortCircuitKind.AND ∧ ex_sc_and3_out.final_result = ex_v0 ∧
    slot_read ⟨0⟩ (ex_entry ConditionKind.ZERO BranchDelayKind.SET_REG_FALSE 2).condition =
      some (FormElement.Branch (ex_branch ConditionKind.ZERO BranchDelayKind.SET_REG_FALSE 2)) :=
  ⟨rfl,
    ((three_entry_and_keeps_last_branch ex_invert ex_func ex_sc_and3 _ _ _
      (ex_branch ConditionKind.ZERO BranchDelayKind.SET_REG_FALSE 0)
      (ex_branch ConditionKind.ZERO BranchDelayKind.SET_REG_FALSE 1)
      (ex_branch ConditionKind.ZERO BranchDelayKind.SET_REG_FALSE 2)
      ⟨0⟩ ⟨0⟩ ⟨0⟩ ex_v0 ex_v0 rfl rfl rfl rfl rfl rfl rfl rfl rfl).1 _ rfl).1,
    ((three_entry_and_keeps_last_branch ex_invert ex_func ex_sc_and3 _ _ _
      (ex_branch ConditionKind.ZERO BranchDelayKind.SET_REG_FALSE 0)
      (ex_branch ConditionKind.ZERO BranchDelayKind.SET_REG_FALSE 1)
      (ex_branch ConditionKind.ZERO BranchDelayKind.SET_REG_FALSE 2)
      ⟨0⟩ ⟨0⟩ ⟨0⟩ ex_v0 ex_v0 rfl rfl rfl rfl rfl rfl rfl rfl rfl).1 _ rfl).2.1,
    ((three_entry_and_keeps_last_branch ex_invert ex_func ex_sc_and3 _ _ _
      (ex_branch ConditionKind.ZERO BranchDelayKind.SET_REG_FALSE 0)
      (ex_branch ConditionKind.ZERO BranchDelayKind.SET_REG_FALSE 1)
      (ex_branch ConditionKind.ZERO BranchDelayKind.SET_REG_FALSE 2)
      ⟨0⟩ ⟨0⟩ ⟨0⟩ ex_v0 ex_v0 rfl rfl rfl rfl rfl rfl rfl rfl rfl).1 _ rfl).2.2.2⟩

/-- Claim C6 as stated fails: on `ex_sc_and3`, three entries that all end in a
branch whose delay sets `v0` to false, `clean_up_sc` gives an AND with result
`v0` in which the branches of the first two entries are replaced, but the
condition form of the third entry still has its branch as trailing element. -/
theorem three_entry_and_last_branch_counterexample :
    clean_up_sc ex_invert ex_func ex_sc_and3 = Except.ok ex_sc_and3_out ∧
    ex_sc_and3_out.kind = ShortCircuitKind.AND ∧
    ex_sc_and3_out.entries.map (fun e => (branch_of e).isSome) = [false, false, true] ∧
    ex_sc_and3_out.entries.map (fun e => e.condition.getLast?.bind as_branch) =
      [none, none, some (ex_branch ConditionKind.ZERO BranchDelayKind.SET_REG_FALSE 2)] :=
  ⟨rfl, rfl, by decide, by decide⟩

/-- Claim C7: for a `CondNoElse` with exactly one entry, not yet cleaned, whose
condition form is a single branch with delay SET_REG_TRUE and whose body is a
single `SetVar(dst, #f)`, `clean_up_cond_no_else` replaces the `CondNoElse` in
its slot by `SetVar(dst, C)` with `is_sequence_point = true`, where `C` is the
condition of the branch as a form, not inverted.  Every other slot of the
parent form is unchanged, so a `CondNoElse` found in it afterwards was in
another slot before; the single-element parent form of the call sites becomes
the single `SetVar`. -/
theorem cond_no_else_compare_becomes_set_var (invert : ConditionKind → ConditionKind)
    (parent_form : Form) (ir_loc : Nat) (cne : CondNoElseElement)
    (e : CondNoElseEntry FormElement) (b : BranchOp) (dst : Variable) (sp : Bool)
    (hloc : parent_form.get? ir_loc = some (FormElement.CondNoElse cne))
    (hentries : cne.entries = [e])
    (hcleaned : e.cleaned = false)
    (hcond : e.condition = [FormElement.Branch b])
    (hdelay : b.branch_delay.kind = BranchDelayKind.SET_REG_TRUE)
    (hbody : e.body = set_false_body dst sp) :
    clean_up_cond_no_else invert parent_form ir_loc =
      Except.ok (parent_form.set ir_loc
        (FormElement.SetVar dst [b.condition.get_as_form] true)) ∧
    (∀ x ∈ parent_form.set ir_loc (FormElement.SetVar dst [b.condition.get_as_form] true),
      as_cond_no_else x ≠ none →
      ∃ j, j ≠ ir_loc ∧ parent_form.get? j = some x) ∧
    (parent_form = [FormElement.CondNoElse cne] →
      clean_up_cond_no_else invert parent_form ir_loc =
        Except.ok [FormElement.SetVar dst [b.condition.get_as_form] true]) :=
  cond_no_else_compare_shape invert parent_form ir_loc cne e b dst sp hloc hentries hcleaned
    hcond hdelay hbody

theorem cond_no_else_compare_becomes_set_var_witness :
    clean_up_cond_no_else ex_invert [FormElement.CondNoElse ex_cne_compare] 0 =
      Except.ok [FormElement.SetVar ex_v0
        [FormElement.Condition
          { kind := ConditionKind.LESS_THAN_ZERO_SIGNED, srcs := [SimpleAtom.var ex_a0] }]
        true] :=
  (cond_no_else_compare_becomes_set_var ex_invert [FormElement.CondNoElse ex_cne_compare] 0
    ex_cne_compare _
    (ex_branch ConditionKind.LESS_THAN_ZERO_SIGNED BranchDelayKind.SET_REG_TRUE 0)
    ex_v0 false rfl rfl rfl rfl rfl rfl).2.2 rfl

/-- Claim C8: in `convert_cond_no_else_to_compare`, when the condition form of
the single entry has `m > 1` elements ending in the branch and the
`CondNoElse` is the last of the `p` elements of the parent form, the parent
form afterwards consists of its first `p - 1` elements, then the first `m - 1`
elements of the condition form in their order, then the new
`SetVar(dst, condition)`: `p - 1 + m` elements, the slot of the `CondNoElse`
now holding the first element of the condition form. -/
theorem convert_compare_splices_condition (pre cpre : Form)
    (cne : CondNoElseElement) (e : CondNoElseEntry FormElement) (b : BranchOp)
    (dst : Variable) (sp : Bool)
    (hentries : cne.entries = [e])
    (hcond : e.condition = cpre ++ [FormElement.Branch b])
    (hm : cpre ≠ [])
    (hbody : e.body = set_false_body dst sp) :
    convert_cond_no_else_to_compare (pre ++ [FormElement.CondNoElse cne]) pre.length =
      Except.ok (pre ++ cpre ++ [FormElement.SetVar dst [b.condition.get_as_form] true]) ∧
    (pre ++ cpre ++ [FormElement.SetVar dst [b.condition.get_as_form] true]).length =
      (pre ++ [FormElement.CondNoElse cne]).length - 1 + e.condition.length :=
  convert_splice_shape pre cpre cne e b dst sp hentries hcond hm hbody

theorem convert_compare_splices_condition_witness :
    convert_cond_no_else_to_compare
      [FormElement.AtomicOp 1, FormElement.CondNoElse ex_cne_compare_seq] 1 =
      Except.ok [FormElement.AtomicOp 1, FormElement.AtomicOp 7,
        FormElement.SetVar ex_v0
          [FormElement.Condition
            { kind := ConditionKind.LESS_THAN_ZERO_SIGNED, srcs := [SimpleAtom.var ex_a0] }]
          true] :=
  (convert_compare_splices_condition [FormElement.AtomicOp 1] [FormElement.AtomicOp 7]
    ex_cne_compare_seq _
    (ex_branch ConditionKind.LESS_THAN_ZERO_SIGNED BranchDelayKind.SET_REG_TRUE 0)
    ex_v0 false rfl rfl (List.cons_ne_nil _ _) rfl).1

/-- Claim C9: when `clean_up_cond_no_else` completes on a `CondNoElse` outside
the single-entry SET_REG_TRUE case, the element stays in its slot with the
same number of entries, and every entry that was not cleaned ends with
`cleaned = true`, `original_condition_branch` the branch that ended its
condition, the slot of that branch holding the inverted condition,
`false_destination` the delay's variable 0 when the delay kind was
SET_REG_FALSE and left as it was when the delay was NOP, and its body without
the trailing ALWAYS/NOP branch unless it is the last entry, whose body is
unchanged; an entry that was already cleaned is left as it was. -/
theorem cond_no_else_entries_cleaned (invert : ConditionKind → ConditionKind)
    (parent_form : Form) (ir_loc : Nat) (cne : CondNoElseElement) (result : Form)
    (hloc : parent_form.get? ir_loc = some (FormElement.CondNoElse cne))
    (hcase : is_compare_case cne = false)
    (h : clean_up_cond_no_else invert parent_form ir_loc = Except.ok result) :
    ∃ entries1, result = parent_form.set ir_loc
        (FormElement.CondNoElse { cne with entries := entries1 }) ∧
      entries1.length = cne.entries.length ∧
      ∀ idx e, cne.entries.get? idx = some e →
        ∃ e1, entries1.get? idx = some e1 ∧
          CneEntryResult invert cne.entries.length idx e e1 := by
  rw [clean_up_cond_no_else_unfold invert parent_form ir_loc cne hloc] at h
  obtain ⟨todo1, hres, hlen, hall⟩ := cne_loop_ok invert parent_form ir_loc cne
    cne.entries.length cne.entries 0 [] result (by simp) (not_compare_case hcase) h
  refine ⟨todo1, by simpa using hres, hlen, ?_⟩
  intro idx e he
  obtain ⟨e1, he1, hr⟩ := hall idx e he
  exact ⟨e1, he1, by simpa using hr⟩

theorem cond_no_else_entries_cleaned_witness :
    clean_up_cond_no_else ex_invert [FormElement.CondNoElse ex_cne_two] 0 =
      Except.ok [FormElement.CondNoElse ex_cne_two_out] ∧
    ∃ entries1, [FormElement.CondNoElse ex_cne_two_out] =
        [FormElement.CondNoElse ex_cne_two].set 0
          (FormElement.CondNoElse { ex_cne_two with entries := entries1 }) ∧
      entries1.length = ex_cne_two.entries.length ∧
      ∀ idx e, ex_cne_two.entries.get? idx = some e →
        ∃ e1, entries1.get? idx = some e1 ∧
          CneEntryResult ex_invert ex_cne_two.entries.length idx e e1 :=
  ⟨rfl, cond_no_else_entries_cleaned ex_invert [FormElement.CondNoElse ex_cne_two] 0
    ex_cne_two [FormElement.CondNoElse ex_cne_two_out] rfl rfl rfl⟩

/-- Claim C10: outside the single-entry SET_REG_TRUE case,
`clean_up_cond_no_else` fails on a `CondNoElse` that has an uncleaned entry
whose condition branch has condition kind ALWAYS or a delay kind that is
neither SET_REG_FALSE nor NOP, with a failed assertion when every earlier
entry is already cleaned; in particular a delay SET_REG_TRUE is rejected
whenever there is more than one entry, and with exactly one entry the call is
handed to `convert_cond_no_else_to_compare`. -/
theorem cond_no_else_rejects_bad_branch (invert : ConditionKind → ConditionKind)
    (parent_form : Form) (ir_loc : Nat) (cne : CondNoElseElement) (idx : Nat)
    (e : CondNoElseEntry FormElement) (b : BranchOp) (s : Slot)
    (hloc : parent_form.get? ir_loc = some (FormElement.CondNoElse cne))
    (he : cne.entries.get? idx = some e)
    (hcl : e.cleaned = false)
    (hb : get_condition_branch e.condition = Except.ok (some b, s)) :
    (rejected_branch b →
      ¬ (b.branch_delay.kind = BranchDelayKind.SET_REG_TRUE ∧ cne.entries.length = 1) →
      (∃ err, clean_up_cond_no_else invert parent_form ir_loc = Except.error err) ∧
      ((∀ x ∈ cne.entries.take idx, x.cleaned = true) →
        clean_up_cond_no_else invert parent_form ir_loc = Except.error Err.assertion)) ∧
    (b.branch_delay.kind = BranchDelayKind.SET_REG_TRUE → 1 < cne.entries.length →
      ∃ err, clean_up_cond_no_else invert parent_form ir_loc = Except.error err) ∧
    (b.branch_delay.kind = BranchDelayKind.SET_REG_TRUE → cne.entries.length = 1 →
      clean_up_cond_no_else invert parent_form ir_loc =
        convert_cond_no_else_to_compare parent_form ir_loc) :=
  cond_no_else_rejects_shape invert parent_form ir_loc cne idx e b s hloc he hcl hb

theorem cond_no_else_rejects_bad_branch_witness :
    clean_up_cond_no_else ex_invert [FormElement.CondNoElse ex_cne_true_two] 0 =
      Except.error Err.assertion :=
  ((cond_no_else_rejects_bad_branch ex_invert [FormElement.CondNoElse ex_cne_true_two] 0
    ex_cne_true_two 0 _
    (ex_branch ConditionKind.ZERO BranchDelayKind.SET_REG_TRUE 0) ⟨0⟩ rfl rfl rfl rfl).1
    (Or.inr ⟨by decide, by decide⟩) (by decide)).2
    (fun _ hx => absurd hx (List.not_mem_nil _))

/-- Claim C11: whenever `clean_up_cond_no_else_final` completes on a
`CondNoElse`, the entries are as they were, there is a last entry, it carries
a false destination and has recorded its original condition branch, and
`final_destination` is the register of that false destination; when liveness
is available it has a record for the op of that branch, `used_as_value` is
true if and only if the register is not in the `written_and_unused` set of
the record, and the false-destination register of every entry but the last is
in the `written_and_unused` set of the op of its own original branch; when
liveness is not available `used_as_value` is left as it was. -/
theorem cond_no_else_final_result (func : Function) (cne out : CondNoElseElement)
    (h : clean_up_cond_no_else_final func cne = Except.ok out) :
    ∃ last fd b, cne.entries.getLast? = some last ∧
      last.false_destination = some fd ∧
      last.original_condition_branch = some (FormElement.Branch b) ∧
      out.entries = cne.entries ∧ out.final_destination = fd.reg ∧
      (func.has_reg_use = true →
        ∃ info, func.reg_use_op.get? b.op_id = some info ∧
          (out.used_as_value = true ↔ fd.reg ∉ info.written_and_unused) ∧
          ∀ e ∈ cne.entries.dropLast, cne_entry_dead_write func e) ∧
      (func.has_reg_use = false → out.used_as_value = cne.used_as_value) := by
  obtain ⟨last, fd, b, hlast, hfd, hb, _, hent, hdest, hlive, hno⟩ := cne_final_eq_ok h
  refine ⟨last, fd, b, hlast, hfd, hb, hent, hdest, ?_, hno⟩
  intro hl
  obtain ⟨info, hinfo, hused, hdead⟩ := hlive hl
  refine ⟨info, hinfo, ?_, hdead⟩
  rw [hused]
  simp

theorem cond_no_else_final_result_witness :
    clean_up_cond_no_else_final ex_func_live ex_cne_cleaned = Except.ok ex_cne_final_out ∧
    ∃ last fd b, ex_cne_cleaned.entries.getLast? = some last ∧
      last.false_destination = some fd ∧
      last.original_condition_branch = some (FormElement.Branch b) ∧
      ex_cne_final_out.entries = ex_cne_cleaned.entries ∧
      ex_cne_final_out.final_destination = fd.reg ∧
      (ex_func_live.has_reg_use = true →
        ∃ info, ex_func_live.reg_use_op.get? b.op_id = some info ∧
          (ex_cne_final_out.used_as_value = true ↔ fd.reg ∉ info.written_and_unused) ∧
          ∀ e ∈ ex_cne_cleaned.entries.dropLast, cne_entry_dead_write ex_func_live e) ∧
      (ex_func_live.has_reg_use = false →
        ex_cne_final_out.used_as_value = ex_cne_cleaned.used_as_value) :=
  ⟨rfl, cond_no_else_final_result ex_func_live ex_cne_cleaned ex_cne_final_out rfl⟩

/-- Claim C12, amended: `clean_up_cond_no_else_final` stops with a failed
assertion on every `CondNoElse` that has an entry without a false
destination, the last entry included (so also on one whose last entry was
cleaned from a NOP-delay branch); it completes exactly when there is an entry,
every entry carries a false destination, the last entry has recorded its
original condition branch and, when liveness is available, liveness has a
record for the op of that branch and the writes of all entries but the last
are dead. -/
theorem cond_no_else_final_needs_false_destinations (func : Function)
    (cne : CondNoElseElement) :
    ((∃ e ∈ cne.entries, e.false_destination = none) →
      clean_up_cond_no_else_final func cne = Except.error Err.assertion) ∧
    ((∃ out, clean_up_cond_no_else_final func cne = Except.ok out) ↔
      cne_final_ready func cne) := by
  constructor
  · intro h
    unfold clean_up_cond_no_else_final
    rw [cne_final_destination_error cne.entries cne.final_destination h]
    rfl
  · constructor
    · rintro ⟨out, h⟩
      obtain ⟨last, fd, b, hlast, _, hb, hall, _, _, hlive, _⟩ := cne_final_eq_ok h
      refine ⟨hall, last, b, hlast, hb, ?_⟩
      intro hl
      obtain ⟨info, hinfo, _, hdead⟩ := hlive hl
      exact ⟨⟨info, hinfo⟩, hdead⟩
    · exact cne_final_completes

theorem cond_no_else_final_needs_false_destinations_witness :
    clean_up_cond_no_else_final ex_func ex_cne_two_out = Except.error Err.assertion ∧
    cne_final_ready ex_func_live ex_cne_cleaned :=
  ⟨(cond_no_else_final_needs_false_destinations ex_func ex_cne_two_out).1
      ⟨_, List.mem_cons_of_mem _ (List.mem_cons_self _ _), rfl⟩,
    (cond_no_else_final_needs_false_destinations ex_func_live ex_cne_cleaned).2.mp
      ⟨ex_cne_final_out, rfl⟩⟩

/-- Claim C12 as stated fails: `ex_cne_two_out` is the cleaned `CondNoElse`
that `clean_up_cond_no_else` makes of `ex_cne_two`; its only non-last entry
carries a false destination and its last entry, cleaned from a NOP-delay
branch, carries none; `clean_up_cond_no_else_final` does not complete on it,
with or without liveness. -/
theorem cond_no_else_final_last_nop_counterexample :
    clean_up_cond_no_else ex_invert [FormElement.CondNoElse ex_cne_two] 0 =
      Except.ok [FormElement.CondNoElse ex_cne_two_out] ∧
    ex_cne_two_out.entries.all (fun e => e.cleaned) = true ∧
    ex_cne_two_out.entries.dropLast.all (fun e => e.false_destination.isSome) = true ∧
    (ex_cne_two_out.entries.getLast?.map (fun e => e.false_destination)) = some none ∧
    clean_up_cond_no_else_final ex_func ex_cne_two_out = Except.error Err.assertion ∧
    clean_up_cond_no_else_final ex_func_live ex_cne_two_out =
      Except.error Err.assertion :=
  ⟨rfl, rfl, rfl, rfl, rfl, rfl⟩

/-- Claim C13: on a `CondWithElse` in which every uncleaned entry has a
condition that ends in a branch with a NOP delay and a body whose last
element is an ALWAYS branch with a NOP delay, `clean_up_cond_with_else`
completes; the else form is unchanged, every entry of the result has
`cleaned = true`, a cleaned entry is as it was, and in an uncleaned entry the
slot that held the condition branch holds the inverted form of the condition
of that branch and the body is the first `n - 1` elements of a body of
`n > 1` elements and the single element `Empty` for a body that was the lone
branch, never the empty form. -/
theorem cond_with_else_cleaned (invert : ConditionKind → ConditionKind)
    (entries : List (CondWithElseEntry FormElement)) (else_ir : Form)
    (h : ∀ e ∈ entries, e.cleaned = false → cwe_entry_ready e) :
    ∃ out, clean_up_cond_with_else invert (FormElement.CondWithElse entries else_ir) =
        Except.ok (FormElement.CondWithElse out else_ir) ∧
      (∀ e1 ∈ out, e1.cleaned = true) ∧
      List.Forall₂ (CweEntryResult invert) entries out := by
  obtain ⟨out, hout, hall⟩ := cwe_entries_ok invert entries h
  refine ⟨out, ?_, cwe_entries_out_cleaned invert entries out hout, hall⟩
  simp [clean_up_cond_with_else, hout, Except.bind]

theorem cond_with_else_cleaned_witness :
    clean_up_cond_with_else ex_invert ex_cwe = Except.ok ex_cwe_out ∧
    ∃ out, clean_up_cond_with_else ex_invert
        (FormElement.CondWithElse ex_cwe_entries [FormElement.AtomicOp 8]) =
        Except.ok (FormElement.CondWithElse out [FormElement.AtomicOp 8]) ∧
      (∀ e1 ∈ out, e1.cleaned = true) ∧
      List.Forall₂ (CweEntryResult ex_invert) ex_cwe_entries out :=
  ⟨rfl, cond_with_else_cleaned ex_invert ex_cwe_entries [FormElement.AtomicOp 8]
    ex_cwe_entries_ready⟩

/-- Claim C14, amended: `clean_up_cond_with_else` and
`clean_up_cond_no_else` applied to an element all of whose entries have
`cleaned = true` complete and leave the element and the enclosing form as
they were; this holds in particular for every output of
`clean_up_cond_with_else`, and for the output of `clean_up_cond_no_else`
outside the single-entry SET_REG_TRUE case (in which the element is replaced
by a comparison and is no longer a `CondNoElse`). -/
theorem cleaners_skip_cleaned_entries (invert : ConditionKind → ConditionKind) :
    (∀ entries else_ir, (∀ e ∈ entries, e.cleaned = true) →
      clean_up_cond_with_else invert (FormElement.CondWithElse entries else_ir) =
        Except.ok (FormElement.CondWithElse entries else_ir)) ∧
    (∀ ir out, clean_up_cond_with_else invert ir = Except.ok out →
      clean_up_cond_with_else invert out = Except.ok out) ∧
    (∀ parent_form ir_loc cne,
      parent_form.get? ir_loc = some (FormElement.CondNoElse cne) →
      (∀ e ∈ cne.entries, e.cleaned = true) →
      clean_up_cond_no_else invert parent_form ir_loc = Except.ok parent_form) ∧
    (∀ parent_form ir_loc cne out,
      parent_form.get? ir_loc = some (FormElement.CondNoElse cne) →
      is_compare_case cne = false →
      clean_up_cond_no_else invert parent_form ir_loc = Except.ok out →
      clean_up_cond_no_else invert out ir_loc = Except.ok out) := by
  refine ⟨?_, ?_, ?_, ?_⟩
  · intro entries else_ir h
    simp [clean_up_cond_with_else, cwe_entries_all_cleaned invert entries h, Except.bind]
  · intro ir out h
    obtain ⟨entries, else_ir, es, rfl, hes, rfl⟩ := cwe_eq_ok invert ir out h
    simp [clean_up_cond_with_else,
      cwe_entries_all_cleaned invert es (cwe_entries_out_cleaned invert entries es hes),
      Except.bind]
  · intro parent_form ir_loc cne hloc h
    exact cne_skip_cleaned invert parent_form ir_loc cne hloc h
  · intro parent_form ir_loc cne out hloc hcase h
    rw [clean_up_cond_no_else_unfold invert parent_form ir_loc cne hloc] at h
    obtain ⟨todo1, hres, hlen, hall⟩ := cne_loop_ok invert parent_form ir_loc cne
      cne.entries.length cne.entries 0 [] out (by simp) (not_compare_case hcase) h
    rw [hres]
    apply cne_skip_cleaned invert _ ir_loc { cne with entries := [] ++ todo1 }
      (get?_set_self hloc)
    intro e1 he1
    obtain ⟨j, hj⟩ := List.mem_iff_get?.mp he1
    have hjlt : j < cne.entries.length := by
      rw [← hlen]
      simp only [List.nil_append] at hj
      exact (List.get?_eq_some.mp hj).1
    obtain ⟨e, he⟩ : ∃ e, cne.entries.get? j = some e :=
      ⟨cne.entries.get ⟨j, hjlt⟩, List.get?_eq_get hjlt⟩
    obtain ⟨e2, he2, hr⟩ := hall j e he
    simp only [List.nil_append] at hj
    rw [hj] at he2
    injection he2 with he2
    subst he2
    exact cne_result_cleaned hr

theorem cleaners_skip_cleaned_entries_witness :
    clean_up_cond_with_else ex_invert ex_cwe_out = Except.ok ex_cwe_out ∧
    clean_up_cond_no_else ex_invert [FormElement.CondNoElse ex_cne_two_out] 0 =
      Except.ok [FormElement.CondNoElse ex_cne_two_out] :=
  ⟨(cleaners_skip_cleaned_entries ex_invert).2.1 ex_cwe ex_cwe_out rfl,
    (cleaners_skip_cleaned_entries ex_invert).2.2.2 [FormElement.CondNoElse ex_cne_two] 0
      ex_cne_two [FormElement.CondNoElse ex_cne_two_out] rfl rfl rfl⟩

/-- Claim C14 as stated fails: on the single-entry SET_REG_TRUE cond
`ex_cne_compare` the call of `clean_up_cond_no_else` completes and leaves a
`SetVar` in the slot; applied to its own output, the same call stops at the
assertion that the slot holds a `CondNoElse`. -/
theorem cond_no_else_compare_output_counterexample :
    clean_up_cond_no_else ex_invert [FormElement.CondNoElse ex_cne_compare] 0 =
      Except.ok ex_compare_out ∧
    clean_up_cond_no_else ex_invert ex_compare_out 0 = Except.error Err.assertion :=
  ⟨rfl, rfl⟩

/-- Claim C15 fails on the code: on the jump to the test followed by the ordinary
While `ex_while`, `clean_up_while_loops` removes the jump and replaces the
condition branch, and the While of the result still has `cleaned = false`; a
second run on the result takes it for an uncleaned While and stops at the
assertion `i != 0`. -/
theorem while_loops_leaves_cleaned_false :
    clean_up_while_loops [ex_jump, ex_while] = Except.ok [ex_while_out] ∧
    is_uncleaned_while ex_while_out = true ∧
    clean_up_while_loops [ex_while_out] = Except.error Err.assertion :=
  ⟨rfl, rfl, rfl⟩

/-- Claim C16: on a sequence in which every While with `cleaned = false` sits
at an index `i >= 1` immediately after an ALWAYS branch with a NOP delay and
has a condition that ends in a branch with a NOP delay,
`clean_up_while_loops` completes; the result is the sequence without the
elements at the indices `i - 1`, the others in their order, so that the
length is reduced by the number of uncleaned Whiles, and in each uncleaned
While the slot that held the condition branch holds the condition of that
branch as a form, not inverted.  It fails on a sequence that has an uncleaned
While at index 0 or one that is not immediately after such a branch. -/
theorem while_loops_remove_intro_branches (sequence : Form) :
    ((∀ i c body, sequence.get? i = some (FormElement.While c body false) →
        while_intro_ok sequence i ∧ while_cond_ok c) →
      ∃ out, clean_up_while_loops sequence = Except.ok out ∧
        List.Forall₂ WhileCondReplaced (without_intro_branches sequence) out ∧
        out.length + sequence.countP is_uncleaned_while = sequence.length) ∧
    ((∃ i c body, sequence.get? i = some (FormElement.While c body false) ∧
        ¬ while_intro_ok sequence i) →
      ∃ err, clean_up_while_loops sequence = Except.error err) := by
  constructor
  · intro h
    refine ⟨_, while_loops_ok sequence h, ?_, ?_⟩
    · rw [List.forall₂_map_right_iff, List.forall₂_same]
      intro x hx
      apply while_cond_replaced_self
      rintro c body rfl
      obtain ⟨i, hi⟩ := List.mem_iff_get?.mp (mem_without_intro sequence _ hx)
      exact (h i c body hi).2
    · rw [List.length_map]
      cases sequence with
      | nil => rfl
      | cons e0 suf =>
          have he0 : ¬ is_uncleaned_while e0 = true := by
            intro hx
            obtain ⟨c, body, rfl⟩ := is_uncleaned_while_iff.mp hx
            have := (h 0 c body rfl).1.1
            omega
          rw [List.countP_cons_of_neg _ _ he0, List.length_cons]
          exact without_intro_length suf e0
  · rintro ⟨i, c, body, hget, hbad⟩
    have hlt : i < sequence.length := (List.get?_eq_some.mp hget).1
    have hbad2 : i = 0 ∨ ∀ pb, sequence.get? (i - 1) = some (FormElement.Branch pb) →
        ¬ (pb.condition.kind = ConditionKind.ALWAYS ∧
          pb.branch_delay.kind = BranchDelayKind.NOP) := by
      by_cases h0 : i = 0
      · exact Or.inl h0
      · refine Or.inr (fun pb hpb hkd => hbad ⟨by omega, pb, hpb, hkd.1, hkd.2⟩)
    obtain ⟨err, herr⟩ := while_loops_scan_fails sequence.length 0 sequence [] (by omega)
      (by omega) hget hbad2
    exact ⟨err, by unfold clean_up_while_loops; rw [herr]; rfl⟩

theorem while_loops_remove_intro_branches_witness :
    clean_up_while_loops ex_while_seq =
      Except.ok [FormElement.AtomicOp 0, ex_while_out, ex_while_out] ∧
    (∃ out, clean_up_while_loops ex_while_seq = Except.ok out ∧
      List.Forall₂ WhileCondReplaced (without_intro_branches ex_while_seq) out ∧
      out.length + ex_while_seq.countP is_uncleaned_while = ex_while_seq.length) ∧
    ∃ err, clean_up_while_loops [FormElement.AtomicOp 0, ex_while] = Except.error err :=
  ⟨rfl, (while_loops_remove_intro_branches ex_while_seq).1 ex_while_seq_ready,
    (while_loops_remove_intro_branches [FormElement.AtomicOp 0, ex_while]).2
      ⟨1, _, _, rfl, fun h => by
        obtain ⟨_, pb, hpb, _⟩ := h
        exact absurd hpb (by simp)⟩⟩

/-- Claim C17: on a While whose body has an ALWAYS branch with a NOP delay as
its last element, `clean_up_infinite_while_loop` completes, sets
`cleaned = true`, leaves the condition form as it was, and makes of a body of
`n > 1` elements its first `n - 1` elements and of a body that is only the
jump the single element `Empty`; when the condition of the trailing branch is
not ALWAYS or its delay is not NOP, it stops with a failed assertion. -/
theorem infinite_while_loop_cleaned (condition body : Form) (cleaned : Bool)
    (jb : BranchOp) (hlast : body.getLast? = some (FormElement.Branch jb)) :
    ((jb.condition.kind = ConditionKind.ALWAYS ∧
        jb.branch_delay.kind = BranchDelayKind.NOP) →
      ∃ body1,
        clean_up_infinite_while_loop (FormElement.While condition body cleaned) =
          Except.ok (FormElement.While condition body1 true) ∧
        (1 < body.length → body1 = body.take (body.length - 1)) ∧
        (body.length = 1 → body1 = [FormElement.Empty])) ∧
    ((jb.condition.kind ≠ ConditionKind.ALWAYS ∨
        jb.branch_delay.kind ≠ BranchDelayKind.NOP) →
      clean_up_infinite_while_loop (FormElement.While condition body cleaned) =
        Except.error Err.assertion) := by
  obtain ⟨pre, rfl⟩ := eq_concat_of_getLast? hlast
  constructor
  · rintro ⟨hc, hd⟩
    refine ⟨body_without_jump (pre ++ [FormElement.Branch jb]), ?_, ?_, ?_⟩
    · show (clean_up_jump_to_end _).bind _ = _
      rw [clean_up_jump_to_end_of_branch, if_pos ⟨hd, hc⟩]
      rfl
    · intro h
      unfold body_without_jump
      rw [if_pos h]
    · intro h
      unfold body_without_jump
      rw [if_neg (by omega)]
  · intro h
    show (clean_up_jump_to_end _).bind _ = _
    rw [clean_up_jump_to_end_of_branch, if_neg]
    · rfl
    · rintro ⟨hd, hc⟩
      rcases h with h | h
      · exact h hc
      · exact h hd

theorem infinite_while_loop_cleaned_witness :
    (∃ body1,
      clean_up_infinite_while_loop
          (FormElement.While [FormElement.Condition ⟨ConditionKind.ALWAYS, []⟩]
            [FormElement.AtomicOp 2, ex_jump] false) =
        Except.ok (FormElement.While [FormElement.Condition ⟨ConditionKind.ALWAYS, []⟩]
          body1 true) ∧
      (1 < [FormElement.AtomicOp 2, ex_jump].length →
        body1 = [FormElement.AtomicOp 2, ex_jump].take
          ([FormElement.AtomicOp 2, ex_jump].length - 1)) ∧
      ([FormElement.AtomicOp 2, ex_jump].length = 1 → body1 = [FormElement.Empty])) ∧
    clean_up_infinite_while_loop
        (FormElement.While [FormElement.Condition ⟨ConditionKind.ALWAYS, []⟩]
          [FormElement.Branch (ex_branch ConditionKind.ZERO BranchDelayKind.NOP 3)] false) =
      Except.error Err.assertion :=
  ⟨(infinite_while_loop_cleaned [FormElement.Condition ⟨ConditionKind.ALWAYS, []⟩]
      [FormElement.AtomicOp 2, ex_jump] false
      (ex_branch ConditionKind.ALWAYS BranchDelayKind.NOP 7) rfl).1 ⟨rfl, rfl⟩,
    (infinite_while_loop_cleaned [FormElement.Condition ⟨ConditionKind.ALWAYS, []⟩]
      [FormElement.Branch (ex_branch ConditionKind.ZERO BranchDelayKind.NOP 3)] false
      (ex_branch ConditionKind.ZERO BranchDelayKind.NOP 3) rfl).2
      (Or.inl (by decide))⟩

/-- Claim C18: for every branch, `delay_slot_sets_false` returns true if and
only if the delay kind is SET_REG_FALSE, or the condition kind is FALSE, the
delay kind is SET_REG_REG and the register of the first source of the
condition is the register of variable 1 of the delay; it returns false if
and only if the delay kind is not SET_REG_FALSE and either the branch is not
a FALSE condition with a SET_REG_REG delay, or the two registers are there
and differ. -/
theorem delay_slot_sets_false_iff (b : BranchOp) :
    (delay_slot_sets_false b = Except.ok true ↔
      (b.branch_delay.kind = BranchDelayKind.SET_REG_FALSE ∨
       (b.condition.kind = ConditionKind.FALSE ∧
        b.branch_delay.kind = BranchDelayKind.SET_REG_REG ∧
        cond_src_is_delay_src b))) ∧
    (delay_slot_sets_false b = Except.ok false ↔
      (b.branch_delay.kind ≠ BranchDelayKind.SET_REG_FALSE ∧
       (¬ (b.condition.kind = ConditionKind.FALSE ∧
          b.branch_delay.kind = BranchDelayKind.SET_REG_REG) ∨
        cond_src_differs_from_delay_src b))) := by
  constructor
  · rw [sets_false_eq_ok_iff]
    constructor
    · rintro (⟨hk, _⟩ | ⟨_, hc, hd, v, w, hv, hw, hr⟩ | ⟨_, _, hr⟩)
      · exact Or.inl hk
      · exact Or.inr ⟨hc, hd, v, w, hv, hw, by simpa using hr⟩
      · exact absurd hr (by decide)
    · rintro (hk | ⟨hc, hd, v, w, hv, hw, hr⟩)
      · exact Or.inl ⟨hk, rfl⟩
      · refine Or.inr (Or.inl ⟨?_, hc, hd, v, w, hv, hw, by simpa using hr⟩)
        rw [hd]
        decide
  · rw [sets_false_eq_ok_iff]
    constructor
    · rintro (⟨_, hr⟩ | ⟨hk, _, _, v, w, hv, hw, hr⟩ | ⟨hk, hn, _⟩)
      · exact absurd hr (by decide)
      · exact ⟨hk, Or.inr ⟨v, w, hv, hw, by simpa using hr⟩⟩
      · exact ⟨hk, Or.inl hn⟩
    · rintro ⟨hk, hn | ⟨v, w, hv, hw, hr⟩⟩
      · exact Or.inr (Or.inr ⟨hk, hn, rfl⟩)
      · by_cases h2 : b.condition.kind = ConditionKind.FALSE ∧
            b.branch_delay.kind = BranchDelayKind.SET_REG_REG
        · exact Or.inr (Or.inl ⟨hk, h2.1, h2.2, v, w, hv, hw, by simpa using hr⟩)
        · exact Or.inr (Or.inr ⟨hk, h2, rfl⟩)

theorem delay_slot_sets_false_iff_witness :
    delay_slot_sets_false (ex_branch ConditionKind.ZERO BranchDelayKind.SET_REG_FALSE 0) =
      Except.ok true ∧
    delay_slot_sets_false (ex_branch ConditionKind.ZERO BranchDelayKind.SET_REG_TRUE 0) =
      Except.ok false :=
  ⟨(delay_slot_sets_false_iff
      (ex_branch ConditionKind.ZERO BranchDelayKind.SET_REG_FALSE 0)).1.mpr (Or.inl rfl),
    (delay_slot_sets_false_iff
      (ex_branch ConditionKind.ZERO BranchDelayKind.SET_REG_TRUE 0)).2.mpr
      ⟨by decide, Or.inl (by decide)⟩⟩

/-- Claim C19: for every branch, `delay_slot_sets_truthy` returns true if and
only if the delay kind is SET_REG_TRUE, or the condition kind is TRUTHY, the
delay kind is SET_REG_REG and the register of the first source of the
condition is the register of variable 1 of the delay; it returns false if
and only if the delay kind is not SET_REG_TRUE and either the branch is not a
TRUTHY condition with a SET_REG_REG delay, or the two registers are there and
differ; and on no branch do `delay_slot_sets_false` and
`delay_slot_sets_truthy` both return true. -/
theorem delay_slot_sets_truthy_iff (b : BranchOp) :
    (delay_slot_sets_truthy b = Except.ok true ↔
      (b.branch_delay.kind = BranchDelayKind.SET_REG_TRUE ∨
       (b.condition.kind = ConditionKind.TRUTHY ∧
        b.branch_delay.kind = BranchDelayKind.SET_REG_REG ∧
        cond_src_is_delay_src b))) ∧
    (delay_slot_sets_truthy b = Except.ok false ↔
      (b.branch_delay.kind ≠ BranchDelayKind.SET_REG_TRUE ∧
       (¬ (b.condition.kind = ConditionKind.TRUTHY ∧
          b.branch_delay.kind = BranchDelayKind.SET_REG_REG) ∨
        cond_src_differs_from_delay_src b))) ∧
    ¬ (delay_slot_sets_false b = Except.ok true ∧
        delay_slot_sets_truthy b = Except.ok true) := by
  refine ⟨?_, ?_, ?_⟩
  · rw [sets_truthy_eq_ok_iff]
    constructor
    · rintro (⟨hk, _⟩ | ⟨_, hc, hd, v, w, hv, hw, hr⟩ | ⟨_, _, hr⟩)
      · exact Or.inl hk
      · exact Or.inr ⟨hc, hd, v, w, hv, hw, by simpa using hr⟩
      · exact absurd hr (by decide)
    · rintro (hk | ⟨hc, hd, v, w, hv, hw, hr⟩)
      · exact Or.inl ⟨hk, rfl⟩
      · refine Or.inr (Or.inl ⟨?_, hc, hd, v, w, hv, hw, by simpa using hr⟩)
        rw [hd]
        decide
  · rw [sets_truthy_eq_ok_iff]
    constructor
    · rintro (⟨_, hr⟩ | ⟨hk, _, _, v, w, hv, hw, hr⟩ | ⟨hk, hn, _⟩)
      · exact absurd hr (by decide)
      · exact ⟨hk, Or.inr ⟨v, w, hv, hw, by simpa using hr⟩⟩
      · exact ⟨hk, Or.inl hn⟩
    · rintro ⟨hk, hn | ⟨v, w, hv, hw, hr⟩⟩
      · exact Or.inr (Or.inr ⟨hk, hn, rfl⟩)
      · by_cases h2 : b.condition.kind = ConditionKind.TRUTHY ∧
            b.branch_delay.kind = BranchDelayKind.SET_REG_REG
        · exact Or.inr (Or.inl ⟨hk, h2.1, h2.2, v, w, hv, hw, by simpa using hr⟩)
        · exact Or.inr (Or.inr ⟨hk, h2, rfl⟩)
  · rintro ⟨h1, h2⟩
    exact sets_false_truthy_disjoint h1 h2

theorem delay_slot_sets_truthy_iff_witness :
    delay_slot_sets_truthy (ex_branch ConditionKind.ZERO BranchDelayKind.SET_REG_TRUE 0) =
      Except.ok true ∧
    delay_slot_sets_truthy (ex_branch ConditionKind.ZERO BranchDelayKind.SET_REG_FALSE 0) =
      Except.ok false :=
  ⟨(delay_slot_sets_truthy_iff
      (ex_branch ConditionKind.ZERO BranchDelayKind.SET_REG_TRUE 0)).1.mpr (Or.inl rfl),
    (delay_slot_sets_truthy_iff
      (ex_branch ConditionKind.ZERO BranchDelayKind.SET_REG_FALSE 0)).2.1.mpr
      ⟨by decide, Or.inl (by decide)⟩⟩

/-- Claim C20: on a form whose last element is a Branch,
`get_condition_branch` returns that branch and the slot of the last element,
and an assignment to that slot replaces the last element; on a form whose
last element is a Return or a Break it returns what `get_condition_branch`
returns on the `dead_code` form, the slot being the slot of the `dead_code`
form (one level further down, at any depth); whenever the returned branch is
not null, the returned slot holds exactly that branch, and after an
assignment to the slot it holds the assigned element. -/
theorem get_condition_branch_finds_branch (f : Form) :
    (∀ op, f.getLast? = some (FormElement.Branch op) →
      get_condition_branch f = Except.ok (some op, ⟨0⟩) ∧
      slot_read ⟨0⟩ f = some (FormElement.Branch op) ∧
      ∀ x, slot_write ⟨0⟩ f x = f.dropLast ++ [x]) ∧
    (∀ rc dc, f.getLast? = some (FormElement.Return rc dc) →
      get_condition_branch f =
        (get_condition_branch dc).map (fun r => (r.1, ⟨r.2.depth + 1⟩)) ∧
      ∀ d, slot_read ⟨d + 1⟩ f = slot_read ⟨d⟩ dc ∧
        ∀ x, slot_write ⟨d + 1⟩ f x =
          f.dropLast ++ [FormElement.Return rc (slot_write ⟨d⟩ dc x)]) ∧
    (∀ rc dc, f.getLast? = some (FormElement.Break rc dc) →
      get_condition_branch f =
        (get_condition_branch dc).map (fun r => (r.1, ⟨r.2.depth + 1⟩)) ∧
      ∀ d, slot_read ⟨d + 1⟩ f = slot_read ⟨d⟩ dc ∧
        ∀ x, slot_write ⟨d + 1⟩ f x =
          f.dropLast ++ [FormElement.Break rc (slot_write ⟨d⟩ dc x)]) ∧
    (∀ b s, get_condition_branch f = Except.ok (some b, s) →
      slot_read s f = some (FormElement.Branch b) ∧
      ∀ x, slot_read s (slot_write s f x) = some x) := by
  refine ⟨?_, ?_, ?_, ?_⟩
  · intro op h
    exact ⟨by
      obtain ⟨pre, rfl⟩ := eq_concat_of_getLast? h
      exact get_condition_branch_of_last_branch pre op, h, fun x => slot_write_zero f x⟩
  · intro rc dc h
    obtain ⟨pre, rfl⟩ := eq_concat_of_getLast? h
    refine ⟨?_, fun d => ⟨slot_read_succ_return d pre rc dc, fun x => ?_⟩⟩
    · rw [get_condition_branch_concat]
      rfl
    · rw [slot_write_succ_return, List.dropLast_concat]
  · intro rc dc h
    obtain ⟨pre, rfl⟩ := eq_concat_of_getLast? h
    refine ⟨?_, fun d => ⟨slot_read_succ_break d pre rc dc, fun x => ?_⟩⟩
    · rw [get_condition_branch_concat]
      rfl
    · rw [slot_write_succ_break, List.dropLast_concat]
  · intro b s h
    exact ⟨slot_read_of_branch h, fun x => slot_read_write x h⟩

theorem get_condition_branch_finds_branch_witness :
    get_condition_branch [FormElement.AtomicOp 1, ex_jump] =
      Except.ok (some (ex_branch ConditionKind.ALWAYS BranchDelayKind.NOP 7), ⟨0⟩) ∧
    get_condition_branch [FormElement.Return [FormElement.AtomicOp 1] [ex_jump]] =
      Except.ok (some (ex_branch ConditionKind.ALWAYS BranchDelayKind.NOP 7), ⟨1⟩) ∧
    slot_read ⟨1⟩ [FormElement.Return [FormElement.AtomicOp 1] [ex_jump]] =
      some ex_jump ∧
    slot_read ⟨1⟩ (slot_write ⟨1⟩ [FormElement.Return [FormElement.AtomicOp 1] [ex_jump]]
      FormElement.Empty) = some FormElement.Empty :=
  ⟨((get_condition_branch_finds_branch [FormElement.AtomicOp 1, ex_jump]).1
      (ex_branch ConditionKind.ALWAYS BranchDelayKind.NOP 7) rfl).1,
    ((get_condition_branch_finds_branch
      [FormElement.Return [FormElement.AtomicOp 1] [ex_jump]]).2.1
      [FormElement.AtomicOp 1] [ex_jump] rfl).1,
    ((get_condition_branch_finds_branch
      [FormElement.Return [FormElement.AtomicOp 1] [ex_jump]]).2.2.2
      (ex_branch ConditionKind.ALWAYS BranchDelayKind.NOP 7) ⟨1⟩ rfl).1,
    ((get_condition_branch_finds_branch
      [FormElement.Return [FormElement.AtomicOp 1] [ex_jump]]).2.2.2
      (ex_branch ConditionKind.ALWAYS BranchDelayKind.NOP 7) ⟨1⟩ rfl).2
      FormElement.Empty⟩

/-- Claim C21, amended: for every non-empty form whose last element is not a
Branch and is neither a Return nor a Break, `get_condition_branch` returns the
null branch together with the slot `in->back_ref()` of the form, which is not
null: it holds the last element, and a write through it replaces that
element. -/
theorem get_condition_branch_without_branch (pre : Form) (last : FormElement)
    (hb : ∀ op, last ≠ FormElement.Branch op)
    (hr : ∀ rc dc, last ≠ FormElement.Return rc dc)
    (hk : ∀ rc dc, last ≠ FormElement.Break rc dc) :
    get_condition_branch (pre ++ [last]) = Except.ok (none, ⟨0⟩) ∧
    slot_read ⟨0⟩ (pre ++ [last]) = some last ∧
    ∀ x, slot_write ⟨0⟩ (pre ++ [last]) x = pre ++ [x] := by
  refine ⟨?_, ?_, ?_⟩
  · rw [get_condition_branch_concat]
    cases last with
    | Branch op => exact absurd rfl (hb op)
    | Return rc dc => exact absurd rfl (hr rc dc)
    | Break rc dc => exact absurd rfl (hk rc dc)
    | _ => rfl
  · simp [slot_read, slot_read_depth]
  · intro x
    simp [slot_write, slot_write_depth, set_back]

theorem get_condition_branch_without_branch_witness :
    get_condition_branch ([FormElement.AtomicOp 1] ++ [FormElement.Empty]) =
      Except.ok (none, ⟨0⟩) ∧
    slot_read ⟨0⟩ ([FormElement.AtomicOp 1] ++ [FormElement.Empty]) =
      some FormElement.Empty ∧
    ∀ x, slot_write ⟨0⟩ ([FormElement.AtomicOp 1] ++ [FormElement.Empty]) x =
      [FormElement.AtomicOp 1] ++ [x] :=
  get_condition_branch_without_branch [FormElement.AtomicOp 1] FormElement.Empty
    (fun _ h => FormElement.noConfusion h) (fun _ _ h => FormElement.noConfusion h)
    (fun _ _ h => FormElement.noConfusion h)

/-- Claim C21 as stated fails: on the form of the single op `AtomicOp 1`, whose
last element is neither a Branch nor a Return nor a Break, the branch returned
by `get_condition_branch` is null but the slot is not: it is the slot of the
last element, which reads that element and through which the form is
written. -/
theorem get_condition_branch_slot_counterexample :
    get_condition_branch [FormElement.AtomicOp 1] = Except.ok (none, ⟨0⟩) ∧
    slot_read ⟨0⟩ [FormElement.AtomicOp 1] = some (FormElement.AtomicOp 1) ∧
    slot_write ⟨0⟩ [FormElement.AtomicOp 1] FormElement.Empty = [FormElement.Empty] :=
  ⟨rfl, rfl, rfl⟩

/-- Claim C22: on a `ShortCircuit` vertex whose only entry is a block whose
form ends in the branch of the `abs` idiom (likely, LESS_THAN_ZERO_SIGNED,
delay NEGATE with variable 1 in the register of the source of the condition),
`try_sc_as_abs` returns the form of the block with all elements but the last
unchanged and the branch replaced by `SetVar(d, Abs(s))` with
`is_sequence_point = true`, `d` the variable 0 of the delay and `s` the first
source of the condition; it returns null when the vertex does not have exactly
one entry, when the entry is not a block, when the last element is not a
branch and when one of the three checks of the branch fails. -/
theorem sc_abs_recognised (rec_cfg_to_ir : CfgVtx → Res Form) (entries : List CfgVtx) :
    (∀ block_id pre branch d s, entries = [CfgVtx.BlockVtx block_id] →
      rec_cfg_to_ir (CfgVtx.BlockVtx block_id) = Except.ok (pre ++ [FormElement.Branch branch]) →
      is_abs_branch branch d s →
      try_sc_as_abs rec_cfg_to_ir entries =
        Except.ok (some (pre ++ [FormElement.SetVar d
          [FormElement.Abs [FormElement.SimpleAtomElement (SimpleAtom.var s)]] true]))) ∧
    (entries.length ≠ 1 → try_sc_as_abs rec_cfg_to_ir entries = Except.ok none) ∧
    (∀ e, entries = [e] → (∀ block_id, e ≠ CfgVtx.BlockVtx block_id) →
      try_sc_as_abs rec_cfg_to_ir entries = Except.ok none) ∧
    (∀ block_id pre last, entries = [CfgVtx.BlockVtx block_id] →
      rec_cfg_to_ir (CfgVtx.BlockVtx block_id) = Except.ok (pre ++ [last]) →
      as_branch last = none →
      try_sc_as_abs rec_cfg_to_ir entries = Except.ok none) ∧
    (∀ block_id pre branch, entries = [CfgVtx.BlockVtx block_id] →
      rec_cfg_to_ir (CfgVtx.BlockVtx block_id) = Except.ok (pre ++ [FormElement.Branch branch]) →
      abs_checks_fail branch →
      try_sc_as_abs rec_cfg_to_ir entries = Except.ok none) := by
  refine ⟨?_, ?_, ?_, ?_, ?_⟩
  · rintro block_id pre branch d s rfl hrec ⟨hl, hk, hd, hs, hd0, w, hw, hreg⟩
    have h1 : branch.condition.src 0 = Except.ok (SimpleAtom.var s) :=
      (assert_some_eq_ok _ _).mpr hs
    have h2 : branch.branch_delay.var 0 = Except.ok d := (assert_some_eq_ok _ _).mpr hd0
    have h3 : branch.branch_delay.var 1 = Except.ok w := (assert_some_eq_ok _ _).mpr hw
    unfold try_sc_as_abs
    simp only [List.length_singleton, bne_self_eq_false, Bool.false_eq_true, if_false,
      vector_at_zero_cons, ok_bind, hrec, back_concat, as_branch, hl, hk, hd, h1, h2, h3,
      SimpleAtom.is_var, SimpleAtom.get_var, assert_that, hreg, pop_back_concat]
    simp [Except.bind]
  · intro h
    unfold try_sc_as_abs
    rw [if_pos (by simpa using h)]
  · rintro e rfl hne
    unfold try_sc_as_abs
    simp only [List.length_singleton, bne_self_eq_false, Bool.false_eq_true, if_false,
      vector_at_zero_cons, ok_bind]
  · rintro block_id pre last rfl hrec hlast
    unfold try_sc_as_abs
    simp only [List.length_singleton, bne_self_eq_false, Bool.false_eq_true, if_false,
      vector_at_zero_cons, ok_bind, hrec, back_concat, hlast]
  · rintro block_id pre branch rfl hrec hfail
    unfold try_sc_as_abs
    simp only [List.length_singleton, bne_self_eq_false, Bool.false_eq_true, if_false,
      vector_at_zero_cons, ok_bind, hrec, back_concat, as_branch]
    rw [if_pos]
    rcases hfail with h | h | h
    · simp [h]
    · simp [h]
    · simp [h]

theorem sc_abs_recognised_witness :
    is_abs_branch ex_abs_branch ex_v0 ex_v1 ∧
    ex_cfg_to_ir (CfgVtx.BlockVtx 0) =
      Except.ok ([FormElement.AtomicOp 0] ++ [FormElement.Branch ex_abs_branch]) ∧
    try_sc_as_abs ex_cfg_to_ir [CfgVtx.BlockVtx 0] = Except.ok (some ex_abs_out) :=
  ⟨⟨rfl, rfl, rfl, rfl, rfl, ex_v1, rfl, rfl⟩, rfl,
    (sc_abs_recognised ex_cfg_to_ir [CfgVtx.BlockVtx 0]).1 0 [FormElement.AtomicOp 0]
      ex_abs_branch ex_v0 ex_v1 rfl rfl ⟨rfl, rfl, rfl, rfl, rfl, ex_v1, rfl, rfl⟩⟩

/-- Claim C23: whenever `try_sc_as_ash` succeeds, the result is the first
entry's form with its trailing branch replaced by `SetVar(result, Ash(shift,
value, clobber, is_arith))`, where `result` is the variable 0 of the delay,
`shift` the first source of the condition of the branch, `is_arith` is true
when the second element of the second block is a RIGHT_SHIFT_ARITH and false
when it is a RIGHT_SHIFT_LOGIC, and the clobber variable is present exactly
when the destination register of the negation differs from the result
register; so a result that is not null needs two entries, a second block of
exactly two elements (the NEG of the shift-amount register, then the right
shift of the value register by the negated amount into the result register)
and a likely branch with condition GEQ_ZERO_SIGNED and delay DSLLV.  The
function returns null when the vertex does not have two entries and when the
second entry is not a block. -/
theorem sc_ash_recognised (arg_count : SimpleExpressionKind → Nat)
    (rec_cfg_to_ir : CfgVtx → Res Form) (entries : List CfgVtx) :
    (∀ r, try_sc_as_ash arg_count rec_cfg_to_ir entries = Except.ok (some r) →
      AshRecognised arg_count rec_cfg_to_ir entries r) ∧
    (entries.length ≠ 2 →
      try_sc_as_ash arg_count rec_cfg_to_ir entries = Except.ok none) ∧
    (∀ b0 e1, entries = [b0, e1] → (∀ block_id, e1 ≠ CfgVtx.BlockVtx block_id) →
      try_sc_as_ash arg_count rec_cfg_to_ir entries = Except.ok none) := by
  refine ⟨fun r h => sc_ash_shape h, ?_, ?_⟩
  · intro h
    unfold try_sc_as_ash
    rw [if_pos (by simpa using h)]
  · rintro b0 e1 rfl hne
    unfold try_sc_as_ash
    simp only [List.length_cons, List.length_nil, vector_at, List.get?_cons_zero,
      List.get?_cons_succ, ok_bind]
    rw [if_neg (by decide)]

theorem sc_ash_recognised_witness :
    try_sc_as_ash ex_arg_count ex_cfg_to_ir [CfgVtx.BlockVtx 1, CfgVtx.BlockVtx 2] =
      Except.ok (some ex_ash_out) ∧
    AshRecognised ex_arg_count ex_cfg_to_ir [CfgVtx.BlockVtx 1, CfgVtx.BlockVtx 2]
      ex_ash_out :=
  ⟨rfl, (sc_ash_recognised ex_arg_count ex_cfg_to_ir
    [CfgVtx.BlockVtx 1, CfgVtx.BlockVtx 2]).1 ex_ash_out rfl⟩

/-- Claim C24: whenever `try_sc_as_type_of` succeeds, the leading form has
`n >= 2` elements and the result is that form with its last two elements (the
`SetVar` of a left shift by 61 and the branch) removed and one `SetVar(dst,
TypeOf(src, clobber))` with `is_sequence_point = true` appended, so it has
`n - 1` elements with the first `n - 2` unchanged; `src` is the first argument
of the shift, `dst` the destination of the load of the else case, and the
clobber variable is present exactly when the temporary register of the shift
differs from the destination register. -/
theorem sc_type_of_recognised (rec_cfg_to_ir : CfgVtx → Res Form) (entries : List CfgVtx)
    (r : Form) (h : try_sc_as_type_of rec_cfg_to_ir entries = Except.ok (some r)) :
    ∃ lead, TypeOfRecognised rec_cfg_to_ir entries lead r ∧
      2 ≤ lead.length ∧ r.length + 1 = lead.length ∧
      r.take (lead.length - 2) = lead.take (lead.length - 2) := by
  obtain ⟨b0, id1, id2, pre, shift_elt, fb, sb, else_elt, temp, src, dst, t, h1, h2, h3,
    h4, h5, h6, h7, h8, h9⟩ := sc_type_of_shape h
  refine ⟨pre ++ [shift_elt, FormElement.Branch fb],
    ⟨b0, id1, id2, pre, shift_elt, fb, sb, else_elt, temp, src, dst, t, h1, h2, rfl, h3,
      h4, h5, h6, h7, h8, h9⟩, by simp, by simp [h9], ?_⟩
  rw [h9]
  simp

theorem sc_type_of_recognised_witness :
    try_sc_as_type_of ex_cfg_to_ir
      [CfgVtx.BlockVtx 3, CfgVtx.BlockVtx 4, CfgVtx.BlockVtx 5] =
      Except.ok (some ex_type_of_out) ∧
    ∃ lead, TypeOfRecognised ex_cfg_to_ir
        [CfgVtx.BlockVtx 3, CfgVtx.BlockVtx 4, CfgVtx.BlockVtx 5] lead ex_type_of_out ∧
      2 ≤ lead.length ∧ ex_type_of_out.length + 1 = lead.length ∧
      ex_type_of_out.take (lead.length - 2) = lead.take (lead.length - 2) :=
  ⟨rfl, sc_type_of_recognised ex_cfg_to_ir
    [CfgVtx.BlockVtx 3, CfgVtx.BlockVtx 4, CfgVtx.BlockVtx 5] ex_type_of_out rfl⟩

/-- Claim C25: `merge_cond_else_with_sc_cond` returns null (the model is pure:
nothing is modified) exactly when the else form does not have two elements or
its first element is not a `ShortCircuit` or its second is not a `CondNoElse`;
otherwise, for a `CondWithElse` vertex with `c >= 1` entries and a nested cond
with `d` entries on which cleaning completes, it returns a single-element form
holding a `CondNoElse` with `c + d` entries: the `c` translated entries of the
vertex in order, as `clean_up_cond_no_else` leaves them, then the nested
entries in order, where the condition of entry `c` is the leading
`ShortCircuit` element followed by the elements of the former condition of the
first nested entry, and the nested entries, which the translator has cleaned,
are otherwise unchanged. -/
theorem merge_cond_else_with_sc_cond_spec (invert : ConditionKind → ConditionKind)
    (rec_cfg_to_ir : CfgVtx → Res Form) (cwe_entries : List (CfgCondEntry CfgVtx)) :
    (∀ else_ir,
      merge_cond_else_with_sc_cond invert rec_cfg_to_ir cwe_entries else_ir = Except.ok none ↔
        (else_ir.length ≠ 2 ∨
         (∀ sc, else_ir.get? 0 ≠ some (FormElement.ShortCircuit sc)) ∨
         (∀ cne, else_ir.get? 1 ≠ some (FormElement.CondNoElse cne)))) ∧
    (∀ sc second front translated result1,
      cwe_entries ≠ [] →
      second.entries.head? = some front →
      cond_no_else_entries rec_cfg_to_ir cwe_entries = Except.ok translated →
      clean_up_cond_no_else invert
        [FormElement.CondNoElse (CondNoElseElement_new
          (translated ++ merged_nested_entries (FormElement.ShortCircuit sc) front second))]
        0 = Except.ok result1 →
      ∃ out, result1 = [FormElement.CondNoElse out] ∧
        merge_cond_else_with_sc_cond invert rec_cfg_to_ir cwe_entries
          [FormElement.ShortCircuit sc, FormElement.CondNoElse second] =
          Except.ok (some [FormElement.CondNoElse out]) ∧
        MergedCond invert cwe_entries.length translated (FormElement.ShortCircuit sc) front
          second out) := by
  refine ⟨fun else_ir => merge_none_iff invert rec_cfg_to_ir cwe_entries else_ir, ?_⟩
  intro sc second front translated result1 hc hfront htr hclean
  obtain ⟨out, h1, h2, h3, h4, h5⟩ := merge_some_shape invert rec_cfg_to_ir cwe_entries sc
    second front translated result1 hc hfront htr hclean
  exact ⟨out, h1, h2, h3, h4, h5⟩

theorem merge_cond_else_with_sc_cond_spec_witness :
    ex_cwe_vtx_entries ≠ [] ∧
    cond_no_else_entries ex_cfg_to_ir ex_cwe_vtx_entries = Except.ok ex_translated ∧
    merge_cond_else_with_sc_cond ex_invert ex_cfg_to_ir ex_cwe_vtx_entries ex_else_ir =
      Except.ok (some ex_merged) ∧
    ∃ out, ex_merged = [FormElement.CondNoElse out] ∧
      merge_cond_else_with_sc_cond ex_invert ex_cfg_to_ir ex_cwe_vtx_entries
        [FormElement.ShortCircuit ex_sc_and3_out, FormElement.CondNoElse ex_cne_cleaned] =
        Except.ok (some [FormElement.CondNoElse out]) ∧
      MergedCond ex_invert ex_cwe_vtx_entries.length ex_translated
        (FormElement.ShortCircuit ex_sc_and3_out)
        { condition := [FormElement.Condition
            { kind := ConditionKind.OTHER 0, srcs := [SimpleAtom.var ex_a0] }],
          body := [FormElement.AtomicOp 5],
          cleaned := true, false_destination := some ex_v0,
          original_condition_branch := some (FormElement.Branch
            (ex_branch ConditionKind.ZERO BranchDelayKind.SET_REG_FALSE 1)) }
        ex_cne_cleaned out :=
  ⟨List.cons_ne_nil _ _, rfl, rfl,
    (merge_cond_else_with_sc_cond_spec ex_invert ex_cfg_to_ir ex_cwe_vtx_entries).2
      ex_sc_and3_out ex_cne_cleaned _ ex_translated ex_merged (List.cons_ne_nil _ _) rfl
      rfl rfl⟩

/-- Claim C26: `cfg_to_ir` on a Block vertex whose ops exist returns the form
whose elements are the forms of the atomic ops with indices
`first_op .. end_op - 1` of that block, in order (`end_op - first_op`
elements); on a Sequence vertex whose descendants are blocks and sequences it
returns one flat form, the left-to-right concatenation of the op forms of
those blocks, whatever the nesting of the sequences; and on any Sequence
vertex the translated elements of each child are inlined in place: the result
is the concatenation of the translations of the children. -/
theorem cfg_to_ir_block_and_sequence (args_right_to_left : CfgVtx → Bool)
    (invert : ConditionKind → ConditionKind)
    (arg_count : SimpleExpressionKind → Nat) (func : Function)
    (atomic_ops : FunctionAtomicOps) :
    (∀ block_id first_op end_op,
      atomic_ops.block_id_to_first_atomic_op.get? block_id = some first_op →
      atomic_ops.block_id_to_end_atomic_op.get? block_id = some end_op →
      end_op ≤ atomic_ops.ops.length →
      cfg_to_ir args_right_to_left invert arg_count func atomic_ops (CfgVtx.BlockVtx block_id) =
        Except.ok ((atomic_ops.ops.take end_op).drop first_op) ∧
      ((atomic_ops.ops.take end_op).drop first_op).length = end_op - first_op) ∧
    (∀ seq, only_blocks_list atomic_ops seq = true →
      cfg_to_ir args_right_to_left invert arg_count func atomic_ops (CfgVtx.SequenceVtx seq) =
        Except.ok (flat_op_forms_list atomic_ops seq)) ∧
    (∀ seq forms,
      List.Forall₂
        (fun c ir => cfg_to_ir args_right_to_left invert arg_count func atomic_ops c = Except.ok ir)
        seq forms →
      cfg_to_ir args_right_to_left invert arg_count func atomic_ops (CfgVtx.SequenceVtx seq) =
        Except.ok forms.flatten) := by
  refine ⟨?_, cfg_to_ir_only_blocks_list args_right_to_left invert arg_count func atomic_ops,
    cfg_to_ir_sequence_join args_right_to_left invert arg_count func atomic_ops⟩
  intro block_id first_op end_op hf he hle
  have hr : block_in_range atomic_ops block_id = true := by
    unfold block_in_range
    rw [hf, he]
    exact decide_eq_true hle
  have hb : block_op_forms atomic_ops block_id =
      (atomic_ops.ops.take end_op).drop first_op := by
    unfold block_op_forms
    rw [hf, he]
  constructor
  · rw [cfg_to_ir_block, push_block_ops_eq atomic_ops block_id [] hr, hb]
    rfl
  · simp only [List.length_drop, List.length_take]
    omega

theorem cfg_to_ir_block_and_sequence_witness :
    (ex_cfg_to_ir (CfgVtx.BlockVtx 0) =
        Except.ok ((ex_atomic_ops.ops.take 2).drop 0) ∧
      ((ex_atomic_ops.ops.take 2).drop 0).length = 2 - 0) ∧
    ex_cfg_to_ir (CfgVtx.SequenceVtx
        [CfgVtx.BlockVtx 6,
         CfgVtx.SequenceVtx [CfgVtx.BlockVtx 0, CfgVtx.SequenceVtx []]]) =
      Except.ok [FormElement.AtomicOp 9, FormElement.AtomicOp 0,
        FormElement.Branch ex_abs_branch] ∧
    ex_cfg_to_ir (CfgVtx.SequenceVtx
        [CfgVtx.BlockVtx 6, CfgVtx.ShortCircuit [CfgVtx.BlockVtx 0]]) =
      Except.ok (FormElement.AtomicOp 9 :: ex_abs_out) :=
  ⟨(cfg_to_ir_block_and_sequence ex_right_to_left ex_invert ex_arg_count ex_func ex_atomic_ops).1 0 0 2
      rfl rfl (by decide),
    (cfg_to_ir_block_and_sequence ex_right_to_left ex_invert ex_arg_count ex_func ex_atomic_ops).2.1
      [CfgVtx.BlockVtx 6, CfgVtx.SequenceVtx [CfgVtx.BlockVtx 0, CfgVtx.SequenceVtx []]]
      rfl,
    (cfg_to_ir_block_and_sequence ex_right_to_left ex_invert ex_arg_count ex_func ex_atomic_ops).2.2
      [CfgVtx.BlockVtx 6, CfgVtx.ShortCircuit [CfgVtx.BlockVtx 0]]
      [[FormElement.AtomicOp 9], ex_abs_out]
      (List.Forall₂.cons rfl (List.Forall₂.cons rfl List.Forall₂.nil))⟩

/-- Claim C27, amended: `cfg_to_ir` fails with the recoverable error
"Weird short circuit form." on every `ShortCircuit` vertex that has exactly
one entry and is rejected by `try_sc_as_abs`, and fails with the error
"not yet implemented IR conversion." on every vertex whose class is none of
Block, Sequence, WhileLoop, UntilLoop, single-block UntilLoop, InfiniteLoop,
CondWithElse, ShortCircuit, CondNoElse, GotoEnd, Break; a `ShortCircuit`
vertex with two or more entries fails with a recoverable error only when the
translation of one of its entries fails with that error. -/
theorem cfg_to_ir_recoverable_errors (args_right_to_left : CfgVtx → Bool)
    (invert : ConditionKind → ConditionKind)
    (arg_count : SimpleExpressionKind → Nat) (func : Function)
    (atomic_ops : FunctionAtomicOps) :
    (∀ e, try_sc_as_abs (cfg_to_ir args_right_to_left invert arg_count func atomic_ops) [e] = Except.ok none →
      cfg_to_ir args_right_to_left invert arg_count func atomic_ops (CfgVtx.ShortCircuit [e]) =
        Except.error (Err.runtime_error "Weird short circuit form.")) ∧
    (∀ n, cfg_to_ir args_right_to_left invert arg_count func atomic_ops (CfgVtx.Other n) =
      Except.error (Err.runtime_error "not yet implemented IR conversion.")) ∧
    (∀ entries msg, 2 ≤ entries.length →
      (∀ e ∈ entries, never_raises msg (cfg_to_ir args_right_to_left invert arg_count func atomic_ops e)) →
      never_raises msg
        (cfg_to_ir args_right_to_left invert arg_count func atomic_ops (CfgVtx.ShortCircuit entries))) := by
  refine ⟨?_, ?_, ?_⟩
  · intro e h
    rw [cfg_to_ir_eq]
    have h1 : try_sc_as_type_of (cfg_to_ir args_right_to_left invert arg_count func atomic_ops) [e] =
        Except.ok none := by
      unfold try_sc_as_type_of
      rw [if_pos (by simp)]
    have h2 : try_sc_as_ash arg_count (cfg_to_ir args_right_to_left invert arg_count func atomic_ops) [e] =
        Except.ok none := by
      unfold try_sc_as_ash
      rw [if_pos (by simp)]
    simp only [cfg_to_ir_body, h1, h2, h, ok_bind]
    rfl
  · intro n
    rw [cfg_to_ir_eq]
    rfl
  · intro entries msg hlen hrec
    exact nr_cfg_to_ir_short_circuit msg args_right_to_left invert arg_count func atomic_ops entries
      (by omega) hrec

theorem cfg_to_ir_recoverable_errors_witness :
    try_sc_as_abs ex_cfg_to_ir [CfgVtx.BlockVtx 6] = Except.ok none ∧
    ex_cfg_to_ir (CfgVtx.ShortCircuit [CfgVtx.BlockVtx 6]) =
      Except.error (Err.runtime_error "Weird short circuit form.") ∧
    never_raises "Weird short circuit form."
      (ex_cfg_to_ir (CfgVtx.ShortCircuit [CfgVtx.BlockVtx 1, CfgVtx.BlockVtx 2])) :=
  ⟨rfl,
    (cfg_to_ir_recoverable_errors ex_right_to_left ex_invert ex_arg_count ex_func ex_atomic_ops).1
      (CfgVtx.BlockVtx 6) rfl,
    (cfg_to_ir_recoverable_errors ex_right_to_left ex_invert ex_arg_count ex_func ex_atomic_ops).2.2
      [CfgVtx.BlockVtx 1, CfgVtx.BlockVtx 2] "Weird short circuit form." (by decide)
      (by
        intro e he
        simp only [List.mem_cons, List.mem_singleton, List.not_mem_nil, or_false] at he
        rcases he with rfl | rfl
        · have h1 : cfg_to_ir ex_right_to_left ex_invert ex_arg_count ex_func ex_atomic_ops
              (CfgVtx.BlockVtx 1) = Except.ok [FormElement.Branch ex_ash_branch] := rfl
          rw [h1]
          exact nr_ok _ _
        · have h2 : cfg_to_ir ex_right_to_left ex_invert ex_arg_count ex_func ex_atomic_ops
              (CfgVtx.BlockVtx 2) = Except.ok [ex_dsubu, ex_dsrav] := rfl
          rw [h2]
          exact nr_ok _ _)⟩

/-- Claim C27 as stated fails: the `ShortCircuit` vertex below has two
entries, and `cfg_to_ir` fails on it with "Weird short circuit form.": its
first entry is a `ShortCircuit` vertex whose single entry, block 6, does not
end in a branch, and `try_sc_as_ash` translates the first entry of a vertex
of two entries. -/
theorem nested_short_circuit_counterexample :
    [CfgVtx.ShortCircuit [CfgVtx.BlockVtx 6], CfgVtx.BlockVtx 6].length = 2 ∧
    ex_cfg_to_ir (CfgVtx.BlockVtx 6) = Except.ok [FormElement.AtomicOp 9] ∧
    ex_cfg_to_ir (CfgVtx.ShortCircuit [CfgVtx.BlockVtx 6]) =
      Except.error (Err.runtime_error "Weird short circuit form.") ∧
    ex_cfg_to_ir
        (CfgVtx.ShortCircuit [CfgVtx.ShortCircuit [CfgVtx.BlockVtx 6], CfgVtx.BlockVtx 6]) =
      Except.error (Err.runtime_error "Weird short circuit form.") :=
  ⟨rfl, rfl, rfl, rfl⟩

/-- Claim C28: `build_initial_forms` assigns `top_form` only when the CFG is
fully resolved and the translation, the pass of `clean_up_while_loops` over
the forms and the pass of `clean_up_cond_no_else_final` over the elements all
complete.  When `is_fully_resolved()` is false the function state is left
unchanged.  When the translation raises a runtime error ("Weird short circuit
form.", "not yet implemented IR conversion." or any other message), or one of
the two passes does, `build_initial_forms` returns normally with the state,
`top_form` included, as it was.  When the CFG is resolved and the translation
gives `elts`, the first pass turns `elts` into `result1` and the second pass
turns `result1` into `result2`, the state returned is the state before with
`top_form` set to `result2`.  A call that returns has either left the state
as it was or has run the three steps to their end and stored their result.
When the CFG is resolved and one of the three steps stops in another way than
by a runtime error, the call stops in that way and returns no state. -/
theorem build_initial_forms_top_form (args_right_to_left : CfgVtx → Bool)
    (invert : ConditionKind → ConditionKind)
    (arg_count : SimpleExpressionKind → Nat)
    (apply_form : (Form → Res Form) → Form → Res Form)
    (apply : (FormElement → Res FormElement) → Form → Res Form)
    (function : FunctionState) :
    (function.cfg_is_fully_resolved = false →
      build_initial_forms args_right_to_left invert arg_count apply_form apply function =
        Except.ok function) ∧
    (∀ msg,
      insert_cfg_into_list function.atomic_ops
        (cfg_to_ir args_right_to_left invert arg_count function.ir2 function.atomic_ops)
        function.cfg_single_top_level [] = Except.error (Err.runtime_error msg) →
      build_initial_forms args_right_to_left invert arg_count apply_form apply function =
        Except.ok function) ∧
    (∀ elts msg,
      insert_cfg_into_list function.atomic_ops
        (cfg_to_ir args_right_to_left invert arg_count function.ir2 function.atomic_ops)
        function.cfg_single_top_level [] = Except.ok elts →
      apply_form clean_up_while_loops elts = Except.error (Err.runtime_error msg) →
      build_initial_forms args_right_to_left invert arg_count apply_form apply function =
        Except.ok function) ∧
    (∀ elts result1 msg,
      insert_cfg_into_list function.atomic_ops
        (cfg_to_ir args_right_to_left invert arg_count function.ir2 function.atomic_ops)
        function.cfg_single_top_level [] = Except.ok elts →
      apply_form clean_up_while_loops elts = Except.ok result1 →
      apply (apply_clean_up_cond_no_else_final function.ir2) result1 =
        Except.error (Err.runtime_error msg) →
      build_initial_forms args_right_to_left invert arg_count apply_form apply function =
        Except.ok function) ∧
    (∀ elts result1 result2, function.cfg_is_fully_resolved = true →
      insert_cfg_into_list function.atomic_ops
        (cfg_to_ir args_right_to_left invert arg_count function.ir2 function.atomic_ops)
        function.cfg_single_top_level [] = Except.ok elts →
      apply_form clean_up_while_loops elts = Except.ok result1 →
      apply (apply_clean_up_cond_no_else_final function.ir2) result1 =
        Except.ok result2 →
      build_initial_forms args_right_to_left invert arg_count apply_form apply function =
        Except.ok { function with top_form := some result2 }) ∧
    (∀ function1,
      build_initial_forms args_right_to_left invert arg_count apply_form apply function =
        Except.ok function1 →
      function1 = function ∨
      (function.cfg_is_fully_resolved = true ∧
        ∃ elts result1 result2,
          insert_cfg_into_list function.atomic_ops
            (cfg_to_ir args_right_to_left invert arg_count function.ir2
              function.atomic_ops)
            function.cfg_single_top_level [] = Except.ok elts ∧
          apply_form clean_up_while_loops elts = Except.ok result1 ∧
          apply (apply_clean_up_cond_no_else_final function.ir2) result1 =
            Except.ok result2 ∧
          function1 = { function with top_form := some result2 })) ∧
    (∀ err, function.cfg_is_fully_resolved = true →
      (∀ msg, err ≠ Err.runtime_error msg) →
      (insert_cfg_into_list function.atomic_ops
          (cfg_to_ir args_right_to_left invert arg_count function.ir2 function.atomic_ops)
          function.cfg_single_top_level [] = Except.error err ∨
        ∃ elts,
          insert_cfg_into_list function.atomic_ops
            (cfg_to_ir args_right_to_left invert arg_count function.ir2
              function.atomic_ops)
            function.cfg_single_top_level [] = Except.ok elts ∧
          (apply_form clean_up_while_loops elts = Except.error err ∨
            ∃ result1,
              apply_form clean_up_while_loops elts = Except.ok result1 ∧
              apply (apply_clean_up_cond_no_else_final function.ir2) result1 =
                Except.error err)) →
      build_initial_forms args_right_to_left invert arg_count apply_form apply function =
        Except.error err) := by
  have htry := build_initial_forms_try_eq args_right_to_left invert arg_count apply_form
    apply function
  have hmsg : ∀ msg,
      build_initial_forms_try args_right_to_left invert arg_count apply_form apply function =
        Except.error (Err.runtime_error msg) →
      build_initial_forms args_right_to_left invert arg_count apply_form apply function =
        Except.ok function := by
    intro msg h
    unfold build_initial_forms
    rw [h]
    by_cases hr : (!function.cfg_is_fully_resolved) = true
    · rw [if_pos hr]
    · rw [if_neg hr]
  have herr : ∀ err, function.cfg_is_fully_resolved = true →
      (∀ msg, err ≠ Err.runtime_error msg) →
      build_initial_forms_try args_right_to_left invert arg_count apply_form apply function =
        Except.error err →
      build_initial_forms args_right_to_left invert arg_count apply_form apply function =
        Except.error err := by
    intro err hres hne h
    unfold build_initial_forms
    rw [if_neg (by simp [hres]), h]
    cases err with
    | runtime_error msg => exact absurd rfl (hne msg)
    | assertion => rfl
    | undefined => rfl
    | out_of_range => rfl
    | out_of_fuel => rfl
  refine ⟨?_, ?_, ?_, ?_, ?_, ?_, ?_⟩
  · intro h
    unfold build_initial_forms
    rw [if_pos (by simp [h])]
  · intro msg h
    apply hmsg msg
    rw [htry, h]
    rfl
  · intro elts msg h h1
    apply hmsg msg
    rw [htry, h]
    simp only [Except.bind]
    rw [h1]
  · intro elts result1 msg h h1 h2
    apply hmsg msg
    rw [htry, h]
    simp only [Except.bind]
    rw [h1]
    exact h2
  · intro elts result1 result2 hres h h1 h2
    have ht : build_initial_forms_try args_right_to_left invert arg_count apply_form apply
        function = Except.ok result2 := by
      rw [htry, h]
      simp only [Except.bind]
      rw [h1]
      exact h2
    unfold build_initial_forms
    rw [if_neg (by simp [hres]), ht]
  · intro function1 h
    unfold build_initial_forms at h
    by_cases hr : (!function.cfg_is_fully_resolved) = true
    · rw [if_pos hr] at h
      injection h with h
      exact Or.inl h.symm
    · rw [if_neg hr] at h
      cases ht : build_initial_forms_try args_right_to_left invert arg_count apply_form
          apply function with
      | ok result =>
          rw [ht] at h
          injection h with h
          rw [htry] at ht
          obtain ⟨elts, he, ht1⟩ := (bind_eq_ok _ _ _).1 ht
          obtain ⟨result1, h1, h2⟩ := (bind_eq_ok _ _ _).1 ht1
          exact Or.inr ⟨by simpa using hr, elts, result1, result, he, h1, h2, h.symm⟩
      | error err =>
          rw [ht] at h
          cases err with
          | runtime_error msg =>
              injection h with h
              exact Or.inl h.symm
          | assertion => exact absurd h (by simp)
          | undefined => exact absurd h (by simp)
          | out_of_range => exact absurd h (by simp)
          | out_of_fuel => exact absurd h (by simp)
  · intro err hres hne h
    apply herr err hres hne
    rw [htry]
    rcases h with h | ⟨elts, h, h1 | ⟨result1, h1, h2⟩⟩
    · rw [h]
      rfl
    · rw [h]
      simp only [Except.bind]
      rw [h1]
    · rw [h]
      simp only [Except.bind]
      rw [h1]
      exact h2

theorem build_initial_forms_top_form_witness :
    (insert_cfg_into_list ex_function_unknown.atomic_ops
        (cfg_to_ir ex_right_to_left ex_invert ex_arg_count ex_function_unknown.ir2
          ex_function_unknown.atomic_ops)
        ex_function_unknown.cfg_single_top_level [] =
        Except.error (Err.runtime_error "not yet implemented IR conversion.") ∧
      build_initial_forms ex_right_to_left ex_invert ex_arg_count ex_apply_form ex_apply
          ex_function_unknown =
        Except.ok ex_function_unknown) ∧
    (insert_cfg_into_list ex_function_loop.atomic_ops
        (cfg_to_ir ex_right_to_left ex_invert ex_arg_count ex_function_loop.ir2
          ex_function_loop.atomic_ops)
        ex_function_loop.cfg_single_top_level [] = Except.ok ex_loop_elts ∧
      ex_apply_form clean_up_while_loops ex_loop_elts = Except.ok ex_loop_result1 ∧
      ex_apply (apply_clean_up_cond_no_else_final ex_function_loop.ir2) ex_loop_result1 =
        Except.ok ex_loop_result2 ∧
      ex_loop_elts ≠ ex_loop_result1 ∧ ex_loop_result1 ≠ ex_loop_result2 ∧
      build_initial_forms ex_right_to_left ex_invert ex_arg_count ex_apply_form ex_apply
          ex_function_loop =
        Except.ok { ex_function_loop with top_form := some ex_loop_result2 }) ∧
    (ex_apply_form clean_up_while_loops
        [FormElement.While
          [FormElement.Branch (ex_branch ConditionKind.ZERO BranchDelayKind.NOP 2)]
          [FormElement.AtomicOp 1] false] = Except.error Err.assertion ∧
      build_initial_forms ex_right_to_left ex_invert ex_arg_count ex_apply_form ex_apply
          ex_function_loop_first =
        Except.error Err.assertion) ∧
    (build_initial_forms ex_right_to_left ex_invert ex_arg_count ex_apply_form ex_apply
        ex_function_loop_cond =
      Except.error Err.assertion) :=
  ⟨⟨rfl,
      (build_initial_forms_top_form ex_right_to_left ex_invert ex_arg_count ex_apply_form
        ex_apply ex_function_unknown).2.1 "not yet implemented IR conversion." rfl⟩,
    ⟨rfl, rfl, rfl,
      (by intro h; exact absurd (congrArg List.length h) (by decide)),
      (by
        intro h
        have h1 := congrArg (fun l => (l.get? 1).bind as_cond_no_else) h
        have h2 := congrArg (Option.map fun c => c.final_destination) h1
        exact absurd h2 (by decide)),
      (build_initial_forms_top_form ex_right_to_left ex_invert ex_arg_count ex_apply_form
        ex_apply ex_function_loop).2.2.2.2.1 ex_loop_elts ex_loop_result1 ex_loop_result2
        rfl rfl rfl rfl⟩,
    ⟨rfl,
      (build_initial_forms_top_form ex_right_to_left ex_invert ex_arg_count ex_apply_form
        ex_apply ex_function_loop_first).2.2.2.2.2.2 Err.assertion rfl
        (by intro msg h; cases h)
        (Or.inr ⟨[FormElement.While
          [FormElement.Branch (ex_branch ConditionKind.ZERO BranchDelayKind.NOP 2)]
          [FormElement.AtomicOp 1] false], rfl, Or.inl rfl⟩)⟩,
    (build_initial_forms_top_form ex_right_to_left ex_invert ex_arg_count ex_apply_form
      ex_apply ex_function_loop_cond).2.2.2.2.2.2 Err.assertion rfl
      (by intro msg h; cases h)
      (Or.inr ⟨[FormElement.CondNoElse
          { entries :=
              [{ condition := [FormElement.Condition
                  { kind := ConditionKind.OTHER 0, srcs := [SimpleAtom.var ex_a0] }],
                 body := [FormElement.AtomicOp 4],
                 cleaned := true, false_destination := none,
                 original_condition_branch := some (FormElement.Branch
                  (ex_branch ConditionKind.ZERO BranchDelayKind.NOP 2)) }],
            final_destination := 0, used_as_value := false }],
        rfl, Or.inr ⟨_, rfl, rfl⟩⟩)⟩

/-- Claim C29: whenever `try_clean_up_sc_as_and` or `try_clean_up_sc_as_or`
succeeds on a `ShortCircuit` with at least two entries and liveness is
available, `used_as_value` is true if and only if the register of
`final_result` is not in the `written_and_unused` set of the op of the final
processed branch, that of the last non-last entry, and this is the same
verdict as for the branch of the first entry and of every other non-last
entry; when liveness is not available `used_as_value` is false. -/
theorem sc_used_as_value_iff_live (invert : ConditionKind → ConditionKind)
    (func : Function) (ir out : ShortCircuitElement)
    (hn : 2 ≤ ir.entries.length)
    (h : try_clean_up_sc_as_and invert func ir = Except.ok (true, out) ∨
      try_clean_up_sc_as_or func ir = Except.ok (true, out)) :
    (func.has_reg_use = true →
      (∀ e, (ir.entries.take (ir.entries.length - 1)).getLast? = some e →
        ∃ b s info, get_condition_branch e.condition = Except.ok (some b, s) ∧
          func.reg_use_op.get? b.op_id = some info ∧
          (out.used_as_value = true ↔
            info.written_and_unused.contains out.final_result.reg = false)) ∧
      (∀ e ∈ ir.entries.take (ir.entries.length - 1),
        ∃ b s info, get_condition_branch e.condition = Except.ok (some b, s) ∧
          func.reg_use_op.get? b.op_id = some info ∧
          (out.used_as_value = true ↔
            info.written_and_unused.contains out.final_result.reg = false))) ∧
    (func.has_reg_use = false → out.used_as_value = false) := by
  have key : (func.has_reg_use = true →
      ∀ e ∈ ir.entries.take (ir.entries.length - 1),
        ∃ b s info, get_condition_branch e.condition = Except.ok (some b, s) ∧
          func.reg_use_op.get? b.op_id = some info ∧
          out.used_as_value = !(info.written_and_unused.contains out.final_result.reg)) ∧
      (func.has_reg_use = false → out.used_as_value = false) := by
    rcases h with h | h
    · exact try_as_used_as_value h hn
    · exact try_as_used_as_value h hn
  have hall : func.has_reg_use = true →
      ∀ e ∈ ir.entries.take (ir.entries.length - 1),
        ∃ b s info, get_condition_branch e.condition = Except.ok (some b, s) ∧
          func.reg_use_op.get? b.op_id = some info ∧
          (out.used_as_value = true ↔
            info.written_and_unused.contains out.final_result.reg = false) := by
    intro hu e he
    obtain ⟨b, s, info, h1, h2, h3⟩ := key.1 hu e he
    refine ⟨b, s, info, h1, h2, ?_⟩
    rw [h3]
    simp
  exact ⟨fun hu => ⟨fun e he => hall hu e (List.mem_of_getLast?_eq_some he), hall hu⟩,
    key.2⟩

theorem sc_used_as_value_iff_live_witness :
    try_clean_up_sc_as_and ex_invert ex_func_used ex_sc_and3 =
      Except.ok (true, { ex_sc_and3_out with used_as_value := true }) ∧
    ((ex_func_used.has_reg_use = true →
      (∀ e, (ex_sc_and3.entries.take (ex_sc_and3.entries.length - 1)).getLast? = some e →
        ∃ b s info, get_condition_branch e.condition = Except.ok (some b, s) ∧
          ex_func_used.reg_use_op.get? b.op_id = some info ∧
          (true = true ↔ info.written_and_unused.contains ex_v0.reg = false)) ∧
      (∀ e ∈ ex_sc_and3.entries.take (ex_sc_and3.entries.length - 1),
        ∃ b s info, get_condition_branch e.condition = Except.ok (some b, s) ∧
          ex_func_used.reg_use_op.get? b.op_id = some info ∧
          (true = true ↔ info.written_and_unused.contains ex_v0.reg = false))) ∧
    (ex_func_used.has_reg_use = false → true = false)) :=
  ⟨rfl, sc_used_as_value_iff_live ex_invert ex_func_used ex_sc_and3
    { ex_sc_and3_out with used_as_value := true } (by decide) (Or.inl rfl)⟩

/-- Claim C30, amended: in `try_clean_up_sc_as_and`, when the scan accepts the
entries and a non-last entry after the first gives a liveness verdict for the
result register that differs from the verdict of the first entry, recognition
is aborted: the difference is logged and the call then stops on the assertion
`live_out_result == this_live_out`; it does not return. -/
theorem try_and_stops_on_liveness_disagreement (invert : ConditionKind → ConditionKind)
    (func : Function) (ir : ShortCircuitElement)
    (h1 : all_non_last_set delay_slot_sets_false ir = true)
    (h2 : liveness_disagrees func ir) :
    try_clean_up_sc_as_and invert func ir = Except.error Err.assertion ∧
    liveness_agrees func ir = false :=
  ⟨try_as_assertion_of_disagreement h1 h2, not_agrees_of_disagrees h2⟩

theorem try_and_stops_on_liveness_disagreement_witness :
    all_non_last_set delay_slot_sets_false ex_sc_and3 = true ∧
    liveness_disagrees ex_func_live ex_sc_and3 ∧
    try_clean_up_sc_as_and ex_invert ex_func_live ex_sc_and3 =
      Except.error Err.assertion ∧
    liveness_agrees ex_func_live ex_sc_and3 = false :=
  ⟨by decide,
    ⟨rfl, ex_entry ConditionKind.ZERO BranchDelayKind.SET_REG_FALSE 0, [],
      ex_entry ConditionKind.ZERO BranchDelayKind.SET_REG_FALSE 1, [],
      ex_branch ConditionKind.ZERO BranchDelayKind.SET_REG_FALSE 0, 2, true,
      ex_branch ConditionKind.ZERO BranchDelayKind.SET_REG_FALSE 1,
      rfl, rfl, rfl, rfl, rfl, rfl, rfl⟩,
    try_and_stops_on_liveness_disagreement ex_invert ex_func_live ex_sc_and3 (by decide)
      ⟨rfl, ex_entry ConditionKind.ZERO BranchDelayKind.SET_REG_FALSE 0, [],
        ex_entry ConditionKind.ZERO BranchDelayKind.SET_REG_FALSE 1, [],
        ex_branch ConditionKind.ZERO BranchDelayKind.SET_REG_FALSE 0, 2, true,
        ex_branch ConditionKind.ZERO BranchDelayKind.SET_REG_FALSE 1,
        rfl, rfl, rfl, rfl, rfl, rfl, rfl⟩⟩

/-- Claim C30 as stated fails: in `ex_sc_and3` with the liveness of
`ex_func_live` the branch of entry 0 (op 0) finds the result register `v0`
live and the branch of entry 1 (op 1) finds it dead; `try_clean_up_sc_as_and`
stops on the assertion `live_out_result == this_live_out` and returns
nothing, neither true nor an element of kind AND. -/
theorem try_and_disagreement_counterexample :
    live_out ex_func_live ex_v0.reg
      (ex_branch ConditionKind.ZERO BranchDelayKind.SET_REG_FALSE 0) = some true ∧
    live_out ex_func_live ex_v0.reg
      (ex_branch ConditionKind.ZERO BranchDelayKind.SET_REG_FALSE 1) = some false ∧
    try_clean_up_sc_as_and ex_invert ex_func_live ex_sc_and3 =
      Except.error Err.assertion ∧
    ¬ ∃ out, try_clean_up_sc_as_and ex_invert ex_func_live ex_sc_and3 =
      Except.ok (true, out) := by
  refine ⟨rfl, rfl, rfl, ?_⟩
  rintro ⟨out, hout⟩
  have herr : try_clean_up_sc_as_and ex_invert ex_func_live ex_sc_and3
      = Except.error Err.assertion := rfl
  rw [herr] at hout
  cases hout

/-- Claim C31: `try_clean_up_sc_as_and` and `try_clean_up_sc_as_or` are atomic
on rejection: whenever either returns false, the `ShortCircuit` element (its
kind, `final_result`, `used_as_value`, its entries and every element of the
condition form of every entry) is exactly as it was before the call, so the
next alternative in `clean_up_sc` sees the original input: after a rejection
by the and-recogniser `clean_up_sc` continues with the or-recogniser on the
original element, and after a rejection by both with
`try_splitting_nested_sc` on the original element. -/
theorem sc_recognisers_atomic_on_rejection (invert : ConditionKind → ConditionKind)
    (func : Function) (ir out : ShortCircuitElement) :
    (try_clean_up_sc_as_and invert func ir = Except.ok (false, out) → out = ir) ∧
    (try_clean_up_sc_as_or func ir = Except.ok (false, out) → out = ir) ∧
    (1 < ir.entries.length →
      try_clean_up_sc_as_and invert func ir = Except.ok (false, out) →
      clean_up_sc invert func ir =
        (try_clean_up_sc_as_or func ir).bind fun r2 =>
        if r2.1 then Except.ok r2.2
        else
          (try_splitting_nested_sc (clean_up_sc invert func) r2.2).bind fun r3 =>
          if r3.1 then Except.ok r3.2 else Except.error Err.assertion) ∧
    (1 < ir.entries.length →
      try_clean_up_sc_as_and invert func ir = Except.ok (false, ir) →
      try_clean_up_sc_as_or func ir = Except.ok (false, out) →
      clean_up_sc invert func ir =
        (try_splitting_nested_sc (clean_up_sc invert func) ir).bind fun r3 =>
        if r3.1 then Except.ok r3.2 else Except.error Err.assertion) := by
  have hass : ∀ h : 1 < ir.entries.length,
      assert_that (decide (ir.entries.length > 1)) = Except.ok () := by
    intro h
    rw [decide_eq_true h]
    rfl
  refine ⟨fun h => try_as_false h, fun h => try_as_false h, ?_, ?_⟩
  · intro hn h
    have e : out = ir := try_as_false h
    subst e
    rw [clean_up_sc_eq]
    unfold clean_up_sc_body
    rw [hass hn, h]
    rfl
  · intro hn h1 h2
    have e : out = ir := try_as_false h2
    subst e
    rw [clean_up_sc_eq]
    unfold clean_up_sc_body
    rw [hass hn, h1]
    simp only [ok_bind, Bool.false_eq_true, if_false]
    rw [h2]
    rfl

theorem sc_recognisers_atomic_on_rejection_witness :
    try_clean_up_sc_as_and ex_invert ex_func ex_sc_or3 = Except.ok (false, ex_sc_or3) ∧
    try_clean_up_sc_as_or ex_func ex_sc_and3 = Except.ok (false, ex_sc_and3) ∧
    ex_sc_or3 = ex_sc_or3 ∧
    ex_sc_and3 = ex_sc_and3 ∧
    clean_up_sc ex_invert ex_func ex_sc_or3 =
      (try_clean_up_sc_as_or ex_func ex_sc_or3).bind fun r2 =>
      if r2.1 then Except.ok r2.2
      else
        (try_splitting_nested_sc (clean_up_sc ex_invert ex_func) r2.2).bind fun r3 =>
        if r3.1 then Except.ok r3.2 else Except.error Err.assertion :=
  ⟨rfl, rfl,
    (sc_recognisers_atomic_on_rejection ex_invert ex_func ex_sc_or3 ex_sc_or3).1 rfl,
    (sc_recognisers_atomic_on_rejection ex_invert ex_func ex_sc_and3 ex_sc_and3).2.1 rfl,
    (sc_recognisers_atomic_on_rejection ex_invert ex_func ex_sc_or3 ex_sc_or3).2.2.1
      (by decide) rfl⟩

/-- Claim C32: for every `ShortCircuit` with at least two entries,
`try_clean_up_sc_as_and` and `try_clean_up_sc_as_or` do not both accept the
same input: when the and-recogniser returns true the or-recogniser returns
false on that input, and the other way round, so the result of `clean_up_sc`
does not depend on trying AND before OR: `clean_up_sc` with OR tried first at
every level gives the same result, errors included.  With fewer than two
entries both accept without inspecting an entry. -/
theorem sc_recognisers_never_both_accept (invert : ConditionKind → ConditionKind)
    (func : Function) (ir : ShortCircuitElement) :
    (2 ≤ ir.entries.length →
      ∀ out, try_clean_up_sc_as_and invert func ir = Except.ok (true, out) →
        try_clean_up_sc_as_or func ir = Except.ok (false, ir)) ∧
    (2 ≤ ir.entries.length →
      ∀ out, try_clean_up_sc_as_or func ir = Except.ok (true, out) →
        try_clean_up_sc_as_and invert func ir = Except.ok (false, ir)) ∧
    clean_up_sc_or_first invert func ir = clean_up_sc invert func ir ∧
    (ir.entries.length < 2 →
      try_clean_up_sc_as_and invert func ir =
        Except.ok (true, { kind := ShortCircuitKind.AND, entries := ir.entries,
                           final_result := default, used_as_value := false }) ∧
      try_clean_up_sc_as_or func ir =
        Except.ok (true, { kind := ShortCircuitKind.OR, entries := ir.entries,
                           final_result := default, used_as_value := false })) := by
  refine ⟨?_, ?_, ?_, ?_⟩
  · intro hn out h
    rcases sc_recognisers_exclusive invert func ir hn with h1 | h1 | ⟨err, h1, _⟩
    · exact h1
    · rw [h1] at h
      injection h with h
      injection h with h
      exact absurd h (by decide)
    · rw [h1] at h
      cases h
  · intro hn out h
    rcases sc_recognisers_exclusive invert func ir hn with h1 | h1 | ⟨err, _, h1⟩
    · rw [h1] at h
      injection h with h
      injection h with h
      exact absurd h (by decide)
    · exact h1
    · rw [h1] at h
      cases h
  · unfold clean_up_sc_or_first clean_up_sc
    rw [clean_up_sc_or_first_fuel_eq]
  · intro hn
    exact ⟨try_as_of_few_entries _ _ _ _ ir hn, try_as_of_few_entries _ _ _ _ ir hn⟩

theorem sc_recognisers_never_both_accept_witness :
    2 ≤ ex_sc_and3.entries.length ∧
    try_clean_up_sc_as_and ex_invert ex_func ex_sc_and3 = Except.ok (true, ex_sc_and3_out) ∧
    try_clean_up_sc_as_or ex_func ex_sc_and3 = Except.ok (false, ex_sc_and3) ∧
    2 ≤ ex_sc_or3.entries.length ∧
    (∃ out, try_clean_up_sc_as_or ex_func ex_sc_or3 = Except.ok (true, out)) ∧
    try_clean_up_sc_as_and ex_invert ex_func ex_sc_or3 = Except.ok (false, ex_sc_or3) :=
  ⟨by decide, rfl,
    (sc_recognisers_never_both_accept ex_invert ex_func ex_sc_and3).1 (by decide)
      ex_sc_and3_out rfl,
    by decide, ⟨_, rfl⟩,
    (sc_recognisers_never_both_accept ex_invert ex_func ex_sc_or3).2.1 (by decide) _ rfl⟩

/-- Claim C33: `clean_up_sc` terminates on every `ShortCircuit`: its result is
never the exhaustion of the recursion budget, every larger budget gives the
same result, and the function satisfies the recursive equation of the source.
Each of the two recursive calls made by `try_splitting_nested_sc` on `n`
entries receives a `ShortCircuit` with at least 2 and strictly fewer than `n`
entries: `n - k` for the nested one and `k + 1` for the outer one, with
`1 <= k <= n - 2` the index of the first entry of different polarity, so the
assertion `entries.size() > 1` of `clean_up_sc` holds in both recursive calls;
the result of `try_splitting_nested_sc` depends on the recursive calls on
such elements only. -/
theorem clean_up_sc_terminates (invert : ConditionKind → ConditionKind) (func : Function)
    (ir : ShortCircuitElement) :
    (in_budget (clean_up_sc invert func ir) ∧
      (∀ fuel, ir.entries.length < fuel →
        clean_up_sc_fuel invert func fuel ir = clean_up_sc invert func ir) ∧
      clean_up_sc invert func ir =
        clean_up_sc_body invert func (clean_up_sc invert func) ir) ∧
    (∀ (rec_clean_up : ShortCircuitElement → Res ShortCircuitElement) front fb s fia k,
      ir.entries.head? = some front →
      get_condition_branch front.condition = Except.ok (some fb, s) →
      delay_slot_sets_false fb = Except.ok fia →
      delay_slot_sets_truthy fb = Except.ok (!fia) →
      split_scan fia 1 ((ir.entries.take (ir.entries.length - 1)).drop 1)
        = Except.ok (some k) →
      1 ≤ k ∧ k + 2 ≤ ir.entries.length ∧
      (ShortCircuitElement_new (ir.entries.drop k)).entries.length =
        ir.entries.length - k ∧
      2 ≤ ir.entries.length - k ∧ ir.entries.length - k < ir.entries.length ∧
      (∀ nested_sc : ShortCircuitElement,
        ({ ir with entries := ir.entries.take k ++
            [{ condition := [FormElement.ShortCircuit nested_sc] }] } :
          ShortCircuitElement).entries.length = k + 1) ∧
      2 ≤ k + 1 ∧ k + 1 < ir.entries.length ∧
      (∀ x : ShortCircuitElement, 2 ≤ x.entries.length →
        assert_that (decide (x.entries.length > 1)) = Except.ok ()) ∧
      try_splitting_nested_sc rec_clean_up ir =
        (rec_clean_up (ShortCircuitElement_new (ir.entries.drop k))).bind fun nested_sc =>
        (rec_clean_up { ir with entries := ir.entries.take k ++
            [{ condition := [FormElement.ShortCircuit nested_sc] }] }).bind fun ir2 =>
        Except.ok (true, ir2)) ∧
    (∀ rec1 rec2 : ShortCircuitElement → Res ShortCircuitElement,
      (∀ x : ShortCircuitElement, 2 ≤ x.entries.length →
        x.entries.length < ir.entries.length → rec1 x = rec2 x) →
      try_splitting_nested_sc rec1 ir = try_splitting_nested_sc rec2 ir) := by
  refine ⟨⟨clean_up_sc_fuel_in_budget invert func _ ir (Nat.lt_succ_self _),
    clean_up_sc_fuel_stable invert func ir, clean_up_sc_eq invert func ir⟩, ?_,
    fun rec1 rec2 h => try_splitting_nested_sc_congr rec1 rec2 ir h⟩
  intro rec_clean_up front fb s fia k hfront hfb hand hor hscan
  obtain ⟨h1, h2⟩ := split_first_different_bounds hscan
  refine ⟨h1, h2, ?_, by omega, by omega, ?_, by omega, by omega, ?_,
    try_splitting_calls hfront hfb hand hor hscan⟩
  · simp only [ShortCircuitElement_new, List.length_drop]
  · intro nested_sc
    simp only [List.length_append, List.length_take, List.length_singleton]
    omega
  · intro x hx
    rw [decide_eq_true (by omega : x.entries.length > 1)]
    rfl

theorem clean_up_sc_terminates_witness :
    in_budget (clean_up_sc ex_invert ex_func ex_sc_and_or) ∧
    clean_up_sc ex_invert ex_func ex_sc_and_or = Except.ok ex_sc_and_or_out ∧
    split_scan true 1
      ((ex_sc_and_or.entries.take (ex_sc_and_or.entries.length - 1)).drop 1)
      = Except.ok (some 1) ∧
    (ShortCircuitElement_new (ex_sc_and_or.entries.drop 1)).entries.length = 3 - 1 ∧
    try_splitting_nested_sc (clean_up_sc ex_invert ex_func) ex_sc_and_or =
      (clean_up_sc ex_invert ex_func
        (ShortCircuitElement_new (ex_sc_and_or.entries.drop 1))).bind fun nested_sc =>
      (clean_up_sc ex_invert ex_func { ex_sc_and_or with
        entries := ex_sc_and_or.entries.take 1 ++
          [{ condition := [FormElement.ShortCircuit nested_sc] }] }).bind fun ir2 =>
      Except.ok (true, ir2) :=
  ⟨(clean_up_sc_terminates ex_invert ex_func ex_sc_and_or).1.1, rfl, rfl,
    ((clean_up_sc_terminates ex_invert ex_func ex_sc_and_or).2.1
      (clean_up_sc ex_invert ex_func)
      (ex_entry ConditionKind.ZERO BranchDelayKind.SET_REG_FALSE 0)
      (ex_branch ConditionKind.ZERO BranchDelayKind.SET_REG_FALSE 0) ⟨0⟩ true 1
      rfl rfl rfl rfl rfl).2.2.1,
    ((clean_up_sc_terminates ex_invert ex_func ex_sc_and_or).2.1
      (clean_up_sc ex_invert ex_func)
      (ex_entry ConditionKind.ZERO BranchDelayKind.SET_REG_FALSE 0)
      (ex_branch ConditionKind.ZERO BranchDelayKind.SET_REG_FALSE 0) ⟨0⟩ true 1
      rfl rfl rfl rfl rfl).2.2.2.2.2.2.2.2.2⟩

/-- Claim C34: `clean_up_infinite_while_loop` fails on an assertion on every
body of more than one element whose last element is a `Return` or `Break`
wrapper with the ALWAYS/NOP branch at the end of its dead code:
`get_condition_branch` finds that branch through the wrapper, but
`get_condition_branch_as_vector` requires the last element of a form of
several elements to be a Branch itself.  When such a wrapper is the only
element of the body, the branch inside its dead code is replaced by `Empty`
and the body keeps its single wrapper element. -/
theorem infinite_while_loop_wrapper (condition rc dc : Form) (cleaned : Bool)
    (jb : BranchOp) (s : Slot)
    (hdc : get_condition_branch dc = Except.ok (some jb, s))
    (halways : jb.condition.kind = ConditionKind.ALWAYS)
    (hnop : jb.branch_delay.kind = BranchDelayKind.NOP) :
    (∀ pre : Form, pre ≠ [] →
      (get_condition_branch (pre ++ [FormElement.Return rc dc]) =
          Except.ok (some jb, ⟨s.depth + 1⟩) ∧
        get_condition_branch_as_vector (pre ++ [FormElement.Return rc dc]) =
          Except.error Err.assertion ∧
        clean_up_infinite_while_loop
            (FormElement.While condition (pre ++ [FormElement.Return rc dc]) cleaned) =
          Except.error Err.assertion) ∧
      (get_condition_branch (pre ++ [FormElement.Break rc dc]) =
          Except.ok (some jb, ⟨s.depth + 1⟩) ∧
        get_condition_branch_as_vector (pre ++ [FormElement.Break rc dc]) =
          Except.error Err.assertion ∧
        clean_up_infinite_while_loop
            (FormElement.While condition (pre ++ [FormElement.Break rc dc]) cleaned) =
          Except.error Err.assertion)) ∧
    clean_up_infinite_while_loop
        (FormElement.While condition [FormElement.Return rc dc] cleaned) =
      Except.ok (FormElement.While condition
        [FormElement.Return rc (slot_write s dc FormElement.Empty)] true) ∧
    clean_up_infinite_while_loop
        (FormElement.While condition [FormElement.Break rc dc] cleaned) =
      Except.ok (FormElement.While condition
        [FormElement.Break rc (slot_write s dc FormElement.Empty)] true) ∧
    slot_read s dc = some (FormElement.Branch jb) ∧
    slot_read s (slot_write s dc FormElement.Empty) = some FormElement.Empty ∧
    (∀ pre2, dc = pre2 ++ [FormElement.Branch jb] →
      slot_write s dc FormElement.Empty = pre2 ++ [FormElement.Empty]) := by
  have hlen : ∀ (pre : Form) (x : FormElement), pre ≠ [] → (pre ++ [x]).length > 1 := by
    intro pre x hpre
    cases pre with
    | nil => exact absurd rfl hpre
    | cons a t => simp
  have hret : ∀ pre : Form, get_condition_branch (pre ++ [FormElement.Return rc dc]) =
      Except.ok (some jb, ⟨s.depth + 1⟩) := by
    intro pre
    rw [get_condition_branch_concat]
    simp only [get_condition_branch_of_back, hdc]
    rfl
  have hbrk : ∀ pre : Form, get_condition_branch (pre ++ [FormElement.Break rc dc]) =
      Except.ok (some jb, ⟨s.depth + 1⟩) := by
    intro pre
    rw [get_condition_branch_concat]
    simp only [get_condition_branch_of_back, hdc]
    rfl
  have hvr : ∀ pre : Form, pre ≠ [] →
      get_condition_branch_as_vector (pre ++ [FormElement.Return rc dc]) =
        Except.error Err.assertion := by
    intro pre hpre
    unfold get_condition_branch_as_vector
    rw [if_pos (hlen pre _ hpre)]
    simp
  have hvb : ∀ pre : Form, pre ≠ [] →
      get_condition_branch_as_vector (pre ++ [FormElement.Break rc dc]) =
        Except.error Err.assertion := by
    intro pre hpre
    unfold get_condition_branch_as_vector
    rw [if_pos (hlen pre _ hpre)]
    simp
  have hs : (⟨s.depth⟩ : Slot) = s := rfl
  refine ⟨?_, ?_, ?_, slot_read_of_branch hdc, slot_read_write _ hdc, ?_⟩
  · intro pre hpre
    refine ⟨⟨hret pre, hvr pre hpre, ?_⟩, ⟨hbrk pre, hvb pre hpre, ?_⟩⟩
    · simp only [clean_up_infinite_while_loop, clean_up_jump_to_end, hret pre, ok_bind,
        assert_some, hnop, halways, assert_that, beq_self_eq_true, hvr pre hpre]
      rfl
    · simp only [clean_up_infinite_while_loop, clean_up_jump_to_end, hbrk pre, ok_bind,
        assert_some, hnop, halways, assert_that, beq_self_eq_true, hvb pre hpre]
      rfl
  · have h0 := hret []
    simp only [List.nil_append] at h0
    simp only [clean_up_infinite_while_loop, clean_up_jump_to_end, h0, ok_bind,
      assert_some, hnop, halways, assert_that, beq_self_eq_true,
      get_condition_branch_as_vector]
    have hw := slot_write_succ_return s.depth [] rc dc FormElement.Empty
    simp only [List.nil_append, hs] at hw
    simp [hw]
    rfl
  · have h0 := hbrk []
    simp only [List.nil_append] at h0
    simp only [clean_up_infinite_while_loop, clean_up_jump_to_end, h0, ok_bind,
      assert_some, hnop, halways, assert_that, beq_self_eq_true,
      get_condition_branch_as_vector]
    have hw := slot_write_succ_break s.depth [] rc dc FormElement.Empty
    simp only [List.nil_append, hs] at hw
    simp [hw]
    rfl
  · intro pre2 hpre2
    subst hpre2
    rw [get_condition_branch_of_last_branch] at hdc
    injection hdc with hdc
    injection hdc with _ hdc
    rw [← hdc]
    simp [slot_write, slot_write_depth, set_back]

theorem infinite_while_loop_wrapper_witness :
    get_condition_branch [ex_jump] =
      Except.ok (some (ex_branch ConditionKind.ALWAYS BranchDelayKind.NOP 7), ⟨0⟩) ∧
    clean_up_infinite_while_loop
        (FormElement.While ex_always ([FormElement.AtomicOp 1] ++ [ex_return_wrapper])
          false) =
      Except.error Err.assertion ∧
    clean_up_infinite_while_loop (FormElement.While ex_always [ex_return_wrapper] false) =
      Except.ok (FormElement.While ex_always
        [FormElement.Return [FormElement.AtomicOp 2] [FormElement.Empty]] true) :=
  ⟨rfl,
    ((infinite_while_loop_wrapper ex_always [FormElement.AtomicOp 2] [ex_jump] false
      (ex_branch ConditionKind.ALWAYS BranchDelayKind.NOP 7) ⟨0⟩ rfl rfl rfl).1
      [FormElement.AtomicOp 1] (List.cons_ne_nil _ _)).1.2.2,
    (infinite_while_loop_wrapper ex_always [FormElement.AtomicOp 2] [ex_jump] false
      (ex_branch ConditionKind.ALWAYS BranchDelayKind.NOP 7) ⟨0⟩ rfl rfl rfl).2.1⟩

end CfgBuilder
